import Mathlib

/-!
# wiifs: a shallow embedding of the Wii NAND file system driver

Bytes, 16-bit and 32-bit machine integers are natural numbers; wrap-around is
written out with `% 2 ^ 32` (or `% 65536`, `% 256`) where the C++ code computes
in a fixed width.  The NAND image (a `u8*` in the source) is a function from
byte addresses to bytes.  Fixed-size arrays (`fat`, `fst`, `m_handles`) are
functions from indices together with the array bound of the source.
The external library (mbedtls: AES-128-CBC and SHA-1) is a parameter.
-/

set_option autoImplicit false

/-! ## Byte-buffer helpers (pointer reads and `std::copy`) -/

/-- The `n` bytes of `data` starting at `off` (a pointer read of fixed length;
bytes beyond the end of the buffer read as 0). -/
def copy_n (data : List Nat) (off n : Nat) : List Nat :=
  (List.range n).map (fun i => data.getD (off + i) 0)

/-- Reading `n` bytes of the NAND image starting at address `src`. -/
def readBytes (nand : Nat → Nat) (src n : Nat) : List Nat :=
  (List.range n).map (fun i => nand (src + i))

/-- Writing the bytes `src` into the NAND image at address `dest` (`std::copy`). -/
def writeBytes (nand : Nat → Nat) (dest : Nat) (src : List Nat) : Nat → Nat :=
  fun a => if dest ≤ a ∧ a < dest + src.length then src.getD (a - dest) 0 else nand a

/-- Copying `src` into the fixed-size buffer `buf` at offset `off`. -/
def copyInto (buf : List Nat) (off : Nat) (src : List Nat) : List Nat :=
  (List.range buf.length).map
    (fun i => if off ≤ i ∧ i < off + src.length then src.getD (i - off) 0 else buf.getD i 0)

/-- First index below `bound` at which `p` holds (`std::find` / `std::find_if`
over a fixed-size array), searching upwards from `bound - fuel`. -/
def findFrom (p : Nat → Bool) (bound : Nat) : Nat → Option Nat
  | 0 => none
  | fuel + 1 => if p (bound - (fuel + 1)) then some (bound - (fuel + 1)) else findFrom p bound fuel

/-- First index below `bound` at which `p` holds. -/
def findFirst (p : Nat → Bool) (bound : Nat) : Option Nat := findFrom p bound bound

/-! ## External library: mbedtls -/

/-- The mbedtls primitives used by `common/crypto.cpp`, taken as parameters:
AES-128-CBC (key, iv, input ↦ output and updated iv) and SHA-1. -/
structure Mbedtls where
  aes_crypt_cbc_encrypt : List Nat → List Nat → List Nat → List Nat × List Nat
  aes_crypt_cbc_decrypt : List Nat → List Nat → List Nat → List Nat × List Nat
  sha1 : List Nat → List Nat

namespace crypto

/-- `crypto::AesDecrypt`: a buffer of `size` bytes filled by mbedtls, and the iv
as mbedtls leaves it. -/
def AesDecrypt (K : Mbedtls) (key iv src : List Nat) : List Nat × List Nat :=
  let r := K.aes_crypt_cbc_decrypt key iv src
  (copy_n r.1 0 src.length, r.2)

/-- `crypto::AesEncrypt`. -/
def AesEncrypt (K : Mbedtls) (key iv src : List Nat) : List Nat × List Nat :=
  let r := K.aes_crypt_cbc_encrypt key iv src
  (copy_n r.1 0 src.length, r.2)

/-- The 64-byte pad of `BlockMacGenerator`: the 20-byte key, zero padded, xored
with `pad`. -/
def xorpad (hmac_key : List Nat) (pad : Nat) : List Nat :=
  (copyInto (List.replicate 0x40 0) 0 (copy_n hmac_key 0 20)).map (fun b => b ^^^ pad)

/-- `BlockMacGenerator`: constructor, all `Update`s (their inputs concatenated
in `input`) and `FinaliseAndGetHash`. -/
def BlockMac (K : Mbedtls) (hmac_key : List Nat) (input : List Nat) : List Nat :=
  let temp_hash := copy_n (K.sha1 (xorpad hmac_key 0x36 ++ input)) 0 20
  copy_n (K.sha1 (xorpad hmac_key 0x5c ++ temp_hash)) 0 20

end crypto

namespace ecc

/-- The loop of `ecc::Parity`. -/
def ParityLoop : Nat → Nat → Nat → Nat
  | 0, _, y => y
  | fuel + 1, x, y => if x = 0 then y else ParityLoop fuel (x >>> 1) (y ^^^ (x &&& 1))

/-- `ecc::Parity` on a byte. -/
def Parity (x : Nat) : Nat := ParityLoop 8 (x % 256) 0

/-- Element `a[r][c]` of the array `u8 a[12][2]`, stored row by row. -/
def getA (a : List Nat) (r c : Nat) : Nat := a.getD (2 * r + c) 0

/-- Assignment `a[r][c] = v`. -/
def setA (a : List Nat) (r c v : Nat) : List Nat := a.set (2 * r + c) v

/-- The accumulation loop over the 512 bytes of one subblock. -/
def accumulate (data : List Nat) : List Nat :=
  (List.range 512).foldl
    (fun a i =>
      (List.range 9).foldl
        (fun a j => setA a (3 + j) ((i >>> j) &&& 1)
          ((getA a (3 + j) ((i >>> j) &&& 1)) ^^^ (data.getD i 0 % 256)))
        a)
    (List.replicate 24 0)

/-- The four ECC bytes of one 512-byte subblock. -/
def CalculateBlock (data : List Nat) : List Nat :=
  let a := accumulate data
  let x := (getA a 3 0) ^^^ (getA a 3 1)
  let a := setA a 0 0 (x &&& 0x55)
  let a := setA a 0 1 (x &&& 0xaa)
  let a := setA a 1 0 (x &&& 0x33)
  let a := setA a 1 1 (x &&& 0xcc)
  let a := setA a 2 0 (x &&& 0x0f)
  let a := setA a 2 1 (x &&& 0xf0)
  let a := a.map Parity
  let a0 := (List.range 12).foldl (fun acc j => acc ||| ((getA a j 0) <<< j)) 0
  let a1 := (List.range 12).foldl (fun acc j => acc ||| ((getA a j 1) <<< j)) 0
  [a0 % 256, (a0 >>> 8) % 256, a1 % 256, (a1 >>> 8) % 256]

/-- `ecc::Calculate`: ECC data for 2048 bytes of data. -/
def Calculate (data : List Nat) : List Nat :=
  (List.range 4).foldl (fun acc k => acc ++ CalculateBlock (copy_n data (512 * k) 512)) []

end ecc

namespace wiifs

/-! ## result.h / fs.h -/

/-- `enum class ResultCode`. -/
inductive ResultCode where
  | Success | Invalid | AccessDenied | SuperblockWriteFailed | SuperblockInitFailed
  | AlreadyExists | NotFound | FstFull | NoFreeSpace | NoFreeHandle | TooManyPathComponents
  | InUse | BadBlock | EccError | CriticalEccError | FileNotEmpty | CheckFailed | UnknownError
  deriving DecidableEq, Repr

/-- `Result<T>`: a value or an error code. -/
abbrev Result (α : Type) := Except ResultCode α

/-- `struct FileSystemKeys`. -/
structure FileSystemKeys where
  hmac : List Nat
  aes : List Nat

abbrev INTERNAL_FD : Nat := 0xffffff00

/-! ## sffs.h -/

abbrev PAGES_PER_CLUSTER : Nat := 8
abbrev DATA_BYTES_PER_PAGE : Nat := 2048
abbrev SPARE_BYTES_PER_PAGE : Nat := 64
abbrev PAGE_SIZE : Nat := DATA_BYTES_PER_PAGE + SPARE_BYTES_PER_PAGE
abbrev CLUSTER_DATA_SIZE : Nat := PAGES_PER_CLUSTER * DATA_BYTES_PER_PAGE

/-- Offset to a {cluster + page} relative to the start of the NAND (`u32`). -/
def Offset (cluster_index page_index : Nat) : Nat :=
  ((cluster_index * PAGES_PER_CLUSTER * PAGE_SIZE) + (page_index * PAGE_SIZE)) % 2 ^ 32

abbrev SUPERBLOCK_START_CLUSTER : Nat := 0x7f00
abbrev NUMBER_OF_SUPERBLOCKS : Nat := 16
abbrev CLUSTERS_PER_SUPERBLOCK : Nat := 16

/-- Starting cluster number for a superblock (`u16`). -/
def SuperblockCluster (superblock_index : Nat) : Nat :=
  (SUPERBLOCK_START_CLUSTER + superblock_index * 16) % 65536

abbrev HMAC_PAGE1 : Nat := 6
abbrev HMAC_PAGE2 : Nat := 7
abbrev HMAC1_OFFSET_IN_PAGE1 : Nat := 1
abbrev HMAC1_SIZE_IN_PAGE1 : Nat := 20
abbrev HMAC2_OFFSET_IN_PAGE1 : Nat := HMAC1_OFFSET_IN_PAGE1 + HMAC1_SIZE_IN_PAGE1
abbrev HMAC2_SIZE_IN_PAGE1 : Nat := 12
abbrev HMAC2_OFFSET_IN_PAGE2 : Nat := 1
abbrev HMAC2_SIZE_IN_PAGE2 : Nat := 20 - HMAC2_SIZE_IN_PAGE1

abbrev CLUSTER_LAST_IN_CHAIN : Nat := 0xfffb
abbrev CLUSTER_RESERVED : Nat := 0xfffc
abbrev CLUSTER_BAD_BLOCK : Nat := 0xfffd
abbrev CLUSTER_UNUSED : Nat := 0xfffe

abbrev FAT_SIZE : Nat := 0x8000
abbrev FST_SIZE : Nat := 0x17ff

/-! ## low_level.cpp: cluster I/O -/

/-- `struct ReadResult`. -/
structure ReadResult where
  data : List Nat
  hmac1 : List Nat
  hmac2 : List Nat
  deriving DecidableEq, Repr

/-- `FileSystemImpl::ReadCluster`. -/
def ReadCluster (K : Mbedtls) (keys : FileSystemKeys) (nand : Nat → Nat) (cluster : Nat) :
    Result ReadResult :=
  if cluster ≥ 0x8000 then .error .Invalid
  else
    let result := (List.range PAGES_PER_CLUSTER).foldl
      (fun acc page => acc ++ readBytes nand (Offset cluster page) DATA_BYTES_PER_PAGE) []
    let result :=
      if cluster < SUPERBLOCK_START_CLUSTER then
        (crypto.AesDecrypt K keys.aes (List.replicate 16 0) result).1
      else result
    let hmac1 := readBytes nand
      (Offset cluster HMAC_PAGE1 + DATA_BYTES_PER_PAGE + HMAC1_OFFSET_IN_PAGE1) HMAC1_SIZE_IN_PAGE1
    let hmac2 := readBytes nand
        (Offset cluster HMAC_PAGE1 + DATA_BYTES_PER_PAGE + HMAC2_OFFSET_IN_PAGE1) HMAC2_SIZE_IN_PAGE1
      ++ readBytes nand
        (Offset cluster HMAC_PAGE2 + DATA_BYTES_PER_PAGE + HMAC2_OFFSET_IN_PAGE2) HMAC2_SIZE_IN_PAGE2
    .ok { data := result, hmac1 := hmac1, hmac2 := hmac2 }

/-- The spare bytes written for one page by `WriteCluster`; `stored` is the page
data as it stands in the NAND. -/
def pageSpare (page : Nat) (stored : List Nat) (hmac : List Nat) : List Nat :=
  let spare := (List.replicate 0x40 0).set 0 0xff
  let spare := copyInto spare 0x30 (ecc.Calculate stored)
  if page = HMAC_PAGE1 then
    copyInto (copyInto spare HMAC1_OFFSET_IN_PAGE1 (copy_n hmac 0 20))
      HMAC2_OFFSET_IN_PAGE1 (copy_n hmac 0 HMAC2_SIZE_IN_PAGE1)
  else if page = HMAC_PAGE2 then
    copyInto spare HMAC2_OFFSET_IN_PAGE2 (copy_n hmac HMAC2_SIZE_IN_PAGE1 HMAC2_SIZE_IN_PAGE2)
  else spare

/-- One iteration of the page loop of `WriteCluster`; the state is the NAND
image and the iv buffer, which mbedtls updates in place. -/
def writePage (K : Mbedtls) (keys : FileSystemKeys) (cluster : Nat) (data hmac : List Nat)
    (st : (Nat → Nat) × List Nat) (page : Nat) : (Nat → Nat) × List Nat :=
  let source := copy_n data (page * DATA_BYTES_PER_PAGE) DATA_BYTES_PER_PAGE
  let dest := Offset cluster page
  let st1 : (Nat → Nat) × List Nat :=
    if cluster ≥ SUPERBLOCK_START_CLUSTER then (writeBytes st.1 dest source, st.2)
    else
      let r := crypto.AesEncrypt K keys.aes st.2 source
      (writeBytes st.1 dest r.1, r.2)
  let spare := pageSpare page (readBytes st1.1 dest DATA_BYTES_PER_PAGE) hmac
  (writeBytes st1.1 (dest + DATA_BYTES_PER_PAGE) spare, st1.2)

/-- `FileSystemImpl::WriteCluster`: the result code and the NAND image afterwards. -/
def WriteCluster (K : Mbedtls) (keys : FileSystemKeys) (nand : Nat → Nat) (cluster : Nat)
    (data hmac : List Nat) : ResultCode × (Nat → Nat) :=
  if cluster ≥ 0x8000 then (.Invalid, nand)
  else
    (.Success, ((List.range PAGES_PER_CLUSTER).foldl (writePage K keys cluster data hmac)
      (nand, List.replicate 16 0)).1)

/-! ## sffs.h / sffs.cpp: FST entries and the superblock -/

/-- `struct FstEntry` (32 bytes, packed, big-endian fields). -/
structure FstEntry where
  name : List Nat
  mode : Nat
  attr : Nat
  sub : Nat
  sib : Nat
  size : Nat
  uid : Nat
  gid : Nat
  x3 : Nat
  deriving DecidableEq, Repr

/-- `FstEntry{}`: all bytes zero. -/
def FstEntry.zero : FstEntry :=
  { name := List.replicate 12 0, mode := 0, attr := 0, sub := 0, sib := 0, size := 0,
    uid := 0, gid := 0, x3 := 0 }

/-- `FstEntry::GetName`: the name up to the first NUL, at most 12 bytes. -/
def FstEntry.GetName (e : FstEntry) : List Nat :=
  (e.name.take 12).takeWhile (fun b => b != 0)

/-- `FstEntry::SetName`. -/
def FstEntry.SetName (e : FstEntry) (new_name : List Nat) : FstEntry :=
  { e with name := copyInto (List.replicate 12 0) 0 (new_name.take (min new_name.length 12)) }

/-- `FstEntry::IsFile`. -/
def FstEntry.IsFile (e : FstEntry) : Bool := (e.mode &&& 3) == 1

/-- `FstEntry::IsDirectory`. -/
def FstEntry.IsDirectory (e : FstEntry) : Bool := (e.mode &&& 3) == 2

/-- `FstEntry::GetOwnerMode`. -/
def FstEntry.GetOwnerMode (e : FstEntry) : Nat := (e.mode >>> 0x6) &&& 3

/-- `FstEntry::GetGroupMode`. -/
def FstEntry.GetGroupMode (e : FstEntry) : Nat := ((e.mode &&& 0x30) >>> 4) &&& 3

/-- `FstEntry::GetOtherMode`. -/
def FstEntry.GetOtherMode (e : FstEntry) : Nat := ((e.mode &&& 0xc) >>> 2) &&& 3

/-- `FstEntry::SetAccessMode` (the result is stored in a `u8`). -/
def FstEntry.SetAccessMode (e : FstEntry) (owner group other : Nat) : FstEntry :=
  { e with mode := ((e.mode &&& 3) ||| (owner <<< 6) ||| (16 * group) ||| (4 * other)) % 256 }

abbrev SUPERBLOCK_MAGIC : List Nat := [0x53, 0x46, 0x46, 0x53]

/-- `struct Superblock` (0x40000 bytes). -/
structure Superblock where
  magic : List Nat
  version : Nat
  unknown : Nat
  fat : Nat → Nat
  fst : Nat → FstEntry
  padding : List Nat

/-- `Superblock{}`: all bytes zero. -/
def Superblock.zero : Superblock :=
  { magic := List.replicate 4 0, version := 0, unknown := 0, fat := fun _ => 0,
    fst := fun _ => FstEntry.zero, padding := List.replicate 20 0 }

/-- Assignment `superblock->fat[i] = v`. -/
def Superblock.setFat (sb : Superblock) (i v : Nat) : Superblock :=
  { sb with fat := fun j => if j = i then v else sb.fat j }

/-- Assignment to `superblock->fst[i]`. -/
def Superblock.setFst (sb : Superblock) (i : Nat) (e : FstEntry) : Superblock :=
  { sb with fst := fun j => if j = i then e else sb.fst j }

/-! ### Byte image of the packed structures (`reinterpret_cast<u8*>`) -/

/-- Byte `k` (0 is the most significant) of the `n`-byte big-endian value `v`. -/
def beByte (n v k : Nat) : Nat := (v / 256 ^ (n - 1 - k)) % 256

/-- Byte `o` of an FST entry. -/
def FstEntry.byteAt (e : FstEntry) (o : Nat) : Nat :=
  if o < 12 then e.name.getD o 0
  else if o = 12 then e.mode
  else if o = 13 then e.attr
  else if o < 16 then beByte 2 e.sub (o - 14)
  else if o < 18 then beByte 2 e.sib (o - 16)
  else if o < 22 then beByte 4 e.size (o - 18)
  else if o < 26 then beByte 4 e.uid (o - 22)
  else if o < 28 then beByte 2 e.gid (o - 26)
  else beByte 4 e.x3 (o - 28)

/-- The FST entry stored in the 32 bytes `b 0 .. b 31`. -/
def FstEntry.ofBytes (b : Nat → Nat) : FstEntry :=
  { name := (List.range 12).map b
    mode := b 12
    attr := b 13
    sub := b 14 * 256 + b 15
    sib := b 16 * 256 + b 17
    size := ((b 18 * 256 + b 19) * 256 + b 20) * 256 + b 21
    uid := ((b 22 * 256 + b 23) * 256 + b 24) * 256 + b 25
    gid := b 26 * 256 + b 27
    x3 := ((b 28 * 256 + b 29) * 256 + b 30) * 256 + b 31 }

abbrev FAT_OFFSET : Nat := 12
abbrev FST_OFFSET : Nat := 12 + 2 * FAT_SIZE
abbrev PADDING_OFFSET : Nat := 12 + 2 * FAT_SIZE + 32 * FST_SIZE
abbrev SUPERBLOCK_SIZE : Nat := 0x40000

/-- Byte `o` of a superblock. -/
def Superblock.byteAt (sb : Superblock) (o : Nat) : Nat :=
  if o < 4 then sb.magic.getD o 0
  else if o < 8 then beByte 4 sb.version (o - 4)
  else if o < 12 then beByte 4 sb.unknown (o - 8)
  else if o < FST_OFFSET then beByte 2 (sb.fat ((o - FAT_OFFSET) / 2)) ((o - FAT_OFFSET) % 2)
  else if o < PADDING_OFFSET then (sb.fst ((o - FST_OFFSET) / 32)).byteAt ((o - FST_OFFSET) % 32)
  else sb.padding.getD (o - PADDING_OFFSET) 0

/-- The `n` bytes of a superblock starting at offset `off`. -/
def Superblock.bytes (sb : Superblock) (off n : Nat) : List Nat :=
  (List.range n).map (fun i => sb.byteAt (off + i))

/-- The superblock stored in the bytes `b 0 .. b 0x3ffff` (`std::memcpy` into a
`Superblock`). -/
def Superblock.ofBytes (b : Nat → Nat) : Superblock :=
  { magic := (List.range 4).map b
    version := ((b 4 * 256 + b 5) * 256 + b 6) * 256 + b 7
    unknown := ((b 8 * 256 + b 9) * 256 + b 10) * 256 + b 11
    fat := fun i => b (FAT_OFFSET + 2 * i) * 256 + b (FAT_OFFSET + 2 * i + 1)
    fst := fun i => FstEntry.ofBytes (fun o => b (FST_OFFSET + 32 * i + o))
    padding := (List.range 20).map (fun k => b (PADDING_OFFSET + k)) }

/-- Equality of two superblocks as C++ objects: the same fields and the same
array elements within the array bounds. -/
def Superblock.Same (a b : Superblock) : Prop :=
  a.magic = b.magic ∧ a.version = b.version ∧ a.unknown = b.unknown ∧
  (∀ i, i < FAT_SIZE → a.fat i = b.fat i) ∧ (∀ i, i < FST_SIZE → a.fst i = b.fst i) ∧
  a.padding = b.padding

/-! ## util.cpp, string_util.cpp -/

/-- `HasPermission`. -/
def HasPermission (fst_entry : FstEntry) (uid gid requested_mode : Nat) : Bool :=
  if uid = 0 then true
  else
    let file_mode :=
      if fst_entry.uid = uid then fst_entry.GetOwnerMode
      else if fst_entry.gid = gid then fst_entry.GetGroupMode
      else fst_entry.GetOtherMode
    (requested_mode &&& file_mode) == requested_mode

/-- `IsValidNonRootPath`; a path is its list of bytes, `'/'` is 47. -/
def IsValidNonRootPath (path : List Nat) : Bool :=
  decide (path.length > 1) && decide (path.length ≤ 64) && (path.head? == some 47) &&
    (path.getLast? != some 47)

/-- `std::string::find_last_of` for one character: the last position of `c`. -/
def find_last_of (path : List Nat) (c : Nat) : Option Nat :=
  (List.range path.length).foldl (fun acc i => if path.getD i 0 = c then some i else acc) none

/-- `SplitPath`: parent path and file name (`npos + 1` wraps to 0). -/
def SplitPath (path : List Nat) : List Nat × List Nat :=
  match find_last_of path 47 with
  | some last_separator => (path.take (last_separator + 1), path.drop (last_separator + 1))
  | none => ([], path)

/-- The `std::getline` loop of `SplitString`: `cur` is the piece being read. -/
def SplitStringAux (delim : Nat) : List Nat → List Nat → List (List Nat)
  | cur, [] => if cur.isEmpty then [] else [cur]
  | cur, c :: rest =>
    if c = delim then cur :: SplitStringAux delim [] rest
    else SplitStringAux delim (cur ++ [c]) rest

/-- `SplitString`. -/
def SplitString (str : List Nat) (delim : Nat) : List (List Nat) := SplitStringAux delim [] str

/-- The bytes of a string literal. -/
def bytesOf (s : String) : List Nat := s.toList.map Char.toNat

/-! ## fs.h: the driver state -/

/-- `struct FileSystemImpl::Handle`. -/
structure Handle where
  opened : Bool
  fst_index : Nat
  gid : Nat
  uid : Nat
  mode : Nat
  file_offset : Nat
  file_size : Nat
  superblock_flush_needed : Bool
  deriving DecidableEq, Repr

/-- `Handle{}`: the default member initialisers. -/
def Handle.default : Handle :=
  { opened := false, fst_index := 0xffff, gid := 0, uid := 0, mode := 0, file_offset := 0,
    file_size := 0, superblock_flush_needed := false }

/-- The data members of `class FileSystemImpl`.  A `Handle*` is the file
descriptor of the handle it points to: `i < 16` for `&m_handles[i]` and
`INTERNAL_FD` for `&m_internal_handle`. -/
structure FileSystemImpl where
  m_nand : Nat → Nat
  m_keys : FileSystemKeys
  m_superblock : Option Superblock
  m_superblock_index : Nat
  m_handles : Nat → Handle
  m_internal_handle : Handle
  m_cache_handle : Option Nat
  m_cache_chain_index : Nat
  m_cache_data : List Nat
  m_cache_for_write : Bool

/-- The members as the constructor's initialiser list and the default member
initialisers leave them, before the constructor body runs. -/
def FileSystemImpl.init (nand_bytes : Nat → Nat) (keys : FileSystemKeys) : FileSystemImpl :=
  { m_nand := nand_bytes, m_keys := keys, m_superblock := none, m_superblock_index := 0,
    m_handles := fun _ => Handle.default,
    m_internal_handle := { Handle.default with opened := true },
    m_cache_handle := none, m_cache_chain_index := 0xffff, m_cache_data := [],
    m_cache_for_write := false }

/-- Dereferencing a `Handle*`. -/
def FileSystemImpl.handle (s : FileSystemImpl) (h : Nat) : Handle :=
  if h = INTERNAL_FD then s.m_internal_handle else s.m_handles h

/-- Assignment through a `Handle*`. -/
def FileSystemImpl.setHandle (s : FileSystemImpl) (h : Nat) (v : Handle) : FileSystemImpl :=
  if h = INTERNAL_FD then { s with m_internal_handle := v }
  else { s with m_handles := fun j => if j = h then v else s.m_handles j }

/-! ## low_level.cpp -/

/-- The 64 bytes of a `SuperblockSalt`. -/
def SuperblockSalt (starting_cluster : Nat) : List Nat :=
  List.replicate 0x12 0 ++ [beByte 2 starting_cluster 0, beByte 2 starting_cluster 1]
    ++ List.replicate 0x2c 0

/-- The 64 bytes of a `DataSalt`. -/
def DataSalt (uid : Nat) (name : List Nat) (chain_index fst_index x3 : Nat) : List Nat :=
  (List.range 4).map (beByte 4 uid) ++ copy_n name 0 12 ++ (List.range 4).map (beByte 4 chain_index)
    ++ (List.range 4).map (beByte 4 fst_index) ++ (List.range 4).map (beByte 4 x3)
    ++ List.replicate 0x24 0

/-- `FileSystemImpl::GenerateHmacForSuperblock`. -/
def GenerateHmacForSuperblock (K : Mbedtls) (keys : FileSystemKeys) (superblock : Superblock)
    (index : Nat) : List Nat :=
  crypto.BlockMac K keys.hmac
    (SuperblockSalt (SuperblockCluster index) ++ superblock.bytes 0 SUPERBLOCK_SIZE)

/-- `FileSystemImpl::GenerateHmacForData`. -/
def GenerateHmacForData (K : Mbedtls) (keys : FileSystemKeys) (superblock : Superblock)
    (cluster_data : List Nat) (fst_index chain_index : Nat) : List Nat :=
  let entry := superblock.fst fst_index
  crypto.BlockMac K keys.hmac
    (DataSalt entry.uid entry.name chain_index fst_index entry.x3
      ++ copy_n cluster_data 0 CLUSTER_DATA_SIZE)

/-- `GetClusterForFile`: the cluster at position `index` of the chain that
starts at `first_cluster`. -/
def GetClusterForFileLoop (superblock : Superblock) : Nat → Nat → Option Nat
  | 0, cluster => if cluster ≥ FAT_SIZE then none else some cluster
  | n + 1, cluster =>
    if cluster ≥ FAT_SIZE then none else GetClusterForFileLoop superblock n (superblock.fat cluster)

/-- `GetClusterForFile`. -/
def GetClusterForFile (superblock : Superblock) (first_cluster index : Nat) : Option Nat :=
  GetClusterForFileLoop superblock index first_cluster

/-- The loop of `ReadSuperblock`: the data of clusters `0 .. n - 1` of a replica. -/
def ReadSuperblockLoop (K : Mbedtls) (keys : FileSystemKeys) (nand : Nat → Nat)
    (superblock : Nat) : Nat → Result (List Nat)
  | 0 => .ok []
  | n + 1 =>
    match ReadSuperblockLoop K keys nand superblock n with
    | .error e => .error e
    | .ok block =>
      match ReadCluster K keys nand ((SuperblockCluster superblock + n) % 65536) with
      | .error e => .error e
      | .ok data => .ok (block ++ data.data)

/-- `FileSystemImpl::ReadSuperblock`. -/
def ReadSuperblock (K : Mbedtls) (keys : FileSystemKeys) (nand : Nat → Nat) (superblock : Nat) :
    Result Superblock :=
  match ReadSuperblockLoop K keys nand superblock CLUSTERS_PER_SUPERBLOCK with
  | .error e => .error e
  | .ok block => .ok (Superblock.ofBytes (fun o => block.getD o 0))

/-- The state of the discovery loop of `GetSuperblock`. -/
structure Discovery where
  highest_version : Nat
  m_superblock_index : Nat
  m_superblock : Option Superblock

/-- One iteration of the discovery loop of `GetSuperblock`. -/
def discoverStep (K : Mbedtls) (keys : FileSystemKeys) (nand : Nat → Nat) (d : Discovery)
    (i : Nat) : Discovery :=
  match ReadSuperblock K keys nand i with
  | .error _ => d
  | .ok superblock =>
    if superblock.magic ≠ SUPERBLOCK_MAGIC then d
    else if superblock.version < d.highest_version then d
    else { highest_version := superblock.version, m_superblock_index := i,
           m_superblock := some superblock }

/-- `FileSystemImpl::GetSuperblock`: the returned pointer (the superblock it
points to, if not null) and the state afterwards. -/
def GetSuperblock (K : Mbedtls) (s : FileSystemImpl) : Option Superblock × FileSystemImpl :=
  match s.m_superblock with
  | some sb => (some sb, s)
  | none =>
    let d := (List.range NUMBER_OF_SUPERBLOCKS).foldl (discoverStep K s.m_keys s.m_nand)
      { highest_version := 0, m_superblock_index := s.m_superblock_index, m_superblock := none }
    let s := { s with m_superblock_index := d.m_superblock_index, m_superblock := d.m_superblock }
    match d.m_superblock with
    | none => (none, s)
    | some sb =>
      let hash := GenerateHmacForSuperblock K s.m_keys sb s.m_superblock_index
      match ReadCluster K s.m_keys s.m_nand
          ((SuperblockCluster s.m_superblock_index + 15) % 65536) with
      | .error _ => (none, s)
      | .ok read_result =>
        if hash ≠ read_result.hmac1 ∧ hash ≠ read_result.hmac2 then (none, s)
        else (some sb, s)

/-- The cluster loop of `write_block`: writes clusters `cluster .. 15` of the
replica at `index`. -/
def writeBlockClusters (K : Mbedtls) (keys : FileSystemKeys) (superblock : Superblock)
    (index : Nat) (hmac : List Nat) : Nat → (Nat → Nat) → ResultCode × (Nat → Nat)
  | 0, nand => (.Success, nand)
  | n + 1, nand =>
    let cluster := CLUSTERS_PER_SUPERBLOCK - (n + 1)
    let r := WriteCluster K keys nand ((SuperblockCluster index + cluster) % 65536)
      (superblock.bytes (cluster * CLUSTER_DATA_SIZE) CLUSTER_DATA_SIZE)
      (if cluster = 15 then hmac else List.replicate 20 0)
    if r.1 ≠ .Success then r else writeBlockClusters K keys superblock index hmac n r.2

/-- Repeats `f` up to `n` times, stopping at the first result other than
`Success` (`for (...) { result = f(); if (result != Success) return result; }`);
`none` when `f` has no result. -/
def repeatWhileSuccess (f : FileSystemImpl → Option (ResultCode × FileSystemImpl)) :
    Nat → FileSystemImpl → Option (ResultCode × FileSystemImpl)
  | 0, s => some (.Success, s)
  | n + 1, s =>
    match f s with
    | none => none
    | some (r, s1) => if r ≠ .Success then some (r, s1) else repeatWhileSuccess f n s1

/-- Repeats `f` up to `n` times, stopping at the first `Success`; `fail` when no
attempt succeeds. -/
def retryUntilSuccess (f : FileSystemImpl → Option (ResultCode × FileSystemImpl))
    (fail : ResultCode) : Nat → FileSystemImpl → Option (ResultCode × FileSystemImpl)
  | 0, s => some (fail, s)
  | n + 1, s =>
    match f s with
    | none => none
    | some (r, s1) => if r = .Success then some (.Success, s1) else retryUntilSuccess f fail n s1

/-- The lambda `write_block` of `FlushSuperblock`; `flush` is the recursive call
of `FlushSuperblock`. -/
def write_block (K : Mbedtls)
    (flush : FileSystemImpl → Option (ResultCode × FileSystemImpl)) (s : FileSystemImpl) :
    Option (ResultCode × FileSystemImpl) :=
  match s.m_superblock with
  | none => none
  | some sb =>
    let index := (s.m_superblock_index + 1) % NUMBER_OF_SUPERBLOCKS
    let s := { s with m_superblock_index := index }
    let hmac := GenerateHmacForSuperblock K s.m_keys sb index
    let r := writeBlockClusters K s.m_keys sb index hmac CLUSTERS_PER_SUPERBLOCK s.m_nand
    let s := { s with m_nand := r.2 }
    if r.1 ≠ .Success then some (r.1, s)
    else if sb.version = 0 then
      match repeatWhileSuccess flush 15 s with
      | none => none
      | some (r, s1) => if r ≠ .Success then some (r, s1) else some (.Success, s1)
    else some (.Success, s)

/-- `FileSystemImpl::FlushSuperblock` with a bound `depth` on the nesting of its
recursive calls; `none` when the bound is exceeded. -/
def FlushSuperblockAux (K : Mbedtls) : Nat → FileSystemImpl → Option (ResultCode × FileSystemImpl)
  | 0, _ => none
  | depth + 1, s =>
    match s.m_superblock with
    | none => some (.NotFound, s)
    | some sb =>
      let s := { s with m_superblock := some { sb with version := (sb.version + 1) % 2 ^ 32 } }
      retryUntilSuccess (write_block K (FlushSuperblockAux K depth)) .SuperblockWriteFailed
        NUMBER_OF_SUPERBLOCKS s

/-- `FileSystemImpl::FlushSuperblock`.  A nested call runs with a version that
was just incremented from 0, so the recursion never goes deeper than 2. -/
def FlushSuperblock (K : Mbedtls) (s : FileSystemImpl) : Option (ResultCode × FileSystemImpl) :=
  FlushSuperblockAux K 3 s

/-- The loop of `GetFstIndex(superblock, parent, file_name)` over the sibling
chain; `none` when it does not terminate. -/
def GetFstIndexLoop (superblock : Superblock) (file_name : List Nat) :
    Nat → Nat → Option (Result Nat)
  | 0, _ => none
  | fuel + 1, index =>
    if (superblock.fst index).GetName = file_name then some (.ok index)
    else
      let index := (superblock.fst index).sib
      if index < FST_SIZE then GetFstIndexLoop superblock file_name fuel index
      else some (.error .Invalid)

/-- `FileSystemImpl::GetFstIndex(superblock, parent, file_name)`.  A run that
terminates visits every index at most once, so `FST_SIZE` iterations suffice. -/
def GetFstIndexIn (superblock : Superblock) (parent : Nat) (file_name : List Nat) :
    Option (Result Nat) :=
  if parent ≥ FST_SIZE ∨ file_name.length > 12 then some (.error .Invalid)
  else
    let index := (superblock.fst parent).sub
    if index ≥ FST_SIZE then some (.error .Invalid)
    else GetFstIndexLoop superblock file_name FST_SIZE index

/-- The loop of `GetFstIndex(superblock, path)` over the path components. -/
def GetFstIndexComponents (superblock : Superblock) : List (List Nat) → Nat → Option (Result Nat)
  | [], fst_index => some (.ok fst_index)
  | component :: rest, fst_index =>
    match GetFstIndexIn superblock fst_index component with
    | none => none
    | some (.error _) => some (.error .Invalid)
    | some (.ok result) =>
      if result ≥ FST_SIZE then some (.error .Invalid)
      else GetFstIndexComponents superblock rest result

/-- `FileSystemImpl::GetFstIndex(superblock, path)`. -/
def GetFstIndex (superblock : Superblock) (path : List Nat) : Option (Result Nat) :=
  if path = [47] ∨ path = [] then some (.ok 0)
  else GetFstIndexComponents superblock (SplitString (path.drop 1) 47) 0

/-- `FileSystemImpl::GetUnusedFstIndex`. -/
def GetUnusedFstIndex (superblock : Superblock) : Result Nat :=
  match findFirst (fun i => ((superblock.fst i).mode &&& 3) == 0) FST_SIZE with
  | none => .error .FstFull
  | some i => .ok i

/-- `FileSystemImpl::WriteFileData`. -/
def WriteFileData (K : Mbedtls) (s : FileSystemImpl) (fst_index : Nat) (source : List Nat)
    (chain_index new_size : Nat) : ResultCode × FileSystemImpl :=
  if fst_index ≥ FST_SIZE then (.Invalid, s)
  else
    match GetSuperblock K s with
    | (none, s) => (.SuperblockInitFailed, s)
    | (some sb, s) =>
      let entry := sb.fst fst_index
      if !entry.IsFile || decide (new_size ≤ entry.size) then (.Invalid, s)
      else
        match findFirst (fun i => sb.fat i == CLUSTER_UNUSED) FAT_SIZE with
        | none => (.NoFreeSpace, s)
        | some cluster =>
          let hash := GenerateHmacForData K s.m_keys sb source fst_index chain_index
          let w := WriteCluster K s.m_keys s.m_nand cluster source hash
          let s := { s with m_nand := w.2 }
          if w.1 ≠ .Success then (w.1, s)
          else
            let old_cluster := GetClusterForFile sb entry.sub chain_index
            -- Change the previous cluster (or the FST) to point to the new cluster
            let spliced : Option Superblock :=
              if chain_index = 0 then some (sb.setFst fst_index { entry with sub := cluster })
              else
                match GetClusterForFile sb entry.sub (chain_index - 1) with
                | none => none
                | some prev => some (sb.setFat prev cluster)
            match spliced with
            | none => (.Invalid, s)
            | some sb1 =>
              -- If we are replacing another cluster, keep pointing to the same next cluster
              let sb2 :=
                match old_cluster with
                | some old => sb1.setFat cluster (sb1.fat old)
                | none => sb1.setFat cluster CLUSTER_LAST_IN_CHAIN
              -- Free the old cluster now
              let sb3 :=
                match old_cluster with
                | some old => sb2.setFat old CLUSTER_UNUSED
                | none => sb2
              let sb4 := sb3.setFst fst_index { sb3.fst fst_index with size := new_size }
              (.Success, { s with m_superblock := some sb4 })

/-- `FileSystemImpl::ReadFileData`; `none` when the code dereferences an empty
`std::optional` (no cluster at `chain_index`). -/
def ReadFileData (K : Mbedtls) (s : FileSystemImpl) (fst_index chain_index : Nat) :
    Option (Result (List Nat) × FileSystemImpl) :=
  if fst_index ≥ FST_SIZE then some (.error .Invalid, s)
  else
    match GetSuperblock K s with
    | (none, s) => some (.error .SuperblockInitFailed, s)
    | (some sb, s) =>
      let entry := sb.fst fst_index
      if !entry.IsFile || decide (entry.size ≤ (chain_index * CLUSTER_DATA_SIZE) % 2 ^ 32) then
        some (.error .Invalid, s)
      else
        match GetClusterForFile sb entry.sub chain_index with
        | none => none
        | some cluster =>
          match ReadCluster K s.m_keys s.m_nand cluster with
          | .error e => some (.error e, s)
          | .ok result =>
            let hash := GenerateHmacForData K s.m_keys sb result.data fst_index chain_index
            if hash ≠ result.hmac1 ∧ hash ≠ result.hmac2 then some (.error .CheckFailed, s)
            else some (.ok result.data, s)

/-! ## file.cpp -/

/-- `FileSystemImpl::AssignFreeHandle`: the handle assigned, if any. -/
def AssignFreeHandle (s : FileSystemImpl) (uid gid : Nat) : Option Nat × FileSystemImpl :=
  match findFirst (fun i => !(s.m_handles i).opened) 16 with
  | none => (none, s)
  | some it =>
    let handles : Nat → Handle := fun j =>
      if j = it then { Handle.default with opened := true, uid := uid, gid := gid }
      else s.m_handles j
    (some it, { s with m_handles := handles })

/-- `FileSystemImpl::GetHandleFromFd`. -/
def GetHandleFromFd (s : FileSystemImpl) (fd : Nat) : Option Nat :=
  if fd = INTERNAL_FD then some INTERNAL_FD
  else if fd ≥ 16 ∨ (s.m_handles fd).opened = false then none
  else some fd

/-- `FileSystemImpl::ConvertHandleToFd` for a handle in `m_handles`. -/
def ConvertHandleToFd (handle : Nat) : Nat := handle

/-- `FileSystemImpl::IsFileOpened`. -/
def IsFileOpened (s : FileSystemImpl) (fst_index : Nat) : Bool :=
  (List.range 16).any (fun i => (s.m_handles i).opened && (s.m_handles i).fst_index == fst_index)

/-- `FileSystemImpl::OpenFs`. -/
def OpenFs (s : FileSystemImpl) (uid gid : Nat) : Result Nat × FileSystemImpl :=
  match AssignFreeHandle s uid gid with
  | (none, s) => (.error .NoFreeHandle, s)
  | (some handle, s) => (.ok (ConvertHandleToFd handle), s)

/-- `FileSystemImpl::OpenFile`; `none` when path resolution does not terminate. -/
def OpenFile (K : Mbedtls) (s : FileSystemImpl) (uid gid : Nat) (path : List Nat) (mode : Nat) :
    Option (Result Nat × FileSystemImpl) :=
  if !IsValidNonRootPath path then some (.error .Invalid, s)
  else
    match GetSuperblock K s with
    | (none, s) => some (.error .SuperblockInitFailed, s)
    | (some superblock, s) =>
      match GetFstIndex superblock path with
      | none => none
      | some (.error _) => some (.error .NotFound, s)
      | some (.ok index) =>
        if !(superblock.fst index).IsFile then some (.error .Invalid, s)
        else if !HasPermission (superblock.fst index) uid gid mode then
          some (.error .AccessDenied, s)
        else
          match AssignFreeHandle s uid gid with
          | (none, s) => some (.error .NoFreeHandle, s)
          | (some handle, s) =>
            let s := s.setHandle handle
              { s.handle handle with fst_index := index, mode := mode, file_offset := 0,
                                     file_size := (superblock.fst index).size }
            some (.ok (ConvertHandleToFd handle), s)

/-- `FileSystemImpl::FlushFileCache`. -/
def FlushFileCache (K : Mbedtls) (s : FileSystemImpl) : ResultCode × FileSystemImpl :=
  match s.m_cache_handle with
  | none => (.Success, s)
  | some h =>
    if !s.m_cache_for_write || decide (s.m_cache_data.length ≠ CLUSTER_DATA_SIZE) then
      (.Success, s)
    else
      let r := WriteFileData K s (s.handle h).fst_index s.m_cache_data s.m_cache_chain_index
        (s.handle h).file_size
      if r.1 = .Success then
        (r.1, r.2.setHandle h { r.2.handle h with superblock_flush_needed := true })
      else r

/-- `FileSystemImpl::PopulateFileCache`. -/
def PopulateFileCache (K : Mbedtls) (s : FileSystemImpl) (handle offset : Nat) (write : Bool) :
    Option (ResultCode × FileSystemImpl) :=
  let chain_index := (offset / CLUSTER_DATA_SIZE) % 65536
  if s.m_cache_handle = some handle ∧ s.m_cache_chain_index = chain_index then some (.Success, s)
  else
    let flush_result := FlushFileCache K s
    if flush_result.1 ≠ .Success then some flush_result
    else
      let s := { flush_result.2 with m_cache_handle := some handle,
                                     m_cache_chain_index := chain_index,
                                     m_cache_for_write := write }
      if offset % CLUSTER_DATA_SIZE = 0 ∧ offset = (s.handle handle).file_size then
        some (.Success, { s with m_cache_data := List.replicate CLUSTER_DATA_SIZE 0 })
      else
        match ReadFileData K s (s.handle handle).fst_index chain_index with
        | none => none
        | some (.error e, s) => some (e, s)
        | some (.ok data, s) => some (.Success, { s with m_cache_data := data })

/-- `FileSystemImpl::Close`. -/
def Close (K : Mbedtls) (s : FileSystemImpl) (fd : Nat) : Option (ResultCode × FileSystemImpl) :=
  match GetHandleFromFd s fd with
  | none => some (.Invalid, s)
  | some handle =>
    let flushed : ResultCode × FileSystemImpl :=
      if s.m_cache_handle = some handle then
        let flush_result := FlushFileCache K s
        if flush_result.1 ≠ .Success then flush_result
        else (.Success, { flush_result.2 with m_cache_handle := none, m_cache_data := [] })
      else (.Success, s)
    if flushed.1 ≠ .Success then some flushed
    else
      let s := flushed.2
      let written : Option (ResultCode × FileSystemImpl) :=
        if (s.handle handle).superblock_flush_needed then FlushSuperblock K s
        else some (.Success, s)
      match written with
      | none => none
      | some (result, s) =>
        if result ≠ .Success then some (result, s)
        else some (.Success, s.setHandle handle Handle.default)

/-- Offset of `handle->file_offset` within the cached cluster (`u32`). -/
def cacheStart (s : FileSystemImpl) (handle : Nat) : Nat :=
  ((s.handle handle).file_offset + 2 ^ 32 - (s.m_cache_chain_index * CLUSTER_DATA_SIZE) % 2 ^ 32)
    % 2 ^ 32

/-- The loop of `ReadFile`; `out` holds the bytes copied to `ptr` so far.  The
result is `none` when the loop does not terminate (no progress) or when the
iterator `start` lies past the end of the cache. -/
def ReadFileLoop (K : Mbedtls) (handle count : Nat) :
    Nat → FileSystemImpl → Nat → List Nat → Option (Result Nat × List Nat × FileSystemImpl)
  | 0, _, _, _ => none
  | fuel + 1, s, processed_count, out =>
    if processed_count = count then some (.ok count, out, s)
    else
      match PopulateFileCache K s handle (s.handle handle).file_offset false with
      | none => none
      | some (result, s) =>
        if result ≠ .Success then some (.error result, out, s)
        else
          let start := cacheStart s handle
          if start > s.m_cache_data.length then none
          else
            let copy_length := min (s.m_cache_data.length - start)
              ((count + 2 ^ 32 - processed_count) % 2 ^ 32)
            let out := out ++ copy_n s.m_cache_data start copy_length
            let s := s.setHandle handle
              { s.handle handle with
                file_offset := ((s.handle handle).file_offset + copy_length) % 2 ^ 32 }
            ReadFileLoop K handle count fuel s ((processed_count + copy_length) % 2 ^ 32) out

/-- `FileSystemImpl::ReadFile`: the result, the bytes copied to `ptr`, and the
state afterwards.  Every iteration that does not end the loop copies at least
one byte, so `count + 1` iterations suffice. -/
def ReadFile (K : Mbedtls) (s : FileSystemImpl) (fd count : Nat) :
    Option (Result Nat × List Nat × FileSystemImpl) :=
  match GetHandleFromFd s fd with
  | none => some (.error .Invalid, [], s)
  | some handle =>
    if (s.handle handle).fst_index ≥ FST_SIZE then some (.error .Invalid, [], s)
    else if (s.handle handle).mode &&& 1 = 0 then some (.error .AccessDenied, [], s)
    else
      let count :=
        if (count + (s.handle handle).file_offset) % 2 ^ 32 > (s.handle handle).file_size then
          ((s.handle handle).file_size + 2 ^ 32 - (s.handle handle).file_offset) % 2 ^ 32
        else count
      ReadFileLoop K handle count (count + 1) s 0 []

/-- The loop of `WriteFile`. -/
def WriteFileLoop (K : Mbedtls) (handle : Nat) (ptr : List Nat) (count : Nat) :
    Nat → FileSystemImpl → Nat → Option (Result Nat × FileSystemImpl)
  | 0, _, _ => none
  | fuel + 1, s, processed_count =>
    if processed_count = count then some (.ok count, s)
    else
      match PopulateFileCache K s handle (s.handle handle).file_offset true with
      | none => none
      | some (result, s) =>
        if result ≠ .Success then some (.error result, s)
        else
          let start := cacheStart s handle
          if start > s.m_cache_data.length then none
          else
            let copy_length := min (s.m_cache_data.length - start)
              ((count + 2 ^ 32 - processed_count) % 2 ^ 32)
            let data := copyInto s.m_cache_data start (copy_n ptr processed_count copy_length)
            let s := { s with m_cache_data := data }
            let file_offset := ((s.handle handle).file_offset + copy_length) % 2 ^ 32
            let s := s.setHandle handle
              { s.handle handle with
                file_offset := file_offset
                file_size := max file_offset (s.handle handle).file_size }
            WriteFileLoop K handle ptr count fuel s ((processed_count + copy_length) % 2 ^ 32)

/-- `FileSystemImpl::WriteFile`. -/
def WriteFile (K : Mbedtls) (s : FileSystemImpl) (fd : Nat) (ptr : List Nat) (count : Nat) :
    Option (Result Nat × FileSystemImpl) :=
  match GetHandleFromFd s fd with
  | none => some (.error .Invalid, s)
  | some handle =>
    if (s.handle handle).fst_index ≥ FST_SIZE then some (.error .Invalid, s)
    else if (s.handle handle).mode &&& 2 = 0 then some (.error .AccessDenied, s)
    else WriteFileLoop K handle ptr count (count + 1) s 0

/-- `FileSystemImpl::SeekFile`; `mode` is the value of the `SeekMode`
(`Set` = 0, `Current` = 1, `End` = 2). -/
def SeekFile (s : FileSystemImpl) (fd offset mode : Nat) : Result Nat × FileSystemImpl :=
  match GetHandleFromFd s fd with
  | none => (.error .Invalid, s)
  | some handle =>
    if (s.handle handle).fst_index ≥ FST_SIZE then (.error .Invalid, s)
    else
      let new_position : Option Nat :=
        if mode = 0 then some offset
        else if mode = 1 then some (((s.handle handle).file_offset + offset) % 2 ^ 32)
        else if mode = 2 then some (((s.handle handle).file_size + offset) % 2 ^ 32)
        else none
      match new_position with
      | none => (.error .Invalid, s)
      | some new_position =>
        if (s.handle handle).file_size < new_position then (.error .Invalid, s)
        else
          (.ok new_position, s.setHandle handle { s.handle handle with file_offset := new_position })

/-- `struct FileStatus`. -/
structure FileStatus where
  offset : Nat
  size : Nat
  deriving DecidableEq, Repr

/-- `FileSystemImpl::GetFileStatus`. -/
def GetFileStatus (s : FileSystemImpl) (fd : Nat) : Result FileStatus :=
  match GetHandleFromFd s fd with
  | none => .error .Invalid
  | some handle =>
    if (s.handle handle).fst_index ≥ FST_SIZE then .error .Invalid
    else if (s.handle handle).mode &&& 1 = 0 then .error .AccessDenied
    else .ok { size := (s.handle handle).file_size, offset := (s.handle handle).file_offset }

/-- The loop of `FileSystemImpl::IsDirectoryInUse` from `child` on; `none` when
the traversal does not end within `fuel` nested steps. -/
def IsDirectoryInUseLoop (s : FileSystemImpl) (superblock : Superblock) :
    Nat → Nat → Option Bool
  | 0, _ => none
  | fuel + 1, child =>
    if child ≥ FST_SIZE then some false
    else if (superblock.fst child).IsFile then
      if IsFileOpened s child then some true
      else IsDirectoryInUseLoop s superblock fuel (superblock.fst child).sib
    else
      match IsDirectoryInUseLoop s superblock fuel (superblock.fst child).sub with
      | none => none
      | some true => some true
      | some false => IsDirectoryInUseLoop s superblock fuel (superblock.fst child).sib

/-- `FileSystemImpl::IsDirectoryInUse`. -/
def IsDirectoryInUse (s : FileSystemImpl) (superblock : Superblock) (directory : Nat) :
    Option Bool :=
  IsDirectoryInUseLoop s superblock (2 * FST_SIZE) (superblock.fst directory).sub

/-! ## fs.cpp -/

/-- The constructor `FileSystemImpl::FileSystemImpl`. -/
def FileSystemImpl.new (K : Mbedtls) (nand_bytes : Nat → Nat) (keys : FileSystemKeys) :
    FileSystemImpl :=
  match GetSuperblock K (FileSystemImpl.init nand_bytes keys) with
  | (none, s) => s
  | (some superblock, s) =>
    let fat : Nat → Nat := fun i =>
      if i < FAT_SIZE ∧ superblock.fat i = 0xffff then CLUSTER_UNUSED else superblock.fat i
    { s with m_superblock := some { superblock with fat := fat } }

/-- The superblock as `Format` initialises it, before the flush. -/
def formatSuperblock (sb : Superblock) : Superblock :=
  let fat : Nat → Nat := fun i =>
    if i < FAT_SIZE then
      (if i < 64 ∨ i ≥ SUPERBLOCK_START_CLUSTER then CLUSTER_RESERVED else CLUSTER_UNUSED)
    else sb.fat i
  -- Initialise the FST
  let fst : Nat → FstEntry := fun i => if i < FST_SIZE then FstEntry.zero else sb.fst i
  let sb : Superblock := { sb with magic := SUPERBLOCK_MAGIC, fat := fat, fst := fst }
  let root := (sb.fst 0).SetName [47]
  sb.setFst 0 { root with mode := 0x16, sub := 0xffff, sib := 0xffff }

/-- `FileSystemImpl::Format`. -/
def Format (K : Mbedtls) (s : FileSystemImpl) (uid : Nat) : Option (ResultCode × FileSystemImpl) :=
  if uid ≠ 0 then some (.AccessDenied, s)
  else
    let g := GetSuperblock K s
    let sb : Superblock :=
      match g.1 with
      | none => Superblock.zero
      | some sb => sb
    let handles : Nat → Handle := fun i =>
      if i < 16 then { g.2.m_handles i with opened := false } else g.2.m_handles i
    FlushSuperblock K { g.2 with m_superblock := some (formatSuperblock sb), m_handles := handles }

/-- A `char` as the `int` it promotes to (`char` is signed). -/
def charToInt (c : Nat) : Int := if c % 256 < 128 then (c % 256 : Nat) else ((c % 256 : Nat) : Int) - 256

/-- `FileSystemImpl::CreateFileOrDirectory`; `handle` is the handle pointed to. -/
def CreateFileOrDirectory (K : Mbedtls) (s : FileSystemImpl) (handle : Handle) (path : List Nat)
    (attr owner_mode group_mode other_mode : Nat) (is_file : Bool) :
    Option (ResultCode × FileSystemImpl) :=
  if !IsValidNonRootPath path || path.any (fun c => decide (charToInt c - 32 > 0x5e)) then
    some (.Invalid, s)
  else if !is_file && decide (path.count 47 > 8) then some (.TooManyPathComponents, s)
  else
    match GetSuperblock K s with
    | (none, s) => some (.SuperblockInitFailed, s)
    | (some superblock, s) =>
      let split_path := SplitPath path
      match GetFstIndex superblock split_path.1 with
      | none => none
      | some (.error _) => some (.NotFound, s)
      | some (.ok parent_idx) =>
        if !HasPermission (superblock.fst parent_idx) handle.uid handle.gid 2 then
          some (.AccessDenied, s)
        else
          match GetFstIndexIn superblock parent_idx split_path.2 with
          | none => none
          | some (.ok _) => some (.AlreadyExists, s)
          | some (.error _) =>
            match GetUnusedFstIndex superblock with
            | .error _ => some (.FstFull, s)
            | .ok child_idx =>
              let child := (superblock.fst child_idx).SetName split_path.2
              let child := { child with mode := if is_file then 1 else 2 }
              let child := child.SetAccessMode owner_mode group_mode other_mode
              let child := { child with uid := handle.uid, gid := handle.gid, size := 0, x3 := 0,
                                        attr := attr,
                                        sub := if is_file then CLUSTER_LAST_IN_CHAIN else 0xffff }
              let sb := superblock.setFst child_idx child
              let sb := sb.setFst child_idx { sb.fst child_idx with sib := (sb.fst parent_idx).sub }
              let sb := sb.setFst parent_idx { sb.fst parent_idx with sub := child_idx }
              FlushSuperblock K { s with m_superblock := some sb }

/-- `FileSystemImpl::CreateFile`. -/
def CreateFile (K : Mbedtls) (s : FileSystemImpl) (fd : Nat) (path : List Nat)
    (attr owner_mode group_mode other_mode : Nat) : Option (ResultCode × FileSystemImpl) :=
  match GetHandleFromFd s fd with
  | none => some (.Invalid, s)
  | some handle =>
    CreateFileOrDirectory K s (s.handle handle) path attr owner_mode group_mode other_mode
      true

/-- `FileSystemImpl::CreateDirectory`. -/
def CreateDirectory (K : Mbedtls) (s : FileSystemImpl) (fd : Nat) (path : List Nat)
    (attr owner_mode group_mode other_mode : Nat) : Option (ResultCode × FileSystemImpl) :=
  match GetHandleFromFd s fd with
  | none => some (.Invalid, s)
  | some handle =>
    CreateFileOrDirectory K s (s.handle handle) path attr owner_mode group_mode other_mode
      false

/-- The cluster loop of `DeleteFile`.  A freed cluster holds `CLUSTER_UNUSED`,
which ends the loop, so the body runs at most `FAT_SIZE + 1` times (every
cluster once, and one freed cluster again) and the fuel `FAT_SIZE + 2` always
suffices. -/
def DeleteFileLoop : Nat → Superblock → Nat → Option Superblock
  | 0, _, _ => none
  | fuel + 1, superblock, i =>
    if i < FAT_SIZE then
      DeleteFileLoop fuel (superblock.setFat i CLUSTER_UNUSED) (superblock.fat i)
    else some superblock

/-- `DeleteFile`. -/
def DeleteFile (superblock : Superblock) (file : Nat) : Option Superblock :=
  match DeleteFileLoop (FAT_SIZE + 2) superblock (superblock.fst file).sub with
  | none => none
  | some sb => some (sb.setFst file { sb.fst file with mode := 0 })

/-- The loop of `DeleteDirectoryContents` from `child` on. -/
def DeleteDirectoryContentsLoop : Nat → Superblock → Nat → Option Superblock
  | 0, _, _ => none
  | fuel + 1, superblock, child =>
    if child ≥ FST_SIZE then some superblock
    else
      let deleted : Option Superblock :=
        if (superblock.fst child).IsDirectory then
          DeleteDirectoryContentsLoop fuel superblock (superblock.fst child).sub
        else DeleteFile superblock child
      match deleted with
      | none => none
      | some sb => DeleteDirectoryContentsLoop fuel sb (sb.fst child).sib

/-- `DeleteDirectoryContents`. -/
def DeleteDirectoryContents (superblock : Superblock) (directory : Nat) : Option Superblock :=
  DeleteDirectoryContentsLoop (2 * FST_SIZE) superblock (superblock.fst directory).sub

/-- The `while` loop of `RemoveFstEntryFromChain`. -/
def RemoveFstEntryLoop (child : Nat) :
    Nat → Superblock → Nat → Nat → Option (ResultCode × Superblock)
  | 0, _, _, _ => none
  | fuel + 1, superblock, previous, index =>
    if index < FST_SIZE then
      if index = child then
        let sb := superblock.setFst previous
          { superblock.fst previous with sib := (superblock.fst child).sib }
        some (.Success, sb.setFst child { sb.fst child with mode := 0 })
      else RemoveFstEntryLoop child fuel superblock index (superblock.fst index).sib
    else some (.NotFound, superblock)

/-- `RemoveFstEntryFromChain`; `none` when the loop does not terminate or when
`fst` is read out of bounds. -/
def RemoveFstEntryFromChain (superblock : Superblock) (parent child : Nat) :
    Option (ResultCode × Superblock) :=
  if (superblock.fst parent).sub = child then
    let sb := superblock.setFst parent { superblock.fst parent with sub := (superblock.fst child).sib }
    some (.Success, sb.setFst child { sb.fst child with mode := 0 })
  else
    let previous := (superblock.fst parent).sub
    if previous ≥ FST_SIZE then none
    else RemoveFstEntryLoop child (FST_SIZE + 1) superblock previous (superblock.fst previous).sib

/-- The deletion of an entry in `Delete` and `Rename`: its contents are freed
unless it is in use. -/
def deleteEntryContents (s : FileSystemImpl) (superblock : Superblock) (index : Nat) :
    Option (Result Superblock) :=
  if (superblock.fst index).IsDirectory then
    match IsDirectoryInUse s superblock index with
    | none => none
    | some true => some (.error .InUse)
    | some false =>
      match DeleteDirectoryContents superblock index with
      | none => none
      | some sb => some (.ok sb)
  else if (superblock.fst index).IsFile && !IsFileOpened s index then
    match DeleteFile superblock index with
    | none => none
    | some sb => some (.ok sb)
  else some (.error .InUse)

/-- `FileSystemImpl::Delete`. -/
def Delete (K : Mbedtls) (s : FileSystemImpl) (fd : Nat) (path : List Nat) :
    Option (ResultCode × FileSystemImpl) :=
  match GetHandleFromFd s fd with
  | none => some (.Invalid, s)
  | some h =>
    if !IsValidNonRootPath path then some (.Invalid, s)
    else
      let handle := s.handle h
      match GetSuperblock K s with
      | (none, s) => some (.SuperblockInitFailed, s)
      | (some superblock, s) =>
        let split_path := SplitPath path
        match GetFstIndex superblock split_path.1 with
        | none => none
        | some (.error _) => some (.NotFound, s)
        | some (.ok parent) =>
          if !HasPermission (superblock.fst parent) handle.uid handle.gid 2 then
            some (.AccessDenied, s)
          else
            match GetFstIndexIn superblock parent split_path.2 with
            | none => none
            | some (.error _) => some (.NotFound, s)
            | some (.ok index) =>
              match deleteEntryContents s superblock index with
              | none => none
              | some (.error e) => some (e, s)
              | some (.ok sb) =>
                match RemoveFstEntryFromChain sb parent index with
                | none => none
                | some (result, sb) =>
                  let s := { s with m_superblock := some sb }
                  if result ≠ .Success then some (result, s) else FlushSuperblock K s

/-- The part of `Rename` that removes an entry already present at the new
path (`new_index`); the superblock afterwards, with the code returned when the
function returns there. -/
def renameReplace (s : FileSystemImpl) (superblock : Superblock) (index new_parent : Nat)
    (new_index : Result Nat) : Option (Option ResultCode × Superblock) :=
  match new_index with
  | .error _ => some (none, superblock)
  | .ok new_index =>
    if ((superblock.fst new_index).mode &&& 3) ≠ ((superblock.fst index).mode &&& 3)
        ∨ new_index = index then
      some (some .Invalid, superblock)
    else
      match deleteEntryContents s superblock new_index with
      | none => none
      | some (.error e) => some (some e, superblock)
      | some (.ok sb) =>
        match RemoveFstEntryFromChain sb new_parent new_index with
        | none => none
        | some (remove_result, sb) =>
          if remove_result ≠ .Success then some (some remove_result, sb) else some (none, sb)

/-- `FileSystemImpl::Rename`. -/
def Rename (K : Mbedtls) (s : FileSystemImpl) (fd : Nat) (old_path new_path : List Nat) :
    Option (ResultCode × FileSystemImpl) :=
  match GetHandleFromFd s fd with
  | none => some (.Invalid, s)
  | some h =>
    if !IsValidNonRootPath old_path || !IsValidNonRootPath new_path then some (.Invalid, s)
    else
      let handle := s.handle h
      match GetSuperblock K s with
      | (none, s) => some (.SuperblockInitFailed, s)
      | (some superblock, s) =>
        let split_old_path := SplitPath old_path
        let split_new_path := SplitPath new_path
        match GetFstIndex superblock split_old_path.1, GetFstIndex superblock split_new_path.1 with
        | none, _ => none
        | _, none => none
        | some (.error _), _ => some (.NotFound, s)
        | _, some (.error _) => some (.NotFound, s)
        | some (.ok old_parent), some (.ok new_parent) =>
          if !HasPermission (superblock.fst old_parent) handle.uid handle.gid 2 ||
              !HasPermission (superblock.fst new_parent) handle.uid handle.gid 2 then
            some (.AccessDenied, s)
          else
            match GetFstIndexIn superblock old_parent split_old_path.2 with
            | none => none
            | some (.error _) => some (.NotFound, s)
            | some (.ok index) =>
              if (superblock.fst index).IsFile &&
                  decide (split_old_path.2.take 12 = split_new_path.2.take 12) then
                some (.Invalid, s)
              else
                let in_use : Option Bool :=
                  if (superblock.fst index).IsDirectory then IsDirectoryInUse s superblock index
                  else some ((superblock.fst index).IsFile && IsFileOpened s index)
                match in_use with
                | none => none
                | some true => some (.InUse, s)
                | some false =>
                  -- If there is already something of the same type at the new path, delete it.
                  match GetFstIndexIn superblock new_parent split_new_path.2 with
                  | none => none
                  | some new_index =>
                    match renameReplace s superblock index new_parent new_index with
                    | none => none
                    | some (some e, sb) => some (e, { s with m_superblock := some sb })
                    | some (none, sb) =>
                      let saved_mode := (sb.fst index).mode
                      match RemoveFstEntryFromChain sb old_parent index with
                      | none => none
                      | some (remove_result, sb) =>
                        if remove_result ≠ .Success then
                          some (remove_result, { s with m_superblock := some sb })
                        else
                          let sb := sb.setFst index { sb.fst index with mode := saved_mode }
                          let sb := sb.setFst index ((sb.fst index).SetName split_new_path.2)
                          let sb := sb.setFst index
                            { sb.fst index with sib := (sb.fst new_parent).sub }
                          let sb := sb.setFst new_parent { sb.fst new_parent with sub := index }
                          FlushSuperblock K { s with m_superblock := some sb }

/-- `struct Metadata`. -/
structure Metadata where
  uid : Nat
  gid : Nat
  attr : Nat
  owner_mode : Nat
  group_mode : Nat
  other_mode : Nat
  is_file : Bool
  size : Nat
  fst_index : Nat
  deriving DecidableEq, Repr

/-- The `Metadata` that `GetMetadata` builds for the FST entry at `index`. -/
def metadataOf (superblock : Superblock) (index : Nat) : Metadata :=
  { gid := (superblock.fst index).gid
    uid := (superblock.fst index).uid
    attr := (superblock.fst index).attr
    owner_mode := (superblock.fst index).GetOwnerMode
    group_mode := (superblock.fst index).GetGroupMode
    other_mode := (superblock.fst index).GetOtherMode
    is_file := (superblock.fst index).IsFile
    fst_index := index
    size := (superblock.fst index).size }

/-- `FileSystemImpl::GetMetadata`. -/
def GetMetadata (K : Mbedtls) (s : FileSystemImpl) (fd : Nat) (path : List Nat) :
    Option (Result Metadata × FileSystemImpl) :=
  match GetHandleFromFd s fd with
  | none => some (.error .Invalid, s)
  | some h =>
    if path = [] then some (.error .Invalid, s)
    else
      let handle := s.handle h
      match GetSuperblock K s with
      | (none, s) => some (.error .SuperblockInitFailed, s)
      | (some superblock, s) =>
        if path = [47] then some (.ok (metadataOf superblock 0), s)
        else if IsValidNonRootPath path then
          let split_path := SplitPath path
          match GetFstIndex superblock split_path.1 with
          | none => none
          | some (.error _) => some (.error .NotFound, s)
          | some (.ok parent) =>
            if !HasPermission (superblock.fst parent) handle.uid handle.gid 1 then
              some (.error .AccessDenied, s)
            else
              match GetFstIndexIn superblock parent split_path.2 with
              | none => none
              | some (.error _) => some (.error .NotFound, s)
              | some (.ok child) => some (.ok (metadataOf superblock child), s)
        else some (.error .Invalid, s)

/-- `struct NandStats`. -/
structure NandStats where
  cluster_size : Nat
  free_clusters : Nat
  used_clusters : Nat
  bad_clusters : Nat
  reserved_clusters : Nat
  free_inodes : Nat
  used_inodes : Nat
  deriving DecidableEq, Repr

/-- One iteration of the FAT loop of `GetNandStats`. -/
def countCluster (stats : NandStats) (cluster : Nat) : NandStats :=
  if cluster = CLUSTER_UNUSED ∨ cluster = 0xffff then
    { stats with free_clusters := (stats.free_clusters + 1) % 2 ^ 32 }
  else if cluster = CLUSTER_RESERVED then
    { stats with reserved_clusters := (stats.reserved_clusters + 1) % 2 ^ 32 }
  else if cluster = CLUSTER_BAD_BLOCK then
    { stats with bad_clusters := (stats.bad_clusters + 1) % 2 ^ 32 }
  else { stats with used_clusters := (stats.used_clusters + 1) % 2 ^ 32 }

/-- One iteration of the FST loop of `GetNandStats`. -/
def countInode (stats : NandStats) (entry : FstEntry) : NandStats :=
  if (entry.mode &&& 3) ≠ 0 then { stats with used_inodes := (stats.used_inodes + 1) % 2 ^ 32 }
  else { stats with free_inodes := (stats.free_inodes + 1) % 2 ^ 32 }

/-- The statistics that `GetNandStats` computes from a superblock. -/
def nandStatsOf (superblock : Superblock) : NandStats :=
  let stats : NandStats :=
    { cluster_size := CLUSTER_DATA_SIZE, free_clusters := 0, used_clusters := 0,
      bad_clusters := 0, reserved_clusters := 0, free_inodes := 0, used_inodes := 0 }
  let stats := (List.range FAT_SIZE).foldl (fun st i => countCluster st (superblock.fat i)) stats
  (List.range FST_SIZE).foldl (fun st i => countInode st (superblock.fst i)) stats

/-- `FileSystemImpl::GetNandStats`. -/
def GetNandStats (K : Mbedtls) (s : FileSystemImpl) (fd : Nat) : Result NandStats × FileSystemImpl :=
  match GetHandleFromFd s fd with
  | none => (.error .Invalid, s)
  | some _ =>
    match GetSuperblock K s with
    | (none, s) => (.error .SuperblockInitFailed, s)
    | (some superblock, s) => (.ok (nandStatsOf superblock), s)

/-- `struct DirectoryStats`. -/
structure DirectoryStats where
  used_clusters : Nat
  used_inodes : Nat
  deriving DecidableEq, Repr

/-- The loop of `CountDirectoryRecursively` from `child` on, with the counters
so far; `none` when the traversal does not end within `fuel` nested steps. -/
def CountDirectoryLoop (superblock : Superblock) :
    Nat → Nat → DirectoryStats → Option DirectoryStats
  | 0, _, _ => none
  | fuel + 1, child, st =>
    if child ≥ FST_SIZE then some st
    else if (superblock.fst child).IsFile then
      CountDirectoryLoop superblock fuel (superblock.fst child).sib
        { used_clusters :=
            (st.used_clusters + ((superblock.fst child).size + 0x3fff) % 2 ^ 32 / 0x4000) % 2 ^ 32
          used_inodes := (st.used_inodes + 1) % 2 ^ 32 }
    else
      match CountDirectoryLoop superblock fuel (superblock.fst child).sub
          { used_clusters := 0, used_inodes := 1 } with
      | none => none
      | some stats_ =>
        CountDirectoryLoop superblock fuel (superblock.fst child).sib
          { used_clusters := (st.used_clusters + stats_.used_clusters) % 2 ^ 32
            used_inodes := (st.used_inodes + stats_.used_inodes) % 2 ^ 32 }

/-- `CountDirectoryRecursively`. -/
def CountDirectoryRecursively (superblock : Superblock) (directory : Nat) :
    Option DirectoryStats :=
  CountDirectoryLoop superblock (2 * FST_SIZE) (superblock.fst directory).sub
    { used_clusters := 0, used_inodes := 1 }

/-- `FileSystemImpl::GetDirectoryStats`. -/
def GetDirectoryStats (K : Mbedtls) (s : FileSystemImpl) (fd : Nat) (path : List Nat) :
    Option (Result DirectoryStats × FileSystemImpl) :=
  match GetHandleFromFd s fd with
  | none => some (.error .Invalid, s)
  | some _ =>
    match GetSuperblock K s with
    | (none, s) => some (.error .SuperblockInitFailed, s)
    | (some superblock, s) =>
      if path = [] ∨ path.head? ≠ some 47 ∨ path.length > 64 then
        some (.error .SuperblockInitFailed, s)
      else
        match GetFstIndex superblock path with
        | none => none
        | some (.error _) => some (.error .NotFound, s)
        | some (.ok index) =>
          if !(superblock.fst index).IsDirectory then some (.error .Invalid, s)
          else
            match CountDirectoryRecursively superblock index with
            | none => none
            | some stats => some (.ok stats, s)

/-! ## Statement of the assumption on AES-128-CBC -/

/-- The iv buffer after `WriteCluster` has encrypted pages `0 .. n - 1` of `data`. -/
def ivAfter (K : Mbedtls) (key data : List Nat) : Nat → List Nat
  | 0 => List.replicate 16 0
  | n + 1 =>
    (crypto.AesEncrypt K key (ivAfter K key data n)
      (copy_n data (n * DATA_BYTES_PER_PAGE) DATA_BYTES_PER_PAGE)).2

/-- Page `p` of `data` as `WriteCluster` encrypts it. -/
def encryptedPage (K : Mbedtls) (key data : List Nat) (p : Nat) : List Nat :=
  (crypto.AesEncrypt K key (ivAfter K key data p)
    (copy_n data (p * DATA_BYTES_PER_PAGE) DATA_BYTES_PER_PAGE)).1

/-- The 8 pages of a data cluster as `WriteCluster` encrypts them, concatenated. -/
def encryptedCluster (K : Mbedtls) (key data : List Nat) : List Nat :=
  (List.range PAGES_PER_CLUSTER).foldl (fun acc p => acc ++ encryptedPage K key data p) []

/-- The assumption on AES: decrypting a whole cluster with the same key and a
zero iv inverts the page-by-page encryption of `data`. -/
def AesInverts (K : Mbedtls) (key data : List Nat) : Prop :=
  (crypto.AesDecrypt K key (List.replicate 16 0) (encryptedCluster K key data)).1 = data

/-- The data of page `p` as `WriteCluster` stores it in cluster `cluster`. -/
def storedPage (K : Mbedtls) (keys : FileSystemKeys) (cluster : Nat) (data : List Nat)
    (p : Nat) : List Nat :=
  if cluster ≥ SUPERBLOCK_START_CLUSTER then
    copy_n data (p * DATA_BYTES_PER_PAGE) DATA_BYTES_PER_PAGE
  else encryptedPage K keys.aes data p

/-! ## A concrete instance of the library interface -/

/-- An instance of the library interface in which the cipher is the identity
and the digest is constant; it is used to instantiate theorems at concrete
inputs. -/
def Mbedtls.plain : Mbedtls :=
  { aes_crypt_cbc_encrypt := fun _ iv src => (src, iv)
    aes_crypt_cbc_decrypt := fun _ iv src => (src, iv)
    sha1 := fun _ => List.replicate 20 0 }

/-- A key bundle. -/
def FileSystemKeys.sample : FileSystemKeys :=
  { hmac := List.replicate 20 1, aes := List.replicate 16 2 }

/-- Decidable equality of results. -/
instance instDecidableEqResult {α : Type} [DecidableEq α] : DecidableEq (Result α) :=
  fun a b =>
    match a, b with
    | .ok x, .ok y => if h : x = y then isTrue (by rw [h]) else isFalse (fun e => h (by cases e; rfl))
    | .error x, .error y =>
      if h : x = y then isTrue (by rw [h]) else isFalse (fun e => h (by cases e; rfl))
    | .ok _, .error _ => isFalse (fun e => by cases e)
    | .error _, .ok _ => isFalse (fun e => by cases e)

/-- A driver state over an all-zero NAND image in which descriptor 0 is open on
the file at FST index 1, with offset 4 and size 10. -/
def FileSystemImpl.sampleOpen : FileSystemImpl :=
  (FileSystemImpl.init (fun _ => 0) FileSystemKeys.sample).setHandle 0
    { opened := true, fst_index := 1, gid := 0, uid := 0, mode := 3, file_offset := 4,
      file_size := 10, superblock_flush_needed := false }

/-! ## Description of the effect of `FlushSuperblock` -/

/-- The state after `write_block` has written the superblock `sb` of state `s`
to the next replica. -/
def writtenState (K : Mbedtls) (s : FileSystemImpl) (sb : Superblock) : FileSystemImpl :=
  { s with
    m_superblock_index := (s.m_superblock_index + 1) % NUMBER_OF_SUPERBLOCKS
    m_nand := (writeBlockClusters K s.m_keys sb ((s.m_superblock_index + 1) % NUMBER_OF_SUPERBLOCKS)
      (GenerateHmacForSuperblock K s.m_keys sb
        ((s.m_superblock_index + 1) % NUMBER_OF_SUPERBLOCKS))
      CLUSTERS_PER_SUPERBLOCK s.m_nand).2 }

/-- A superblock with its version incremented (`u32`). -/
def Superblock.bump (sb : Superblock) : Superblock :=
  { sb with version := (sb.version + 1) % 2 ^ 32 }

/-- The state after one flush that increments the version and writes one
replica. -/
def flushStep (K : Mbedtls) (s : FileSystemImpl) : FileSystemImpl :=
  match s.m_superblock with
  | none => s
  | some sb => writtenState K { s with m_superblock := some sb.bump } sb.bump

/-- The members that `FlushSuperblock` does not touch are the same in `s` and `s'`,
and the superblocks of `s` and `s'` differ at most in their version. -/
def FlushFrame (s s' : FileSystemImpl) : Prop :=
  s'.m_keys = s.m_keys ∧ s'.m_handles = s.m_handles ∧
  s'.m_internal_handle = s.m_internal_handle ∧ s'.m_cache_handle = s.m_cache_handle ∧
  s'.m_cache_chain_index = s.m_cache_chain_index ∧ s'.m_cache_data = s.m_cache_data ∧
  s'.m_cache_for_write = s.m_cache_for_write ∧
  ∃ sb v, s.m_superblock = some sb ∧ s'.m_superblock = some { sb with version := v }

/-- A freshly constructed set of members over an all-zero NAND image. -/
def FileSystemImpl.blank : FileSystemImpl :=
  FileSystemImpl.init (fun _ => 0) FileSystemKeys.sample

/-- A formatted superblock that also holds the file "/u" at FST index 1, owned
by uid 1 with owner mode Read|Write and group and other mode None. -/
def Superblock.sample : Superblock :=
  let sb := formatSuperblock Superblock.zero
  let sb := sb.setFst 1
    { (FstEntry.zero.SetName (bytesOf "u")) with
      mode := 0xc1, uid := 1, sub := CLUSTER_LAST_IN_CHAIN, sib := 0xffff }
  sb.setFst 0 { sb.fst 0 with sub := 1 }

/-- A driver state over an all-zero NAND image whose superblock is
`Superblock.sample`. -/
def FileSystemImpl.sample : FileSystemImpl :=
  { FileSystemImpl.blank with m_superblock := some Superblock.sample }

/-! ## Well-formed FAT chains -/

/-- `IsChain sb first cs`: the FAT chain that starts at `first` runs through
exactly the clusters `cs`, each below `FAT_SIZE`, and ends with
`CLUSTER_LAST_IN_CHAIN`. -/
def IsChain (sb : Superblock) : Nat → List Nat → Prop
  | first, [] => first = CLUSTER_LAST_IN_CHAIN
  | first, c :: cs => first = c ∧ c < FAT_SIZE ∧ IsChain sb (sb.fat c) cs

/-- The update of the superblock at the end of `WriteFileData`, once the data is
in the newly allocated cluster `cluster`; `none` when the predecessor cluster is
missing (the code returns Invalid). -/
def spliceCluster (sb : Superblock) (fst_index chain_index new_size cluster : Nat) :
    Option Superblock :=
  let entry := sb.fst fst_index
  let old_cluster := GetClusterForFile sb entry.sub chain_index
  let spliced : Option Superblock :=
    if chain_index = 0 then some (sb.setFst fst_index { entry with sub := cluster })
    else
      match GetClusterForFile sb entry.sub (chain_index - 1) with
      | none => none
      | some prev => some (sb.setFat prev cluster)
  match spliced with
  | none => none
  | some sb1 =>
    let sb2 :=
      match old_cluster with
      | some old => sb1.setFat cluster (sb1.fat old)
      | none => sb1.setFat cluster CLUSTER_LAST_IN_CHAIN
    let sb3 :=
      match old_cluster with
      | some old => sb2.setFat old CLUSTER_UNUSED
      | none => sb2
    some (sb3.setFst fst_index { sb3.fst fst_index with size := new_size })

/-- Decidability of `IsChain`. -/
instance IsChain.decidable (sb : Superblock) : ∀ (first : Nat) (cs : List Nat),
    Decidable (IsChain sb first cs)
  | first, [] => inferInstanceAs (Decidable (first = CLUSTER_LAST_IN_CHAIN))
  | first, c :: cs =>
    @instDecidableAnd _ _ (inferInstanceAs (Decidable (first = c)))
      (@instDecidableAnd _ _ (inferInstanceAs (Decidable (c < FAT_SIZE)))
        (IsChain.decidable sb (sb.fat c) cs))

/-- `Superblock.sample` in which the file "/u" has size 1 and occupies
cluster 64. -/
def Superblock.sampleWritten : Superblock :=
  (Superblock.sample.setFat 64 CLUSTER_LAST_IN_CHAIN).setFst 1
    { Superblock.sample.fst 1 with sub := 64, size := 1 }

/-- A driver state over an all-zero NAND image whose superblock is
`Superblock.sampleWritten`. -/
def FileSystemImpl.sampleWritten : FileSystemImpl :=
  { FileSystemImpl.blank with m_superblock := some Superblock.sampleWritten }

/-! ## Concrete runs of the driver -/

/-- The state of a run: `none` once an operation has no result. -/
def stateOf {α : Type} (s : FileSystemImpl) (r : Option (α × FileSystemImpl)) : FileSystemImpl :=
  match r with
  | none => s
  | some x => x.2

namespace renameRun

/-- A run on a blank NAND image: `Format(0)`, ... -/
def s1 : FileSystemImpl := stateOf FileSystemImpl.blank (Format Mbedtls.plain FileSystemImpl.blank 0)

/-- ... `OpenFs(0, 0)`, which returns descriptor 0, ... -/
def s2 : FileSystemImpl := (OpenFs s1 0 0).2

/-- ... `CreateDirectory(0, "/a", 0, Read|Write, None, None)`, ... -/
def s3 : FileSystemImpl := stateOf s2 (CreateDirectory Mbedtls.plain s2 0 (bytesOf "/a") 0 3 0 0)

/-- ... `CreateFile(0, "/a/f", 0, Read|Write, None, None)`, ... -/
def s4 : FileSystemImpl := stateOf s3 (CreateFile Mbedtls.plain s3 0 (bytesOf "/a/f") 0 3 0 0)

/-- ... `OpenFile(0, 0, "/a/f", Write)`, which returns descriptor 1, ... -/
def s5 : FileSystemImpl := stateOf s4 (OpenFile Mbedtls.plain s4 0 0 (bytesOf "/a/f") 2)

/-- ... `WriteFile(1, [1], 1)`, ... -/
def s6 : FileSystemImpl := stateOf s5 (WriteFile Mbedtls.plain s5 1 [1] 1)

/-- ... `Close(1)`, ... -/
def s7 : FileSystemImpl := stateOf s6 (Close Mbedtls.plain s6 1)

/-- ... `Rename(0, "/a", "/a/b")`, ... -/
def s8 : FileSystemImpl := stateOf s7 (Rename Mbedtls.plain s7 0 (bytesOf "/a") (bytesOf "/a/b"))

/-- ... and `Close(0)`. -/
def s9 : FileSystemImpl := stateOf s8 (Close Mbedtls.plain s8 0)

end renameRun

namespace readRun

/-- A run on a blank NAND image: `Format(0)`, ... -/
def s1 : FileSystemImpl := stateOf FileSystemImpl.blank (Format Mbedtls.plain FileSystemImpl.blank 0)

/-- ... `OpenFs(0, 0)`, which returns descriptor 0, ... -/
def s2 : FileSystemImpl := (OpenFs s1 0 0).2

/-- ... `CreateFile(0, "/a", 0, Read|Write, None, None)`, ... -/
def s3 : FileSystemImpl := stateOf s2 (CreateFile Mbedtls.plain s2 0 (bytesOf "/a") 0 3 0 0)

/-- ... `OpenFile(0, 0, "/a", Write)`, which returns descriptor 1, ... -/
def s4 : FileSystemImpl := stateOf s3 (OpenFile Mbedtls.plain s3 0 0 (bytesOf "/a") 2)

/-- ... `WriteFile(1, data, 0x20)` with 32 bytes of data, ... -/
def s5 : FileSystemImpl := stateOf s4 (WriteFile Mbedtls.plain s4 1 (List.replicate 0x20 7) 0x20)

/-- ... `Close(1)`, ... -/
def s6 : FileSystemImpl := stateOf s5 (Close Mbedtls.plain s5 1)

/-- ... `OpenFile(0, 0, "/a", Read)`, which returns descriptor 1, ... -/
def s7 : FileSystemImpl := stateOf s6 (OpenFile Mbedtls.plain s6 0 0 (bytesOf "/a") 1)

/-- ... and `SeekFile(1, 0x10, Set)`. -/
def s8 : FileSystemImpl := (SeekFile s7 1 0x10 0).2

end readRun

/-! ## fs.cpp: ReadDirectory -/

/-- The loop of `ReadDirectory`; `none` when it does not terminate or when it
reads `fst` out of bounds (an index that is neither below `FST_SIZE` nor
0xffff). -/
def ReadDirectoryLoop (superblock : Superblock) :
    Nat → Nat → List (List Nat) → Option (List (List Nat))
  | 0, _, _ => none
  | fuel + 1, i, children =>
    if i = 0xffff then some children
    else if i ≥ FST_SIZE then none
    else
      ReadDirectoryLoop superblock fuel (superblock.fst i).sib
        (children ++ [(superblock.fst i).GetName])

/-- `FileSystemImpl::ReadDirectory`. -/
def ReadDirectory (K : Mbedtls) (s : FileSystemImpl) (fd : Nat) (path : List Nat) :
    Option (Result (List (List Nat)) × FileSystemImpl) :=
  match GetHandleFromFd s fd with
  | none => some (.error .Invalid, s)
  | some h =>
    if path = [] ∨ path.length > 64 ∨ path.head? ≠ some 47 then some (.error .Invalid, s)
    else
      let handle := s.handle h
      match GetSuperblock K s with
      | (none, s) => some (.error .SuperblockInitFailed, s)
      | (some superblock, s) =>
        match GetFstIndex superblock path with
        | none => none
        | some (.error _) => some (.error .NotFound, s)
        | some (.ok index) =>
          if !HasPermission (superblock.fst index) handle.uid handle.gid 1 then
            some (.error .AccessDenied, s)
          else if !(superblock.fst index).IsDirectory then some (.error .Invalid, s)
          else
            match ReadDirectoryLoop superblock (FST_SIZE + 1) (superblock.fst index).sub [] with
            | none => none
            | some children => some (.ok children, s)

/-! ## Child lists and the entries that path resolution reads -/

/-- `IsSibChain sb first cs`: the sibling chain that starts at `first` runs
through exactly the FST entries `cs`, each below `FST_SIZE`, and ends with
0xffff. -/
def IsSibChain (sb : Superblock) : Nat → List Nat → Prop
  | first, [] => first = 0xffff
  | first, c :: cs => first = c ∧ c < FST_SIZE ∧ IsSibChain sb (sb.fst c).sib cs

/-- Decidability of `IsSibChain`. -/
instance IsSibChain.decidable (sb : Superblock) : ∀ (first : Nat) (cs : List Nat),
    Decidable (IsSibChain sb first cs)
  | first, [] => inferInstanceAs (Decidable (first = 0xffff))
  | first, c :: cs =>
    @instDecidableAnd _ _ (inferInstanceAs (Decidable (first = c)))
      (@instDecidableAnd _ _ (inferInstanceAs (Decidable (c < FST_SIZE)))
        (IsSibChain.decidable sb (sb.fst c).sib cs))

/-- The entries whose name and `sib` the loop of `GetFstIndex(superblock, parent,
file_name)` reads, started at `index`. -/
def loopTrace (superblock : Superblock) (file_name : List Nat) : Nat → Nat → List Nat
  | 0, _ => []
  | fuel + 1, index =>
    index ::
      (if (superblock.fst index).GetName = file_name then []
       else if (superblock.fst index).sib < FST_SIZE then
         loopTrace superblock file_name fuel (superblock.fst index).sib
       else [])

/-- The entries whose name and `sib` `GetFstIndex(superblock, parent, file_name)`
reads. -/
def lookupTrace (superblock : Superblock) (parent : Nat) (file_name : List Nat) : List Nat :=
  if parent ≥ FST_SIZE ∨ file_name.length > 12 then []
  else if (superblock.fst parent).sub ≥ FST_SIZE then []
  else loopTrace superblock file_name FST_SIZE (superblock.fst parent).sub

/-- The directories whose `sub` the resolution of the components reads, from
the directory `fst_index` on. -/
def resolveDirs (superblock : Superblock) : List (List Nat) → Nat → List Nat
  | [], _ => []
  | component :: rest, fst_index =>
    fst_index ::
      (match GetFstIndexIn superblock fst_index component with
       | some (.ok result) => if result ≥ FST_SIZE then [] else resolveDirs superblock rest result
       | _ => [])

/-- The entries whose name and `sib` the resolution of the components reads. -/
def resolveTrace (superblock : Superblock) : List (List Nat) → Nat → List Nat
  | [], _ => []
  | component :: rest, fst_index =>
    lookupTrace superblock fst_index component ++
      (match GetFstIndexIn superblock fst_index component with
       | some (.ok result) => if result ≥ FST_SIZE then [] else resolveTrace superblock rest result
       | _ => [])

/-- The components that `GetFstIndex(superblock, path)` resolves. -/
def pathComponents (path : List Nat) : List (List Nat) :=
  if path = [47] ∨ path = [] then [] else SplitString (path.drop 1) 47

/-! ## Open files below a directory -/

/-- `OpenFileBelow s sb c`: the traversal of `IsDirectoryInUse` from the child
`c` on meets a file that a public handle has open: `c` itself, or one reached
through the `sib` link of `c`, or through the `sub` link of `c` when `c` is not
a file. -/
inductive OpenFileBelow (s : FileSystemImpl) (sb : Superblock) : Nat → Prop
  | here (c : Nat) : c < FST_SIZE → (sb.fst c).IsFile = true → IsFileOpened s c = true →
      OpenFileBelow s sb c
  | sib (c : Nat) : c < FST_SIZE → OpenFileBelow s sb (sb.fst c).sib → OpenFileBelow s sb c
  | sub (c : Nat) : c < FST_SIZE → (sb.fst c).IsFile = false →
      OpenFileBelow s sb (sb.fst c).sub → OpenFileBelow s sb c

/-- `LinksDecrease sb rank region`: from an entry of the region, the `sib` link,
and the `sub` link when the entry is not a file, lead to an entry of the region
with a smaller rank, or out of the FST; the links followed from the region then
form no cycle. -/
def LinksDecrease (sb : Superblock) (rank : Nat → Nat) (region : Nat → Prop) : Prop :=
  ∀ i, i < FST_SIZE → region i →
    ((sb.fst i).sib < FST_SIZE → region (sb.fst i).sib ∧ rank (sb.fst i).sib < rank i) ∧
    ((sb.fst i).IsFile = false → (sb.fst i).sub < FST_SIZE →
      region (sb.fst i).sub ∧ rank (sb.fst i).sub < rank i)

/-! ## More concrete states -/

/-- A formatted superblock with the directories "/d" (FST index 1) and "/e"
(index 2) and the file "/d/f" (index 3), all owned by uid 0. -/
def Superblock.sampleTree : Superblock :=
  let sb := formatSuperblock Superblock.zero
  let sb := sb.setFst 1
    { (FstEntry.zero.SetName (bytesOf "d")) with mode := 0xc2, sub := 3, sib := 0xffff }
  let sb := sb.setFst 2
    { (FstEntry.zero.SetName (bytesOf "e")) with mode := 0xc2, sub := 0xffff, sib := 1 }
  let sb := sb.setFst 3
    { (FstEntry.zero.SetName (bytesOf "f")) with
      mode := 0xc1, sub := CLUSTER_LAST_IN_CHAIN, sib := 0xffff }
  sb.setFst 0 { sb.fst 0 with sub := 2 }

/-- A driver state over an all-zero NAND image whose superblock is
`Superblock.sampleTree`. -/
def FileSystemImpl.sampleTree : FileSystemImpl :=
  { FileSystemImpl.blank with m_superblock := some Superblock.sampleTree }

/-- The state `FileSystemImpl.sampleTree` in which descriptor 0 is open on the
file "/d/f". -/
def FileSystemImpl.sampleTreeOpen : FileSystemImpl :=
  FileSystemImpl.sampleTree.setHandle 0
    { opened := true, fst_index := 3, gid := 0, uid := 0, mode := 1, file_offset := 0,
      file_size := 0, superblock_flush_needed := false }

/-- A driver state over an all-zero NAND image with a formatted superblock. -/
def FileSystemImpl.formatted : FileSystemImpl :=
  { FileSystemImpl.blank with m_superblock := some (formatSuperblock Superblock.zero) }

/-- The directories whose `sub` `GetFstIndex(superblock, path)` reads. -/
def pathDirs (superblock : Superblock) (path : List Nat) : List Nat :=
  resolveDirs superblock (pathComponents path) 0

/-- The entries whose name and `sib` `GetFstIndex(superblock, path)` reads. -/
def pathTrace (superblock : Superblock) (path : List Nat) : List Nat :=
  resolveTrace superblock (pathComponents path) 0

/-- The creation in turn of the children `names` of the directory `dir` (a
path that ends with a separator): each is a file or a directory, and each
creation has to return `Success`. -/
def createChildren (K : Mbedtls) (fd : Nat) (dir : List Nat) (attr owner_mode group_mode
    other_mode : Nat) : List (List Nat × Bool) → FileSystemImpl → Option FileSystemImpl
  | [], s => some s
  | (name, is_file) :: rest, s =>
    let r :=
      if is_file then CreateFile K s fd (dir ++ name) attr owner_mode group_mode other_mode
      else CreateDirectory K s fd (dir ++ name) attr owner_mode group_mode other_mode
    match r with
    | some (.Success, s) => createChildren K fd dir attr owner_mode group_mode other_mode rest s
    | _ => none

/-- A formatted superblock with the files "/a" (FST index 1, empty) and "/b"
(index 2, 0x4001 bytes in the clusters 64 and 65); the root's child list is
"a", "b". -/
def Superblock.sampleFiles : Superblock :=
  let sb := formatSuperblock Superblock.zero
  let sb := sb.setFst 1
    { (FstEntry.zero.SetName (bytesOf "a")) with
      mode := 0xc1, sub := CLUSTER_LAST_IN_CHAIN, sib := 2 }
  let sb := sb.setFst 2
    { (FstEntry.zero.SetName (bytesOf "b")) with
      mode := 0xc1, sub := 64, sib := 0xffff, size := 0x4001 }
  let sb := sb.setFst 0 { sb.fst 0 with sub := 1 }
  (sb.setFat 64 65).setFat 65 CLUSTER_LAST_IN_CHAIN

/-- A driver state over an all-zero NAND image whose superblock is
`Superblock.sampleFiles`. -/
def FileSystemImpl.sampleFiles : FileSystemImpl :=
  { FileSystemImpl.blank with m_superblock := some Superblock.sampleFiles }

/-! ## Superblocks as they are stored -/

/-- The fields of an FST entry fit their C++ types. -/
def FstEntry.WF (e : FstEntry) : Prop :=
  e.name.length = 12 ∧ e.sub < 65536 ∧ e.sib < 65536 ∧ e.size < 2 ^ 32 ∧ e.uid < 2 ^ 32 ∧
  e.gid < 65536 ∧ e.x3 < 2 ^ 32

/-- The fields of a superblock, its version apart, fit their C++ types. -/
def Superblock.WF (sb : Superblock) : Prop :=
  sb.magic.length = 4 ∧ sb.unknown < 2 ^ 32 ∧ (∀ i, i < FAT_SIZE → sb.fat i < 65536) ∧
  (∀ i, i < FST_SIZE → (sb.fst i).WF) ∧ sb.padding.length = 20

/-- `NoNewerReplica K s sb`: no superblock replica in the NAND image, other
than the one that the next flush overwrites, carries the magic and a version
greater than the version of `sb`. -/
def NoNewerReplica (K : Mbedtls) (s : FileSystemImpl) (sb : Superblock) : Prop :=
  ∀ i, i < NUMBER_OF_SUPERBLOCKS → i ≠ (s.m_superblock_index + 1) % NUMBER_OF_SUPERBLOCKS →
    ∀ sbi, ReadSuperblock K s.m_keys s.m_nand i = .ok sbi → sbi.magic = SUPERBLOCK_MAGIC →
      sbi.version ≤ sb.version

/-- The state of a driver constructed over the NAND image and keys of `s`, after
its discovery scan has selected the replica `index` holding `sb`. -/
def FileSystemImpl.reopened (s : FileSystemImpl) (index : Nat) (sb : Superblock) :
    FileSystemImpl :=
  { FileSystemImpl.init s.m_nand s.m_keys with
    m_superblock_index := index, m_superblock := some sb }

/-- A driver state over an all-zero NAND image that holds a formatted
superblock of version 0xffffffff. -/
def FileSystemImpl.lastVersion : FileSystemImpl :=
  { FileSystemImpl.blank with
    m_superblock := some { formatSuperblock Superblock.zero with version := 0xffffffff } }

/-! ## fs.cpp: SetMetadata -/

/-- `FileSystemImpl::SetMetadata`. -/
def SetMetadata (K : Mbedtls) (s : FileSystemImpl) (fd : Nat) (path : List Nat)
    (uid gid attr owner_mode group_mode other_mode : Nat) :
    Option (ResultCode × FileSystemImpl) :=
  match GetHandleFromFd s fd with
  | none => some (.Invalid, s)
  | some h =>
    if path = [] ∨ path.length > 64 ∨ path.head? ≠ some 47 then some (.Invalid, s)
    else
      let handle := s.handle h
      match GetSuperblock K s with
      | (none, s) => some (.SuperblockInitFailed, s)
      | (some superblock, s) =>
        match GetFstIndex superblock path with
        | none => none
        | some (.error _) => some (.NotFound, s)
        | some (.ok index) =>
          let current_entry := superblock.fst index
          if handle.uid ≠ 0 ∧ handle.uid ≠ current_entry.uid then some (.AccessDenied, s)
          else if handle.uid ≠ 0 ∧ current_entry.uid ≠ uid then some (.AccessDenied, s)
          else if current_entry.IsFile && decide (current_entry.size ≠ 0) then
            some (.FileNotEmpty, s)
          else
            let entry := { current_entry with gid := gid, uid := uid, attr := attr }
            let entry := entry.SetAccessMode owner_mode group_mode other_mode
            FlushSuperblock K { s with m_superblock := some (superblock.setFst index entry) }

/-! ## More instances and states -/

/-- An instance of the library interface in which the cipher is the identity
and the digest is the first 20 bytes of its input, so that the HMAC depends on
the key. -/
def Mbedtls.keyed : Mbedtls :=
  { aes_crypt_cbc_encrypt := fun _ iv src => (src, iv)
    aes_crypt_cbc_decrypt := fun _ iv src => (src, iv)
    sha1 := fun l => copy_n l 0 20 }

/-- A second key bundle, with another HMAC key. -/
def FileSystemKeys.other : FileSystemKeys :=
  { hmac := List.replicate 20 3, aes := List.replicate 16 2 }

/-- A formatted superblock with one file "/h" (FST index 1) whose size field
holds 0xffffffff. -/
def Superblock.sampleHuge : Superblock :=
  let sb := formatSuperblock Superblock.zero
  let sb := sb.setFst 1
    { (FstEntry.zero.SetName (bytesOf "h")) with
      mode := 0xc1, sub := CLUSTER_LAST_IN_CHAIN, sib := 0xffff, size := 0xffffffff }
  sb.setFst 0 { sb.fst 0 with sub := 1 }

/-- A driver state over an all-zero NAND image whose superblock is
`Superblock.sampleHuge`. -/
def FileSystemImpl.sampleHuge : FileSystemImpl :=
  { FileSystemImpl.blank with m_superblock := some Superblock.sampleHuge }

/-- The state after `n` consecutive calls of `Format(0)`, each of which has to
return `Success`. -/
def formatTimes (K : Mbedtls) : Nat → FileSystemImpl → Option FileSystemImpl
  | 0, s => some s
  | n + 1, s =>
    match Format K s 0 with
    | some (.Success, s) => formatTimes K n s
    | _ => none

/-- The discovery loop of `GetSuperblock` over the 16 replicas of a NAND image. -/
def discover (K : Mbedtls) (keys : FileSystemKeys) (nand : Nat → Nat) (index : Nat) : Discovery :=
  (List.range NUMBER_OF_SUPERBLOCKS).foldl (discoverStep K keys nand)
    { highest_version := 0, m_superblock_index := index, m_superblock := none }

end wiifs

namespace wiifs

/-- A driver constructed with the key bundle `FileSystemKeys.other` over the
NAND image that one flush of a formatted state leaves under the key bundle
`FileSystemKeys.sample`: the newest replica carries the magic, and its stored
HMAC copies were made with another key. -/
def FileSystemImpl.foreignKey : FileSystemImpl :=
  FileSystemImpl.init (flushStep Mbedtls.keyed FileSystemImpl.formatted).m_nand
    FileSystemKeys.other

end wiifs

namespace wiifs

/-! ## States for the file cache, nested directories and path resolution -/

/-- `NAND_SIZE` (fs.h). -/
abbrev NAND_SIZE : Nat := 0x21000000

/-- A formatted superblock with the files "/a" (FST index 1, 0x20 bytes in
cluster 64) and "/b" (index 2, 0x20 bytes in cluster 65), owned by uid 0. -/
def Superblock.sampleTwo : Superblock :=
  let sb := formatSuperblock Superblock.zero
  let sb := sb.setFst 1
    { (FstEntry.zero.SetName (bytesOf "a")) with mode := 0xc1, sub := 64, sib := 2, size := 0x20 }
  let sb := sb.setFst 2
    { (FstEntry.zero.SetName (bytesOf "b")) with
      mode := 0xc1, sub := 65, sib := 0xffff, size := 0x20 }
  let sb := sb.setFst 0 { sb.fst 0 with sub := 1 }
  (sb.setFat 64 CLUSTER_LAST_IN_CHAIN).setFat 65 CLUSTER_LAST_IN_CHAIN

/-- A driver state whose superblock is `Superblock.sampleTwo`, over a NAND image
that is zero except for the first data byte of cluster 64, which is 7, and for
the first byte of each of the two HMAC copies stored with cluster 65, which is
1; descriptor 0 is open for Read on "/a" and descriptor 1 on "/b". -/
def FileSystemImpl.sampleCorrupt : FileSystemImpl :=
  { FileSystemImpl.blank with
    m_nand := fun a =>
      if a = Offset 64 0 then 7
      else if a = Offset 65 HMAC_PAGE1 + DATA_BYTES_PER_PAGE + HMAC1_OFFSET_IN_PAGE1 then 1
      else if a = Offset 65 HMAC_PAGE1 + DATA_BYTES_PER_PAGE + HMAC2_OFFSET_IN_PAGE1 then 1
      else 0
    m_superblock := some Superblock.sampleTwo
    m_handles := fun i =>
      if i = 0 then
        { opened := true, fst_index := 1, gid := 0, uid := 0, mode := 1, file_offset := 0,
          file_size := 0x20, superblock_flush_needed := false }
      else if i = 1 then
        { opened := true, fst_index := 2, gid := 0, uid := 0, mode := 1, file_offset := 0,
          file_size := 0x20, superblock_flush_needed := false }
      else Handle.default }

/-- A formatted superblock with the directory "/d" (FST index 1), its
subdirectory "/d/e" (index 2) and the file "/d/e/f" (index 3), owned by
uid 0. -/
def Superblock.sampleNested : Superblock :=
  let sb := formatSuperblock Superblock.zero
  let sb := sb.setFst 1
    { (FstEntry.zero.SetName (bytesOf "d")) with mode := 0xc2, sub := 2, sib := 0xffff }
  let sb := sb.setFst 2
    { (FstEntry.zero.SetName (bytesOf "e")) with mode := 0xc2, sub := 3, sib := 0xffff }
  let sb := sb.setFst 3
    { (FstEntry.zero.SetName (bytesOf "f")) with
      mode := 0xc1, sub := CLUSTER_LAST_IN_CHAIN, sib := 0xffff }
  sb.setFst 0 { sb.fst 0 with sub := 1 }

/-- A driver state over an all-zero NAND image whose superblock is
`Superblock.sampleNested`. -/
def FileSystemImpl.sampleNested : FileSystemImpl :=
  { FileSystemImpl.blank with m_superblock := some Superblock.sampleNested }

/-- A formatted superblock with the file "/f" (FST index 1, one byte in cluster
64) and the file "/x" (FST index 64, empty); the root's child list is "x",
"f". -/
def Superblock.sampleShadow : Superblock :=
  let sb := formatSuperblock Superblock.zero
  let sb := sb.setFst 1
    { (FstEntry.zero.SetName (bytesOf "f")) with
      mode := 0xc1, sub := 64, sib := 0xffff, size := 1 }
  let sb := sb.setFst 64
    { (FstEntry.zero.SetName (bytesOf "x")) with
      mode := 0xc1, sub := CLUSTER_LAST_IN_CHAIN, sib := 1 }
  let sb := sb.setFst 0 { sb.fst 0 with sub := 64 }
  sb.setFat 64 CLUSTER_LAST_IN_CHAIN

/-- `Reachable sb i`: the FST entry `i` is reached from the root entry 0 by
`sub` links of directories and `sib` links, all within the FST. -/
inductive Reachable (sb : Superblock) : Nat → Prop
  | root : Reachable sb 0
  | sub (i : Nat) : Reachable sb i → i < FST_SIZE → (sb.fst i).IsDirectory = true →
      (sb.fst i).sub < FST_SIZE → Reachable sb (sb.fst i).sub
  | sib (i : Nat) : Reachable sb i → i < FST_SIZE → (sb.fst i).sib < FST_SIZE →
      Reachable sb (sb.fst i).sib

/-- A page in which bit `b` of byte `i` is flipped. -/
def flipBit (page : List Nat) (i b : Nat) : List Nat :=
  page.set i (page.getD i 0 ^^^ (1 <<< b))

/-- The 12-bit field `a0` of ECC group `k`: bytes 0 and 1 of the group, little
endian. -/
def eccField0 (e : List Nat) (k : Nat) : Nat := e.getD (4 * k) 0 + 256 * e.getD (4 * k + 1) 0

/-- The 12-bit field `a1` of ECC group `k`: bytes 2 and 3 of the group, little
endian. -/
def eccField1 (e : List Nat) (k : Nat) : Nat :=
  e.getD (4 * k + 2) 0 + 256 * e.getD (4 * k + 3) 0

end wiifs

namespace wiifs

/-- The state of a run after a `ReadFile`: unchanged when the call has no
result. -/
def stateOfRead (s : FileSystemImpl) (r : Option (Result Nat × List Nat × FileSystemImpl)) :
    FileSystemImpl :=
  match r with
  | none => s
  | some x => x.2.2

namespace overwriteRun

/-- A run on the state `FileSystemImpl.sampleWritten`, whose file "/u" holds one
byte: `OpenFile(0, 0, "/u", Write)`, which returns descriptor 0, ... -/
def s1 : FileSystemImpl :=
  stateOf FileSystemImpl.sampleWritten
    (OpenFile Mbedtls.plain FileSystemImpl.sampleWritten 0 0 (bytesOf "/u") 2)

/-- ... and `WriteFile(0, [9], 1)` at offset 0. -/
def s2 : FileSystemImpl := stateOf s1 (WriteFile Mbedtls.plain s1 0 [9] 1)

end overwriteRun

namespace extendRun

/-- A run on the state `FileSystemImpl.sampleWritten`, whose file "/u" holds one
byte: `OpenFile(0, 0, "/u", Read|Write)`, which returns descriptor 0, ... -/
def s1 : FileSystemImpl :=
  stateOf FileSystemImpl.sampleWritten
    (OpenFile Mbedtls.plain FileSystemImpl.sampleWritten 0 0 (bytesOf "/u") 3)

/-- ... `ReadFile(0, 1)`, which reads the byte of the file, ... -/
def s2 : FileSystemImpl := stateOfRead s1 (ReadFile Mbedtls.plain s1 0 1)

/-- ... `WriteFile(0, [9, 9], 2)`, which extends the file to 3 bytes within the
cluster just read, ... -/
def s3 : FileSystemImpl := stateOf s2 (WriteFile Mbedtls.plain s2 0 [9, 9] 2)

/-- ... `Close(0)`, ... -/
def s4 : FileSystemImpl := stateOf s3 (Close Mbedtls.plain s3 0)

/-- ... and `OpenFile(0, 0, "/u", Read)`, which returns descriptor 0. -/
def s5 : FileSystemImpl := stateOf s4 (OpenFile Mbedtls.plain s4 0 0 (bytesOf "/u") 1)

end extendRun

namespace staleRun

/-- A run on the state `FileSystemImpl.sampleCorrupt`: `ReadFile(0, 0x20)` on
"/a", which loads cluster 64 into the cache, ... -/
def s1 : FileSystemImpl :=
  stateOfRead FileSystemImpl.sampleCorrupt
    (ReadFile Mbedtls.plain FileSystemImpl.sampleCorrupt 0 0x20)

/-- ... and `ReadFile(1, 0x20)` on "/b", whose cluster fails the HMAC check. -/
def s2 : FileSystemImpl := stateOfRead s1 (ReadFile Mbedtls.plain s1 1 0x20)

end staleRun

end wiifs

namespace ecc

/-! ## The ECC of a subblock in terms of parities -/

/-- The XOR of the bytes `data[i]`, `i < n`, whose index has bit `j` equal to
`c`: the value that the accumulation loop leaves in `a[3 + j][c]`. -/
def rowXor (data : List Nat) (j c n : Nat) : Nat :=
  (List.range n).foldl
    (fun acc i => if (i >>> j) &&& 1 = c then acc ^^^ (data.getD i 0 % 256) else acc) 0

/-- The array `a` of `ecc::Calculate` for one subblock, after the parity
loop. -/
def parities (data : List Nat) : List Nat :=
  let a := accumulate data
  let x := (getA a 3 0) ^^^ (getA a 3 1)
  let a := setA a 0 0 (x &&& 0x55)
  let a := setA a 0 1 (x &&& 0xaa)
  let a := setA a 1 0 (x &&& 0x33)
  let a := setA a 1 1 (x &&& 0xcc)
  let a := setA a 2 0 (x &&& 0x0f)
  let a := setA a 2 1 (x &&& 0xf0)
  a.map Parity

/-- The loop `a0 |= a[j][c] << j` over `j < n`. -/
def ofBits (f : Nat → Nat) (n : Nat) : Nat :=
  (List.range n).foldl (fun acc j => acc ||| (f j <<< j)) 0

/-- The masks of the rows 0, 1 and 2 of `a`. -/
def rowMask (r c : Nat) : Nat :=
  if r = 0 then (if c = 0 then 0x55 else 0xaa)
  else if r = 1 then (if c = 0 then 0x33 else 0xcc)
  else (if c = 0 then 0x0f else 0xf0)

end ecc

namespace wiifs

namespace nulRun

/-- The path "/a\0b": its basename is the 3 bytes 'a', NUL, 'b'. -/
def p1 : List Nat := [47, 97, 0, 98]

/-- The path "/a\0c". -/
def p2 : List Nat := [47, 97, 0, 99]

/-- A run on the formatted state `FileSystemImpl.formatted`, through the
internal handle (uid 0): `CreateFile("/a\0b", 0, Read|Write, None, None)`, ... -/
def s1 : FileSystemImpl :=
  stateOf FileSystemImpl.formatted
    (CreateFile Mbedtls.plain FileSystemImpl.formatted INTERNAL_FD p1 0 3 0 0)

/-- ... and `CreateFile("/a\0c", 0, Read|Write, None, None)`. -/
def s2 : FileSystemImpl := stateOf s1 (CreateFile Mbedtls.plain s1 INTERNAL_FD p2 0 3 0 0)

end nulRun

end wiifs

/-! # Theorems -/

/-! ## Byte buffers -/

theorem copy_n_length (data : List Nat) (off n : Nat) : (copy_n data off n).length = n := by
  simp [copy_n]

theorem readBytes_length (nand : Nat → Nat) (a n : Nat) : (readBytes nand a n).length = n := by
  simp [readBytes]

theorem copyInto_length (buf : List Nat) (off : Nat) (src : List Nat) :
    (copyInto buf off src).length = buf.length := by
  simp [copyInto]

theorem copy_n_getD (data : List Nat) (off n i : Nat) (h : i < n) :
    (copy_n data off n).getD i 0 = data.getD (off + i) 0 := by
  simp [copy_n, List.getD_eq_getElem?_getD, h]

theorem readBytes_getD (nand : Nat → Nat) (a n i : Nat) (h : i < n) :
    (readBytes nand a n).getD i 0 = nand (a + i) := by
  simp [readBytes, List.getD_eq_getElem?_getD, h]

theorem copyInto_getD (buf : List Nat) (off : Nat) (src : List Nat) (i : Nat)
    (h : i < buf.length) :
    (copyInto buf off src).getD i 0
      = if off ≤ i ∧ i < off + src.length then src.getD (i - off) 0 else buf.getD i 0 := by
  simp [copyInto, List.getD_eq_getElem?_getD, h]

/-- A list is determined by its length and its elements. -/
theorem list_eq_of_getD {l m : List Nat} (hlen : l.length = m.length)
    (h : ∀ i, i < l.length → l.getD i 0 = m.getD i 0) : l = m := by
  apply List.ext_getElem hlen
  intro i h1 h2
  have := h i h1
  simpa [List.getD_eq_getElem?_getD, h1, h2] using this

theorem readBytes_eq_of_getD (f : Nat → Nat) (a : Nat) (l : List Nat)
    (h : ∀ i, i < l.length → f (a + i) = l.getD i 0) : readBytes f a l.length = l := by
  apply list_eq_of_getD (readBytes_length _ _ _)
  intro i hi
  rw [readBytes_length] at hi
  rw [readBytes_getD _ _ _ _ hi, h i hi]

theorem copy_n_all (d : List Nat) : copy_n d 0 d.length = d := by
  apply list_eq_of_getD (copy_n_length _ _ _)
  intro i hi
  rw [copy_n_length] at hi
  rw [copy_n_getD _ _ _ _ hi]; simp

theorem copy_n_append (d : List Nat) (off n m : Nat) :
    copy_n d off n ++ copy_n d (off + n) m = copy_n d off (n + m) := by
  apply list_eq_of_getD (by simp [copy_n_length])
  intro i hi
  simp only [List.length_append, copy_n_length] at hi
  rw [copy_n_getD _ _ _ _ hi]
  by_cases h : i < n
  · rw [List.getD_append _ _ _ _ (by simpa [copy_n_length] using h), copy_n_getD _ _ _ _ h]
  · have h' : n ≤ i := Nat.le_of_not_lt h
    rw [List.getD_append_right _ _ _ _ (by simpa [copy_n_length] using h'), copy_n_length,
      copy_n_getD _ _ _ _ (by omega)]
    congr 1; omega

theorem writeBytes_of_mem (nand : Nat → Nat) (dest : Nat) (src : List Nat) (a : Nat)
    (h1 : dest ≤ a) (h2 : a < dest + src.length) :
    writeBytes nand dest src a = src.getD (a - dest) 0 := by
  simp [writeBytes, h1, h2]

theorem writeBytes_of_not_mem (nand : Nat → Nat) (dest : Nat) (src : List Nat) (a : Nat)
    (h : a < dest ∨ dest + src.length ≤ a) : writeBytes nand dest src a = nand a := by
  have : ¬ (dest ≤ a ∧ a < dest + src.length) := by omega
  simp [writeBytes, this]

theorem readBytes_writeBytes_same (nand : Nat → Nat) (dest : Nat) (src : List Nat) :
    readBytes (writeBytes nand dest src) dest src.length = src := by
  apply readBytes_eq_of_getD
  intro i hi
  rw [writeBytes_of_mem _ _ _ _ (by omega) (by omega)]
  congr 1; omega

theorem readBytes_congr (f g : Nat → Nat) (a n : Nat) (h : ∀ i, i < n → f (a + i) = g (a + i)) :
    readBytes f a n = readBytes g a n := by
  apply list_eq_of_getD (by simp [readBytes_length])
  intro i hi
  rw [readBytes_length] at hi
  rw [readBytes_getD _ _ _ _ hi, readBytes_getD _ _ _ _ hi, h i hi]

namespace wiifs

/-! ## Cluster I/O -/

theorem Offset_eq (c p : Nat) (hc : c < 0x8000) (hp : p < 8) :
    Offset c p = c * 16896 + p * 2112 := by
  unfold Offset
  rw [Nat.mod_eq_of_lt] <;> simp only [PAGES_PER_CLUSTER, PAGE_SIZE, DATA_BYTES_PER_PAGE,
    SPARE_BYTES_PER_PAGE] <;> omega

theorem AesEncrypt_length (K : Mbedtls) (key iv src : List Nat) :
    (crypto.AesEncrypt K key iv src).1.length = src.length := by
  simp [crypto.AesEncrypt, copy_n_length]

theorem AesDecrypt_length (K : Mbedtls) (key iv src : List Nat) :
    (crypto.AesDecrypt K key iv src).1.length = src.length := by
  simp [crypto.AesDecrypt, copy_n_length]

theorem storedPage_length (K : Mbedtls) (keys : FileSystemKeys) (c : Nat) (d : List Nat)
    (p : Nat) : (storedPage K keys c d p).length = 2048 := by
  unfold storedPage encryptedPage
  split <;> simp [copy_n_length, AesEncrypt_length]

theorem pageSpare_length (page : Nat) (stored hmac : List Nat) :
    (pageSpare page stored hmac).length = 64 := by
  unfold pageSpare
  simp only []
  split
  · simp [copyInto_length]
  · split <;> simp [copyInto_length]

/-- The state of the page loop of `WriteCluster` after `n` pages. -/
theorem pagesState_succ (K : Mbedtls) (keys : FileSystemKeys) (c : Nat) (d h : List Nat)
    (st : (Nat → Nat) × List Nat) (n : Nat) :
    (List.range (n + 1)).foldl (writePage K keys c d h) st
      = writePage K keys c d h ((List.range n).foldl (writePage K keys c d h) st) n := by
  rw [List.range_succ, List.foldl_append]; rfl

/-- One iteration of the page loop, address by address. -/
theorem writePage_apply (K : Mbedtls) (keys : FileSystemKeys) (c : Nat) (d h : List Nat)
    (st : (Nat → Nat) × List Nat) (p a : Nat)
    (hiv : c < SUPERBLOCK_START_CLUSTER → st.2 = ivAfter K keys.aes d p) :
    (writePage K keys c d h st p).1 a =
      if Offset c p + 2048 ≤ a ∧ a < Offset c p + 2112 then
        (pageSpare p (storedPage K keys c d p) h).getD (a - (Offset c p + 2048)) 0
      else if Offset c p ≤ a ∧ a < Offset c p + 2048 then
        (storedPage K keys c d p).getD (a - Offset c p) 0
      else st.1 a := by
  unfold writePage storedPage
  by_cases hs : c ≥ SUPERBLOCK_START_CLUSTER
  · simp only [hs, if_true]
    have hl : (copy_n d (p * DATA_BYTES_PER_PAGE) DATA_BYTES_PER_PAGE).length = 2048 :=
      copy_n_length _ _ _
    have hr := readBytes_writeBytes_same st.1 (Offset c p)
      (copy_n d (p * DATA_BYTES_PER_PAGE) DATA_BYTES_PER_PAGE)
    rw [hl] at hr
    simp only [DATA_BYTES_PER_PAGE] at hr hl ⊢
    rw [hr]
    simp only [writeBytes, pageSpare_length, hl]
  · simp only [hs, if_false]
    have hiv' := hiv (by omega)
    rw [hiv']
    unfold encryptedPage
    have hl : (crypto.AesEncrypt K keys.aes (ivAfter K keys.aes d p)
        (copy_n d (p * DATA_BYTES_PER_PAGE) DATA_BYTES_PER_PAGE)).1.length = 2048 := by
      rw [AesEncrypt_length, copy_n_length]
    have hr := readBytes_writeBytes_same st.1 (Offset c p)
      (crypto.AesEncrypt K keys.aes (ivAfter K keys.aes d p)
        (copy_n d (p * DATA_BYTES_PER_PAGE) DATA_BYTES_PER_PAGE)).1
    rw [hl] at hr
    simp only [DATA_BYTES_PER_PAGE] at hr hl ⊢
    rw [hr]
    simp only [writeBytes, pageSpare_length, hl]

theorem writePage_iv (K : Mbedtls) (keys : FileSystemKeys) (c : Nat) (d h : List Nat)
    (st : (Nat → Nat) × List Nat) (p : Nat)
    (hc : c < SUPERBLOCK_START_CLUSTER) (hiv : st.2 = ivAfter K keys.aes d p) :
    (writePage K keys c d h st p).2 = ivAfter K keys.aes d (p + 1) := by
  have hs : ¬ c ≥ SUPERBLOCK_START_CLUSTER := by omega
  simp [writePage, hs, hiv, ivAfter]

theorem pagesState_iv (K : Mbedtls) (keys : FileSystemKeys) (nand : Nat → Nat) (c : Nat)
    (d h : List Nat) (hc : c < SUPERBLOCK_START_CLUSTER) (n : Nat) :
    ((List.range n).foldl (writePage K keys c d h) (nand, List.replicate 16 0)).2
      = ivAfter K keys.aes d n := by
  induction n with
  | zero => rfl
  | succ n ih => rw [pagesState_succ]; exact writePage_iv K keys c d h _ n hc ih

/-- The NAND image after `n` iterations of the page loop, address by address. -/
theorem pagesState_apply (K : Mbedtls) (keys : FileSystemKeys) (nand : Nat → Nat) (c : Nat)
    (d h : List Nat) (hc : c < 0x8000) (n : Nat) (hn : n ≤ 8) (a : Nat) :
    ((List.range n).foldl (writePage K keys c d h) (nand, List.replicate 16 0)).1 a =
      if c * 16896 ≤ a ∧ a < c * 16896 + n * 2112 then
        (if (a - c * 16896) % 2112 < 2048 then
          (storedPage K keys c d ((a - c * 16896) / 2112)).getD ((a - c * 16896) % 2112) 0
         else
          (pageSpare ((a - c * 16896) / 2112) (storedPage K keys c d ((a - c * 16896) / 2112))
            h).getD ((a - c * 16896) % 2112 - 2048) 0)
      else nand a := by
  induction n with
  | zero =>
    have h0 : ¬ (c * 16896 ≤ a ∧ a < c * 16896 + 0 * 2112) := by omega
    rw [if_neg h0]; rfl
  | succ n ih =>
    have ih' := ih (by omega)
    have hdm : ∀ x, n * 2112 ≤ x → x < n * 2112 + 2112 →
        x / 2112 = n ∧ x % 2112 = x - n * 2112 := by
      intro x h1 h2; omega
    rw [pagesState_succ, writePage_apply K keys c d h _ n a
      (fun hlt => pagesState_iv K keys nand c d h hlt n), Offset_eq c n hc (by omega)]
    clear ih
    by_cases h2 : c * 16896 + n * 2112 + 2048 ≤ a ∧ a < c * 16896 + n * 2112 + 2112
    · have hin : c * 16896 ≤ a ∧ a < c * 16896 + (n + 1) * 2112 := by omega
      obtain ⟨hq, hr⟩ := hdm (a - c * 16896) (by omega) (by omega)
      have hnot : ¬ (a - c * 16896 - n * 2112 < 2048) := by omega
      rw [if_pos h2]
      rw [if_pos hin]
      rw [hq]
      rw [hr]
      rw [if_neg hnot]
      have hidx : a - (c * 16896 + n * 2112 + 2048) = a - c * 16896 - n * 2112 - 2048 := by omega
      rw [hidx]
    · rw [if_neg h2]
      by_cases h3 : c * 16896 + n * 2112 ≤ a ∧ a < c * 16896 + n * 2112 + 2048
      · have hin : c * 16896 ≤ a ∧ a < c * 16896 + (n + 1) * 2112 := by omega
        obtain ⟨hq, hr⟩ := hdm (a - c * 16896) (by omega) (by omega)
        have hlt : a - c * 16896 - n * 2112 < 2048 := by omega
        rw [if_pos h3, if_pos hin, hq, hr, if_pos hlt]
        have hidx : a - (c * 16896 + n * 2112) = a - c * 16896 - n * 2112 := by omega
        rw [hidx]
      · rw [if_neg h3, ih']
        by_cases h4 : c * 16896 ≤ a ∧ a < c * 16896 + n * 2112
        · have hin : c * 16896 ≤ a ∧ a < c * 16896 + (n + 1) * 2112 := by omega
          rw [if_pos h4, if_pos hin]
        · have hin : ¬ (c * 16896 ≤ a ∧ a < c * 16896 + (n + 1) * 2112) := by omega
          rw [if_neg h4, if_neg hin]

end wiifs
namespace wiifs

theorem WriteCluster_fst (K : Mbedtls) (keys : FileSystemKeys) (nand : Nat → Nat) (c : Nat)
    (d h : List Nat) (hc : c < 0x8000) : (WriteCluster K keys nand c d h).1 = .Success := by
  have : ¬ c ≥ 0x8000 := by omega
  simp [WriteCluster, this]

/-- The NAND image after `WriteCluster`, address by address. -/
theorem WriteCluster_apply (K : Mbedtls) (keys : FileSystemKeys) (nand : Nat → Nat) (c : Nat)
    (d h : List Nat) (hc : c < 0x8000) (a : Nat) :
    (WriteCluster K keys nand c d h).2 a =
      if c * 16896 ≤ a ∧ a < c * 16896 + 8 * 2112 then
        (if (a - c * 16896) % 2112 < 2048 then
          (storedPage K keys c d ((a - c * 16896) / 2112)).getD ((a - c * 16896) % 2112) 0
         else
          (pageSpare ((a - c * 16896) / 2112) (storedPage K keys c d ((a - c * 16896) / 2112))
            h).getD ((a - c * 16896) % 2112 - 2048) 0)
      else nand a := by
  have hge : ¬ c ≥ 0x8000 := by omega
  simp only [WriteCluster, hge, if_false]
  exact pagesState_apply K keys nand c d h hc 8 (Nat.le_refl 8) a

/-- `WriteCluster` changes no byte outside the 8 pages of its cluster. -/
theorem WriteCluster_frame (K : Mbedtls) (keys : FileSystemKeys) (nand : Nat → Nat) (c : Nat)
    (d h : List Nat) (a : Nat) (ha : a < c * 16896 ∨ c * 16896 + 16896 ≤ a) :
    (WriteCluster K keys nand c d h).2 a = nand a := by
  by_cases hc : c < 0x8000
  · rw [WriteCluster_apply K keys nand c d h hc a]
    have : ¬ (c * 16896 ≤ a ∧ a < c * 16896 + 8 * 2112) := by omega
    rw [if_neg this]
  · have : c ≥ 0x8000 := by omega
    simp [WriteCluster, this]

theorem WriteCluster_data_at (K : Mbedtls) (keys : FileSystemKeys) (nand : Nat → Nat) (c : Nat)
    (d h : List Nat) (hc : c < 0x8000) (p i : Nat) (hp : p < 8) (hi : i < 2048) :
    (WriteCluster K keys nand c d h).2 (Offset c p + i) = (storedPage K keys c d p).getD i 0 := by
  rw [WriteCluster_apply K keys nand c d h hc, Offset_eq c p hc hp]
  have hin : c * 16896 ≤ c * 16896 + p * 2112 + i ∧
      c * 16896 + p * 2112 + i < c * 16896 + 8 * 2112 := by omega
  have hq : (c * 16896 + p * 2112 + i - c * 16896) / 2112 = p := by omega
  have hr : (c * 16896 + p * 2112 + i - c * 16896) % 2112 = i := by omega
  rw [if_pos hin, hq, hr, if_pos hi]

theorem WriteCluster_spare_at (K : Mbedtls) (keys : FileSystemKeys) (nand : Nat → Nat) (c : Nat)
    (d h : List Nat) (hc : c < 0x8000) (p j : Nat) (hp : p < 8) (hj : j < 64) :
    (WriteCluster K keys nand c d h).2 (Offset c p + 2048 + j)
      = (pageSpare p (storedPage K keys c d p) h).getD j 0 := by
  rw [WriteCluster_apply K keys nand c d h hc, Offset_eq c p hc hp]
  have hin : c * 16896 ≤ c * 16896 + p * 2112 + 2048 + j ∧
      c * 16896 + p * 2112 + 2048 + j < c * 16896 + 8 * 2112 := by omega
  have hq : (c * 16896 + p * 2112 + 2048 + j - c * 16896) / 2112 = p := by omega
  have hr : (c * 16896 + p * 2112 + 2048 + j - c * 16896) % 2112 = 2048 + j := by omega
  have hnot : ¬ (2048 + j < 2048) := by omega
  have hidx : 2048 + j - 2048 = j := by omega
  rw [if_pos hin, hq, hr, if_neg hnot, hidx]

theorem WriteCluster_data (K : Mbedtls) (keys : FileSystemKeys) (nand : Nat → Nat) (c : Nat)
    (d h : List Nat) (hc : c < 0x8000) (p : Nat) (hp : p < 8) :
    readBytes (WriteCluster K keys nand c d h).2 (Offset c p) 2048 = storedPage K keys c d p := by
  have hl := storedPage_length K keys c d p
  rw [← hl]
  apply readBytes_eq_of_getD
  intro i hi
  rw [hl] at hi
  exact WriteCluster_data_at K keys nand c d h hc p i hp hi

theorem pageSpare_hmac1 (stored h : List Nat) (i : Nat) (hi : i < 20) :
    (pageSpare 6 stored h).getD (1 + i) 0 = h.getD i 0 := by
  have h1 : ¬ (21 ≤ 1 + i ∧ 1 + i < 21 + 12) := by omega
  have h2 : (1 ≤ 1 + i ∧ 1 + i < 1 + 20) := by omega
  simp only [pageSpare, HMAC_PAGE1, if_true, HMAC1_OFFSET_IN_PAGE1, HMAC2_OFFSET_IN_PAGE1,
    HMAC1_SIZE_IN_PAGE1, HMAC2_SIZE_IN_PAGE1]
  rw [copyInto_getD _ _ _ _ (by simp [copyInto_length]; omega), copy_n_length, if_neg h1,
    copyInto_getD _ _ _ _ (by simp [copyInto_length]; omega), copy_n_length, if_pos h2,
    copy_n_getD _ _ _ _ (by omega)]
  have : 0 + (1 + i - 1) = i := by omega
  rw [this]

theorem pageSpare_hmac2a (stored h : List Nat) (i : Nat) (hi : i < 12) :
    (pageSpare 6 stored h).getD (21 + i) 0 = h.getD i 0 := by
  have h1 : (21 ≤ 21 + i ∧ 21 + i < 21 + 12) := by omega
  simp only [pageSpare, HMAC_PAGE1, if_true, HMAC1_OFFSET_IN_PAGE1, HMAC2_OFFSET_IN_PAGE1,
    HMAC1_SIZE_IN_PAGE1, HMAC2_SIZE_IN_PAGE1]
  rw [copyInto_getD _ _ _ _ (by simp [copyInto_length]; omega), copy_n_length, if_pos h1,
    copy_n_getD _ _ _ _ (by omega)]
  have : 0 + (21 + i - 21) = i := by omega
  rw [this]

theorem pageSpare_hmac2b (stored h : List Nat) (i : Nat) (hi : i < 8) :
    (pageSpare 7 stored h).getD (1 + i) 0 = h.getD (12 + i) 0 := by
  have h1 : (1 ≤ 1 + i ∧ 1 + i < 1 + 8) := by omega
  have h76 : ¬ (7 = 6) := by omega
  simp only [pageSpare, HMAC_PAGE1, HMAC_PAGE2, h76, if_false, if_true, HMAC2_OFFSET_IN_PAGE2,
    HMAC2_SIZE_IN_PAGE1, HMAC2_SIZE_IN_PAGE2]
  rw [copyInto_getD _ _ _ _ (by simp [copyInto_length]; omega), copy_n_length, if_pos h1,
    copy_n_getD _ _ _ _ (by omega)]
  have : 12 + (1 + i - 1) = 12 + i := by omega
  rw [this]

theorem foldl_append_congr (f g : Nat → List Nat) (n : Nat) (h : ∀ p, p < n → f p = g p)
    (acc : List Nat) :
    (List.range n).foldl (fun acc p => acc ++ f p) acc
      = (List.range n).foldl (fun acc p => acc ++ g p) acc := by
  induction n with
  | zero => rfl
  | succ n ih =>
    rw [List.range_succ, List.foldl_append, List.foldl_append, ih (fun p hp => h p (by omega))]
    simp [h n (by omega)]

theorem concat_copy_n (d : List Nat) (k n : Nat) :
    (List.range n).foldl (fun acc p => acc ++ copy_n d (p * k) k) [] = copy_n d 0 (n * k) := by
  induction n with
  | zero => simp [copy_n]
  | succ n ih =>
    rw [List.range_succ, List.foldl_append, ih]
    simp only [List.foldl_cons, List.foldl_nil]
    have := copy_n_append d 0 (n * k) k
    rw [Nat.zero_add] at this
    rw [this, Nat.succ_mul]

end wiifs
namespace wiifs

/-- C2: `ReadCluster(c)` right after `WriteCluster(c, d, h)` returns data `d` and
both HMAC copies equal to `h`, for every cluster `c < 0x8000`, every 0x4000-byte
buffer `d` and every 20-byte tag `h`.  Superblock clusters (`c ≥ 0x7F00`) store
the data as plaintext; for data clusters the result holds under the assumption
that AES-128-CBC decryption of the whole cluster with a zero iv inverts the
page-by-page encryption of `WriteCluster`. -/
theorem ReadCluster_after_WriteCluster (K : Mbedtls) (keys : FileSystemKeys) (nand : Nat → Nat)
    (c : Nat) (d h : List Nat) (hc : c < 0x8000) (hd : d.length = 0x4000) (hh : h.length = 20)
    (haes : c < 0x7f00 → AesInverts K keys.aes d) :
    (WriteCluster K keys nand c d h).1 = .Success ∧
    ReadCluster K keys (WriteCluster K keys nand c d h).2 c
      = .ok { data := d, hmac1 := h, hmac2 := h } ∧
    (c ≥ 0x7f00 → ∀ p, p < 8 →
      readBytes (WriteCluster K keys nand c d h).2 (Offset c p) 2048 = copy_n d (p * 2048) 2048) := by
  refine ⟨WriteCluster_fst K keys nand c d h hc, ?_, ?_⟩
  · have hge : ¬ c ≥ 0x8000 := by omega
    -- the two HMAC copies
    have h1 : readBytes (WriteCluster K keys nand c d h).2 (Offset c 6 + 2048 + 1) 20 = h := by
      rw [← hh]
      apply readBytes_eq_of_getD
      intro i hi
      rw [hh] at hi
      have := WriteCluster_spare_at K keys nand c d h hc 6 (1 + i) (by omega) (by omega)
      rw [pageSpare_hmac1 _ _ _ hi] at this
      rw [← this, Nat.add_assoc (Offset c 6 + 2048) 1 i]
    have h2a : readBytes (WriteCluster K keys nand c d h).2 (Offset c 6 + 2048 + 21) 12
        = copy_n h 0 12 := by
      have hl : (copy_n h 0 12).length = 12 := copy_n_length _ _ _
      rw [← hl]
      apply readBytes_eq_of_getD
      intro i hi
      rw [hl] at hi
      have := WriteCluster_spare_at K keys nand c d h hc 6 (21 + i) (by omega) (by omega)
      rw [pageSpare_hmac2a _ _ _ hi] at this
      rw [copy_n_getD _ _ _ _ hi, Nat.zero_add, ← this, Nat.add_assoc (Offset c 6 + 2048) 21 i]
    have h2b : readBytes (WriteCluster K keys nand c d h).2 (Offset c 7 + 2048 + 1) 8
        = copy_n h 12 8 := by
      have hl : (copy_n h 12 8).length = 8 := copy_n_length _ _ _
      rw [← hl]
      apply readBytes_eq_of_getD
      intro i hi
      rw [hl] at hi
      have := WriteCluster_spare_at K keys nand c d h hc 7 (1 + i) (by omega) (by omega)
      rw [pageSpare_hmac2b _ _ _ hi] at this
      rw [copy_n_getD _ _ _ _ hi, ← this, Nat.add_assoc (Offset c 7 + 2048) 1 i]
    have h2 : copy_n h 0 12 ++ copy_n h 12 8 = h := by
      have := copy_n_append h 0 12 8
      rw [Nat.zero_add] at this
      rw [this]
      have h20 : 12 + 8 = h.length := by omega
      rw [h20]; exact copy_n_all h
    -- the data
    have hdata : (List.range 8).foldl
        (fun acc page => acc ++ readBytes (WriteCluster K keys nand c d h).2 (Offset c page) 2048) []
        = (List.range 8).foldl (fun acc page => acc ++ storedPage K keys c d page) [] :=
      foldl_append_congr _ _ 8 (fun p hp => WriteCluster_data K keys nand c d h hc p hp) []
    simp only [ReadCluster, hge, if_false, PAGES_PER_CLUSTER, DATA_BYTES_PER_PAGE, HMAC_PAGE1,
      HMAC_PAGE2, HMAC1_OFFSET_IN_PAGE1, HMAC1_SIZE_IN_PAGE1, HMAC2_OFFSET_IN_PAGE1,
      HMAC2_SIZE_IN_PAGE1, HMAC2_OFFSET_IN_PAGE2, HMAC2_SIZE_IN_PAGE2]
    rw [hdata]
    simp only [Nat.reduceAdd, Nat.reduceSub]
    rw [h1, h2a, h2b, h2]
    by_cases hs : c < SUPERBLOCK_START_CLUSTER
    · rw [if_pos hs]
      have hst : ∀ p, p < 8 → storedPage K keys c d p = encryptedPage K keys.aes d p := by
        intro p _
        have : ¬ c ≥ SUPERBLOCK_START_CLUSTER := by omega
        simp [storedPage, this]
      rw [foldl_append_congr _ _ 8 hst []]
      have := haes hs
      unfold AesInverts encryptedCluster at this
      rw [this]
    · rw [if_neg hs]
      have hst : ∀ p, p < 8 → storedPage K keys c d p = copy_n d (p * 2048) 2048 := by
        intro p _
        have : c ≥ SUPERBLOCK_START_CLUSTER := by omega
        simp [storedPage, this]
      rw [foldl_append_congr _ _ 8 hst [], concat_copy_n d 2048 8]
      have : 8 * 2048 = d.length := by omega
      rw [this, copy_n_all]
  · intro hs p hp
    rw [WriteCluster_data K keys nand c d h hc p hp]
    have : c ≥ SUPERBLOCK_START_CLUSTER := hs
    simp [storedPage, this]

end wiifs
namespace wiifs

theorem AesInverts_plain (key d : List Nat) (hd : d.length = 0x4000) :
    AesInverts Mbedtls.plain key d := by
  have hp : ∀ p, p < 8 → encryptedPage Mbedtls.plain key d p = copy_n d (p * 2048) 2048 := by
    intro p _
    simp only [encryptedPage, crypto.AesEncrypt, Mbedtls.plain, DATA_BYTES_PER_PAGE]
    have := copy_n_all (copy_n d (p * 2048) 2048)
    rw [copy_n_length] at this
    rw [copy_n_length]; exact this
  have he : encryptedCluster Mbedtls.plain key d = d := by
    unfold encryptedCluster
    rw [foldl_append_congr _ _ 8 hp [], concat_copy_n d 2048 8]
    have : 8 * 2048 = d.length := by omega
    rw [this, copy_n_all]
  unfold AesInverts
  rw [he]
  simp only [crypto.AesDecrypt, Mbedtls.plain]
  exact copy_n_all d

theorem ReadCluster_after_WriteCluster_witness :
    ReadCluster Mbedtls.plain FileSystemKeys.sample
      (WriteCluster Mbedtls.plain FileSystemKeys.sample (fun _ => 0) 64
        (List.replicate 0x4000 5) (List.replicate 20 7)).2 64
      = .ok { data := List.replicate 0x4000 5, hmac1 := List.replicate 20 7,
              hmac2 := List.replicate 20 7 } :=
  (ReadCluster_after_WriteCluster Mbedtls.plain FileSystemKeys.sample (fun _ => 0) 64
    (List.replicate 0x4000 5) (List.replicate 20 7) (by decide) (List.length_replicate _ _)
    (List.length_replicate _ _)
    (fun _ => AesInverts_plain _ _ (List.length_replicate _ _))).2.1

end wiifs

namespace wiifs

/-! ## Handles -/

theorem handle_setHandle (s : FileSystemImpl) (h : Nat) (v : Handle) :
    (s.setHandle h v).handle h = v := by
  unfold FileSystemImpl.setHandle FileSystemImpl.handle
  by_cases hi : h = INTERNAL_FD <;> simp [hi]

/-- C7: for a handle bound to a file and every offset, `SeekFile` computes
`new_position` as `offset` (Set), `file_offset + offset` (Current) or
`file_size + offset` (End) in 32-bit arithmetic; when `new_position > file_size`
it returns Invalid and leaves the state unchanged, and otherwise it sets
`file_offset` to `new_position` and returns it, so the offset after a successful
seek is never greater than `file_size`. -/
theorem SeekFile_spec (s : FileSystemImpl) (fd offset mode h : Nat)
    (hfd : GetHandleFromFd s fd = some h) (hidx : (s.handle h).fst_index < FST_SIZE)
    (hmode : mode < 3) :
    let new_position :=
      if mode = 0 then offset
      else if mode = 1 then ((s.handle h).file_offset + offset) % 2 ^ 32
      else ((s.handle h).file_size + offset) % 2 ^ 32
    ((s.handle h).file_size < new_position → SeekFile s fd offset mode = (.error .Invalid, s)) ∧
    (new_position ≤ (s.handle h).file_size →
      SeekFile s fd offset mode
        = (.ok new_position, s.setHandle h { s.handle h with file_offset := new_position }) ∧
      ((SeekFile s fd offset mode).2.handle h).file_offset = new_position ∧
      ((SeekFile s fd offset mode).2.handle h).file_offset
        ≤ ((SeekFile s fd offset mode).2.handle h).file_size) := by
  intro new_position
  have hge : ¬ (s.handle h).fst_index ≥ FST_SIZE := by omega
  have hnp : (if mode = 0 then some offset
      else if mode = 1 then some (((s.handle h).file_offset + offset) % 2 ^ 32)
      else if mode = 2 then some (((s.handle h).file_size + offset) % 2 ^ 32)
      else none) = some new_position := by
    show _ = some (if mode = 0 then offset
      else if mode = 1 then ((s.handle h).file_offset + offset) % 2 ^ 32
      else ((s.handle h).file_size + offset) % 2 ^ 32)
    by_cases h0 : mode = 0
    · simp [h0]
    · by_cases h1 : mode = 1
      · simp [h1]
      · have h2 : mode = 2 := by omega
        simp [h2]
  constructor
  · intro hlt
    simp only [SeekFile, hfd, hge, if_false, hnp, hlt, if_true]
  · intro hle
    have hnlt : ¬ (s.handle h).file_size < new_position := by omega
    have e : SeekFile s fd offset mode
        = (.ok new_position, s.setHandle h { s.handle h with file_offset := new_position }) := by
      simp only [SeekFile, hfd, hge, if_false, hnp, hnlt]
    refine ⟨e, ?_, ?_⟩
    · rw [e]; simp only [handle_setHandle]
    · rw [e]; simp only [handle_setHandle]; exact hle

theorem SeekFile_spec_witness :
    SeekFile FileSystemImpl.sampleOpen 0 3 1
      = (.ok 7, FileSystemImpl.sampleOpen.setHandle 0
          { FileSystemImpl.sampleOpen.handle 0 with file_offset := 7 }) :=
  ((SeekFile_spec FileSystemImpl.sampleOpen 0 3 1 0 (by decide) (by decide) (by decide)).2
    (by decide)).1

end wiifs

namespace wiifs

/-! ## FlushSuperblock -/

theorem SuperblockCluster_eq (i : Nat) (hi : i < 16) : SuperblockCluster i = 0x7f00 + i * 16 := by
  unfold SuperblockCluster
  simp only [SUPERBLOCK_START_CLUSTER]
  omega

theorem writeBlockClusters_fst (K : Mbedtls) (keys : FileSystemKeys) (sb : Superblock)
    (index : Nat) (hmac : List Nat) (hidx : index < 16) (n : Nat) (hn : n ≤ 16)
    (nand : Nat → Nat) :
    (writeBlockClusters K keys sb index hmac n nand).1 = .Success := by
  induction n generalizing nand with
  | zero => rfl
  | succ n ih =>
    unfold writeBlockClusters
    have hc : (SuperblockCluster index + (CLUSTERS_PER_SUPERBLOCK - (n + 1))) % 65536 < 0x8000 := by
      rw [SuperblockCluster_eq index hidx]
      simp only [CLUSTERS_PER_SUPERBLOCK]
      omega
    have hw := WriteCluster_fst K keys nand _
      (sb.bytes ((CLUSTERS_PER_SUPERBLOCK - (n + 1)) * CLUSTER_DATA_SIZE) CLUSTER_DATA_SIZE)
      (if CLUSTERS_PER_SUPERBLOCK - (n + 1) = 15 then hmac else List.replicate 20 0) hc
    simp only [hw, ne_eq, not_true_eq_false, if_false]
    exact ih (by omega) _

theorem write_block_noWrap (K : Mbedtls)
    (flush : FileSystemImpl → Option (ResultCode × FileSystemImpl)) (s : FileSystemImpl)
    (sb : Superblock) (hsb : s.m_superblock = some sb) (hv : sb.version ≠ 0) :
    write_block K flush s = some (.Success, writtenState K s sb) := by
  have h16 : (s.m_superblock_index + 1) % NUMBER_OF_SUPERBLOCKS < 16 :=
    Nat.mod_lt _ (by decide)
  have hw := writeBlockClusters_fst K s.m_keys sb _
    (GenerateHmacForSuperblock K s.m_keys sb ((s.m_superblock_index + 1) % NUMBER_OF_SUPERBLOCKS))
    h16 16 (Nat.le_refl _) s.m_nand
  simp only [write_block, hsb, CLUSTERS_PER_SUPERBLOCK, hw, ne_eq, not_true_eq_false, if_false,
    hv, writtenState]

theorem FlushSuperblockAux_succ (K : Mbedtls) (d : Nat) (s : FileSystemImpl) (sb : Superblock)
    (hsb : s.m_superblock = some sb) :
    FlushSuperblockAux K (d + 1) s
      = retryUntilSuccess (write_block K (FlushSuperblockAux K d)) .SuperblockWriteFailed 16
          { s with m_superblock := some sb.bump } := by
  rw [FlushSuperblockAux]
  simp only [hsb]
  rfl

theorem retryUntilSuccess_of_success
    (f : FileSystemImpl → Option (ResultCode × FileSystemImpl)) (fail : ResultCode) (n : Nat)
    (s s' : FileSystemImpl) (h : f s = some (.Success, s')) :
    retryUntilSuccess f fail (n + 1) s = some (.Success, s') := by
  simp [retryUntilSuccess, h]

theorem FlushSuperblockAux_noWrap (K : Mbedtls) (d : Nat) (s : FileSystemImpl) (sb : Superblock)
    (hsb : s.m_superblock = some sb) (hv : (sb.version + 1) % 2 ^ 32 ≠ 0) :
    FlushSuperblockAux K (d + 1) s = some (.Success, flushStep K s) := by
  have hb : sb.bump.version ≠ 0 := hv
  have hw := write_block_noWrap K (FlushSuperblockAux K d)
    { s with m_superblock := some sb.bump } sb.bump rfl hb
  rw [FlushSuperblockAux_succ K d s sb hsb, retryUntilSuccess_of_success _ _ 15 _ _ hw]
  simp [flushStep, hsb]

theorem repeat_flush (K : Mbedtls) (d n : Nat) (s : FileSystemImpl) (sb : Superblock)
    (hsb : s.m_superblock = some sb) (hv : sb.version + n < 2 ^ 32) :
    repeatWhileSuccess (FlushSuperblockAux K (d + 1)) n s
      = some (.Success, (flushStep K)^[n] s) := by
  induction n generalizing s sb with
  | zero => rfl
  | succ n ih =>
    have hv1 : (sb.version + 1) % 2 ^ 32 ≠ 0 := by
      rw [Nat.mod_eq_of_lt (by omega)]; omega
    have hstep : (flushStep K s).m_superblock = some sb.bump := by
      simp [flushStep, hsb, writtenState]
    have hbv : sb.bump.version + n < 2 ^ 32 := by
      show (sb.version + 1) % 2 ^ 32 + n < 2 ^ 32
      rw [Nat.mod_eq_of_lt (by omega)]; omega
    simp only [repeatWhileSuccess, FlushSuperblockAux_noWrap K d s sb hsb hv1, ne_eq,
      not_true_eq_false, if_false, Function.iterate_succ, Function.comp_apply]
    exact ih (flushStep K s) sb.bump hstep hbv

theorem FlushSuperblockAux_wrap (K : Mbedtls) (d : Nat) (s : FileSystemImpl) (sb : Superblock)
    (hsb : s.m_superblock = some sb) (hv : (sb.version + 1) % 2 ^ 32 = 0) :
    FlushSuperblockAux K (d + 2) s = some (.Success, (flushStep K)^[15] (flushStep K s)) := by
  have hb : sb.bump.version = 0 := hv
  have h16 : (s.m_superblock_index + 1) % NUMBER_OF_SUPERBLOCKS < 16 :=
    Nat.mod_lt _ (by decide)
  have hw := writeBlockClusters_fst K s.m_keys sb.bump _
    (GenerateHmacForSuperblock K s.m_keys sb.bump
      ((s.m_superblock_index + 1) % NUMBER_OF_SUPERBLOCKS))
    h16 16 (Nat.le_refl _) s.m_nand
  have hstep : (flushStep K s).m_superblock = some sb.bump := by
    simp [flushStep, hsb, writtenState]
  have hrep := repeat_flush K d 15 (flushStep K s) sb.bump hstep (by rw [hb]; decide)
  have hfs : flushStep K s = writtenState K { s with m_superblock := some sb.bump } sb.bump := by
    simp [flushStep, hsb]
  have hwb : write_block K (FlushSuperblockAux K (d + 1)) { s with m_superblock := some sb.bump }
      = some (.Success, (flushStep K)^[15] (flushStep K s)) := by
    rw [hfs] at hrep
    simp only [writtenState, CLUSTERS_PER_SUPERBLOCK] at hrep
    rw [write_block]
    simp only [CLUSTERS_PER_SUPERBLOCK, hw, ne_eq, not_true_eq_false, if_false, hb, if_true]
    rw [hrep]
    simp [hfs, writtenState]
  rw [FlushSuperblockAux_succ K (d + 1) s sb hsb, retryUntilSuccess_of_success _ _ 15 _ _ hwb]

theorem FlushFrame_refl (s : FileSystemImpl) (sb : Superblock) (hsb : s.m_superblock = some sb) :
    FlushFrame s s :=
  ⟨rfl, rfl, rfl, rfl, rfl, rfl, rfl, sb, sb.version, hsb, hsb⟩

theorem FlushFrame_trans (a b c : FileSystemImpl) (h1 : FlushFrame a b) (h2 : FlushFrame b c) :
    FlushFrame a c := by
  obtain ⟨a1, a2, a3, a4, a5, a6, a7, sb, v, hs, hs'⟩ := h1
  obtain ⟨b1, b2, b3, b4, b5, b6, b7, sb2, v2, ht, ht'⟩ := h2
  refine ⟨b1.trans a1, b2.trans a2, b3.trans a3, b4.trans a4, b5.trans a5, b6.trans a6,
    b7.trans a7, sb, v2, hs, ?_⟩
  rw [hs'] at ht
  cases ht
  exact ht'

theorem FlushFrame_flushStep (K : Mbedtls) (s : FileSystemImpl) (sb : Superblock)
    (hsb : s.m_superblock = some sb) : FlushFrame s (flushStep K s) := by
  refine ⟨?_, ?_, ?_, ?_, ?_, ?_, ?_, sb, (sb.version + 1) % 2 ^ 32, hsb, ?_⟩ <;>
    simp [flushStep, hsb, writtenState, Superblock.bump]

theorem FlushFrame_iterate (K : Mbedtls) (n : Nat) (s : FileSystemImpl) (sb : Superblock)
    (hsb : s.m_superblock = some sb) : FlushFrame s ((flushStep K)^[n] s) := by
  induction n generalizing s sb with
  | zero => exact FlushFrame_refl s sb hsb
  | succ n ih =>
    rw [Function.iterate_succ, Function.comp_apply]
    have h1 := FlushFrame_flushStep K s sb hsb
    obtain ⟨_, _, _, _, _, _, _, sb1, v1, hs1, hs1'⟩ := h1
    exact FlushFrame_trans _ _ _ (FlushFrame_flushStep K s sb hsb) (ih _ _ hs1')

/-- `FlushSuperblock` returns Success whenever a superblock is present (every
replica cluster index is below 0x8000), and touches nothing but the NAND image,
the replica index and the version. -/
theorem FlushSuperblock_total (K : Mbedtls) (s : FileSystemImpl) (sb : Superblock)
    (hsb : s.m_superblock = some sb) :
    ∃ s', FlushSuperblock K s = some (.Success, s') ∧ FlushFrame s s' := by
  by_cases hv : (sb.version + 1) % 2 ^ 32 = 0
  · refine ⟨_, FlushSuperblockAux_wrap K 1 s sb hsb hv, ?_⟩
    have h1 := FlushFrame_flushStep K s sb hsb
    obtain ⟨_, _, _, _, _, _, _, sb1, v1, hs1, hs1'⟩ := h1
    exact FlushFrame_trans _ _ _ (FlushFrame_flushStep K s sb hsb) (FlushFrame_iterate K 15 _ _ hs1')
  · exact ⟨_, FlushSuperblockAux_noWrap K 2 s sb hsb hv, FlushFrame_flushStep K s sb hsb⟩

end wiifs

namespace wiifs

/-! ## Format -/

theorem GetSuperblock_of_some (K : Mbedtls) (s : FileSystemImpl) (sb : Superblock)
    (hsb : s.m_superblock = some sb) : GetSuperblock K s = (some sb, s) := by
  simp [GetSuperblock, hsb]

/-- The state in which `Format(0)` leaves the driver: Success, the formatted
superblock up to its version, and all public handles closed. -/
theorem Format_zero (K : Mbedtls) (s : FileSystemImpl) :
    ∃ s' sb0 v, Format K s 0 = some (.Success, s') ∧
      s'.m_superblock = some { formatSuperblock sb0 with version := v } ∧
      (∀ i, i < 16 → (s'.m_handles i).opened = false) ∧
      s'.m_internal_handle = (GetSuperblock K s).2.m_internal_handle := by
  have hne : ¬ ((0 : Nat) ≠ 0) := by simp
  obtain ⟨s', hfl, hfr⟩ := FlushSuperblock_total K
    { (GetSuperblock K s).2 with
      m_superblock := some (formatSuperblock
        (match (GetSuperblock K s).1 with
          | none => Superblock.zero
          | some sb => sb))
      m_handles := fun i =>
        if i < 16 then { (GetSuperblock K s).2.m_handles i with opened := false }
        else (GetSuperblock K s).2.m_handles i } _ rfl
  obtain ⟨_, hh, hi, _, _, _, _, sb, v, hs, hs'⟩ := hfr
  refine ⟨s', (match (GetSuperblock K s).1 with
    | none => Superblock.zero
    | some sb => sb), v, ?_, ?_, ?_, ?_⟩
  · simp only [Format, hne, if_false]
    exact hfl
  · simp only [Option.some.injEq] at hs
    rw [hs', ← hs]
  · intro i hi16
    rw [hh]
    simp [hi16]
  · rw [hi]

theorem formatSuperblock_fat (sb : Superblock) (i : Nat) (hi : i < FAT_SIZE) :
    (formatSuperblock sb).fat i
      = if i < 64 ∨ i ≥ 0x7f00 then CLUSTER_RESERVED else CLUSTER_UNUSED := by
  simp [formatSuperblock, Superblock.setFst, hi]

theorem formatSuperblock_fst (sb : Superblock) (i : Nat) (h0 : 0 < i) (hi : i < FST_SIZE) :
    (formatSuperblock sb).fst i = FstEntry.zero := by
  have : i ≠ 0 := by omega
  simp [formatSuperblock, Superblock.setFst, hi, this]

theorem formatSuperblock_root (sb : Superblock) :
    (formatSuperblock sb).fst 0
      = { FstEntry.zero.SetName [47] with mode := 0x16, sub := 0xffff, sib := 0xffff } := by
  simp [formatSuperblock, Superblock.setFst]

/-- C9: `Format(uid)` with `uid ≠ 0` returns AccessDenied without changing any
state.  `Format(0)` succeeds, and afterwards the superblock magic is SFFS,
`FAT[i]` is CLUSTER_RESERVED for `i < 64` and `i ≥ 0x7F00` and CLUSTER_UNUSED for
every other `i`, every FST entry except index 0 is all zero, FST entry 0 has
name "/", `sub = 0xFFFF` and `sib = 0xFFFF`, and all 16 public handles are
closed. -/
theorem Format_spec (K : Mbedtls) (s : FileSystemImpl) :
    (∀ uid, uid ≠ 0 → Format K s uid = some (.AccessDenied, s)) ∧
    ∃ s' sb, Format K s 0 = some (.Success, s') ∧ s'.m_superblock = some sb ∧
      sb.magic = SUPERBLOCK_MAGIC ∧
      (∀ i, i < FAT_SIZE →
        sb.fat i = if i < 64 ∨ i ≥ 0x7f00 then CLUSTER_RESERVED else CLUSTER_UNUSED) ∧
      (∀ i, 0 < i → i < FST_SIZE → sb.fst i = FstEntry.zero) ∧
      (sb.fst 0).GetName = bytesOf "/" ∧ (sb.fst 0).sub = 0xffff ∧ (sb.fst 0).sib = 0xffff ∧
      (∀ i, i < 16 → (s'.m_handles i).opened = false) := by
  constructor
  · intro uid huid
    simp [Format, huid]
  · obtain ⟨s', sb0, v, hf, hsb, hh, _⟩ := Format_zero K s
    refine ⟨s', _, hf, hsb, rfl, ?_, ?_, ?_, ?_, ?_, hh⟩
    · intro i hi
      exact formatSuperblock_fat sb0 i hi
    · intro i h0 hi
      exact formatSuperblock_fst sb0 i h0 hi
    · show ((formatSuperblock sb0).fst 0).GetName = bytesOf "/"
      rw [formatSuperblock_root]; decide
    · show ((formatSuperblock sb0).fst 0).sub = 0xffff
      rw [formatSuperblock_root]
    · show ((formatSuperblock sb0).fst 0).sib = 0xffff
      rw [formatSuperblock_root]

/-- After `Format(0)`, `GetMetadata("/")` through any valid descriptor reports
the decoding of the root mode byte 0x16. -/
theorem GetMetadata_root_of_Format (K : Mbedtls) (s : FileSystemImpl) :
    ∃ s' sb md, Format K s 0 = some (.Success, s') ∧ s'.m_superblock = some sb ∧
      (sb.fst 0).mode = 0x16 ∧ (sb.fst 0).IsDirectory = true ∧
      (∀ fd, (GetHandleFromFd s' fd).isSome →
        GetMetadata K s' fd (bytesOf "/") = some (.ok md, s')) ∧
      md.is_file = false ∧ md.owner_mode = 0 ∧ md.group_mode = 1 ∧ md.other_mode = 1 := by
  obtain ⟨s', sb0, v, hf, hsb, _, _⟩ := Format_zero K s
  refine ⟨s', _, metadataOf { formatSuperblock sb0 with version := v } 0, hf, hsb, ?_, ?_, ?_,
    ?_, ?_, ?_, ?_⟩
  · show ((formatSuperblock sb0).fst 0).mode = 0x16
    rw [formatSuperblock_root]
  · show ((formatSuperblock sb0).fst 0).IsDirectory = true
    rw [formatSuperblock_root]; decide
  · intro fd hfd
    obtain ⟨h, hh⟩ := Option.isSome_iff_exists.mp hfd
    have hp : bytesOf "/" = [47] := by decide
    simp [GetMetadata, hh, hp, GetSuperblock_of_some K s' _ hsb]
  all_goals
    simp only [metadataOf, formatSuperblock_root, FstEntry.IsFile, FstEntry.GetOwnerMode,
      FstEntry.GetGroupMode, FstEntry.GetOtherMode]
    decide

/-- C10 (amended): after `Format(0)` the root entry has mode byte 0x16 and is a
directory; by the FST mode layout (kind in bits 0-1, other access in bits 2-3,
group access in bits 4-5, owner access in bits 6-7) its owner access mode is
None and its group and other access modes are Read, and `GetMetadata("/")`
reports `is_file = false`, `owner_mode = None`, `group_mode = Read` and
`other_mode = Read`. -/
theorem GetMetadata_root_after_Format (K : Mbedtls) (s : FileSystemImpl) :
    ∃ s' sb md, Format K s 0 = some (.Success, s') ∧ s'.m_superblock = some sb ∧
      (sb.fst 0).mode = 0x16 ∧ (sb.fst 0).IsDirectory = true ∧
      (sb.fst 0).GetOwnerMode = 0 ∧ (sb.fst 0).GetGroupMode = 1 ∧ (sb.fst 0).GetOtherMode = 1 ∧
      (∀ fd, (GetHandleFromFd s' fd).isSome →
        GetMetadata K s' fd (bytesOf "/") = some (.ok md, s')) ∧
      md.is_file = false ∧ md.owner_mode = 0 ∧ md.group_mode = 1 ∧ md.other_mode = 1 := by
  obtain ⟨s', sb, md, h1, h2, h3, h4, h5, h6, h7, h8, h9⟩ := GetMetadata_root_of_Format K s
  refine ⟨s', sb, md, h1, h2, h3, h4, ?_, ?_, ?_, h5, h6, h7, h8, h9⟩
  · simp only [FstEntry.GetOwnerMode, h3]; decide
  · simp only [FstEntry.GetGroupMode, h3]; decide
  · simp only [FstEntry.GetOtherMode, h3]; decide

/-- C10 fails as stated: on a blank NAND image, after `Format(0)` succeeds,
`GetMetadata("/")` succeeds and reports an owner mode that is not Read|Write. -/
theorem GetMetadata_root_owner_mode_counterexample :
    ∃ s' md, Format Mbedtls.plain FileSystemImpl.blank 0 = some (.Success, s') ∧
      GetMetadata Mbedtls.plain s' INTERNAL_FD (bytesOf "/") = some (.ok md, s') ∧
      md.is_file = false ∧ md.owner_mode ≠ 3 := by
  obtain ⟨s', sb, md, h1, _, _, _, h5, h6, h7, _, _⟩ :=
    GetMetadata_root_of_Format Mbedtls.plain FileSystemImpl.blank
  refine ⟨s', md, h1, h5 INTERNAL_FD (by simp [GetHandleFromFd]), h6, ?_⟩
  rw [h7]; decide

end wiifs

namespace wiifs

/-! ## Permissions -/

/-- C6: `HasPermission(entry, uid, gid, requested)` is true iff `uid = 0`, or
`(requested & granted) = requested` where `granted` is the entry's owner mode if
`entry.uid = uid`, else its group mode if `entry.gid = gid`, else its other
mode; and `OpenFile(uid, gid, path, mode)` on an existing file returns
AccessDenied exactly when this check is false.  In particular uid 2 / gid 2 is
denied Read on a file owned by uid 1 with owner = Read|Write, group = None and
other = None. -/
theorem HasPermission_OpenFile (K : Mbedtls) (s s1 : FileSystemImpl) (sb : Superblock)
    (uid gid : Nat) (path : List Nat) (mode index : Nat)
    (hsb : GetSuperblock K s = (some sb, s1)) (hpath : IsValidNonRootPath path = true)
    (hidx : GetFstIndex sb path = some (.ok index)) (hfile : (sb.fst index).IsFile = true) :
    (∀ (e : FstEntry) (requested : Nat),
      HasPermission e uid gid requested = true ↔
        (uid = 0 ∨
          (requested &&& (if e.uid = uid then e.GetOwnerMode
            else if e.gid = gid then e.GetGroupMode else e.GetOtherMode)) = requested)) ∧
    ((∃ s', OpenFile K s uid gid path mode = some (.error .AccessDenied, s')) ↔
      HasPermission (sb.fst index) uid gid mode = false) ∧
    (∀ e : FstEntry, e.uid = 1 → e.GetOwnerMode = 3 → e.GetGroupMode = 0 → e.GetOtherMode = 0 →
      HasPermission e 2 2 1 = false) := by
  refine ⟨?_, ?_, ?_⟩
  · intro e requested
    unfold HasPermission
    by_cases hu : uid = 0
    · simp [hu]
    · simp [hu]
  · constructor
    · rintro ⟨s', hs'⟩
      by_contra hp
      have hp' : HasPermission (sb.fst index) uid gid mode = true := by
        cases h : HasPermission (sb.fst index) uid gid mode
        · exact absurd h hp
        · rfl
      simp only [OpenFile, hpath, hsb, hidx, hfile, hp', Bool.not_true, Bool.false_eq_true,
        if_false] at hs'
      cases ha : AssignFreeHandle s1 uid gid with
      | mk o s2 =>
        rw [ha] at hs'
        cases o <;> simp at hs'
    · intro hp
      exact ⟨s1, by simp [OpenFile, hpath, hsb, hidx, hfile, hp]⟩
  · intro e hu ho hg hot
    unfold HasPermission
    have h2 : ¬ ((2 : Nat) = 0) := by decide
    have hu' : ¬ (e.uid = 2) := by omega
    simp only [h2, if_false, hu', hg, hot]
    split <;> decide

theorem HasPermission_OpenFile_witness :
    ∃ s', OpenFile Mbedtls.plain FileSystemImpl.sample 2 2 (bytesOf "/u") 1
      = some (.error .AccessDenied, s') :=
  (HasPermission_OpenFile Mbedtls.plain FileSystemImpl.sample FileSystemImpl.sample
    Superblock.sample 2 2 (bytesOf "/u") 1 1 rfl (by decide) (by decide) (by decide)).2.1.mpr
    (by decide)

end wiifs

/-! ## Searching a fixed-size array -/

theorem findFrom_spec (p : Nat → Bool) (bound fuel i : Nat) (hf : fuel ≤ bound)
    (h : findFrom p bound fuel = some i) :
    bound - fuel ≤ i ∧ i < bound ∧ p i = true ∧ ∀ j, bound - fuel ≤ j → j < i → p j = false := by
  induction fuel with
  | zero => simp [findFrom] at h
  | succ n ih =>
    unfold findFrom at h
    by_cases hp : p (bound - (n + 1)) = true
    · rw [if_pos hp] at h
      cases h
      refine ⟨Nat.le_refl _, by omega, hp, ?_⟩
      intro j h1 h2; omega
    · rw [if_neg hp] at h
      obtain ⟨h1, h2, h3, h4⟩ := ih (by omega) h
      refine ⟨by omega, h2, h3, ?_⟩
      intro j hj1 hj2
      by_cases hj : j = bound - (n + 1)
      · rw [hj]; simpa using hp
      · exact h4 j (by omega) hj2

theorem findFrom_none (p : Nat → Bool) (bound fuel : Nat) (hf : fuel ≤ bound)
    (h : findFrom p bound fuel = none) : ∀ j, bound - fuel ≤ j → j < bound → p j = false := by
  induction fuel with
  | zero => intro j h1 h2; omega
  | succ n ih =>
    unfold findFrom at h
    by_cases hp : p (bound - (n + 1)) = true
    · rw [if_pos hp] at h; cases h
    · rw [if_neg hp] at h
      intro j hj1 hj2
      by_cases hj : j = bound - (n + 1)
      · rw [hj]; simpa using hp
      · exact ih (by omega) h j (by omega) hj2

/-- `findFirst` returns the least index below the bound at which `p` holds. -/
theorem findFirst_spec (p : Nat → Bool) (bound i : Nat) (h : findFirst p bound = some i) :
    i < bound ∧ p i = true ∧ ∀ j, j < i → p j = false := by
  obtain ⟨_, h2, h3, h4⟩ := findFrom_spec p bound bound i (Nat.le_refl _) h
  exact ⟨h2, h3, fun j hj => h4 j (by omega) hj⟩

theorem findFirst_none (p : Nat → Bool) (bound : Nat) (h : findFirst p bound = none) :
    ∀ j, j < bound → p j = false :=
  fun j hj => findFrom_none p bound bound (Nat.le_refl _) h j (by omega) hj

namespace wiifs

/-! ## FAT chains and WriteFileData -/

theorem GetClusterForFile_of_IsChain (sb : Superblock) (cs : List Nat) (first k : Nat)
    (h : IsChain sb first cs) : GetClusterForFile sb first k = cs[k]? := by
  unfold GetClusterForFile
  induction k generalizing first cs with
  | zero =>
    cases cs with
    | nil =>
      have h1 : first = CLUSTER_LAST_IN_CHAIN := h
      have h2 : first ≥ FAT_SIZE := by rw [h1]; decide
      simp only [GetClusterForFileLoop, h2, if_true, List.getElem?_nil]
    | cons c cs =>
      obtain ⟨h1, h2, _⟩ := h
      subst h1
      have h3 : ¬ first ≥ FAT_SIZE := by omega
      simp only [GetClusterForFileLoop, h3, if_false, List.getElem?_cons_zero]
  | succ k ih =>
    cases cs with
    | nil =>
      have h1 : first = CLUSTER_LAST_IN_CHAIN := h
      have h2 : first ≥ FAT_SIZE := by rw [h1]; decide
      simp only [GetClusterForFileLoop, h2, if_true, List.getElem?_nil]
    | cons c cs =>
      obtain ⟨h1, h2, h3⟩ := h
      subst h1
      have h4 : ¬ first ≥ FAT_SIZE := by omega
      simp only [GetClusterForFileLoop, h4, if_false, List.getElem?_cons_succ]
      exact ih cs (sb.fat first) h3

/-- In a well-formed chain no cluster holds CLUSTER_UNUSED. -/
theorem IsChain_fat_ne_unused (sb : Superblock) (cs : List Nat) (first c : Nat)
    (h : IsChain sb first cs) (hc : c ∈ cs) : sb.fat c ≠ CLUSTER_UNUSED := by
  induction cs generalizing first with
  | nil => cases hc
  | cons d cs ih =>
    obtain ⟨_, _, h3⟩ := h
    rcases List.mem_cons.mp hc with rfl | hc'
    · cases cs with
      | nil =>
        have : sb.fat c = CLUSTER_LAST_IN_CHAIN := h3
        rw [this]; decide
      | cons e cs =>
        obtain ⟨h4, h5, _⟩ := h3
        rw [h4]
        simp only [CLUSTER_UNUSED, FAT_SIZE] at *
        omega
    · exact ih (sb.fat d) h3 hc'

end wiifs

namespace wiifs

/-- `WriteFileData` in terms of its checks, the cluster write and `spliceCluster`. -/
theorem WriteFileData_eq (K : Mbedtls) (s s1 : FileSystemImpl) (sb : Superblock)
    (fst_index : Nat) (source : List Nat) (chain_index new_size : Nat)
    (hsb : GetSuperblock K s = (some sb, s1)) (hidx : fst_index < FST_SIZE) :
    WriteFileData K s fst_index source chain_index new_size =
      if (sb.fst fst_index).IsFile = false ∨ new_size ≤ (sb.fst fst_index).size then (.Invalid, s1)
      else
        match findFirst (fun i => sb.fat i == CLUSTER_UNUSED) FAT_SIZE with
        | none => (.NoFreeSpace, s1)
        | some cluster =>
          let nand := (WriteCluster K s1.m_keys s1.m_nand cluster source
            (GenerateHmacForData K s1.m_keys sb source fst_index chain_index)).2
          match spliceCluster sb fst_index chain_index new_size cluster with
          | none => (.Invalid, { s1 with m_nand := nand })
          | some sb4 => (.Success, { s1 with m_nand := nand, m_superblock := some sb4 }) := by
  have hge : ¬ fst_index ≥ FST_SIZE := by omega
  simp only [WriteFileData, hge, if_false, hsb]
  by_cases hc : (sb.fst fst_index).IsFile = false ∨ new_size ≤ (sb.fst fst_index).size
  · rw [if_pos hc]
    rcases hc with hc | hc <;> simp [hc]
  · rw [if_neg hc]
    have hf : (sb.fst fst_index).IsFile = true := by
      cases h : (sb.fst fst_index).IsFile
      · exact absurd (Or.inl h) hc
      · rfl
    have hs : ¬ new_size ≤ (sb.fst fst_index).size := fun h => hc (Or.inr h)
    simp only [hf, Bool.not_true, Bool.false_or, decide_eq_true_eq, hs, if_false]
    cases hfind : findFirst (fun i => sb.fat i == CLUSTER_UNUSED) FAT_SIZE with
    | none => rfl
    | some cluster =>
      have hlt : cluster < 0x8000 := (findFirst_spec _ _ _ hfind).1
      have hw := WriteCluster_fst K s1.m_keys s1.m_nand cluster source
        (GenerateHmacForData K s1.m_keys sb source fst_index chain_index) hlt
      simp only [hw, ne_eq, not_true_eq_false, if_false, spliceCluster]
      by_cases hk : chain_index = 0
      · simp only [hk, if_true]
      · simp only [hk, if_false]
        cases GetClusterForFile sb (sb.fst fst_index).sub (chain_index - 1) with
        | none => rfl
        | some prev =>
          cases GetClusterForFile sb (sb.fst fst_index).sub chain_index <;> rfl

theorem WriteFileData_of_ge (K : Mbedtls) (s : FileSystemImpl) (fst_index : Nat)
    (source : List Nat) (chain_index new_size : Nat) (hidx : fst_index ≥ FST_SIZE) :
    WriteFileData K s fst_index source chain_index new_size = (.Invalid, s) := by
  simp [WriteFileData, hidx]

end wiifs

namespace wiifs

@[simp] theorem setFat_fat (sb : Superblock) (i v j : Nat) :
    (sb.setFat i v).fat j = if j = i then v else sb.fat j := rfl

@[simp] theorem setFat_fst (sb : Superblock) (i v : Nat) : (sb.setFat i v).fst = sb.fst := rfl

@[simp] theorem setFst_fat (sb : Superblock) (i : Nat) (e : FstEntry) :
    (sb.setFst i e).fat = sb.fat := rfl

@[simp] theorem setFst_fst (sb : Superblock) (i : Nat) (e : FstEntry) (j : Nat) :
    (sb.setFst i e).fst j = if j = i then e else sb.fst j := rfl

/-- C3: for every successful `WriteFileData(fst_index, data, k, new_size)` on a
file whose FAT chain is well formed (distinct clusters below 0x8000, ending with
CLUSTER_LAST_IN_CHAIN): the newly allocated cluster `c'` (the first FAT entry
equal to CLUSTER_UNUSED) differs from the cluster `c` previously at chain
position `k`, when one existed; afterwards `FAT[c] = CLUSTER_UNUSED`, `FAT[c']`
is the old value of `FAT[c]` (CLUSTER_LAST_IN_CHAIN when no cluster existed at
position `k`), the link that pointed to position `k` (`entry.sub` when `k = 0`,
otherwise the FAT entry of the cluster at position `k - 1`) equals `c'`, and
`entry.size = new_size`. -/
theorem WriteFileData_splices (K : Mbedtls) (s s1 s' : FileSystemImpl) (sb : Superblock)
    (fst_index : Nat) (data : List Nat) (k new_size : Nat) (cs : List Nat)
    (hsb : GetSuperblock K s = (some sb, s1))
    (hchain : IsChain sb (sb.fst fst_index).sub cs) (hnd : cs.Nodup)
    (hres : WriteFileData K s fst_index data k new_size = (.Success, s')) :
    ∃ c' sb', findFirst (fun i => sb.fat i == CLUSTER_UNUSED) FAT_SIZE = some c' ∧
      s'.m_superblock = some sb' ∧
      (∀ c, GetClusterForFile sb (sb.fst fst_index).sub k = some c →
        c' ≠ c ∧ sb'.fat c = CLUSTER_UNUSED ∧ sb'.fat c' = sb.fat c) ∧
      (GetClusterForFile sb (sb.fst fst_index).sub k = none →
        sb'.fat c' = CLUSTER_LAST_IN_CHAIN) ∧
      (k = 0 → (sb'.fst fst_index).sub = c') ∧
      (∀ prev, k ≠ 0 → GetClusterForFile sb (sb.fst fst_index).sub (k - 1) = some prev →
        sb'.fat prev = c') ∧
      (sb'.fst fst_index).size = new_size := by
  by_cases hidx : fst_index < FST_SIZE
  swap
  · rw [WriteFileData_of_ge K s fst_index data k new_size (by omega)] at hres
    cases hres
  rw [WriteFileData_eq K s s1 sb fst_index data k new_size hsb hidx] at hres
  split at hres
  · cases hres
  cases hfind : findFirst (fun i => sb.fat i == CLUSTER_UNUSED) FAT_SIZE with
  | none => rw [hfind] at hres; cases hres
  | some c' =>
    rw [hfind] at hres
    simp only at hres
    have hfree : sb.fat c' = CLUSTER_UNUSED := by
      have := (findFirst_spec _ _ _ hfind).2.1
      simpa using this
    -- clusters of the chain are not free, hence differ from `c'`
    have hne : ∀ (i c : Nat), cs[i]? = some c → c ≠ c' := by
      intro i c hc heq
      have hmem : c ∈ cs := List.getElem?_mem hc
      exact IsChain_fat_ne_unused sb cs _ c hchain hmem (heq ▸ hfree)
    have hold := GetClusterForFile_of_IsChain sb cs (sb.fst fst_index).sub k hchain
    have hprev := GetClusterForFile_of_IsChain sb cs (sb.fst fst_index).sub (k - 1) hchain
    cases hsp : spliceCluster sb fst_index k new_size c' with
    | none => rw [hsp] at hres; cases hres
    | some sb4 =>
      rw [hsp] at hres
      simp only [Prod.mk.injEq, true_and] at hres
      refine ⟨c', sb4, rfl, by rw [← hres], ?_⟩
      unfold spliceCluster at hsp
      by_cases hk : k = 0
      · subst hk
        simp only [if_true] at hsp
        cases ho : GetClusterForFile sb (sb.fst fst_index).sub 0 with
        | none =>
          rw [ho] at hsp
          simp only [Option.some.injEq] at hsp
          subst hsp
          exact ⟨fun c hc => (by cases hc), fun _ => (by simp), fun _ => (by simp),
            fun _ h => absurd rfl h, (by simp)⟩
        | some c =>
          rw [ho] at hsp
          simp only [Option.some.injEq] at hsp
          subst hsp
          have hcc' : c ≠ c' := hne 0 c (by rw [← hold, ho])
          refine ⟨?_, fun h => (by cases h), fun _ => (by simp), fun _ h => absurd rfl h,
            (by simp)⟩
          intro d hd
          cases hd
          refine ⟨fun h => hcc' h.symm, by simp, ?_⟩
          simp [Ne.symm hcc']
      · simp only [hk, if_false] at hsp
        cases hp : GetClusterForFile sb (sb.fst fst_index).sub (k - 1) with
        | none => rw [hp] at hsp; cases hsp
        | some p =>
          rw [hp] at hsp
          have hpc' : p ≠ c' := hne (k - 1) p (by rw [← hprev, hp])
          cases ho : GetClusterForFile sb (sb.fst fst_index).sub k with
          | none =>
            rw [ho] at hsp
            simp only [Option.some.injEq] at hsp
            subst hsp
            refine ⟨fun c hc => (by cases hc), fun _ => (by simp), fun h => absurd h hk, ?_,
              (by simp)⟩
            intro prev _ hprev'
            cases hprev'
            simp [hpc']
          | some c =>
            rw [ho] at hsp
            simp only [Option.some.injEq] at hsp
            subst hsp
            have hcc' : c ≠ c' := hne k c (by rw [← hold, ho])
            have hpc : p ≠ c := by
              intro heq
              have h1 : cs[k - 1]? = some p := by rw [← hprev, hp]
              have h2 : cs[k]? = some c := by rw [← hold, ho]
              have hlt : k - 1 < cs.length := by
                by_contra hnot
                rw [List.getElem?_eq_none (by omega)] at h1
                cases h1
              have e : cs[k - 1]? = cs[k]? := by rw [h1, h2, heq]
              have := List.getElem?_inj hlt hnd e
              omega
            refine ⟨?_, fun h => (by cases h), fun h => absurd h hk, ?_, (by simp)⟩
            · intro d hd
              cases hd
              refine ⟨fun h => hcc' h.symm, by simp, ?_⟩
              simp [Ne.symm hcc', Ne.symm hpc]
            · intro prev _ hprev'
              cases hprev'
              simp [hpc', hpc]

end wiifs
namespace wiifs

theorem WriteFileData_splices_witness :
    ∃ c' sb',
      findFirst (fun i => Superblock.sampleWritten.fat i == CLUSTER_UNUSED) FAT_SIZE = some c' ∧
      (WriteFileData Mbedtls.plain FileSystemImpl.sampleWritten 1 (List.replicate 0x4000 0) 0
        5).2.m_superblock = some sb' ∧
      (∀ c, GetClusterForFile Superblock.sampleWritten (Superblock.sampleWritten.fst 1).sub 0
          = some c →
        c' ≠ c ∧ sb'.fat c = CLUSTER_UNUSED ∧ sb'.fat c' = Superblock.sampleWritten.fat c) ∧
      (GetClusterForFile Superblock.sampleWritten (Superblock.sampleWritten.fst 1).sub 0 = none →
        sb'.fat c' = CLUSTER_LAST_IN_CHAIN) ∧
      ((0 : Nat) = 0 → (sb'.fst 1).sub = c') ∧
      (∀ prev, (0 : Nat) ≠ 0 →
        GetClusterForFile Superblock.sampleWritten (Superblock.sampleWritten.fst 1).sub (0 - 1)
          = some prev →
        sb'.fat prev = c') ∧
      (sb'.fst 1).size = 5 :=
  WriteFileData_splices Mbedtls.plain FileSystemImpl.sampleWritten FileSystemImpl.sampleWritten
    (WriteFileData Mbedtls.plain FileSystemImpl.sampleWritten 1 (List.replicate 0x4000 0) 0 5).2
    Superblock.sampleWritten 1 (List.replicate 0x4000 0) 0 5 [64] rfl (by decide)
    (by decide) (Prod.ext (by decide) rfl)

end wiifs

namespace wiifs

/-! ## GetNandStats -/

theorem countInode_used_clusters (st : NandStats) (e : FstEntry) :
    (countInode st e).used_clusters = st.used_clusters := by
  unfold countInode; split <;> rfl

theorem foldl_countInode_used_clusters (sb : Superblock) (st : NandStats) (l : List Nat) :
    (l.foldl (fun st i => countInode st (sb.fst i)) st).used_clusters = st.used_clusters := by
  induction l generalizing st with
  | nil => rfl
  | cons a l ih => rw [List.foldl_cons, ih, countInode_used_clusters]

theorem countCluster_used_clusters_le (st : NandStats) (v : Nat) (h : st.used_clusters < 2 ^ 32 - 1) :
    st.used_clusters ≤ (countCluster st v).used_clusters := by
  unfold countCluster
  split
  · exact Nat.le_refl _
  · split
    · exact Nat.le_refl _
    · split
      · exact Nat.le_refl _
      · show st.used_clusters ≤ (st.used_clusters + 1) % 2 ^ 32
        rw [Nat.mod_eq_of_lt (by omega)]; omega

theorem countCluster_used_clusters_bound (st : NandStats) (v : Nat) (n : Nat)
    (h : st.used_clusters ≤ n) (hn : n < 2 ^ 32 - 1) :
    (countCluster st v).used_clusters ≤ n + 1 := by
  unfold countCluster
  split
  · show st.used_clusters ≤ n + 1; omega
  · split
    · show st.used_clusters ≤ n + 1; omega
    · split
      · show st.used_clusters ≤ n + 1; omega
      · show (st.used_clusters + 1) % 2 ^ 32 ≤ n + 1
        rw [Nat.mod_eq_of_lt (by omega)]; omega

theorem countCluster_used (fat : Nat → Nat) (c : Nat) (st : NandStats)
    (h1 : fat c ≠ CLUSTER_UNUSED) (h2 : fat c ≠ 0xffff) (h3 : fat c ≠ CLUSTER_RESERVED)
    (h4 : fat c ≠ CLUSTER_BAD_BLOCK) :
    (countCluster st (fat c)).used_clusters = (st.used_clusters + 1) % 2 ^ 32 := by
  unfold countCluster
  have g1 : ¬ (fat c = CLUSTER_UNUSED ∨ fat c = 0xffff) := by
    intro h; rcases h with h | h
    · exact h1 h
    · exact h2 h
  rw [if_neg g1, if_neg h3, if_neg h4]

theorem GetNandStats_internal (K : Mbedtls) (s : FileSystemImpl) (sb : Superblock)
    (hsb : s.m_superblock = some sb) :
    GetNandStats K s INTERNAL_FD = (.ok (nandStatsOf sb), s) := by
  simp [GetNandStats, GetHandleFromFd, GetSuperblock_of_some K s sb hsb]

theorem option_map_eq_some {α β : Type} (f : α → β) (x : Option α) (a : α) (b : β)
    (hx : x = some a) (h : x.map f = some b) : f a = b := by
  subst hx
  simpa using h

theorem foldl_countCluster_bound (sb : Superblock) (st : NandStats) (n : Nat)
    (h0 : st.used_clusters = 0) (hn : n ≤ FAT_SIZE) :
    ((List.range n).foldl (fun st i => countCluster st (sb.fat i)) st).used_clusters ≤ n := by
  induction n with
  | zero => simp [h0]
  | succ n ih =>
    rw [List.range_succ, List.foldl_append]
    exact countCluster_used_clusters_bound _ _ n (ih (by omega)) (by simp only [FAT_SIZE] at hn; omega)

/-- A cluster in use (its FAT entry is none of the four special values counted
otherwise) makes `GetNandStats` report at least one used cluster. -/
theorem nandStatsOf_used_pos (sb : Superblock) (c : Nat) (hc : c < FAT_SIZE)
    (h1 : sb.fat c ≠ CLUSTER_UNUSED) (h2 : sb.fat c ≠ 0xffff) (h3 : sb.fat c ≠ CLUSTER_RESERVED)
    (h4 : sb.fat c ≠ CLUSTER_BAD_BLOCK) : 1 ≤ (nandStatsOf sb).used_clusters := by
  unfold nandStatsOf
  simp only [foldl_countInode_used_clusters]
  -- after cluster `c` the counter is positive, and it never decreases
  have hmono : ∀ n, c < n → n ≤ FAT_SIZE →
      1 ≤ ((List.range n).foldl (fun st i => countCluster st (sb.fat i))
        { cluster_size := CLUSTER_DATA_SIZE, free_clusters := 0, used_clusters := 0,
          bad_clusters := 0, reserved_clusters := 0, free_inodes := 0,
          used_inodes := 0 }).used_clusters := by
    intro n
    induction n with
    | zero => intro h; omega
    | succ n ih =>
      intro hcn hn
      rw [List.range_succ, List.foldl_append]
      have hb := foldl_countCluster_bound sb
        { cluster_size := CLUSTER_DATA_SIZE, free_clusters := 0, used_clusters := 0,
          bad_clusters := 0, reserved_clusters := 0, free_inodes := 0, used_inodes := 0 }
        n rfl (by omega)
      by_cases hcn' : c < n
      · have := ih hcn' (by omega)
        have hle := countCluster_used_clusters_le
          ((List.range n).foldl (fun st i => countCluster st (sb.fat i))
            { cluster_size := CLUSTER_DATA_SIZE, free_clusters := 0, used_clusters := 0,
              bad_clusters := 0, reserved_clusters := 0, free_inodes := 0, used_inodes := 0 })
          (sb.fat n) (by simp only [FAT_SIZE] at hn; omega)
        exact Nat.le_trans this hle
      · have hcn2 : c = n := by omega
        subst hcn2
        simp only [List.foldl_cons, List.foldl_nil]
        rw [countCluster_used sb.fat c _ h1 h2 h3 h4,
          Nat.mod_eq_of_lt (by simp only [FAT_SIZE] at hn; omega)]
        omega
  exact hmono FAT_SIZE hc (Nat.le_refl _)

/-- A state whose FAT entry `c` is CLUSTER_LAST_IN_CHAIN has a used cluster in
the statistics of `GetNandStats`. -/
theorem GetNandStats_used_of_fat (K : Mbedtls) (s : FileSystemImpl) (c : Nat) (hc : c < FAT_SIZE)
    (h : s.m_superblock.map (fun sb => sb.fat c) = some CLUSTER_LAST_IN_CHAIN) :
    ∃ sb st, GetNandStats K s INTERNAL_FD = (.ok st, s) ∧ s.m_superblock = some sb ∧
      sb.fat c = CLUSTER_LAST_IN_CHAIN ∧ 1 ≤ st.used_clusters := by
  cases hsb : s.m_superblock with
  | none => rw [hsb] at h; cases h
  | some sb =>
    have hfat : sb.fat c = CLUSTER_LAST_IN_CHAIN :=
      option_map_eq_some (fun sb => sb.fat c) _ sb _ hsb h
    refine ⟨sb, nandStatsOf sb, GetNandStats_internal K s sb hsb, rfl, hfat, ?_⟩
    apply nandStatsOf_used_pos sb c hc <;> rw [hfat] <;> decide

/-! ## A rename into the renamed directory's own subtree -/

/-- C4 at a failing input: on a blank NAND image, `Format(0)`, `OpenFs`,
`CreateDirectory("/a")`, `CreateFile("/a/f")`, `OpenFile("/a/f", Write)`,
`WriteFile` of one byte, `Close`, `Rename("/a", "/a/b")` and `Close` all
succeed and leave every public handle closed.  Afterwards cluster 64 is still
allocated, so `GetNandStats` reports at least one used cluster, while the root
directory has no child left: the sum of `ceil(size / 0x4000)` over the files
reachable from the root, as `GetDirectoryStats("/")` computes it, is 0. -/
theorem Rename_into_own_subtree_loses_clusters :
    (Format Mbedtls.plain FileSystemImpl.blank 0).map (·.1) = some .Success ∧
    (OpenFs renameRun.s1 0 0).1 = .ok 0 ∧
    (CreateDirectory Mbedtls.plain renameRun.s2 0 (bytesOf "/a") 0 3 0 0).map (·.1)
      = some .Success ∧
    (CreateFile Mbedtls.plain renameRun.s3 0 (bytesOf "/a/f") 0 3 0 0).map (·.1)
      = some .Success ∧
    (OpenFile Mbedtls.plain renameRun.s4 0 0 (bytesOf "/a/f") 2).map (·.1) = some (.ok 1) ∧
    (WriteFile Mbedtls.plain renameRun.s5 1 [1] 1).map (·.1) = some (.ok 1) ∧
    (Close Mbedtls.plain renameRun.s6 1).map (·.1) = some .Success ∧
    (Rename Mbedtls.plain renameRun.s7 0 (bytesOf "/a") (bytesOf "/a/b")).map (·.1)
      = some .Success ∧
    (Close Mbedtls.plain renameRun.s8 0).map (·.1) = some .Success ∧
    (List.range 16).all (fun i => !(renameRun.s9.m_handles i).opened) = true ∧
    (∃ sb st, GetNandStats Mbedtls.plain renameRun.s9 INTERNAL_FD = (.ok st, renameRun.s9) ∧
      renameRun.s9.m_superblock = some sb ∧ sb.fat 64 = CLUSTER_LAST_IN_CHAIN ∧
      1 ≤ st.used_clusters) ∧
    (GetDirectoryStats Mbedtls.plain renameRun.s9 INTERNAL_FD (bytesOf "/")).map (·.1)
      = some (.ok { used_clusters := 0, used_inodes := 1 }) ∧
    renameRun.s9.m_superblock.map (fun sb => ((sb.fst 0).sub, (sb.fst 1).sub, (sb.fst 1).sib,
      (sb.fst 2).size, (sb.fst 2).sub))
      = some (0xffff, 1, 2, 1, 64) := by
  have hrun : (Format Mbedtls.plain FileSystemImpl.blank 0).map (·.1) = some .Success ∧
      (OpenFs renameRun.s1 0 0).1 = .ok 0 ∧
      (CreateDirectory Mbedtls.plain renameRun.s2 0 (bytesOf "/a") 0 3 0 0).map (·.1)
        = some .Success ∧
      (CreateFile Mbedtls.plain renameRun.s3 0 (bytesOf "/a/f") 0 3 0 0).map (·.1)
        = some .Success ∧
      (OpenFile Mbedtls.plain renameRun.s4 0 0 (bytesOf "/a/f") 2).map (·.1) = some (.ok 1) ∧
      (WriteFile Mbedtls.plain renameRun.s5 1 [1] 1).map (·.1) = some (.ok 1) ∧
      (Close Mbedtls.plain renameRun.s6 1).map (·.1) = some .Success ∧
      (Rename Mbedtls.plain renameRun.s7 0 (bytesOf "/a") (bytesOf "/a/b")).map (·.1)
        = some .Success ∧
      (Close Mbedtls.plain renameRun.s8 0).map (·.1) = some .Success ∧
      (List.range 16).all (fun i => !(renameRun.s9.m_handles i).opened) = true := by
    decide!
  have hfat : renameRun.s9.m_superblock.map (fun sb => sb.fat 64)
      = some CLUSTER_LAST_IN_CHAIN := by
    decide!
  have hstats := GetNandStats_used_of_fat Mbedtls.plain renameRun.s9 64 (by decide) hfat
  have hrest : (GetDirectoryStats Mbedtls.plain renameRun.s9 INTERNAL_FD (bytesOf "/")).map (·.1)
        = some (.ok { used_clusters := 0, used_inodes := 1 }) ∧
      renameRun.s9.m_superblock.map (fun sb => ((sb.fst 0).sub, (sb.fst 1).sub, (sb.fst 1).sib,
        (sb.fst 2).size, (sb.fst 2).sub))
        = some (0xffff, 1, 2, 1, 64) := by
    decide!
  obtain ⟨h1, h2, h3, h4, h5, h6, h7, h8, h9, h10⟩ := hrun
  exact ⟨h1, h2, h3, h4, h5, h6, h7, h8, h9, h10, hstats, hrest.1, hrest.2⟩

end wiifs

namespace wiifs

/-! ## A read request whose end wraps around -/

/-- C8 at a failing input: descriptor 1 is open for Read on a file of 0x20
bytes, at offset 0x10.  `ReadFile(1, 0xFFFFFFF8)` does not truncate the request
(`count + file_offset` wraps to 8): it copies 0x3FF0 bytes to the caller's
buffer, returns Invalid, and leaves `file_offset = 0x4000` with
`file_size = 0x20`. -/
theorem ReadFile_wrapping_count_reads_past_end :
    (readRun.s8.handle 1).mode = 1 ∧ (readRun.s8.handle 1).file_offset = 0x10 ∧
    (readRun.s8.handle 1).file_size = 0x20 ∧
    (ReadFile Mbedtls.plain readRun.s8 1 0xfffffff8).map
        (fun r => (r.1, r.2.1.length, (r.2.2.handle 1).file_offset, (r.2.2.handle 1).file_size))
      = some (.error .Invalid, 0x3ff0, 0x4000, 0x20) := by
  decide!

end wiifs

namespace wiifs

/-! ## SplitPath -/

/-- C16 at the documented example: `SplitPath("/shared2/sys/SYSCONF")` returns
the parent "/shared2/sys/" with the separator at its end, and the file name
"SYSCONF"; it does not return the parent "/shared2/sys" of the doc comment. -/
theorem SplitPath_keeps_trailing_separator :
    SplitPath (bytesOf "/shared2/sys/SYSCONF") = (bytesOf "/shared2/sys/", bytesOf "SYSCONF") ∧
    SplitPath (bytesOf "/shared2/sys/SYSCONF") ≠ (bytesOf "/shared2/sys", bytesOf "SYSCONF") := by
  decide

/-! ## Path validation in CreateFileOrDirectory -/

/-- C14 at a failing input: the test `c - ' ' > 0x5e` is false for every byte
below 0x20, and on a formatted file system `CreateFile` and `CreateDirectory`
with the path "/a\x01" (bytes 0x2f, 0x61, 0x01) return `Success` and create the
entry named by the bytes 0x61, 0x01 instead of returning `Invalid`. -/
theorem CreateFile_accepts_control_byte :
    (∀ c, c < 0x20 → decide (charToInt c - 32 > 0x5e) = false) ∧
    (CreateFile Mbedtls.plain FileSystemImpl.formatted INTERNAL_FD [0x2f, 0x61, 0x01] 0 3 3 3).map
        (fun r => (r.1, r.2.m_superblock.map (fun sb => ((sb.fst 0).sub, (sb.fst 1).GetName,
          (sb.fst 1).mode &&& 3))))
      = some (.Success, some (1, [0x61, 0x01], 1)) ∧
    (CreateDirectory Mbedtls.plain FileSystemImpl.formatted INTERNAL_FD [0x2f, 0x61, 0x01]
        0 3 3 3).map
        (fun r => (r.1, r.2.m_superblock.map (fun sb => ((sb.fst 0).sub, (sb.fst 1).GetName,
          (sb.fst 1).mode &&& 3))))
      = some (.Success, some (1, [0x61, 0x01], 2)) := by
  refine ⟨?_, ?_, ?_⟩
  · intro c hc
    have h1 : c % 256 = c := Nat.mod_eq_of_lt (by omega)
    have h2 : c < 128 := by omega
    simp only [charToInt, h1, if_pos h2, decide_eq_false_iff_not]
    omega
  · decide!
  · decide!

/-! ## Creating the same long name twice -/

/-- C13 at a failing input: on a formatted file system, `CreateFile` with the
path "/abcdefghijklm" (a basename of 13 bytes) returns `Success`, and the same
call made again returns `Success` as well, not `AlreadyExists` (so does
`CreateDirectory`): afterwards the FST entries 1 and 2 are both live, both
named "abcdefghijkl", and both in the root's child list. -/
theorem CreateFile_twice_long_basename :
    IsValidNonRootPath (bytesOf "/abcdefghijklm") = true ∧
    (CreateFile Mbedtls.plain FileSystemImpl.formatted INTERNAL_FD (bytesOf "/abcdefghijklm")
        0 3 3 3).map (fun r => (r.1, r.2.m_superblock.map (fun sb => [(sb.fst 0).sub,
          (sb.fst 1).mode &&& 3, (sb.fst 2).mode &&& 3])))
      = some (.Success, some [1, 1, 0]) ∧
    ((CreateFile Mbedtls.plain FileSystemImpl.formatted INTERNAL_FD (bytesOf "/abcdefghijklm")
        0 3 3 3).bind (fun r => CreateFile Mbedtls.plain r.2 INTERNAL_FD
          (bytesOf "/abcdefghijklm") 0 3 3 3)).map
        (fun r => (r.1, r.2.m_superblock.map (fun sb => ([(sb.fst 0).sub, (sb.fst 2).sib,
          (sb.fst 1).sib, (sb.fst 1).mode &&& 3, (sb.fst 2).mode &&& 3],
          [(sb.fst 1).GetName, (sb.fst 2).GetName]))))
      = some (.Success, some ([2, 1, 0xffff, 1, 1],
          [bytesOf "abcdefghijkl", bytesOf "abcdefghijkl"])) ∧
    ((CreateFile Mbedtls.plain FileSystemImpl.formatted INTERNAL_FD (bytesOf "/abcdefghijklm")
        0 3 3 3).bind (fun r => CreateDirectory Mbedtls.plain r.2 INTERNAL_FD
          (bytesOf "/abcdefghijklm") 0 3 3 3)).map
        (fun r => (r.1, r.2.m_superblock.map (fun sb => ([(sb.fst 0).sub, (sb.fst 2).sib,
          (sb.fst 1).sib, (sb.fst 1).mode &&& 3, (sb.fst 2).mode &&& 3],
          [(sb.fst 1).GetName, (sb.fst 2).GetName]))))
      = some (.Success, some ([2, 1, 0xffff, 1, 2],
          [bytesOf "abcdefghijkl", bytesOf "abcdefghijkl"])) := by
  decide!

/-! ## Renaming a directory into its own subtree -/

/-- C19 at a failing input: in the tree with the directories "/d" (FST index 1)
and "/e" and the file "/d/f" (index 3), `Rename("/d", "/d/b")` returns
`Success`, but afterwards "/d/b" does not resolve, and the `sub` of entry 1 has
changed from 3 to 1: the entry is its own first child and is no longer in the
root's child list. -/
theorem Rename_into_own_subtree_breaks_resolution :
    GetFstIndex Superblock.sampleTree (bytesOf "/d") = some (.ok 1) ∧
    (Superblock.sampleTree.fst 1).sub = 3 ∧
    (Rename Mbedtls.plain FileSystemImpl.sampleTree INTERNAL_FD (bytesOf "/d")
        (bytesOf "/d/b")).map (·.1) = some .Success ∧
    ((Rename Mbedtls.plain FileSystemImpl.sampleTree INTERNAL_FD (bytesOf "/d")
        (bytesOf "/d/b")).bind (fun r => r.2.m_superblock)).bind
        (fun sb => GetFstIndex sb (bytesOf "/d/b")) = some (.error .Invalid) ∧
    ((Rename Mbedtls.plain FileSystemImpl.sampleTree INTERNAL_FD (bytesOf "/d")
        (bytesOf "/d/b")).bind (fun r => r.2.m_superblock)).map
        (fun sb => ((sb.fst 1).GetName, [(sb.fst 1).sub, (sb.fst 0).sub, (sb.fst 2).sib]))
      = some (bytesOf "b", [1, 2, 0xffff]) := by
  decide!

end wiifs

namespace wiifs

/-! ## The depth limit of CreateDirectory -/

/-- `CreateFileOrDirectory` for a file never returns `TooManyPathComponents`. -/
theorem CreateFileOrDirectory_file_ne_TooManyPathComponents (K : Mbedtls) (s : FileSystemImpl)
    (handle : Handle) (path : List Nat) (attr owner_mode group_mode other_mode : Nat)
    (s' : FileSystemImpl) :
    CreateFileOrDirectory K s handle path attr owner_mode group_mode other_mode true
      ≠ some (.TooManyPathComponents, s') := by
  intro h
  unfold CreateFileOrDirectory at h
  simp only [Bool.not_true, Bool.false_and, Bool.false_eq_true, if_false] at h
  split at h
  · simp at h
  · split at h
    · simp at h
    · rename_i sb s1 hg
      split at h
      · simp at h
      · simp at h
      · split at h
        · simp at h
        · split at h
          · simp at h
          · simp at h
          · split at h
            · simp at h
            · obtain ⟨s2, hs2, _⟩ := FlushSuperblock_total K
                { s1 with m_superblock := some (((sb.setFst _ _).setFst _ _).setFst _ _) } _ rfl
              rw [hs2] at h
              simp at h

/-- A path of printable bytes passes the character test of
`CreateFileOrDirectory`. -/
theorem printable_any_false (path : List Nat) (hprint : ∀ c ∈ path, 0x20 ≤ c ∧ c ≤ 0x7e) :
    path.any (fun c => decide (charToInt c - 32 > 0x5e)) = false := by
  rw [List.any_eq_false]
  intro c hc
  have h := hprint c hc
  have h1 : c % 256 = c := Nat.mod_eq_of_lt (by omega)
  have h2 : c < 128 := by omega
  simp only [charToInt, h1, if_pos h2, decide_eq_true_eq]
  omega

/-- C15: for a valid non-root path of printable bytes with more than 8 `/`
characters, `CreateDirectory` through a valid handle returns
`TooManyPathComponents` and leaves the state as it is, whatever the state
holds (the check precedes the load of the superblock), while `CreateFile` with
that path returns `TooManyPathComponents` in no state; on a formatted file
system, after the eight directories "/a", ..., "/a/a/a/a/a/a/a/a" have been
created, `CreateFile` with the path of 9 separators returns `Success`. -/
theorem CreateDirectory_depth_limit (K : Mbedtls) (s : FileSystemImpl) (fd h : Nat)
    (path : List Nat) (attr owner_mode group_mode other_mode : Nat)
    (hfd : GetHandleFromFd s fd = some h)
    (hvalid : IsValidNonRootPath path = true)
    (hprint : ∀ c ∈ path, 0x20 ≤ c ∧ c ≤ 0x7e)
    (hcount : path.count 47 > 8) :
    CreateDirectory K s fd path attr owner_mode group_mode other_mode
      = some (.TooManyPathComponents, s) ∧
    (∀ (s0 : FileSystemImpl) (fd0 : Nat) (s' : FileSystemImpl),
      CreateFile K s0 fd0 path attr owner_mode group_mode other_mode
        ≠ some (.TooManyPathComponents, s')) ∧
    ((((((((((some (ResultCode.Success, FileSystemImpl.formatted)).bind
      (fun r => CreateDirectory Mbedtls.plain r.2 INTERNAL_FD (bytesOf "/a") 0 3 3 3)).bind
      (fun r => CreateDirectory Mbedtls.plain r.2 INTERNAL_FD (bytesOf "/a/a") 0 3 3 3)).bind
      (fun r => CreateDirectory Mbedtls.plain r.2 INTERNAL_FD (bytesOf "/a/a/a") 0 3 3 3)).bind
      (fun r => CreateDirectory Mbedtls.plain r.2 INTERNAL_FD (bytesOf "/a/a/a/a") 0 3 3 3)).bind
      (fun r => CreateDirectory Mbedtls.plain r.2 INTERNAL_FD (bytesOf "/a/a/a/a/a") 0 3 3 3)).bind
      (fun r => CreateDirectory Mbedtls.plain r.2 INTERNAL_FD (bytesOf "/a/a/a/a/a/a")
        0 3 3 3)).bind
      (fun r => CreateDirectory Mbedtls.plain r.2 INTERNAL_FD (bytesOf "/a/a/a/a/a/a/a")
        0 3 3 3)).bind
      (fun r => CreateDirectory Mbedtls.plain r.2 INTERNAL_FD (bytesOf "/a/a/a/a/a/a/a/a")
        0 3 3 3)).bind
      (fun r => CreateFile Mbedtls.plain r.2 INTERNAL_FD (bytesOf "/a/a/a/a/a/a/a/a/a")
        0 3 3 3)).map (·.1) = some .Success := by
  refine ⟨?_, ?_, ?_⟩
  · unfold CreateDirectory
    rw [hfd]
    simp only [CreateFileOrDirectory, hvalid, printable_any_false path hprint]
    simp [hcount]
  · intro s0 fd0 s' h0
    unfold CreateFile at h0
    split at h0
    · simp at h0
    · exact CreateFileOrDirectory_file_ne_TooManyPathComponents K _ _ _ _ _ _ _ _ h0
  · decide!

/-- The depth limit at the path "/a/a/a/a/a/a/a/a/a" of 9 separators, on a driver
that holds no superblock, through the internal handle. -/
theorem CreateDirectory_depth_limit_witness :
    CreateDirectory Mbedtls.plain FileSystemImpl.blank INTERNAL_FD (bytesOf "/a/a/a/a/a/a/a/a/a")
        0 3 3 3 = some (.TooManyPathComponents, FileSystemImpl.blank) :=
  (CreateDirectory_depth_limit Mbedtls.plain FileSystemImpl.blank INTERNAL_FD INTERNAL_FD
    (bytesOf "/a/a/a/a/a/a/a/a/a") 0 3 3 3 (by decide) (by decide) (by decide) (by decide)).1

/-! ## The same-name rule of Rename -/

/-- C20: when the source of `Rename(old, new)` resolves to a file, both parents
resolve and are writable by the caller, and the first 12 bytes of the two
basenames are equal, `Rename` returns `Invalid` and leaves the state as it is;
the two parents may differ.  A directory is not subject to the rule: in the
tree with the directories "/d" and "/e", `Rename("/d", "/e/d")` returns
`Success` and "/e/d" then resolves to the entry of "/d". -/
theorem Rename_same_basename_file (K : Mbedtls) (s : FileSystemImpl) (sb : Superblock)
    (fd h : Nat) (old_path new_path : List Nat) (old_parent new_parent index : Nat)
    (hfd : GetHandleFromFd s fd = some h)
    (hold : IsValidNonRootPath old_path = true) (hnew : IsValidNonRootPath new_path = true)
    (hsb : s.m_superblock = some sb)
    (hop : GetFstIndex sb (SplitPath old_path).1 = some (.ok old_parent))
    (hnp : GetFstIndex sb (SplitPath new_path).1 = some (.ok new_parent))
    (hperm1 : HasPermission (sb.fst old_parent) (s.handle h).uid (s.handle h).gid 2 = true)
    (hperm2 : HasPermission (sb.fst new_parent) (s.handle h).uid (s.handle h).gid 2 = true)
    (hindex : GetFstIndexIn sb old_parent (SplitPath old_path).2 = some (.ok index))
    (hfile : (sb.fst index).IsFile = true)
    (hname : (SplitPath old_path).2.take 12 = (SplitPath new_path).2.take 12) :
    Rename K s fd old_path new_path = some (.Invalid, s) ∧
    (GetFstIndex Superblock.sampleTree (bytesOf "/d") = some (.ok 1) ∧
     (Superblock.sampleTree.fst 1).IsDirectory = true ∧
     (Rename Mbedtls.plain FileSystemImpl.sampleTree INTERNAL_FD (bytesOf "/d")
        (bytesOf "/e/d")).map (·.1) = some .Success ∧
     ((Rename Mbedtls.plain FileSystemImpl.sampleTree INTERNAL_FD (bytesOf "/d")
        (bytesOf "/e/d")).bind (fun r => r.2.m_superblock)).bind
        (fun sb => GetFstIndex sb (bytesOf "/e/d")) = some (.ok 1)) := by
  refine ⟨?_, ?_⟩
  · unfold Rename
    rw [hfd]
    simp only [hold, hnew, GetSuperblock_of_some K s sb hsb, hop, hnp, hperm1, hperm2, hindex,
      hfile, hname]
    simp
  · decide!

/-- The same-name rule at `Rename("/d/f", "/e/f")` in the tree with the
directories "/d" and "/e" and the file "/d/f". -/
theorem Rename_same_basename_file_witness :
    Rename Mbedtls.plain FileSystemImpl.sampleTree INTERNAL_FD (bytesOf "/d/f") (bytesOf "/e/f")
      = some (.Invalid, FileSystemImpl.sampleTree) :=
  (Rename_same_basename_file Mbedtls.plain FileSystemImpl.sampleTree Superblock.sampleTree
    INTERNAL_FD INTERNAL_FD (bytesOf "/d/f") (bytesOf "/e/f") 1 2 3 (by decide) (by decide)
    (by decide) rfl (by decide!) (by decide!) (by decide) (by decide) (by decide!) (by decide!)
    (by decide)).1

end wiifs

namespace wiifs

/-! ## Entries in use -/

/-- Nothing is met by the traversal from an index outside the FST. -/
theorem OpenFileBelow_lt (s : FileSystemImpl) (sb : Superblock) (c : Nat)
    (h : OpenFileBelow s sb c) : c < FST_SIZE := by
  cases h <;> assumption

/-- With links that decrease a rank, the traversal of `IsDirectoryInUse` ends,
and it returns true exactly when it meets an open file. -/
theorem IsDirectoryInUseLoop_spec (s : FileSystemImpl) (sb : Superblock) (rank : Nat → Nat)
    (region : Nat → Prop) (hlinks : LinksDecrease sb rank region) :
    ∀ (fuel c : Nat), (c < FST_SIZE → region c ∧ rank c + 1 < fuel) → 0 < fuel →
      ∃ b, IsDirectoryInUseLoop s sb fuel c = some b ∧ (b = true ↔ OpenFileBelow s sb c) := by
  intro fuel
  induction fuel with
  | zero => intro c _ h; omega
  | succ fuel ih =>
    intro c hc _
    unfold IsDirectoryInUseLoop
    by_cases hlt : c < FST_SIZE
    · have hge : ¬ c ≥ FST_SIZE := by omega
      rw [if_neg hge]
      obtain ⟨hreg, hrank⟩ := hc hlt
      obtain ⟨hsib, hsub⟩ := hlinks c hlt hreg
      have hfuel : 0 < fuel := by omega
      have hsib' : (sb.fst c).sib < FST_SIZE →
          region (sb.fst c).sib ∧ rank (sb.fst c).sib + 1 < fuel := by
        intro h
        have := hsib h
        exact ⟨this.1, by omega⟩
      obtain ⟨b2, hb2, hb2'⟩ := ih (sb.fst c).sib hsib' hfuel
      by_cases hfile : (sb.fst c).IsFile = true
      · rw [if_pos hfile]
        by_cases hopen : IsFileOpened s c = true
        · rw [if_pos hopen]
          exact ⟨true, rfl, fun _ => OpenFileBelow.here c hlt hfile hopen, fun _ => rfl⟩
        · rw [if_neg hopen]
          refine ⟨b2, hb2, hb2'.trans ⟨fun h => OpenFileBelow.sib c hlt h, fun h => ?_⟩⟩
          cases h with
          | here _ h1 h2 h3 => exact absurd h3 hopen
          | sib _ h1 h2 => exact h2
          | sub _ h1 h2 h3 => rw [hfile] at h2; exact absurd h2 (by decide)
      · rw [if_neg hfile]
        have hfile' : (sb.fst c).IsFile = false := by simpa using hfile
        have hsub' : (sb.fst c).sub < FST_SIZE →
            region (sb.fst c).sub ∧ rank (sb.fst c).sub + 1 < fuel := by
          intro h
          have := hsub hfile' h
          exact ⟨this.1, by omega⟩
        obtain ⟨b1, hb1, hb1'⟩ := ih (sb.fst c).sub hsub' hfuel
        rw [hb1]
        cases b1 with
        | true =>
          exact ⟨true, rfl, fun _ => OpenFileBelow.sub c hlt hfile' (hb1'.1 rfl), fun _ => rfl⟩
        | false =>
          refine ⟨b2, hb2, hb2'.trans ⟨fun h => OpenFileBelow.sib c hlt h, fun h => ?_⟩⟩
          cases h with
          | here _ h1 h2 h3 => exact absurd h2 hfile
          | sib _ h1 h2 => exact h2
          | sub _ h1 h2 h3 => exact absurd (hb1'.2 h3) (by decide)
    · have hge : c ≥ FST_SIZE := by omega
      rw [if_pos hge]
      refine ⟨false, rfl, fun h => absurd h (by decide), fun h => ?_⟩
      exact absurd (OpenFileBelow_lt s sb c h) hlt

/-- A directory is not a file. -/
theorem IsFile_of_IsDirectory (e : FstEntry) (h : e.IsDirectory = true) : e.IsFile = false := by
  simp only [FstEntry.IsDirectory, FstEntry.IsFile, beq_iff_eq, beq_eq_false_iff_ne] at *
  omega

/-- A file is not a directory. -/
theorem IsDirectory_of_IsFile (e : FstEntry) (h : e.IsFile = true) : e.IsDirectory = false := by
  simp only [FstEntry.IsDirectory, FstEntry.IsFile, beq_iff_eq, beq_eq_false_iff_ne] at *
  omega

/-- `IsDirectoryInUse` returns true for a directory below which the traversal
meets an open file, when the links below it form no cycle. -/
theorem IsDirectoryInUse_of_OpenFileBelow (s : FileSystemImpl) (sb : Superblock)
    (rank : Nat → Nat) (region : Nat → Prop) (index : Nat)
    (hlinks : LinksDecrease sb rank region)
    (hbound : ∀ i, region i → rank i + 1 < 2 * FST_SIZE)
    (hreg : region (sb.fst index).sub)
    (hopen : OpenFileBelow s sb (sb.fst index).sub) :
    IsDirectoryInUse s sb index = some true := by
  obtain ⟨b, hb, hb'⟩ := IsDirectoryInUseLoop_spec s sb rank region hlinks (2 * FST_SIZE)
    (sb.fst index).sub (fun _ => ⟨hreg, hbound _ hreg⟩) (by decide)
  unfold IsDirectoryInUse
  rw [hb, hb'.2 hopen]

/-- C17: let `p` resolve, in the superblock held by the driver, to a file that a
public handle has open, or to a directory below which the traversal of
`IsDirectoryInUse` meets such a file (the links followed below the directory
forming no cycle).  Then whatever `Delete(p)` and `Rename(p, q)` return, through
any descriptor and for any `q`, is not `Success`, and the whole driver state,
FAT and FST included, is as before; and `Delete(p)` through a valid handle that
may write to the parent returns `InUse`. -/
theorem Delete_Rename_in_use (K : Mbedtls) (s : FileSystemImpl) (sb : Superblock)
    (p : List Nat) (parent index : Nat) (rank : Nat → Nat) (region : Nat → Prop)
    (hsb : s.m_superblock = some sb)
    (hparent : GetFstIndex sb (SplitPath p).1 = some (.ok parent))
    (hindex : GetFstIndexIn sb parent (SplitPath p).2 = some (.ok index))
    (hlinks : LinksDecrease sb rank region)
    (hbound : ∀ i, region i → rank i + 1 < 2 * FST_SIZE)
    (huse : ((sb.fst index).IsFile = true ∧ IsFileOpened s index = true) ∨
      ((sb.fst index).IsDirectory = true ∧ region (sb.fst index).sub ∧
        OpenFileBelow s sb (sb.fst index).sub)) :
    (∀ fd r s', Delete K s fd p = some (r, s') → r ≠ .Success ∧ s' = s) ∧
    (∀ fd q r s', Rename K s fd p q = some (r, s') → r ≠ .Success ∧ s' = s) ∧
    (∀ fd h, GetHandleFromFd s fd = some h → IsValidNonRootPath p = true →
      HasPermission (sb.fst parent) (s.handle h).uid (s.handle h).gid 2 = true →
      Delete K s fd p = some (.InUse, s)) := by
  have hdel : deleteEntryContents s sb index = some (.error .InUse) := by
    unfold deleteEntryContents
    rcases huse with ⟨hf, ho⟩ | ⟨hd, hreg, ho⟩
    · simp [IsDirectory_of_IsFile _ hf, hf, ho]
    · simp [hd, IsDirectoryInUse_of_OpenFileBelow s sb rank region index hlinks hbound hreg ho]
  have hren : (if (sb.fst index).IsDirectory then IsDirectoryInUse s sb index
      else some ((sb.fst index).IsFile && IsFileOpened s index)) = some true := by
    rcases huse with ⟨hf, ho⟩ | ⟨hd, hreg, ho⟩
    · simp [IsDirectory_of_IsFile _ hf, hf, ho]
    · simp [hd, IsDirectoryInUse_of_OpenFileBelow s sb rank region index hlinks hbound hreg ho]
  refine ⟨?_, ?_, ?_⟩
  · intro fd r s' h
    unfold Delete at h
    simp only [GetSuperblock_of_some K s sb hsb, hparent, hindex, hdel] at h
    split at h
    · simp only [Option.some.injEq, Prod.mk.injEq] at h
      obtain ⟨rfl, rfl⟩ := h
      exact ⟨by decide, rfl⟩
    · split_ifs at h <;>
      · simp only [Option.some.injEq, Prod.mk.injEq] at h
        obtain ⟨rfl, rfl⟩ := h
        exact ⟨by decide, rfl⟩
  · intro fd q r s' h
    unfold Rename at h
    simp only [GetSuperblock_of_some K s sb hsb, hparent, hindex] at h
    split at h
    · simp only [Option.some.injEq, Prod.mk.injEq] at h
      obtain ⟨rfl, rfl⟩ := h
      exact ⟨by decide, rfl⟩
    · split_ifs at h
      · simp only [Option.some.injEq, Prod.mk.injEq] at h
        obtain ⟨rfl, rfl⟩ := h
        exact ⟨by decide, rfl⟩
      · split at h
        · simp at h
        · simp at h
        · simp only [Option.some.injEq, Prod.mk.injEq] at h
          obtain ⟨rfl, rfl⟩ := h
          exact ⟨by decide, rfl⟩
        · simp only [Option.some.injEq, Prod.mk.injEq] at h
          obtain ⟨rfl, rfl⟩ := h
          exact ⟨by decide, rfl⟩
        · rename_i op np hop hnp
          simp only [Option.some.injEq, Except.ok.injEq] at hop
          subst hop
          simp only [hindex, hren] at h
          split_ifs at h <;>
          · simp only [Option.some.injEq, Prod.mk.injEq] at h
            obtain ⟨rfl, rfl⟩ := h
            exact ⟨by decide, rfl⟩
  · intro fd h hfd hvalid hperm
    unfold Delete
    rw [hfd]
    simp [hvalid, GetSuperblock_of_some K s sb hsb, hparent, hperm, hindex, hdel]

/-- The in-use rule at `Delete("/d")` through descriptor 0 in the tree with the
directory "/d" and the file "/d/f", which descriptor 0 has open. -/
theorem Delete_Rename_in_use_witness :
    Delete Mbedtls.plain FileSystemImpl.sampleTreeOpen 0 (bytesOf "/d")
      = some (.InUse, FileSystemImpl.sampleTreeOpen) :=
  (Delete_Rename_in_use Mbedtls.plain FileSystemImpl.sampleTreeOpen Superblock.sampleTree
    (bytesOf "/d") 0 1 (fun _ => 0) (fun i => i = 3) rfl (by decide!) (by decide!)
    (by
      intro i _ hi
      subst hi
      exact ⟨fun h => absurd h (by decide), fun h => absurd h (by decide)⟩)
    (fun _ _ => show 0 + 1 < 2 * FST_SIZE by decide)
    (Or.inr ⟨by decide, by decide,
      OpenFileBelow.here 3 (by decide) (by decide) (by decide)⟩)).2.2 0 0
    (by decide) (by decide) (by decide)

end wiifs

namespace wiifs

/-! ## Path resolution reads only the traced entries -/

/-- `GetFstIndex(superblock, path)` is the resolution of the components of the
path from the root. -/
theorem GetFstIndex_eq (sb : Superblock) (path : List Nat) :
    GetFstIndex sb path = GetFstIndexComponents sb (pathComponents path) 0 := by
  unfold GetFstIndex pathComponents
  split_ifs
  · rfl
  · rfl

/-- The loop of the lookup gives the same result in two superblocks that agree
on the name and `sib` of the entries it reads. -/
theorem GetFstIndexLoop_congr (sb sb' : Superblock) (file_name : List Nat) :
    ∀ (fuel index : Nat),
      (∀ i ∈ loopTrace sb file_name fuel index,
        (sb'.fst i).GetName = (sb.fst i).GetName ∧ (sb'.fst i).sib = (sb.fst i).sib) →
      GetFstIndexLoop sb' file_name fuel index = GetFstIndexLoop sb file_name fuel index := by
  intro fuel
  induction fuel with
  | zero => intro index _; rfl
  | succ fuel ih =>
    intro index h
    unfold GetFstIndexLoop
    have h0 := h index (by unfold loopTrace; exact List.mem_cons_self _ _)
    rw [h0.1]
    by_cases hn : (sb.fst index).GetName = file_name
    · rw [if_pos hn, if_pos hn]
    · rw [if_neg hn, if_neg hn]
      simp only [h0.2]
      by_cases hs : (sb.fst index).sib < FST_SIZE
      · rw [if_pos hs, if_pos hs]
        apply ih
        intro i hi
        apply h
        unfold loopTrace
        rw [if_neg hn, if_pos hs]
        exact List.mem_cons_of_mem _ hi
      · rw [if_neg hs, if_neg hs]

/-- The lookup of a name in a directory gives the same result in two
superblocks that agree on the `sub` of the directory and on the name and `sib`
of the entries the lookup reads. -/
theorem GetFstIndexIn_congr (sb sb' : Superblock) (parent : Nat) (file_name : List Nat)
    (hsub : (sb'.fst parent).sub = (sb.fst parent).sub)
    (h : ∀ i ∈ lookupTrace sb parent file_name,
      (sb'.fst i).GetName = (sb.fst i).GetName ∧ (sb'.fst i).sib = (sb.fst i).sib) :
    GetFstIndexIn sb' parent file_name = GetFstIndexIn sb parent file_name := by
  unfold GetFstIndexIn
  unfold lookupTrace at h
  by_cases h1 : parent ≥ FST_SIZE ∨ file_name.length > 12
  · rw [if_pos h1, if_pos h1]
  · rw [if_neg h1, if_neg h1]
    rw [if_neg h1] at h
    simp only [hsub]
    by_cases h2 : (sb.fst parent).sub ≥ FST_SIZE
    · rw [if_pos h2, if_pos h2]
    · rw [if_neg h2, if_neg h2]
      rw [if_neg h2] at h
      exact GetFstIndexLoop_congr sb sb' file_name _ _ h

/-- The resolution of a list of components gives the same result in two
superblocks that agree on the `sub` of the directories it goes through and on
the name and `sib` of the entries it reads. -/
theorem GetFstIndexComponents_congr (sb sb' : Superblock) :
    ∀ (components : List (List Nat)) (start : Nat),
      (∀ i ∈ resolveDirs sb components start, (sb'.fst i).sub = (sb.fst i).sub) →
      (∀ i ∈ resolveTrace sb components start,
        (sb'.fst i).GetName = (sb.fst i).GetName ∧ (sb'.fst i).sib = (sb.fst i).sib) →
      GetFstIndexComponents sb' components start = GetFstIndexComponents sb components start := by
  intro components
  induction components with
  | nil => intro start _ _; rfl
  | cons component rest ih =>
    intro start hd ht
    unfold GetFstIndexComponents
    have hin : GetFstIndexIn sb' start component = GetFstIndexIn sb start component := by
      apply GetFstIndexIn_congr
      · apply hd
        unfold resolveDirs
        exact List.mem_cons_self _ _
      · intro i hi
        apply ht
        unfold resolveTrace
        exact List.mem_append_left _ hi
    rw [hin]
    cases hr : GetFstIndexIn sb start component with
    | none => rfl
    | some r =>
      cases r with
      | error e => rfl
      | ok result =>
        simp only
        by_cases hge : result ≥ FST_SIZE
        · rw [if_pos hge, if_pos hge]
        · rw [if_neg hge, if_neg hge]
          apply ih
          · intro i hi
            apply hd
            unfold resolveDirs
            rw [hr]
            simp only [if_neg hge]
            exact List.mem_cons_of_mem _ hi
          · intro i hi
            apply ht
            unfold resolveTrace
            rw [hr]
            simp only [if_neg hge]
            exact List.mem_append_right _ hi

/-- The resolution of a path gives the same result in two superblocks that
agree on what the resolution reads. -/
theorem GetFstIndex_congr (sb sb' : Superblock) (path : List Nat)
    (hd : ∀ i ∈ pathDirs sb path, (sb'.fst i).sub = (sb.fst i).sub)
    (ht : ∀ i ∈ pathTrace sb path,
      (sb'.fst i).GetName = (sb.fst i).GetName ∧ (sb'.fst i).sib = (sb.fst i).sib) :
    GetFstIndex sb' path = GetFstIndex sb path := by
  rw [GetFstIndex_eq, GetFstIndex_eq]
  exact GetFstIndexComponents_congr sb sb' _ _ hd ht

/-- The result of a resolution that succeeds from a start below `FST_SIZE` is
below `FST_SIZE`. -/
theorem GetFstIndexComponents_lt (sb : Superblock) :
    ∀ (components : List (List Nat)) (start result : Nat), start < FST_SIZE →
      GetFstIndexComponents sb components start = some (.ok result) → result < FST_SIZE := by
  intro components
  induction components with
  | nil =>
    intro start result hs h
    simp only [GetFstIndexComponents, Option.some.injEq, Except.ok.injEq] at h
    omega
  | cons component rest ih =>
    intro start result hs h
    unfold GetFstIndexComponents at h
    split at h
    · simp at h
    · simp at h
    · split_ifs at h with hge
      · simp at h
      · exact ih _ _ (by omega) h

/-- A path that resolves, resolves to an index below `FST_SIZE`. -/
theorem GetFstIndex_lt (sb : Superblock) (path : List Nat) (result : Nat)
    (h : GetFstIndex sb path = some (.ok result)) : result < FST_SIZE := by
  rw [GetFstIndex_eq] at h
  exact GetFstIndexComponents_lt sb _ 0 result (by decide) h

end wiifs

namespace wiifs

/-! ## Names and access modes of an entry -/

theorem takeWhile_append_zeros (l : List Nat) (k : Nat) (h : ∀ c ∈ l, c ≠ 0) :
    (l ++ List.replicate k 0).takeWhile (fun b => b != 0) = l := by
  induction l with
  | nil =>
    cases k with
    | zero => rfl
    | succ k => simp [List.replicate_succ, List.takeWhile]
  | cons c cs ih =>
    have hc : c ≠ 0 := h c (List.mem_cons_self _ _)
    have hcs : ∀ c ∈ cs, c ≠ 0 := fun x hx => h x (List.mem_cons_of_mem _ hx)
    have hc' : (c != 0) = true := by simpa using hc
    rw [List.cons_append, List.takeWhile_cons_of_pos (p := fun b => b != 0) hc', ih hcs]

/-- A name of at most 12 bytes without a NUL byte is read back as it was set. -/
theorem GetName_SetName (e : FstEntry) (name : List Nat) (hlen : name.length ≤ 12)
    (hnul : ∀ c ∈ name, c ≠ 0) : (e.SetName name).GetName = name := by
  have h1 : (e.SetName name).name = name ++ List.replicate (12 - name.length) 0 := by
    unfold FstEntry.SetName
    simp only [Nat.min_eq_left hlen, List.take_length]
    apply list_eq_of_getD
    · simp [copyInto_length]; omega
    · intro i hi
      rw [copyInto_length] at hi
      rw [copyInto_getD _ _ _ _ hi]
      by_cases hi2 : i < name.length
      · simp [hi2, List.getD_eq_getElem?_getD, List.getElem?_append_left hi2]
      · simp only [List.length_replicate] at hi
        have h0 : (List.replicate 12 0).getD i 0 = 0 := by
          interval_cases i <;> rfl
        have hc : ¬ (0 ≤ i ∧ i < 0 + name.length) := by omega
        rw [if_neg hc, h0, List.getD_eq_getElem?_getD,
          List.getElem?_append_right (Nat.le_of_not_lt hi2), List.getElem?_replicate]
        split_ifs <;> rfl
  unfold FstEntry.GetName
  rw [h1]
  have h2 : (name ++ List.replicate (12 - name.length) 0).take 12
      = name ++ List.replicate (12 - name.length) 0 := by
    apply List.take_of_length_le
    simp; omega
  rw [h2]
  exact takeWhile_append_zeros name _ hnul

/-- The mode byte that `SetAccessMode` builds from a kind and three access
modes gives the kind and the access modes back. -/
theorem SetAccessMode_spec (kind owner group other : Nat) (hk : kind ≤ 3) (ho : owner ≤ 3)
    (hg : group ≤ 3) (ht : other ≤ 3) :
    (((kind &&& 3) ||| (owner <<< 6) ||| (16 * group) ||| (4 * other)) % 256) &&& 3 = kind ∧
    ((((kind &&& 3) ||| (owner <<< 6) ||| (16 * group) ||| (4 * other)) % 256) >>> 0x6) &&& 3
      = owner ∧
    ((((((kind &&& 3) ||| (owner <<< 6) ||| (16 * group) ||| (4 * other)) % 256) &&& 0x30) >>> 4)
      &&& 3) = group ∧
    ((((((kind &&& 3) ||| (owner <<< 6) ||| (16 * group) ||| (4 * other)) % 256) &&& 0xc) >>> 2)
      &&& 3) = other := by
  interval_cases kind <;> interval_cases owner <;> interval_cases group <;>
    interval_cases other <;> decide

/-! ## The effect of a successful creation -/

/-- A creation that returns `Success` has linked the first unused entry `child`
in front of the children of the parent, flushed the superblock, and changed
nothing else. -/
theorem CreateFileOrDirectory_success (K : Mbedtls) (s : FileSystemImpl) (sb : Superblock)
    (handle : Handle) (path : List Nat) (attr owner_mode group_mode other_mode : Nat)
    (is_file : Bool) (parent child : Nat)
    (hsb : s.m_superblock = some sb)
    (hres : (CreateFileOrDirectory K s handle path attr owner_mode group_mode other_mode
      is_file).map Prod.fst = some .Success)
    (hparent : GetFstIndex sb (SplitPath path).1 = some (.ok parent))
    (hchild : GetUnusedFstIndex sb = .ok child)
    (hne : child ≠ parent) :
    IsValidNonRootPath path = true ∧
    ∃ s' sb', CreateFileOrDirectory K s handle path attr owner_mode group_mode other_mode is_file
        = some (.Success, s') ∧
      s'.m_handles = s.m_handles ∧ s'.m_internal_handle = s.m_internal_handle ∧
      s'.m_superblock = some sb' ∧ sb'.fat = sb.fat ∧
      (∀ i, i ≠ child → i ≠ parent → sb'.fst i = sb.fst i) ∧
      sb'.fst parent = { sb.fst parent with sub := child } ∧
      sb'.fst child =
        { name := ((sb.fst child).SetName (SplitPath path).2).name
          mode := (((if is_file then 1 else 2) &&& 3) ||| (owner_mode <<< 6) |||
            (16 * group_mode) ||| (4 * other_mode)) % 256
          attr := attr
          sub := if is_file then CLUSTER_LAST_IN_CHAIN else 0xffff
          sib := (sb.fst parent).sub
          size := 0
          uid := handle.uid
          gid := handle.gid
          x3 := 0 } := by
  by_cases h1 : (!IsValidNonRootPath path ||
      path.any (fun c => decide (charToInt c - 32 > 0x5e))) = true
  · unfold CreateFileOrDirectory at hres
    rw [if_pos h1] at hres
    simp at hres
  by_cases h2 : (!is_file && decide (path.count 47 > 8)) = true
  · unfold CreateFileOrDirectory at hres
    rw [if_neg h1, if_pos h2] at hres
    simp at hres
  by_cases h3 : (!HasPermission (sb.fst parent) handle.uid handle.gid 2) = true
  · unfold CreateFileOrDirectory at hres
    rw [if_neg h1, if_neg h2] at hres
    simp only [GetSuperblock_of_some K s sb hsb, hparent] at hres
    rw [if_pos h3] at hres
    simp at hres
  have hv : IsValidNonRootPath path = true := by
    cases hv : IsValidNonRootPath path with
    | true => rfl
    | false => rw [hv] at h1; exact absurd rfl h1
  refine ⟨hv, ?_⟩
  unfold CreateFileOrDirectory at hres ⊢
  rw [if_neg h1, if_neg h2] at hres ⊢
  simp only [GetSuperblock_of_some K s sb hsb, hparent, hchild] at hres ⊢
  rw [if_neg h3] at hres ⊢
  cases he : GetFstIndexIn sb parent (SplitPath path).2 with
  | none => rw [he] at hres; simp at hres
  | some r =>
    cases r with
    | ok x => rw [he] at hres; simp at hres
    | error e =>
      simp only
      obtain ⟨s', hs', hf⟩ := FlushSuperblock_total K
        { s with m_superblock := some (((sb.setFst _ _).setFst _ _).setFst _ _) } _ rfl
      obtain ⟨_, hh, hi, _, _, _, _, sb1, v, hsb1, hsb'⟩ := hf
      simp only [Option.some.injEq] at hsb1
      subst hsb1
      refine ⟨s', _, hs', hh, hi, hsb', rfl, ?_, ?_, ?_⟩
      · intro i hic hip
        simp [Superblock.setFst, hic, hip]
      · simp [Superblock.setFst, hne, Ne.symm hne]
      · simp [Superblock.setFst, hne, Ne.symm hne, FstEntry.SetAccessMode, FstEntry.SetName]

/-- The first unused entry is below `FST_SIZE` and has kind 0. -/
theorem GetUnusedFstIndex_spec (sb : Superblock) (child : Nat)
    (h : GetUnusedFstIndex sb = .ok child) :
    child < FST_SIZE ∧ (sb.fst child).mode &&& 3 = 0 := by
  unfold GetUnusedFstIndex at h
  split at h
  · simp at h
  · rename_i i hi
    simp only [Except.ok.injEq] at h
    subst h
    obtain ⟨h1, h2, _⟩ := findFirst_spec _ _ _ hi
    exact ⟨h1, by simpa using h2⟩

/-- The handle behind a descriptor depends on the handles only. -/
theorem GetHandleFromFd_congr (s s' : FileSystemImpl) (fd : Nat)
    (h : s'.m_handles = s.m_handles) : GetHandleFromFd s' fd = GetHandleFromFd s fd := by
  unfold GetHandleFromFd
  rw [h]

/-- Dereferencing a handle depends on the handles only. -/
theorem handle_congr (s s' : FileSystemImpl) (h : Nat)
    (hh : s'.m_handles = s.m_handles) (hi : s'.m_internal_handle = s.m_internal_handle) :
    s'.handle h = s.handle h := by
  unfold FileSystemImpl.handle
  rw [hh, hi]

/-- The lookup of the name of the first child of a directory finds it. -/
theorem GetFstIndexIn_first (sb : Superblock) (parent : Nat) (name : List Nat)
    (hp : parent < FST_SIZE) (hlen : name.length ≤ 12) (hsub : (sb.fst parent).sub < FST_SIZE)
    (hname : (sb.fst (sb.fst parent).sub).GetName = name) :
    GetFstIndexIn sb parent name = some (.ok (sb.fst parent).sub) := by
  unfold GetFstIndexIn
  have h1 : ¬ (parent ≥ FST_SIZE ∨ name.length > 12) := by omega
  have h2 : ¬ (sb.fst parent).sub ≥ FST_SIZE := by omega
  rw [if_neg h1]
  simp only [if_neg h2]
  show GetFstIndexLoop sb name (0x17fe + 1) (sb.fst parent).sub = _
  unfold GetFstIndexLoop
  rw [if_pos hname]

/-- The effect of a creation that returns `Success`, and the metadata that a
root handle then reads at the path. -/
theorem CreateFileOrDirectory_effect (K : Mbedtls) (s : FileSystemImpl) (sb : Superblock)
    (handle : Handle) (fd0 h0 : Nat) (path : List Nat)
    (attr owner_mode group_mode other_mode : Nat) (is_file : Bool) (parent child : Nat)
    (hsb : s.m_superblock = some sb)
    (hres : (CreateFileOrDirectory K s handle path attr owner_mode group_mode other_mode
      is_file).map Prod.fst = some .Success)
    (ho : owner_mode ≤ 3) (hg : group_mode ≤ 3) (ht : other_mode ≤ 3)
    (hlen : (SplitPath path).2.length ≤ 12)
    (hnul : ∀ c ∈ (SplitPath path).2, c ≠ 0)
    (hparent : GetFstIndex sb (SplitPath path).1 = some (.ok parent))
    (hchild : GetUnusedFstIndex sb = .ok child)
    (hlive : (sb.fst parent).mode &&& 3 ≠ 0)
    (hdirs : ∀ i ∈ pathDirs sb (SplitPath path).1, (sb.fst i).mode &&& 3 ≠ 0 ∧ i ≠ parent)
    (htrace : ∀ i ∈ pathTrace sb (SplitPath path).1, (sb.fst i).mode &&& 3 ≠ 0)
    (hfd0 : GetHandleFromFd s fd0 = some h0) (hroot : (s.handle h0).uid = 0) :
    ∃ s' sb', CreateFileOrDirectory K s handle path attr owner_mode group_mode other_mode is_file
        = some (.Success, s') ∧
      s'.m_superblock = some sb' ∧
      (sb'.fst parent).sub = child ∧ (sb'.fst child).sib = (sb.fst parent).sub ∧
      (sb'.fst child).uid = handle.uid ∧ (sb'.fst child).gid = handle.gid ∧
      (sb'.fst child).size = 0 ∧
      (sb'.fst child).sub = (if is_file then CLUSTER_LAST_IN_CHAIN else 0xffff) ∧
      GetMetadata K s' fd0 path = some (.ok
        { uid := handle.uid, gid := handle.gid, attr := attr, owner_mode := owner_mode,
          group_mode := group_mode, other_mode := other_mode, is_file := is_file, size := 0,
          fst_index := child }, s') := by
  obtain ⟨hc1, hc2⟩ := GetUnusedFstIndex_spec sb child hchild
  have hne : child ≠ parent := by
    intro h
    rw [h] at hc2
    exact hlive hc2
  obtain ⟨hvalid, s', sb', hs', hh, hi, hsb', _, hframe, hp, hc⟩ :=
    CreateFileOrDirectory_success K s sb handle path attr owner_mode group_mode other_mode
      is_file parent child hsb hres hparent hchild hne
  have hpl : parent < FST_SIZE := GetFstIndex_lt sb _ _ hparent
  refine ⟨s', sb', hs', hsb', by rw [hp], by rw [hc], by rw [hc], by rw [hc], by rw [hc],
    by rw [hc], ?_⟩
  have hparent' : GetFstIndex sb' (SplitPath path).1 = some (.ok parent) := by
    rw [← hparent]
    apply GetFstIndex_congr
    · intro i hi
      have := hdirs i hi
      rw [hframe i (fun h => this.1 (h ▸ hc2)) this.2]
    · intro i hi
      have := htrace i hi
      have hic : i ≠ child := fun h => this (h ▸ hc2)
      by_cases hip : i = parent
      · subst hip
        rw [hp]
        exact ⟨rfl, rfl⟩
      · rw [hframe i hic hip]
        exact ⟨rfl, rfl⟩
  have hname : (sb'.fst (sb'.fst parent).sub).GetName = (SplitPath path).2 := by
    rw [hp]
    simp only
    rw [hc]
    exact GetName_SetName (sb.fst child) _ hlen hnul
  have hlook : GetFstIndexIn sb' parent (SplitPath path).2 = some (.ok child) := by
    have := GetFstIndexIn_first sb' parent (SplitPath path).2 hpl hlen
      (by rw [hp]; exact hc1) hname
    rw [this, hp]
  have hkind : (if is_file then 1 else 2) ≤ 3 := by split_ifs <;> decide
  obtain ⟨m1, m2, m3, m4⟩ := SetAccessMode_spec (if is_file then 1 else 2) owner_mode group_mode
    other_mode hkind ho hg ht
  have hmeta : metadataOf sb' child =
      { uid := handle.uid, gid := handle.gid, attr := attr, owner_mode := owner_mode,
        group_mode := group_mode, other_mode := other_mode, is_file := is_file, size := 0,
        fst_index := child } := by
    unfold metadataOf
    rw [hc]
    simp only [FstEntry.GetOwnerMode, FstEntry.GetGroupMode, FstEntry.GetOtherMode,
      FstEntry.IsFile, m1, m2, m3, m4]
    cases is_file <;> rfl
  have hpath1 : path ≠ [] := by
    intro h
    rw [h] at hvalid
    exact absurd hvalid (by decide)
  have hpath2 : path ≠ [47] := by
    intro h
    rw [h] at hvalid
    exact absurd hvalid (by decide)
  have hperm : HasPermission (sb'.fst parent) (s'.handle h0).uid (s'.handle h0).gid 1 = true := by
    rw [handle_congr s s' h0 hh hi, hroot]
    rfl
  unfold GetMetadata
  rw [GetHandleFromFd_congr s s' fd0 hh, hfd0]
  simp only [hpath1, hpath2, if_false, GetSuperblock_of_some K s' sb' hsb', hvalid, if_true,
    hparent', hperm, hlook, hmeta, Bool.not_true, Bool.false_eq_true]

/-- The effect of a creation whose basename holds no NUL byte: let `CreateFile`
(`is_file` true) or `CreateDirectory` (`is_file` false) return `Success` for a
path whose basename has at most 12 bytes, none of them NUL, with access modes in
0..3, on a driver that holds the superblock `sb`, in
which the parent path resolves to the live entry `parent` through live entries
and `child` is the first unused entry.  Then the new entry `child` is the
parent's `sub` and its `sib` is the parent's former `sub`; its uid and gid are
the handle's; its size is 0; its `sub` is `CLUSTER_LAST_IN_CHAIN` for a file
and 0xffff for a directory; and `GetMetadata` of the path through a handle of
uid 0 returns these values with the attribute and the access modes given. -/
theorem Create_links_new_entry (K : Mbedtls) (s : FileSystemImpl) (sb : Superblock)
    (fd h fd0 h0 : Nat) (path : List Nat) (attr owner_mode group_mode other_mode : Nat)
    (is_file : Bool) (parent child : Nat)
    (hfd : GetHandleFromFd s fd = some h)
    (hsb : s.m_superblock = some sb)
    (hres : (if is_file then CreateFile K s fd path attr owner_mode group_mode other_mode
      else CreateDirectory K s fd path attr owner_mode group_mode other_mode).map Prod.fst
        = some .Success)
    (ho : owner_mode ≤ 3) (hg : group_mode ≤ 3) (ht : other_mode ≤ 3)
    (hlen : (SplitPath path).2.length ≤ 12)
    (hnul : ∀ c ∈ (SplitPath path).2, c ≠ 0)
    (hparent : GetFstIndex sb (SplitPath path).1 = some (.ok parent))
    (hchild : GetUnusedFstIndex sb = .ok child)
    (hlive : (sb.fst parent).mode &&& 3 ≠ 0)
    (hdirs : ∀ i ∈ pathDirs sb (SplitPath path).1, (sb.fst i).mode &&& 3 ≠ 0 ∧ i ≠ parent)
    (htrace : ∀ i ∈ pathTrace sb (SplitPath path).1, (sb.fst i).mode &&& 3 ≠ 0)
    (hfd0 : GetHandleFromFd s fd0 = some h0) (hroot : (s.handle h0).uid = 0) :
    ∃ s' sb',
      (if is_file then CreateFile K s fd path attr owner_mode group_mode other_mode
        else CreateDirectory K s fd path attr owner_mode group_mode other_mode)
        = some (.Success, s') ∧
      s'.m_superblock = some sb' ∧
      (sb'.fst parent).sub = child ∧ (sb'.fst child).sib = (sb.fst parent).sub ∧
      (sb'.fst child).uid = (s.handle h).uid ∧ (sb'.fst child).gid = (s.handle h).gid ∧
      (sb'.fst child).size = 0 ∧
      (sb'.fst child).sub = (if is_file then CLUSTER_LAST_IN_CHAIN else 0xffff) ∧
      GetMetadata K s' fd0 path = some (.ok
        { uid := (s.handle h).uid, gid := (s.handle h).gid, attr := attr,
          owner_mode := owner_mode, group_mode := group_mode, other_mode := other_mode,
          is_file := is_file, size := 0, fst_index := child }, s') := by
  have hcore : (if is_file then CreateFile K s fd path attr owner_mode group_mode other_mode
      else CreateDirectory K s fd path attr owner_mode group_mode other_mode)
      = CreateFileOrDirectory K s (s.handle h) path attr owner_mode group_mode other_mode
          is_file := by
    cases is_file
    · simp only [Bool.false_eq_true, if_false, CreateDirectory, hfd]
    · simp only [if_true, CreateFile, hfd]
  rw [hcore] at hres ⊢
  exact CreateFileOrDirectory_effect K s sb (s.handle h) fd0 h0 path attr owner_mode group_mode
    other_mode is_file parent child hsb hres ho hg ht hlen hnul hparent hchild hlive hdirs
    htrace hfd0 hroot

/-- The creation of the file "/a" on a formatted file system, through the
internal handle (uid 0); and the run `Format(0)`, `OpenFs(0, 0)`,
`CreateFile(0, "/a", 0, 3, 0, 0)`, `GetMetadata(0, "/a")`, which returns uid 0,
size 0 and is_file true. -/
theorem Create_links_new_entry_witness :
    (∃ s' sb',
      (if true then CreateFile Mbedtls.plain FileSystemImpl.formatted INTERNAL_FD (bytesOf "/a")
          0 3 0 0
        else CreateDirectory Mbedtls.plain FileSystemImpl.formatted INTERNAL_FD (bytesOf "/a")
          0 3 0 0) = some (.Success, s') ∧
      s'.m_superblock = some sb' ∧
      (sb'.fst 0).sub = 1 ∧ (sb'.fst 1).sib = ((formatSuperblock Superblock.zero).fst 0).sub ∧
      (sb'.fst 1).uid = (FileSystemImpl.formatted.handle INTERNAL_FD).uid ∧
      (sb'.fst 1).gid = (FileSystemImpl.formatted.handle INTERNAL_FD).gid ∧
      (sb'.fst 1).size = 0 ∧
      (sb'.fst 1).sub = (if true then CLUSTER_LAST_IN_CHAIN else 0xffff) ∧
      GetMetadata Mbedtls.plain s' INTERNAL_FD (bytesOf "/a") = some (.ok
        { uid := (FileSystemImpl.formatted.handle INTERNAL_FD).uid,
          gid := (FileSystemImpl.formatted.handle INTERNAL_FD).gid, attr := 0,
          owner_mode := 3, group_mode := 0, other_mode := 0,
          is_file := true, size := 0, fst_index := 1 }, s')) ∧
    (((((Format Mbedtls.plain FileSystemImpl.blank 0).bind
      (fun r => some (OpenFs r.2 0 0))).bind
      (fun r => CreateFile Mbedtls.plain r.2 0 (bytesOf "/a") 0 3 0 0)).bind
      (fun r => GetMetadata Mbedtls.plain r.2 0 (bytesOf "/a"))).map (·.1)
      = some (.ok
        { uid := 0, gid := 0, attr := 0, owner_mode := 3, group_mode := 0,
          other_mode := 0, is_file := true, size := 0, fst_index := 1 })) :=
  ⟨Create_links_new_entry Mbedtls.plain FileSystemImpl.formatted (formatSuperblock Superblock.zero)
    INTERNAL_FD INTERNAL_FD INTERNAL_FD INTERNAL_FD (bytesOf "/a") 0 3 0 0 true 0 1
    (by decide) rfl (by decide!) (by decide) (by decide) (by decide) (by decide) (by decide)
    (by decide!) (by decide!) (by decide)
    (fun i hi => absurd hi (by
      rw [show pathDirs (formatSuperblock Superblock.zero) (SplitPath (bytesOf "/a")).1 = []
        from by decide!]
      exact List.not_mem_nil i))
    (fun i hi => absurd hi (by
      rw [show pathTrace (formatSuperblock Superblock.zero) (SplitPath (bytesOf "/a")).1 = []
        from by decide!]
      exact List.not_mem_nil i))
    (by decide) (by decide), by decide!⟩

end wiifs

namespace wiifs

/-! ## Sibling chains -/

/-- A sibling chain is determined by its start. -/
theorem IsSibChain_unique (sb : Superblock) :
    ∀ (l1 l2 : List Nat) (first : Nat), IsSibChain sb first l1 → IsSibChain sb first l2 →
      l1 = l2 := by
  intro l1
  induction l1 with
  | nil =>
    intro l2 first h1 h2
    cases l2 with
    | nil => rfl
    | cons c cs =>
      simp only [IsSibChain] at h1 h2
      obtain ⟨h3, h4, _⟩ := h2
      have hF : FST_SIZE = 0x17ff := rfl
      omega
  | cons c cs ih =>
    intro l2 first h1 h2
    cases l2 with
    | nil =>
      simp only [IsSibChain] at h1 h2
      obtain ⟨h3, h4, _⟩ := h1
      have hF : FST_SIZE = 0x17ff := rfl
      omega
    | cons d ds =>
      simp only [IsSibChain] at h1 h2
      obtain ⟨h3, _, h5⟩ := h1
      obtain ⟨h6, _, h8⟩ := h2
      have hcd : c = d := by omega
      subst hcd
      rw [ih ds _ h5 h8]

/-- The part of a sibling chain from one of its entries on is a sibling chain. -/
theorem IsSibChain_suffix (sb : Superblock) :
    ∀ (l1 l2 : List Nat) (c first : Nat), IsSibChain sb first (l1 ++ c :: l2) →
      IsSibChain sb c (c :: l2) := by
  intro l1
  induction l1 with
  | nil =>
    intro l2 c first h
    simp only [List.nil_append, IsSibChain] at h ⊢
    exact ⟨trivial, h.2.1, h.2.2⟩
  | cons d ds ih =>
    intro l2 c first h
    simp only [List.cons_append, IsSibChain] at h
    exact ih l2 c _ h.2.2

/-- The entries of a sibling chain are below `FST_SIZE`. -/
theorem IsSibChain_lt (sb : Superblock) :
    ∀ (l : List Nat) (first : Nat), IsSibChain sb first l → ∀ c ∈ l, c < FST_SIZE := by
  intro l
  induction l with
  | nil => intro first _ c hc; exact absurd hc (List.not_mem_nil c)
  | cons d ds ih =>
    intro first h c hc
    simp only [IsSibChain] at h
    rcases List.mem_cons.1 hc with rfl | hc
    · exact h.2.1
    · exact ih _ h.2.2 c hc

/-- A sibling chain visits no entry twice. -/
theorem IsSibChain_nodup (sb : Superblock) :
    ∀ (l : List Nat) (first : Nat), IsSibChain sb first l → l.Nodup := by
  intro l
  induction l with
  | nil => intro first _; exact List.nodup_nil
  | cons d ds ih =>
    intro first h
    have h' := h
    simp only [IsSibChain] at h
    refine List.nodup_cons.2 ⟨?_, ih _ h.2.2⟩
    intro hmem
    obtain ⟨l1, l2, hl⟩ := List.append_of_mem hmem
    have h1 : IsSibChain sb d (d :: ds) := by
      simp only [IsSibChain]
      exact ⟨trivial, h.2.1, h.2.2⟩
    have h2 : IsSibChain sb d (d :: l2) := by
      apply IsSibChain_suffix sb (d :: l1) l2 d first
      rw [hl] at h'
      exact h'
    have h3 := IsSibChain_unique sb _ _ _ h1 h2
    simp only [List.cons.injEq, true_and] at h3
    have h4 := congrArg List.length hl
    rw [h3] at h4
    simp at h4
    omega

/-- A sibling chain has at most `FST_SIZE` entries. -/
theorem IsSibChain_length (sb : Superblock) (l : List Nat) (first : Nat)
    (h : IsSibChain sb first l) : l.length ≤ FST_SIZE := by
  have h1 := IsSibChain_nodup sb l first h
  have h2 := IsSibChain_lt sb l first h
  have h3 : l.toFinset ⊆ Finset.range FST_SIZE := by
    intro x hx
    rw [List.mem_toFinset] at hx
    exact Finset.mem_range.2 (h2 x hx)
  have h4 := Finset.card_le_card h3
  rw [List.toFinset_card_of_nodup h1, Finset.card_range] at h4
  exact h4

/-- A sibling chain is the same in two superblocks that agree on the `sib` of
its entries. -/
theorem IsSibChain_congr (sb sb' : Superblock) :
    ∀ (l : List Nat) (first : Nat), (∀ c ∈ l, (sb'.fst c).sib = (sb.fst c).sib) →
      IsSibChain sb first l → IsSibChain sb' first l := by
  intro l
  induction l with
  | nil => intro first _ h; exact h
  | cons d ds ih =>
    intro first hagree h
    simp only [IsSibChain] at h ⊢
    refine ⟨h.1, h.2.1, ?_⟩
    rw [hagree d (List.mem_cons_self _ _)]
    exact ih _ (fun c hc => hagree c (List.mem_cons_of_mem _ hc)) h.2.2

/-! ## ReadDirectory -/

/-- The loop of `ReadDirectory` over a sibling chain appends the names of its
entries in order. -/
theorem ReadDirectoryLoop_chain (sb : Superblock) :
    ∀ (l : List Nat) (fuel first : Nat) (children : List (List Nat)),
      IsSibChain sb first l → l.length < fuel →
      ReadDirectoryLoop sb fuel first children
        = some (children ++ l.map (fun i => (sb.fst i).GetName)) := by
  intro l
  induction l with
  | nil =>
    intro fuel first children h hf
    simp only [IsSibChain] at h
    cases fuel with
    | zero => simp at hf
    | succ fuel =>
      unfold ReadDirectoryLoop
      rw [if_pos h]
      simp
  | cons d ds ih =>
    intro fuel first children h hf
    simp only [IsSibChain] at h
    obtain ⟨h1, h2, h3⟩ := h
    subst h1
    cases fuel with
    | zero => simp at hf
    | succ fuel =>
      unfold ReadDirectoryLoop
      have hF : FST_SIZE = 0x17ff := rfl
      have hne : ¬ first = 0xffff := by omega
      have hge : ¬ first ≥ FST_SIZE := by omega
      rw [if_neg hne, if_neg hge, ih fuel _ _ h3 (by simpa using hf)]
      simp

/-- `ReadDirectory` on a readable directory returns the names of the entries
of its sibling chain, in the order of the chain. -/
theorem ReadDirectory_chain (K : Mbedtls) (s : FileSystemImpl) (sb : Superblock)
    (fd h : Nat) (path : List Nat) (index : Nat) (kids : List Nat)
    (hfd : GetHandleFromFd s fd = some h)
    (hpath : path ≠ [] ∧ path.length ≤ 64 ∧ path.head? = some 47)
    (hsb : s.m_superblock = some sb)
    (hindex : GetFstIndex sb path = some (.ok index))
    (hperm : HasPermission (sb.fst index) (s.handle h).uid (s.handle h).gid 1 = true)
    (hdir : (sb.fst index).IsDirectory = true)
    (hchain : IsSibChain sb (sb.fst index).sub kids) :
    ReadDirectory K s fd path = some (.ok (kids.map (fun i => (sb.fst i).GetName)), s) := by
  unfold ReadDirectory
  rw [hfd]
  have hc : ¬ (path = [] ∨ path.length > 64 ∨ path.head? ≠ some 47) := by
    obtain ⟨h1, h2, h3⟩ := hpath
    intro hx
    rcases hx with hx | hx | hx
    · exact h1 hx
    · omega
    · exact hx h3
  have hloop := ReadDirectoryLoop_chain sb kids (FST_SIZE + 1) _ [] hchain
    (by have := IsSibChain_length sb kids _ hchain; omega)
  simp only [if_neg hc, GetSuperblock_of_some K s sb hsb, hindex, hperm, hdir, hloop]
  simp

/-! ## SplitPath of a directory path followed by a name -/

/-- The fold of `find_last_of` over the first `n` positions. -/
theorem find_last_of_fold_succ (path : List Nat) (c n : Nat) :
    (List.range (n + 1)).foldl (fun acc i => if path.getD i 0 = c then some i else acc) none
      = if path.getD n 0 = c then some n
        else (List.range n).foldl (fun acc i => if path.getD i 0 = c then some i else acc)
          none := by
  rw [List.range_succ, List.foldl_append]
  rfl

/-- The last separator of a directory path followed by a name without
separator is the one at the end of the directory path. -/
theorem find_last_of_append (pre name : List Nat) (c : Nat) (hname : c ∉ name) :
    find_last_of (pre ++ c :: name) c = some pre.length := by
  unfold find_last_of
  have key : ∀ k, k ≤ name.length →
      (List.range (pre.length + 1 + k)).foldl
        (fun acc i => if (pre ++ c :: name).getD i 0 = c then some i else acc) none
        = some pre.length := by
    intro k
    induction k with
    | zero =>
      intro _
      rw [Nat.add_zero, find_last_of_fold_succ]
      have : (pre ++ c :: name).getD pre.length 0 = c := by
        rw [List.getD_eq_getElem?_getD, List.getElem?_append_right (Nat.le_refl _),
          Nat.sub_self, List.getElem?_cons_zero]
        rfl
      rw [if_pos this]
    | succ k ih =>
      intro hk
      rw [← Nat.add_assoc, find_last_of_fold_succ, ih (by omega)]
      have : (pre ++ c :: name).getD (pre.length + 1 + k) 0 ≠ c := by
        have h1 : (pre ++ c :: name).getD (pre.length + 1 + k) 0 = name.getD k 0 := by
          rw [List.getD_eq_getElem?_getD, List.getD_eq_getElem?_getD,
            List.getElem?_append_right (by omega)]
          have : pre.length + 1 + k - pre.length = k + 1 := by omega
          rw [this, List.getElem?_cons_succ]
        rw [h1, List.getD_eq_getElem?_getD, List.getElem?_eq_getElem (by omega)]
        intro heq
        apply hname
        simp only [Option.getD_some] at heq
        rw [← heq]
        exact List.getElem_mem _
      rw [if_neg this]
  have hlen : (pre ++ c :: name).length = pre.length + 1 + name.length := by
    simp; omega
  rw [hlen]
  exact key name.length (Nat.le_refl _)

/-- `SplitPath` of a directory path that ends with a separator, followed by a
name without separator, gives the two back. -/
theorem SplitPath_append (dir name : List Nat) (hdir : dir.getLast? = some 47)
    (hname : 47 ∉ name) : SplitPath (dir ++ name) = (dir, name) := by
  obtain ⟨pre, hpre⟩ : ∃ pre, dir = pre ++ [47] := by
    rcases List.eq_nil_or_concat dir with h | ⟨pre, b, h⟩
    · rw [h] at hdir; simp at hdir
    · rw [h] at hdir
      simp at hdir
      exact ⟨pre, by rw [h, hdir, List.concat_eq_append]⟩
  subst hpre
  have h1 : pre ++ [47] ++ name = pre ++ 47 :: name := by simp
  unfold SplitPath
  rw [h1, find_last_of_append pre name 47 hname]
  simp only
  have h2 : (pre ++ 47 :: name).take (pre.length + 1) = pre ++ [47] := by
    rw [← h1, List.take_append_eq_append_take]
    simp
  have h3 : (pre ++ 47 :: name).drop (pre.length + 1) = name := by
    rw [← h1, List.drop_append_eq_append_drop]
    simp
  rw [h2, h3]

end wiifs

namespace wiifs

/-! ## Creating the children of a directory -/

/-- A creation that returns `Success` has found an unused entry. -/
theorem CreateFileOrDirectory_success_unused (K : Mbedtls) (s : FileSystemImpl) (sb : Superblock)
    (handle : Handle) (path : List Nat) (attr owner_mode group_mode other_mode : Nat)
    (is_file : Bool) (parent : Nat)
    (hsb : s.m_superblock = some sb)
    (hres : (CreateFileOrDirectory K s handle path attr owner_mode group_mode other_mode
      is_file).map Prod.fst = some .Success)
    (hparent : GetFstIndex sb (SplitPath path).1 = some (.ok parent)) :
    ∃ child, GetUnusedFstIndex sb = .ok child := by
  cases hu : GetUnusedFstIndex sb with
  | ok child => exact ⟨child, rfl⟩
  | error e =>
    exfalso
    unfold CreateFileOrDirectory at hres
    simp only [GetSuperblock_of_some K s sb hsb, hparent, hu] at hres
    split_ifs at hres
    · simp at hres
    · simp at hres
    · simp at hres
    · split at hres
      · simp at hres
      · simp at hres
      · simp at hres

/-- `HasPermission` reads the mode, the uid and the gid of the entry. -/
theorem HasPermission_congr (e e' : FstEntry) (uid gid requested_mode : Nat)
    (hm : e'.mode = e.mode) (hu : e'.uid = e.uid) (hg : e'.gid = e.gid) :
    HasPermission e' uid gid requested_mode = HasPermission e uid gid requested_mode := by
  simp only [HasPermission, FstEntry.GetOwnerMode, FstEntry.GetGroupMode, FstEntry.GetOtherMode,
    hm, hu, hg]

/-- The children created in turn in a directory are linked in front of its
sibling chain, newest first, and the directory path resolves as before. -/
theorem createChildren_chain (K : Mbedtls) (fd h : Nat) (dir : List Nat)
    (attr owner_mode group_mode other_mode : Nat) (sb0 : Superblock) (s0 : FileSystemImpl)
    (d : Nat)
    (hfd : GetHandleFromFd s0 fd = some h)
    (ho : owner_mode ≤ 3) (hg : group_mode ≤ 3) (ht : other_mode ≤ 3)
    (hdirsep : dir.getLast? = some 47)
    (hd : GetFstIndex sb0 dir = some (.ok d))
    (hdd : d ∉ pathDirs sb0 dir) :
    ∀ (names : List (List Nat × Bool)) (s : FileSystemImpl) (sb : Superblock) (kids : List Nat)
      (s' : FileSystemImpl),
      (∀ n ∈ names, n.1.length ≤ 12 ∧ (∀ c ∈ n.1, c ≠ 0) ∧ 47 ∉ n.1) →
      s.m_superblock = some sb → s.m_handles = s0.m_handles →
      s.m_internal_handle = s0.m_internal_handle →
      (∀ i ∈ pathDirs sb0 dir, (sb.fst i).sub = (sb0.fst i).sub ∧ (sb.fst i).mode &&& 3 ≠ 0) →
      (∀ i ∈ pathTrace sb0 dir, (sb.fst i).GetName = (sb0.fst i).GetName ∧
        (sb.fst i).sib = (sb0.fst i).sib ∧ (sb.fst i).mode &&& 3 ≠ 0) →
      ((sb.fst d).mode = (sb0.fst d).mode ∧ (sb.fst d).uid = (sb0.fst d).uid ∧
        (sb.fst d).gid = (sb0.fst d).gid ∧ (sb.fst d).mode &&& 3 ≠ 0) →
      IsSibChain sb (sb.fst d).sub kids → (∀ k ∈ kids, (sb.fst k).mode &&& 3 ≠ 0) →
      createChildren K fd dir attr owner_mode group_mode other_mode names s = some s' →
      ∃ sb' kids', s'.m_superblock = some sb' ∧ s'.m_handles = s0.m_handles ∧
        s'.m_internal_handle = s0.m_internal_handle ∧
        GetFstIndex sb' dir = some (.ok d) ∧
        ((sb'.fst d).mode = (sb0.fst d).mode ∧ (sb'.fst d).uid = (sb0.fst d).uid ∧
          (sb'.fst d).gid = (sb0.fst d).gid) ∧
        IsSibChain sb' (sb'.fst d).sub kids' ∧
        kids'.map (fun i => (sb'.fst i).GetName)
          = (names.map Prod.fst).reverse ++ kids.map (fun i => (sb.fst i).GetName) := by
  intro names
  induction names with
  | nil =>
    intro s sb kids s' _ hsb hh hi hdirs htrace hdm hchain _ hrun
    simp only [createChildren, Option.some.injEq] at hrun
    subst hrun
    refine ⟨sb, kids, hsb, hh, hi, ?_, ⟨hdm.1, hdm.2.1, hdm.2.2.1⟩, hchain, by simp⟩
    rw [← hd]
    exact GetFstIndex_congr sb0 sb dir (fun i hi => (hdirs i hi).1)
      (fun i hi => ⟨(htrace i hi).1, (htrace i hi).2.1⟩)
  | cons n rest ih =>
    intro s sb kids s' hnames hsb hh hi hdirs htrace hdm hchain hkids hrun
    obtain ⟨name, is_file⟩ := n
    obtain ⟨hlen, hnul, hsep⟩ := hnames (name, is_file) (List.mem_cons_self _ _)
    have hfds : GetHandleFromFd s fd = some h := by
      rw [GetHandleFromFd_congr s0 s fd hh, hfd]
    have hcore : (if is_file then CreateFile K s fd (dir ++ name) attr owner_mode group_mode
          other_mode
        else CreateDirectory K s fd (dir ++ name) attr owner_mode group_mode other_mode)
        = CreateFileOrDirectory K s (s.handle h) (dir ++ name) attr owner_mode group_mode
            other_mode is_file := by
      cases is_file
      · simp only [Bool.false_eq_true, if_false, CreateDirectory, hfds]
      · simp only [if_true, CreateFile, hfds]
    unfold createChildren at hrun
    simp only [hcore] at hrun
    have hsplit := SplitPath_append dir name hdirsep hsep
    have hparent : GetFstIndex sb (SplitPath (dir ++ name)).1 = some (.ok d) := by
      rw [hsplit, ← hd]
      exact GetFstIndex_congr sb0 sb dir (fun i hi => (hdirs i hi).1)
        (fun i hi => ⟨(htrace i hi).1, (htrace i hi).2.1⟩)
    cases hr : CreateFileOrDirectory K s (s.handle h) (dir ++ name) attr owner_mode group_mode
        other_mode is_file with
    | none => rw [hr] at hrun; simp at hrun
    | some r =>
      obtain ⟨code, s1⟩ := r
      rw [hr] at hrun
      have hcode : code = .Success := by
        cases code <;> first | rfl | simp at hrun
      subst hcode
      simp only at hrun
      have hres : (CreateFileOrDirectory K s (s.handle h) (dir ++ name) attr owner_mode
          group_mode other_mode is_file).map Prod.fst = some .Success := by
        rw [hr]; rfl
      obtain ⟨child, hchild⟩ := CreateFileOrDirectory_success_unused K s sb (s.handle h)
        (dir ++ name) attr owner_mode group_mode other_mode is_file d hsb hres hparent
      obtain ⟨hc1, hc2⟩ := GetUnusedFstIndex_spec sb child hchild
      have hne : child ≠ d := by
        intro hx
        rw [hx] at hc2
        exact hdm.2.2.2 hc2
      obtain ⟨_, s1', sb1, hs1, hh1, hi1, hsb1, _, hframe, hp, hc⟩ :=
        CreateFileOrDirectory_success K s sb (s.handle h) (dir ++ name) attr owner_mode
          group_mode other_mode is_file d child hsb hres hparent hchild hne
      rw [hr] at hs1
      simp only [Option.some.injEq, Prod.mk.injEq, true_and] at hs1
      subst hs1
      have hkind : (if is_file then 1 else 2) ≤ 3 := by split_ifs <;> decide
      obtain ⟨m1, _, _, _⟩ := SetAccessMode_spec (if is_file then 1 else 2) owner_mode
        group_mode other_mode hkind ho hg ht
      have hclive : (sb1.fst child).mode &&& 3 ≠ 0 := by
        rw [hc]
        simp only
        rw [m1]
        split_ifs <;> decide
      have hold : ∀ i, (sb.fst i).mode &&& 3 ≠ 0 →
          (sb1.fst i).GetName = (sb.fst i).GetName ∧ (sb1.fst i).sib = (sb.fst i).sib ∧
          (sb1.fst i).mode = (sb.fst i).mode ∧ (sb1.fst i).uid = (sb.fst i).uid ∧
          (sb1.fst i).gid = (sb.fst i).gid := by
        intro i hlive
        have hic : i ≠ child := fun hx => hlive (hx ▸ hc2)
        by_cases hid : i = d
        · subst hid
          rw [hp]
          exact ⟨rfl, rfl, rfl, rfl, rfl⟩
        · rw [hframe i hic hid]
          exact ⟨rfl, rfl, rfl, rfl, rfl⟩
      have hchain1 : IsSibChain sb1 (sb1.fst d).sub (child :: kids) := by
        simp only [IsSibChain]
        refine ⟨by rw [hp], hc1, ?_⟩
        have : (sb1.fst child).sib = (sb.fst d).sub := by rw [hc]
        rw [this]
        exact IsSibChain_congr sb sb1 kids _ (fun c hcm => (hold c (hkids c hcm)).2.1) hchain
      obtain ⟨sb', kids', r1, r2, r3, r4, r5, r6, r7⟩ := ih s1 sb1 (child :: kids) s'
        (fun n hn => hnames n (List.mem_cons_of_mem _ hn)) hsb1 (hh1.trans hh) (hi1.trans hi)
        (fun i him => by
          have h1 := hdirs i him
          have hic : i ≠ child := fun hx => h1.2 (hx ▸ hc2)
          have hid : i ≠ d := fun hx => hdd (hx ▸ him)
          rw [hframe i hic hid]
          exact h1)
        (fun i him => by
          have h1 := htrace i him
          have h2 := hold i h1.2.2
          exact ⟨h2.1.trans h1.1, h2.2.1.trans h1.2.1, by rw [h2.2.2.1]; exact h1.2.2⟩)
        (by
          have h2 := hold d hdm.2.2.2
          exact ⟨h2.2.2.1.trans hdm.1, h2.2.2.2.1.trans hdm.2.1, h2.2.2.2.2.trans hdm.2.2.1,
            by rw [h2.2.2.1]; exact hdm.2.2.2⟩)
        hchain1
        (fun k hk => by
          rcases List.mem_cons.1 hk with rfl | hk
          · exact hclive
          · rw [(hold k (hkids k hk)).2.2.1]
            exact hkids k hk)
        hrun
      refine ⟨sb', kids', r1, r2, r3, r4, r5, r6, ?_⟩
      rw [r7]
      have hcname : (sb1.fst child).GetName = name := by
        have h1 : (sb1.fst child).GetName = ((sb.fst child).SetName name).GetName := by
          rw [hc, hsplit]
          rfl
        rw [h1]
        exact GetName_SetName _ _ hlen hnul
      have hknames : kids.map (fun i => (sb1.fst i).GetName)
          = kids.map (fun i => (sb.fst i).GetName) := by
        apply List.map_congr_left
        intro k hk
        exact (hold k (hkids k hk)).1
      simp only [List.map_cons, List.reverse_cons, List.append_assoc, List.singleton_append,
        hcname, hknames]

/-- An option that is some value is some of its `getD`. -/
theorem option_eq_some_getD {α : Type} (x : Option α) (d : α) (h : x.isSome = true) :
    x = some (x.getD d) := by
  cases x with
  | none => simp at h
  | some a => rfl

/-- The listing of a directory: on a driver that holds the superblock `sb`, let
`path` resolve to the directory `index`, readable by the caller, whose `sub` starts the sibling chain
`kids`.  Then `ReadDirectory` returns the names of `kids` in the order of the
chain.  And when the directory is empty and live entries lead to it, after the
children `names` (each of at most 12 bytes, without NUL or separator) have been
created in turn in it, each creation returning `Success`, `ReadDirectory`
returns the names newest first; the path of the directory is here written with
its final separator, as "/" or "/a/". -/
theorem ReadDirectory_children (K : Mbedtls) (s : FileSystemImpl) (sb : Superblock)
    (fd h : Nat) (path : List Nat) (index : Nat) (kids : List Nat)
    (hfd : GetHandleFromFd s fd = some h)
    (hpath : path ≠ [] ∧ path.length ≤ 64 ∧ path.head? = some 47)
    (hsb : s.m_superblock = some sb)
    (hindex : GetFstIndex sb path = some (.ok index))
    (hperm : HasPermission (sb.fst index) (s.handle h).uid (s.handle h).gid 1 = true)
    (hdir : (sb.fst index).IsDirectory = true)
    (hchain : IsSibChain sb (sb.fst index).sub kids) :
    ReadDirectory K s fd path = some (.ok (kids.map (fun i => (sb.fst i).GetName)), s) ∧
    (∀ (names : List (List Nat × Bool)) (attr owner_mode group_mode other_mode : Nat)
      (s' : FileSystemImpl),
      owner_mode ≤ 3 → group_mode ≤ 3 → other_mode ≤ 3 →
      path.getLast? = some 47 → kids = [] → index ∉ pathDirs sb path →
      (∀ i ∈ pathDirs sb path, (sb.fst i).mode &&& 3 ≠ 0) →
      (∀ i ∈ pathTrace sb path, (sb.fst i).mode &&& 3 ≠ 0) →
      (∀ n ∈ names, n.1.length ≤ 12 ∧ (∀ c ∈ n.1, c ≠ 0) ∧ 47 ∉ n.1) →
      createChildren K fd path attr owner_mode group_mode other_mode names s = some s' →
      ReadDirectory K s' fd path = some (.ok (names.map Prod.fst).reverse, s')) := by
  refine ⟨ReadDirectory_chain K s sb fd h path index kids hfd hpath hsb hindex hperm hdir hchain,
    ?_⟩
  intro names attr owner_mode group_mode other_mode s' ho hg ht hsep hkids hdd hdirs htrace
    hnames hrun
  subst hkids
  have hlive : (sb.fst index).mode &&& 3 ≠ 0 := by
    simp only [FstEntry.IsDirectory, beq_iff_eq] at hdir
    rw [hdir]
    decide
  obtain ⟨sb', kids', r1, r2, r3, r4, r5, r6, r7⟩ := createChildren_chain K fd h path attr
    owner_mode group_mode other_mode sb s index hfd ho hg ht hsep hindex hdd names s sb [] s'
    hnames hsb rfl rfl (fun i hi => ⟨rfl, hdirs i hi⟩) (fun i hi => ⟨rfl, rfl, htrace i hi⟩)
    ⟨rfl, rfl, rfl, hlive⟩ hchain (fun k hk => absurd hk (List.not_mem_nil k)) hrun
  have hperm' : HasPermission (sb'.fst index) (s'.handle h).uid (s'.handle h).gid 1 = true := by
    rw [handle_congr s s' h r2 r3, HasPermission_congr (sb.fst index) (sb'.fst index) _ _ _
      r5.1 r5.2.1 r5.2.2]
    exact hperm
  have hdir' : (sb'.fst index).IsDirectory = true := by
    simp only [FstEntry.IsDirectory] at hdir ⊢
    rw [r5.1]
    exact hdir
  have hres := ReadDirectory_chain K s' sb' fd h path index kids'
    (by rw [GetHandleFromFd_congr s s' fd r2, hfd]) hpath r1 r4 hperm' hdir' r6
  rw [hres, r7]
  simp

/-- The listing of the root directory of a formatted file system, and of the
root directory after the file "a" and then the directory "b" have been created
in it: the names come back newest first. -/
theorem ReadDirectory_children_witness :
    ReadDirectory Mbedtls.plain FileSystemImpl.formatted INTERNAL_FD (bytesOf "/")
      = some (.ok (([] : List Nat).map
          (fun i => ((formatSuperblock Superblock.zero).fst i).GetName)),
        FileSystemImpl.formatted) ∧
    ReadDirectory Mbedtls.plain
        ((createChildren Mbedtls.plain INTERNAL_FD (bytesOf "/") 0 3 3 3
          [(bytesOf "a", true), (bytesOf "b", false)] FileSystemImpl.formatted).getD
            FileSystemImpl.blank) INTERNAL_FD (bytesOf "/")
      = some (.ok ([(bytesOf "a", true), (bytesOf "b", false)].map Prod.fst).reverse,
        (createChildren Mbedtls.plain INTERNAL_FD (bytesOf "/") 0 3 3 3
          [(bytesOf "a", true), (bytesOf "b", false)] FileSystemImpl.formatted).getD
            FileSystemImpl.blank) :=
  have hw := ReadDirectory_children Mbedtls.plain FileSystemImpl.formatted
    (formatSuperblock Superblock.zero) INTERNAL_FD INTERNAL_FD (bytesOf "/") 0 []
    (by decide) (by decide) rfl (by decide!) (by decide) (by decide) (by decide)
  ⟨hw.1, hw.2 [(bytesOf "a", true), (bytesOf "b", false)] 0 3 3 3 _ (by decide) (by decide)
    (by decide) (by decide) rfl
    (by
      rw [show pathDirs (formatSuperblock Superblock.zero) (bytesOf "/") = [] from by decide!]
      exact List.not_mem_nil 0)
    (fun i hi => absurd hi (by
      rw [show pathDirs (formatSuperblock Superblock.zero) (bytesOf "/") = [] from by decide!]
      exact List.not_mem_nil i))
    (fun i hi => absurd hi (by
      rw [show pathTrace (formatSuperblock Superblock.zero) (bytesOf "/") = [] from by decide!]
      exact List.not_mem_nil i))
    (by decide)
    (option_eq_some_getD _ _ (by decide!))⟩

end wiifs

namespace wiifs

/-! ## FAT chains and DeleteFile -/

/-- A FAT chain is determined by its start. -/
theorem IsChain_unique (sb : Superblock) :
    ∀ (l1 l2 : List Nat) (first : Nat), IsChain sb first l1 → IsChain sb first l2 →
      l1 = l2 := by
  intro l1
  induction l1 with
  | nil =>
    intro l2 first h1 h2
    cases l2 with
    | nil => rfl
    | cons c cs =>
      simp only [IsChain] at h1 h2
      obtain ⟨h3, h4, _⟩ := h2
      have hF : FAT_SIZE = 0x8000 := rfl
      have hL : CLUSTER_LAST_IN_CHAIN = 0xfffb := rfl
      omega
  | cons c cs ih =>
    intro l2 first h1 h2
    cases l2 with
    | nil =>
      simp only [IsChain] at h1 h2
      obtain ⟨h3, h4, _⟩ := h1
      have hF : FAT_SIZE = 0x8000 := rfl
      have hL : CLUSTER_LAST_IN_CHAIN = 0xfffb := rfl
      omega
    | cons d ds =>
      simp only [IsChain] at h1 h2
      obtain ⟨h3, _, h5⟩ := h1
      obtain ⟨h6, _, h8⟩ := h2
      have hcd : c = d := by omega
      subst hcd
      rw [ih ds _ h5 h8]

/-- The part of a FAT chain from one of its clusters on is a FAT chain. -/
theorem IsChain_suffix (sb : Superblock) :
    ∀ (l1 l2 : List Nat) (c first : Nat), IsChain sb first (l1 ++ c :: l2) →
      IsChain sb c (c :: l2) := by
  intro l1
  induction l1 with
  | nil =>
    intro l2 c first h
    simp only [List.nil_append, IsChain] at h ⊢
    exact ⟨trivial, h.2.1, h.2.2⟩
  | cons d ds ih =>
    intro l2 c first h
    simp only [List.cons_append, IsChain] at h
    exact ih l2 c _ h.2.2

/-- The clusters of a FAT chain are below `FAT_SIZE`. -/
theorem IsChain_lt (sb : Superblock) :
    ∀ (l : List Nat) (first : Nat), IsChain sb first l → ∀ c ∈ l, c < FAT_SIZE := by
  intro l
  induction l with
  | nil => intro first _ c hc; exact absurd hc (List.not_mem_nil c)
  | cons d ds ih =>
    intro first h c hc
    simp only [IsChain] at h
    rcases List.mem_cons.1 hc with rfl | hc
    · exact h.2.1
    · exact ih _ h.2.2 c hc

/-- A FAT chain visits no cluster twice. -/
theorem IsChain_nodup (sb : Superblock) :
    ∀ (l : List Nat) (first : Nat), IsChain sb first l → l.Nodup := by
  intro l
  induction l with
  | nil => intro first _; exact List.nodup_nil
  | cons d ds ih =>
    intro first h
    have h' := h
    simp only [IsChain] at h
    refine List.nodup_cons.2 ⟨?_, ih _ h.2.2⟩
    intro hmem
    obtain ⟨l1, l2, hl⟩ := List.append_of_mem hmem
    have h1 : IsChain sb d (d :: ds) := by
      simp only [IsChain]
      exact ⟨trivial, h.2.1, h.2.2⟩
    have h2 : IsChain sb d (d :: l2) := by
      apply IsChain_suffix sb (d :: l1) l2 d first
      rw [hl] at h'
      exact h'
    have h3 := IsChain_unique sb _ _ _ h1 h2
    simp only [List.cons.injEq, true_and] at h3
    have h4 := congrArg List.length hl
    rw [h3] at h4
    simp at h4
    omega

/-- A FAT chain has at most `FAT_SIZE` clusters. -/
theorem IsChain_length (sb : Superblock) (l : List Nat) (first : Nat)
    (h : IsChain sb first l) : l.length ≤ FAT_SIZE := by
  have h1 := IsChain_nodup sb l first h
  have h2 := IsChain_lt sb l first h
  have h3 : l.toFinset ⊆ Finset.range FAT_SIZE := by
    intro x hx
    rw [List.mem_toFinset] at hx
    exact Finset.mem_range.2 (h2 x hx)
  have h4 := Finset.card_le_card h3
  rw [List.toFinset_card_of_nodup h1, Finset.card_range] at h4
  exact h4

/-- A FAT chain is the same in two superblocks that agree on the FAT entries
of its clusters. -/
theorem IsChain_congr (sb sb' : Superblock) :
    ∀ (l : List Nat) (first : Nat), (∀ c ∈ l, sb'.fat c = sb.fat c) →
      IsChain sb first l → IsChain sb' first l := by
  intro l
  induction l with
  | nil => intro first _ h; exact h
  | cons d ds ih =>
    intro first hagree h
    simp only [IsChain] at h ⊢
    refine ⟨h.1, h.2.1, ?_⟩
    rw [hagree d (List.mem_cons_self _ _)]
    exact ih _ (fun c hc => hagree c (List.mem_cons_of_mem _ hc)) h.2.2

/-- The cluster loop of `DeleteFile` over a FAT chain frees the clusters of the
chain and nothing else. -/
theorem DeleteFileLoop_chain :
    ∀ (l : List Nat) (fuel : Nat) (sb : Superblock) (first : Nat),
      IsChain sb first l → l.length < fuel →
      ∃ sb', DeleteFileLoop fuel sb first = some sb' ∧ sb'.fst = sb.fst ∧
        (∀ c ∈ l, sb'.fat c = CLUSTER_UNUSED) ∧ (∀ c, c ∉ l → sb'.fat c = sb.fat c) := by
  intro l
  induction l with
  | nil =>
    intro fuel sb first h hf
    simp only [IsChain] at h
    cases fuel with
    | zero => simp at hf
    | succ fuel =>
      unfold DeleteFileLoop
      have hge : ¬ first < FAT_SIZE := by rw [h]; decide
      rw [if_neg hge]
      exact ⟨sb, rfl, rfl, fun c hc => absurd hc (List.not_mem_nil c), fun c _ => rfl⟩
  | cons d ds ih =>
    intro fuel sb first h hf
    have hnd := IsChain_nodup sb _ _ h
    simp only [IsChain] at h
    obtain ⟨h1, h2, h3⟩ := h
    subst h1
    cases fuel with
    | zero => simp at hf
    | succ fuel =>
      unfold DeleteFileLoop
      rw [if_pos h2]
      have hnotin : first ∉ ds := (List.nodup_cons.1 hnd).1
      have hchain : IsChain (sb.setFat first CLUSTER_UNUSED) (sb.fat first) ds := by
        apply IsChain_congr sb _ ds _ _ h3
        intro c hc
        have : c ≠ first := fun hx => hnotin (hx ▸ hc)
        simp [Superblock.setFat, this]
      obtain ⟨sb', r1, r2, r3, r4⟩ := ih fuel _ _ hchain (by simpa using hf)
      refine ⟨sb', r1, r2, ?_, ?_⟩
      · intro c hc
        rcases List.mem_cons.1 hc with rfl | hc
        · rw [r4 c hnotin]
          simp [Superblock.setFat]
        · exact r3 c hc
      · intro c hc
        have hc1 : c ≠ first := fun hx => hc (hx ▸ List.mem_cons_self _ _)
        have hc2 : c ∉ ds := fun hx => hc (List.mem_cons_of_mem _ hx)
        rw [r4 c hc2]
        simp [Superblock.setFat, hc1]

/-- `DeleteFile` of a file with a well-formed FAT chain frees the clusters of
the chain, sets the mode of the entry to 0, and changes nothing else. -/
theorem DeleteFile_chain (sb : Superblock) (file : Nat) (cs : List Nat)
    (h : IsChain sb (sb.fst file).sub cs) :
    ∃ sb', DeleteFile sb file = some sb' ∧
      sb'.fst file = { sb.fst file with mode := 0 } ∧
      (∀ i, i ≠ file → sb'.fst i = sb.fst i) ∧
      (∀ c ∈ cs, sb'.fat c = CLUSTER_UNUSED) ∧ (∀ c, c ∉ cs → sb'.fat c = sb.fat c) := by
  obtain ⟨sb1, r1, r2, r3, r4⟩ := DeleteFileLoop_chain cs (FAT_SIZE + 2) sb _ h
    (by have := IsChain_length sb cs _ h; omega)
  unfold DeleteFile
  rw [r1]
  refine ⟨_, rfl, ?_, ?_, r3, r4⟩
  · simp [Superblock.setFst, r2]
  · intro i hi
    simp [Superblock.setFst, hi, r2]

/-! ## RemoveFstEntryFromChain -/

/-- The loop of `RemoveFstEntryFromChain` over a sibling chain unlinks the
child from the chain. -/
theorem RemoveFstEntryLoop_chain (sb : Superblock) (child : Nat) :
    ∀ (l : List Nat) (fuel previous : Nat),
      IsSibChain sb previous (previous :: l) → child ∈ l → child ≠ previous →
      l.length < fuel →
      ∃ sb', RemoveFstEntryLoop child fuel sb previous (sb.fst previous).sib
          = some (.Success, sb') ∧
        sb'.fat = sb.fat ∧
        IsSibChain sb' previous ((previous :: l).erase child) ∧
        (∀ i, (sb'.fst i).name = (sb.fst i).name ∧ (sb'.fst i).sub = (sb.fst i).sub ∧
          (sb'.fst i).uid = (sb.fst i).uid ∧ (sb'.fst i).gid = (sb.fst i).gid ∧
          (i ∉ previous :: l → (sb'.fst i).sib = (sb.fst i).sib) ∧
          (i ≠ child → (sb'.fst i).mode = (sb.fst i).mode)) ∧
        (sb'.fst child).mode = 0 := by
  intro l
  induction l with
  | nil => intro fuel previous _ hc; exact absurd hc (List.not_mem_nil child)
  | cons c cs ih =>
    intro fuel previous hchain hmem hne hf
    have hnd := IsSibChain_nodup sb _ _ hchain
    have hchain' := hchain
    simp only [IsSibChain] at hchain
    obtain ⟨_, hp, hc1, hc2, hc3⟩ := hchain
    cases fuel with
    | zero => simp at hf
    | succ fuel =>
      unfold RemoveFstEntryLoop
      rw [hc1, if_pos hc2]
      have hpc : previous ≠ c := by
        intro hx
        have := (List.nodup_cons.1 hnd).1
        exact this (hx ▸ List.mem_cons_self _ _)
      by_cases hcc : c = child
      · subst hcc
        rw [if_pos rfl]
        simp only
        refine ⟨_, rfl, rfl, ?_, ?_, ?_⟩
        · rw [List.erase_cons_tail (by simpa using hpc), List.erase_cons_head]
          simp only [IsSibChain]
          refine ⟨trivial, hp, ?_⟩
          have hsib : (((sb.setFst previous { sb.fst previous with sib := (sb.fst c).sib }).setFst c
              { (sb.setFst previous { sb.fst previous with sib := (sb.fst c).sib }).fst c with
                mode := 0 }).fst previous).sib = (sb.fst c).sib := by
            simp [Superblock.setFst, hpc]
          rw [hsib]
          apply IsSibChain_congr sb _ cs _ _ hc3
          intro k hk
          have hk1 : k ≠ c := by
            intro hx
            have := (List.nodup_cons.1 (List.nodup_cons.1 hnd).2).1
            exact this (hx ▸ hk)
          have hk2 : k ≠ previous := by
            intro hx
            have := (List.nodup_cons.1 hnd).1
            exact this (hx ▸ List.mem_cons_of_mem _ hk)
          simp [Superblock.setFst, hk1, hk2]
        · intro i
          refine ⟨?_, ?_, ?_, ?_, ?_, ?_⟩
          · simp only [Superblock.setFst]; split_ifs <;> simp_all
          · simp only [Superblock.setFst]; split_ifs <;> simp_all
          · simp only [Superblock.setFst]; split_ifs <;> simp_all
          · simp only [Superblock.setFst]; split_ifs <;> simp_all
          · intro hi
            have h1 : i ≠ previous := fun hx => hi (hx ▸ List.mem_cons_self _ _)
            simp only [Superblock.setFst]; split_ifs <;> simp_all
          · intro hi
            simp only [Superblock.setFst]; split_ifs <;> simp_all
        · simp [Superblock.setFst]
      · rw [if_neg hcc]
        have hmem' : child ∈ cs := by
          rcases List.mem_cons.1 hmem with hx | hx
          · exact absurd hx.symm hcc
          · exact hx
        have hchainc : IsSibChain sb c (c :: cs) := by
          simp only [IsSibChain]
          exact ⟨trivial, hc2, hc3⟩
        obtain ⟨sb', r1, r2, r3, r4, r5⟩ := ih fuel c hchainc hmem' (Ne.symm hcc)
          (by simpa using hf)
        refine ⟨sb', r1, r2, ?_, ?_, r5⟩
        · rw [List.erase_cons_tail (by simpa using hne.symm)]
          have hfirst : ∃ rest, (c :: cs).erase child = c :: rest := by
            rw [List.erase_cons_tail (by simpa using hcc)]
            exact ⟨_, rfl⟩
          obtain ⟨rest, hrest⟩ := hfirst
          rw [hrest] at r3 ⊢
          simp only [IsSibChain] at r3 ⊢
          refine ⟨trivial, hp, ?_, r3.2.1, r3.2.2⟩
          rw [(r4 previous).2.2.2.2.1 (List.nodup_cons.1 hnd).1]
          exact hc1
        · intro i
          obtain ⟨q1, q2, q3, q4, q5, q6⟩ := r4 i
          exact ⟨q1, q2, q3, q4, fun hi => q5 (fun hx => hi (List.mem_cons_of_mem _ hx)), q6⟩

end wiifs

namespace wiifs

/-- `RemoveFstEntryFromChain` unlinks a child of the sibling chain of its
parent, sets its mode to 0, and changes no name, uid, gid or FAT entry. -/
theorem RemoveFstEntryFromChain_chain (sb : Superblock) (parent child : Nat) (kids : List Nat)
    (hchain : IsSibChain sb (sb.fst parent).sub kids) (hmem : child ∈ kids) :
    ∃ sb', RemoveFstEntryFromChain sb parent child = some (.Success, sb') ∧
      sb'.fat = sb.fat ∧
      IsSibChain sb' (sb'.fst parent).sub (kids.erase child) ∧
      (∀ i, (sb'.fst i).name = (sb.fst i).name ∧ (i ≠ parent → (sb'.fst i).sub = (sb.fst i).sub) ∧
        (sb'.fst i).uid = (sb.fst i).uid ∧ (sb'.fst i).gid = (sb.fst i).gid ∧
        (i ∉ kids → (sb'.fst i).sib = (sb.fst i).sib) ∧
        (i ≠ child → (sb'.fst i).mode = (sb.fst i).mode)) ∧
      (sb'.fst child).mode = 0 := by
  unfold RemoveFstEntryFromChain
  cases kids with
  | nil => exact absurd hmem (List.not_mem_nil child)
  | cons k0 rest =>
    have hchain' := hchain
    simp only [IsSibChain] at hchain
    obtain ⟨h1, h2, h3⟩ := hchain
    by_cases hhead : (sb.fst parent).sub = child
    · rw [if_pos hhead]
      have hk : k0 = child := by rw [← h1, hhead]
      subst hk
      refine ⟨_, rfl, rfl, ?_, ?_, ?_⟩
      · rw [List.erase_cons_head]
        have hsub : (((sb.setFst parent { sb.fst parent with sub := (sb.fst k0).sib }).setFst k0
            { (sb.setFst parent { sb.fst parent with sub := (sb.fst k0).sib }).fst k0 with
              mode := 0 }).fst parent).sub = (sb.fst k0).sib := by
          rcases eq_or_ne parent k0 with rfl | hpk
          · simp
          · simp [hpk]
        rw [hsub]
        apply IsSibChain_congr sb _ rest _ _ h3
        intro c _
        rcases eq_or_ne c k0 with rfl | h1 <;> rcases eq_or_ne c parent with rfl | h2 <;> simp [*]
      · intro i
        rcases eq_or_ne i k0 with rfl | h1 <;> rcases eq_or_ne i parent with rfl | h2 <;> simp [*]
      · simp
    · rw [if_neg hhead]
      simp only
      have hk : k0 ≠ child := by rw [← h1]; exact hhead
      have hge : ¬ (sb.fst parent).sub ≥ FST_SIZE := by rw [h1]; omega
      rw [if_neg hge, h1]
      have hmem' : child ∈ rest := by
        rcases List.mem_cons.1 hmem with hx | hx
        · exact absurd hx.symm hk
        · exact hx
      have hchain0 : IsSibChain sb k0 (k0 :: rest) := by
        simp only [IsSibChain]
        exact ⟨trivial, h2, h3⟩
      have hlen := IsSibChain_length sb _ _ hchain0
      obtain ⟨sb', r1, r2, r3, r4, r5⟩ := RemoveFstEntryLoop_chain sb child rest (FST_SIZE + 1) k0
        hchain0 hmem' (Ne.symm hk) (by simp at hlen; omega)
      refine ⟨sb', r1, r2, ?_, ?_, r5⟩
      · rw [(r4 parent).2.1, h1]
        exact r3
      · intro i
        obtain ⟨q1, q2, q3, q4, q5, q6⟩ := r4 i
        exact ⟨q1, fun _ => q2, q3, q4, q5, q6⟩

/-! ## Lookups along a sibling chain -/

/-- A lookup along a sibling chain that finds an entry finds an entry of the
chain with the name looked up. -/
theorem GetFstIndexLoop_chain_found (sb : Superblock) (name : List Nat) (i : Nat) :
    ∀ (l : List Nat) (fuel first : Nat), IsSibChain sb first l → first < FST_SIZE →
      GetFstIndexLoop sb name fuel first = some (.ok i) →
      i ∈ l ∧ (sb.fst i).GetName = name := by
  intro l
  induction l with
  | nil =>
    intro fuel first h hlt _
    simp only [IsSibChain] at h
    have hF : FST_SIZE = 0x17ff := rfl
    omega
  | cons c cs ih =>
    intro fuel first h hlt hres
    simp only [IsSibChain] at h
    obtain ⟨h1, h2, h3⟩ := h
    subst h1
    cases fuel with
    | zero => simp [GetFstIndexLoop] at hres
    | succ fuel =>
      unfold GetFstIndexLoop at hres
      by_cases hn : (sb.fst first).GetName = name
      · rw [if_pos hn] at hres
        simp only [Option.some.injEq, Except.ok.injEq] at hres
        subst hres
        exact ⟨List.mem_cons_self _ _, hn⟩
      · rw [if_neg hn] at hres
        simp only at hres
        by_cases hs : (sb.fst first).sib < FST_SIZE
        · rw [if_pos hs] at hres
          have := ih fuel _ h3 hs hres
          exact ⟨List.mem_cons_of_mem _ this.1, this.2⟩
        · rw [if_neg hs] at hres
          simp at hres

/-- A lookup along a sibling chain without an entry of the name looked up
returns `Invalid`. -/
theorem GetFstIndexLoop_chain_not_found (sb : Superblock) (name : List Nat) :
    ∀ (l : List Nat) (fuel first : Nat), IsSibChain sb first l → first < FST_SIZE →
      (∀ k ∈ l, (sb.fst k).GetName ≠ name) → l.length ≤ fuel →
      GetFstIndexLoop sb name fuel first = some (.error .Invalid) := by
  intro l
  induction l with
  | nil =>
    intro fuel first h hlt _ _
    simp only [IsSibChain] at h
    have hF : FST_SIZE = 0x17ff := rfl
    omega
  | cons c cs ih =>
    intro fuel first h hlt hnames hf
    simp only [IsSibChain] at h
    obtain ⟨h1, h2, h3⟩ := h
    subst h1
    cases fuel with
    | zero => simp at hf
    | succ fuel =>
      unfold GetFstIndexLoop
      rw [if_neg (hnames first (List.mem_cons_self _ _))]
      simp only
      by_cases hs : (sb.fst first).sib < FST_SIZE
      · rw [if_pos hs]
        exact ih fuel _ h3 hs (fun k hk => hnames k (List.mem_cons_of_mem _ hk))
          (by simpa using hf)
      · rw [if_neg hs]

/-- A lookup in a directory that finds an entry finds a child of the directory
with the name looked up. -/
theorem GetFstIndexIn_found (sb : Superblock) (parent : Nat) (name : List Nat) (i : Nat)
    (kids : List Nat) (hchain : IsSibChain sb (sb.fst parent).sub kids)
    (hres : GetFstIndexIn sb parent name = some (.ok i)) :
    i ∈ kids ∧ (sb.fst i).GetName = name ∧ parent < FST_SIZE ∧ name.length ≤ 12 := by
  unfold GetFstIndexIn at hres
  by_cases h1 : parent ≥ FST_SIZE ∨ name.length > 12
  · rw [if_pos h1] at hres
    simp at hres
  · rw [if_neg h1] at hres
    simp only at hres
    by_cases h2 : (sb.fst parent).sub ≥ FST_SIZE
    · rw [if_pos h2] at hres
      simp at hres
    · rw [if_neg h2] at hres
      have := GetFstIndexLoop_chain_found sb name i kids _ _ hchain (by omega) hres
      exact ⟨this.1, this.2, by omega, by omega⟩

/-- A lookup in a directory none of whose children has the name looked up
returns `Invalid`. -/
theorem GetFstIndexIn_not_found (sb : Superblock) (parent : Nat) (name : List Nat)
    (kids : List Nat) (hchain : IsSibChain sb (sb.fst parent).sub kids)
    (hnames : ∀ k ∈ kids, (sb.fst k).GetName ≠ name) :
    GetFstIndexIn sb parent name = some (.error .Invalid) := by
  unfold GetFstIndexIn
  by_cases h1 : parent ≥ FST_SIZE ∨ name.length > 12
  · rw [if_pos h1]
  · rw [if_neg h1]
    simp only
    by_cases h2 : (sb.fst parent).sub ≥ FST_SIZE
    · rw [if_pos h2]
    · rw [if_neg h2]
      exact GetFstIndexLoop_chain_not_found sb name kids _ _ hchain (by omega) hnames
        (IsSibChain_length sb kids _ hchain)

/-! ## The components of a directory path followed by a name -/

theorem SplitStringAux_name (d : Nat) :
    ∀ (name cur : List Nat), d ∉ name → cur ++ name ≠ [] →
      SplitStringAux d cur name = [cur ++ name] := by
  intro name
  induction name with
  | nil =>
    intro cur _ hne
    have : cur ≠ [] := by simpa using hne
    cases cur with
    | nil => exact absurd rfl this
    | cons a as => simp [SplitStringAux]
  | cons c rest ih =>
    intro cur hd _
    have hc : c ≠ d := fun hx => hd (hx ▸ List.mem_cons_self _ _)
    have hrest : d ∉ rest := fun hx => hd (List.mem_cons_of_mem _ hx)
    unfold SplitStringAux
    rw [if_neg hc, ih (cur ++ [c]) hrest (by simp)]
    simp

theorem SplitStringAux_append (d : Nat) (name : List Nat) (hd : d ∉ name) (hne : name ≠ []) :
    ∀ (xs cur : List Nat),
      SplitStringAux d cur (xs ++ d :: name) = SplitStringAux d cur (xs ++ [d]) ++ [name] := by
  intro xs
  induction xs with
  | nil =>
    intro cur
    simp only [List.nil_append]
    unfold SplitStringAux
    rw [if_pos rfl, if_pos rfl, SplitStringAux_name d name [] hd (by simpa using hne)]
    simp [SplitStringAux]
  | cons c xs ih =>
    intro cur
    simp only [List.cons_append]
    unfold SplitStringAux
    by_cases hc : c = d
    · rw [if_pos hc, if_pos hc, ih []]
      rfl
    · rw [if_neg hc, if_neg hc, ih (cur ++ [c])]

/-- The components of a directory path (written with its final separator)
followed by a name are the components of the directory path and the name. -/
theorem pathComponents_append (dir name : List Nat) (hhead : dir.head? = some 47)
    (hdir : dir.getLast? = some 47) (hname : 47 ∉ name) (hne : name ≠ []) :
    pathComponents (dir ++ name) = pathComponents dir ++ [name] := by
  obtain ⟨pre, hpre⟩ : ∃ pre, dir = pre ++ [47] := by
    rcases List.eq_nil_or_concat dir with h | ⟨pre, b, h⟩
    · rw [h] at hdir; simp at hdir
    · rw [h] at hdir
      simp at hdir
      exact ⟨pre, by rw [h, hdir, List.concat_eq_append]⟩
  subst hpre
  cases pre with
  | nil =>
    obtain ⟨a, as, has⟩ := List.exists_cons_of_ne_nil hne
    subst has
    have h1 : pathComponents ([] ++ [47] ++ a :: as) = [a :: as] := by
      unfold pathComponents
      simp only [List.nil_append, List.singleton_append, List.cons.injEq, true_and,
        reduceCtorEq, or_self, if_false, List.drop_succ_cons, List.drop_zero]
      exact SplitStringAux_name 47 (a :: as) [] hname (by simp)
    rw [h1]
    rfl
  | cons b pre =>
    simp only [List.cons_append, List.head?_cons, Option.some.injEq] at hhead
    subst hhead
    unfold pathComponents
    have c1 : ¬ (47 :: pre ++ [47] ++ name = [47] ∨ 47 :: pre ++ [47] ++ name = []) := by
      simp
    have c2 : ¬ (47 :: pre ++ [47] = [47] ∨ 47 :: pre ++ [47] = []) := by
      simp
    rw [if_neg c1, if_neg c2]
    simp only [List.cons_append, List.drop_succ_cons, List.drop_zero, List.append_assoc,
      List.singleton_append, SplitString]
    exact SplitStringAux_append 47 name hname hne pre []

/-- The resolution of a list of components followed by one more. -/
theorem GetFstIndexComponents_append (sb : Superblock) (c : List Nat) :
    ∀ (cs : List (List Nat)) (start r : Nat),
      GetFstIndexComponents sb cs start = some (.ok r) →
      GetFstIndexComponents sb (cs ++ [c]) start = GetFstIndexComponents sb [c] r := by
  intro cs
  induction cs with
  | nil =>
    intro start r h
    simp only [GetFstIndexComponents, Option.some.injEq, Except.ok.injEq] at h
    subst h
    rfl
  | cons x xs ih =>
    intro start r h
    simp only [List.cons_append]
    unfold GetFstIndexComponents at h ⊢
    cases hx : GetFstIndexIn sb start x with
    | none => rw [hx] at h; simp at h
    | some v =>
      cases v with
      | error e => rw [hx] at h; simp at h
      | ok y =>
        rw [hx] at h
        simp only at h ⊢
        by_cases hy : y ≥ FST_SIZE
        · rw [if_pos hy] at h; simp at h
        · rw [if_neg hy] at h ⊢
          exact ih y r h

/-- A path whose parent resolves but whose name is not found in the parent does
not resolve. -/
theorem GetFstIndex_not_found (sb : Superblock) (dir name : List Nat) (parent : Nat)
    (hhead : dir.head? = some 47) (hdir : dir.getLast? = some 47) (hname : 47 ∉ name)
    (hne : name ≠ []) (hparent : GetFstIndex sb dir = some (.ok parent))
    (hlook : GetFstIndexIn sb parent name = some (.error .Invalid)) :
    GetFstIndex sb (dir ++ name) = some (.error .Invalid) := by
  rw [GetFstIndex_eq] at hparent ⊢
  rw [pathComponents_append dir name hhead hdir hname hne,
    GetFstIndexComponents_append sb name _ 0 parent hparent]
  simp only [GetFstIndexComponents, hlook]

/-- A path whose parent resolves and whose name is found in the parent resolves
to the entry found. -/
theorem GetFstIndex_found (sb : Superblock) (dir name : List Nat) (parent index : Nat)
    (hhead : dir.head? = some 47) (hdir : dir.getLast? = some 47) (hname : 47 ∉ name)
    (hne : name ≠ []) (hparent : GetFstIndex sb dir = some (.ok parent))
    (hlook : GetFstIndexIn sb parent name = some (.ok index)) (hlt : index < FST_SIZE) :
    GetFstIndex sb (dir ++ name) = some (.ok index) := by
  rw [GetFstIndex_eq] at hparent ⊢
  rw [pathComponents_append dir name hhead hdir hname hne,
    GetFstIndexComponents_append sb name _ 0 parent hparent]
  have : ¬ index ≥ FST_SIZE := by omega
  simp only [GetFstIndexComponents, hlook, if_neg this]

end wiifs

namespace wiifs

/-! ## The effect of deleting a file -/

/-- A valid path written as a directory path followed by a name starts with a
separator and has a name that is not empty. -/
theorem valid_dir_name (dir name : List Nat) (hvalid : IsValidNonRootPath (dir ++ name) = true)
    (hdirsep : dir.getLast? = some 47) : dir.head? = some 47 ∧ name ≠ [] := by
  unfold IsValidNonRootPath at hvalid
  simp only [Bool.and_eq_true, decide_eq_true_eq, beq_iff_eq, bne_iff_ne] at hvalid
  obtain ⟨⟨_, h3⟩, h4⟩ := hvalid
  constructor
  · cases dir with
    | nil => simp at hdirsep
    | cons a as => simpa using h3
  · intro hn
    subst hn
    rw [List.append_nil] at h4
    exact h4 hdirsep

/-- C18: on a driver that holds the superblock `sb`, let the valid path
`dir ++ name` (its parent path `dir` ending with the separator) resolve to the
closed file `index` in the directory `parent`, writable by the caller, in a
well-formed FST: the FAT chain of the file is the list `cs`, the sibling chain
of the parent is the list `kids`, the children carry distinct names, and the
resolution of `dir` neither goes through `parent` nor reads a child of it.
Then `Delete` returns `Success`, and afterwards the path does not resolve, the
sibling chain of the parent is `kids` without `index`, in the same order, the
mode of the entry is 0, every cluster of `cs` holds `CLUSTER_UNUSED`, and every
other FAT entry is as before. -/
theorem Delete_file_effect (K : Mbedtls) (s : FileSystemImpl) (sb : Superblock)
    (fd h : Nat) (dir name : List Nat) (parent index : Nat) (cs kids : List Nat)
    (hfd : GetHandleFromFd s fd = some h)
    (hvalid : IsValidNonRootPath (dir ++ name) = true)
    (hdirsep : dir.getLast? = some 47) (hname : 47 ∉ name)
    (hsb : s.m_superblock = some sb)
    (hparent : GetFstIndex sb dir = some (.ok parent))
    (hperm : HasPermission (sb.fst parent) (s.handle h).uid (s.handle h).gid 2 = true)
    (hindex : GetFstIndexIn sb parent name = some (.ok index))
    (hfile : (sb.fst index).IsFile = true)
    (hclosed : IsFileOpened s index = false)
    (hfat : IsChain sb (sb.fst index).sub cs)
    (hkids : IsSibChain sb (sb.fst parent).sub kids)
    (hnames : (kids.map (fun i => (sb.fst i).GetName)).Nodup)
    (hpd : parent ∉ pathDirs sb dir)
    (hpt : ∀ k ∈ kids, k ∉ pathTrace sb dir) :
    GetFstIndex sb (dir ++ name) = some (.ok index) ∧
    ∃ s' sb', Delete K s fd (dir ++ name) = some (.Success, s') ∧
      s'.m_superblock = some sb' ∧
      GetFstIndex sb' (dir ++ name) = some (.error .Invalid) ∧
      IsSibChain sb' (sb'.fst parent).sub (kids.erase index) ∧
      (sb'.fst index).mode &&& 3 = 0 ∧
      (∀ c ∈ cs, sb'.fat c = CLUSTER_UNUSED) ∧ (∀ c, c ∉ cs → sb'.fat c = sb.fat c) := by
  obtain ⟨hhead, hne⟩ := valid_dir_name dir name hvalid hdirsep
  have hsplit := SplitPath_append dir name hdirsep hname
  obtain ⟨hmem, hiname, hpl, _⟩ := GetFstIndexIn_found sb parent name index kids hkids hindex
  have hil : index < FST_SIZE := IsSibChain_lt sb kids _ hkids index hmem
  refine ⟨GetFstIndex_found sb dir name parent index hhead hdirsep hname hne hparent hindex hil,
    ?_⟩
  obtain ⟨sb1, d1, d2, d3, d4, d5⟩ := DeleteFile_chain sb index cs hfat
  have hdel : deleteEntryContents s sb index = some (.ok sb1) := by
    unfold deleteEntryContents
    simp [IsDirectory_of_IsFile _ hfile, hfile, hclosed, d1]
  have hfst1 : ∀ i, (sb1.fst i).name = (sb.fst i).name ∧ (sb1.fst i).sub = (sb.fst i).sub ∧
      (sb1.fst i).sib = (sb.fst i).sib := by
    intro i
    rcases eq_or_ne i index with rfl | hi
    · rw [d2]
      exact ⟨rfl, rfl, rfl⟩
    · rw [d3 i hi]
      exact ⟨rfl, rfl, rfl⟩
  have hkids1 : IsSibChain sb1 (sb1.fst parent).sub kids := by
    rw [(hfst1 parent).2.1]
    exact IsSibChain_congr sb sb1 kids _ (fun c _ => (hfst1 c).2.2) hkids
  obtain ⟨sb2, e1, e2, e3, e4, e5⟩ := RemoveFstEntryFromChain_chain sb1 parent index kids hkids1
    hmem
  obtain ⟨s', hs', hf⟩ := FlushSuperblock_total K { s with m_superblock := some sb2 } sb2 rfl
  obtain ⟨_, _, _, _, _, _, _, sbx, v, hsbx, hsb'⟩ := hf
  simp only [Option.some.injEq] at hsbx
  subst hsbx
  have hrun : Delete K s fd (dir ++ name) = some (.Success, s') := by
    unfold Delete
    rw [hfd]
    simp only [hvalid, GetSuperblock_of_some K s sb hsb, hsplit, hparent, hperm, hindex, hdel, e1]
    simpa using hs'
  have hnm : ∀ i, ((({ sb2 with version := v } : Superblock).fst i)).GetName
      = (sb.fst i).GetName := by
    intro i
    show (sb2.fst i).GetName = (sb.fst i).GetName
    unfold FstEntry.GetName
    rw [(e4 i).1, (hfst1 i).1]
  have hparent' : GetFstIndex ({ sb2 with version := v } : Superblock) dir
      = some (.ok parent) := by
    rw [← hparent]
    apply GetFstIndex_congr
    · intro i hi
      have hip : i ≠ parent := fun hx => hpd (hx ▸ hi)
      show (sb2.fst i).sub = (sb.fst i).sub
      rw [(e4 i).2.1 hip, (hfst1 i).2.1]
    · intro i hi
      refine ⟨hnm i, ?_⟩
      have hik : i ∉ kids := fun hx => hpt i hx hi
      show (sb2.fst i).sib = (sb.fst i).sib
      rw [(e4 i).2.2.2.2.1 hik, (hfst1 i).2.2]
  have hnd := IsSibChain_nodup sb kids _ hkids
  have hchain' : IsSibChain ({ sb2 with version := v } : Superblock)
      (({ sb2 with version := v } : Superblock).fst parent).sub (kids.erase index) :=
    IsSibChain_congr sb2 _ _ _ (fun _ _ => rfl) e3
  have hlook : GetFstIndexIn ({ sb2 with version := v } : Superblock) parent name
      = some (.error .Invalid) := by
    apply GetFstIndexIn_not_found _ parent name (kids.erase index) hchain'
    intro k hk hkn
    rw [hnd.mem_erase_iff] at hk
    rw [hnm k, ← hiname] at hkn
    have := List.inj_on_of_nodup_map hnames hk.2 hmem hkn
    exact hk.1 this
  refine ⟨s', _, hrun, hsb', ?_, hchain', ?_, ?_, ?_⟩
  · exact GetFstIndex_not_found _ dir name parent hhead hdirsep hname hne hparent' hlook
  · show (sb2.fst index).mode &&& 3 = 0
    rw [e5]
    rfl
  · intro c hc
    show sb2.fat c = CLUSTER_UNUSED
    rw [e2]
    exact d4 c hc
  · intro c hc
    show sb2.fat c = sb.fat c
    rw [e2]
    exact d5 c hc

/-- The deletion of the file "/b", the second child of the root, whose FAT
chain is the clusters 64 and 65. -/
theorem Delete_file_effect_witness :
    GetFstIndex Superblock.sampleFiles (bytesOf "/" ++ bytesOf "b") = some (.ok 2) ∧
    ∃ s' sb', Delete Mbedtls.plain FileSystemImpl.sampleFiles INTERNAL_FD
        (bytesOf "/" ++ bytesOf "b") = some (.Success, s') ∧
      s'.m_superblock = some sb' ∧
      GetFstIndex sb' (bytesOf "/" ++ bytesOf "b") = some (.error .Invalid) ∧
      IsSibChain sb' (sb'.fst 0).sub ([1, 2].erase 2) ∧
      (sb'.fst 2).mode &&& 3 = 0 ∧
      (∀ c ∈ [64, 65], sb'.fat c = CLUSTER_UNUSED) ∧
      (∀ c, c ∉ [64, 65] → sb'.fat c = Superblock.sampleFiles.fat c) :=
  Delete_file_effect Mbedtls.plain FileSystemImpl.sampleFiles Superblock.sampleFiles
    INTERNAL_FD INTERNAL_FD (bytesOf "/") (bytesOf "b") 0 2 [64, 65] [1, 2]
    (by decide) (by decide) (by decide) (by decide) rfl (by decide!) (by decide) (by decide!)
    (by decide) (by decide) (by decide!) (by decide!) (by decide!)
    (by
      rw [show pathDirs Superblock.sampleFiles (bytesOf "/") = [] from by decide!]
      exact List.not_mem_nil 0)
    (fun k _ => by
      rw [show pathTrace Superblock.sampleFiles (bytesOf "/") = [] from by decide!]
      exact List.not_mem_nil k)

end wiifs

namespace wiifs

/-! ## Reading back what a flush has written -/

/-- `ReadCluster` reads only the bytes of the cluster. -/
theorem ReadCluster_congr (K : Mbedtls) (keys : FileSystemKeys) (n1 n2 : Nat → Nat) (c : Nat)
    (h : ∀ a, c * 16896 ≤ a → a < c * 16896 + 16896 → n1 a = n2 a) :
    ReadCluster K keys n1 c = ReadCluster K keys n2 c := by
  unfold ReadCluster
  by_cases hc : c ≥ 0x8000
  · rw [if_pos hc, if_pos hc]
  · rw [if_neg hc, if_neg hc]
    have hc' : c < 0x8000 := by omega
    have hdata : ∀ p, p < 8 → readBytes n1 (Offset c p) DATA_BYTES_PER_PAGE
        = readBytes n2 (Offset c p) DATA_BYTES_PER_PAGE := by
      intro p hp
      apply readBytes_congr
      intro i hi
      rw [Offset_eq c p hc' hp]
      simp only [DATA_BYTES_PER_PAGE] at hi
      exact h _ (by omega) (by omega)
    have hfold := foldl_append_congr
      (fun page => readBytes n1 (Offset c page) DATA_BYTES_PER_PAGE)
      (fun page => readBytes n2 (Offset c page) DATA_BYTES_PER_PAGE) 8 hdata []
    have h1 : readBytes n1 (Offset c HMAC_PAGE1 + DATA_BYTES_PER_PAGE + HMAC1_OFFSET_IN_PAGE1)
        HMAC1_SIZE_IN_PAGE1
        = readBytes n2 (Offset c HMAC_PAGE1 + DATA_BYTES_PER_PAGE + HMAC1_OFFSET_IN_PAGE1)
          HMAC1_SIZE_IN_PAGE1 := by
      apply readBytes_congr
      intro i hi
      rw [Offset_eq c 6 hc' (by decide)]
      simp only [HMAC1_SIZE_IN_PAGE1, DATA_BYTES_PER_PAGE, HMAC1_OFFSET_IN_PAGE1] at hi ⊢
      exact h _ (by omega) (by omega)
    have h2 : readBytes n1 (Offset c HMAC_PAGE1 + DATA_BYTES_PER_PAGE + HMAC2_OFFSET_IN_PAGE1)
        HMAC2_SIZE_IN_PAGE1
        = readBytes n2 (Offset c HMAC_PAGE1 + DATA_BYTES_PER_PAGE + HMAC2_OFFSET_IN_PAGE1)
          HMAC2_SIZE_IN_PAGE1 := by
      apply readBytes_congr
      intro i hi
      rw [Offset_eq c 6 hc' (by decide)]
      simp only [HMAC2_SIZE_IN_PAGE1, DATA_BYTES_PER_PAGE, HMAC2_OFFSET_IN_PAGE1,
        HMAC1_OFFSET_IN_PAGE1, HMAC1_SIZE_IN_PAGE1] at hi ⊢
      exact h _ (by omega) (by omega)
    have h3 : readBytes n1 (Offset c HMAC_PAGE2 + DATA_BYTES_PER_PAGE + HMAC2_OFFSET_IN_PAGE2)
        HMAC2_SIZE_IN_PAGE2
        = readBytes n2 (Offset c HMAC_PAGE2 + DATA_BYTES_PER_PAGE + HMAC2_OFFSET_IN_PAGE2)
          HMAC2_SIZE_IN_PAGE2 := by
      apply readBytes_congr
      intro i hi
      rw [Offset_eq c 7 hc' (by decide)]
      simp only [HMAC2_SIZE_IN_PAGE2, DATA_BYTES_PER_PAGE, HMAC2_OFFSET_IN_PAGE2] at hi ⊢
      exact h _ (by omega) (by omega)
    simp only [PAGES_PER_CLUSTER]
    rw [hfold, h1, h2, h3]

/-- `ReadCluster` of a superblock cluster right after `WriteCluster` returns
the data and the HMAC written. -/
theorem ReadCluster_WriteCluster_plain (K : Mbedtls) (keys : FileSystemKeys) (nand : Nat → Nat)
    (c : Nat) (d h : List Nat) (hc : c < 0x8000) (hs : c ≥ 0x7f00) (hd : d.length = 0x4000)
    (hh : h.length = 20) :
    ReadCluster K keys (WriteCluster K keys nand c d h).2 c
      = .ok { data := d, hmac1 := h, hmac2 := h } := by
  have hge : ¬ c ≥ 0x8000 := by omega
  have h1 : readBytes (WriteCluster K keys nand c d h).2 (Offset c 6 + 2048 + 1) 20 = h := by
    rw [← hh]
    apply readBytes_eq_of_getD
    intro i hi
    rw [hh] at hi
    have := WriteCluster_spare_at K keys nand c d h hc 6 (1 + i) (by omega) (by omega)
    rw [pageSpare_hmac1 _ _ _ hi] at this
    rw [← this, Nat.add_assoc (Offset c 6 + 2048) 1 i]
  have h2a : readBytes (WriteCluster K keys nand c d h).2 (Offset c 6 + 2048 + 21) 12
      = copy_n h 0 12 := by
    have hl : (copy_n h 0 12).length = 12 := copy_n_length _ _ _
    rw [← hl]
    apply readBytes_eq_of_getD
    intro i hi
    rw [hl] at hi
    have := WriteCluster_spare_at K keys nand c d h hc 6 (21 + i) (by omega) (by omega)
    rw [pageSpare_hmac2a _ _ _ hi] at this
    rw [copy_n_getD _ _ _ _ hi, Nat.zero_add, ← this, Nat.add_assoc (Offset c 6 + 2048) 21 i]
  have h2b : readBytes (WriteCluster K keys nand c d h).2 (Offset c 7 + 2048 + 1) 8
      = copy_n h 12 8 := by
    have hl : (copy_n h 12 8).length = 8 := copy_n_length _ _ _
    rw [← hl]
    apply readBytes_eq_of_getD
    intro i hi
    rw [hl] at hi
    have := WriteCluster_spare_at K keys nand c d h hc 7 (1 + i) (by omega) (by omega)
    rw [pageSpare_hmac2b _ _ _ hi] at this
    rw [copy_n_getD _ _ _ _ hi, ← this, Nat.add_assoc (Offset c 7 + 2048) 1 i]
  have h2 : copy_n h 0 12 ++ copy_n h 12 8 = h := by
    have := copy_n_append h 0 12 8
    rw [Nat.zero_add] at this
    rw [this]
    have h20 : 12 + 8 = h.length := by omega
    rw [h20]; exact copy_n_all h
  have hdata : (List.range 8).foldl
      (fun acc page => acc ++ readBytes (WriteCluster K keys nand c d h).2 (Offset c page) 2048) []
      = (List.range 8).foldl (fun acc page => acc ++ storedPage K keys c d page) [] :=
    foldl_append_congr _ _ 8 (fun p hp => WriteCluster_data K keys nand c d h hc p hp) []
  simp only [ReadCluster, hge, if_false, PAGES_PER_CLUSTER, DATA_BYTES_PER_PAGE, HMAC_PAGE1,
    HMAC_PAGE2, HMAC1_OFFSET_IN_PAGE1, HMAC1_SIZE_IN_PAGE1, HMAC2_OFFSET_IN_PAGE1,
    HMAC2_SIZE_IN_PAGE1, HMAC2_OFFSET_IN_PAGE2, HMAC2_SIZE_IN_PAGE2]
  rw [hdata]
  simp only [Nat.reduceAdd, Nat.reduceSub]
  rw [h1, h2a, h2b, h2]
  have hns : ¬ c < SUPERBLOCK_START_CLUSTER := by simp only [SUPERBLOCK_START_CLUSTER]; omega
  rw [if_neg hns]
  have hst : ∀ p, p < 8 → storedPage K keys c d p = copy_n d (p * 2048) 2048 := by
    intro p _
    have : c ≥ SUPERBLOCK_START_CLUSTER := hs
    simp [storedPage, this]
  rw [foldl_append_congr _ _ 8 hst [], concat_copy_n d 2048 8]
  have : 8 * 2048 = d.length := by omega
  rw [this, copy_n_all]

/-- The length of a run of superblock bytes. -/
theorem Superblock.bytes_length (sb : Superblock) (off n : Nat) : (sb.bytes off n).length = n := by
  simp [Superblock.bytes]

/-- Two consecutive runs of superblock bytes. -/
theorem Superblock.bytes_append (sb : Superblock) (off n m : Nat) :
    sb.bytes off n ++ sb.bytes (off + n) m = sb.bytes off (n + m) := by
  apply list_eq_of_getD
  · simp [Superblock.bytes]
  · intro i hi
    simp only [List.length_append, Superblock.bytes_length] at hi
    simp only [Superblock.bytes, List.getD_eq_getElem?_getD]
    by_cases h : i < n
    · rw [List.getElem?_append_left (by simpa using h)]
      simp [h, hi]
    · rw [List.getElem?_append_right (by simpa using h)]
      have h1 : i - n < m := by omega
      have h2 : off + n + (i - n) = off + i := by omega
      simp [h1, hi, h2]

/-- Byte `o` of a run of superblock bytes. -/
theorem Superblock.bytes_getD (sb : Superblock) (off n o : Nat) (h : o < n) :
    (sb.bytes off n).getD o 0 = sb.byteAt (off + o) := by
  simp [Superblock.bytes, List.getD_eq_getElem?_getD, h]

/-- The HMAC tag that `write_block` stores with cluster `t` of a replica. -/
theorem GenerateHmacForSuperblock_length (K : Mbedtls) (keys : FileSystemKeys) (sb : Superblock)
    (index : Nat) : (GenerateHmacForSuperblock K keys sb index).length = 20 := by
  simp [GenerateHmacForSuperblock, crypto.BlockMac, copy_n_length]

/-- The cluster loop of `write_block`: the clusters written read back as the
superblock bytes with the tags written, and the bytes outside them are
untouched. -/
theorem writeBlockClusters_spec (K : Mbedtls) (keys : FileSystemKeys) (sb : Superblock)
    (j : Nat) (hmac : List Nat) (hj : j < 16) (hh : hmac.length = 20) :
    ∀ (n : Nat), n ≤ 16 → ∀ (nand : Nat → Nat),
      (∀ a, (a < (0x7f00 + 16 * j + (16 - n)) * 16896 ∨ (0x7f00 + 16 * j + 16) * 16896 ≤ a) →
        (writeBlockClusters K keys sb j hmac n nand).2 a = nand a) ∧
      (∀ t, 16 - n ≤ t → t < 16 →
        ReadCluster K keys (writeBlockClusters K keys sb j hmac n nand).2 (0x7f00 + 16 * j + t)
          = .ok { data := sb.bytes (t * 0x4000) 0x4000,
                  hmac1 := if t = 15 then hmac else List.replicate 20 0,
                  hmac2 := if t = 15 then hmac else List.replicate 20 0 }) := by
  intro n
  induction n with
  | zero =>
    intro _ nand
    exact ⟨fun a _ => rfl, fun t h1 h2 => by omega⟩
  | succ n ih =>
    intro hn nand
    have hcl : (SuperblockCluster j + (CLUSTERS_PER_SUPERBLOCK - (n + 1))) % 65536
        = 0x7f00 + 16 * j + (16 - (n + 1)) := by
      rw [SuperblockCluster_eq j hj]
      simp only [CLUSTERS_PER_SUPERBLOCK]
      omega
    have hc : 0x7f00 + 16 * j + (16 - (n + 1)) < 0x8000 := by omega
    have hstep : writeBlockClusters K keys sb j hmac (n + 1) nand
        = writeBlockClusters K keys sb j hmac n
          (WriteCluster K keys nand (0x7f00 + 16 * j + (16 - (n + 1)))
            (sb.bytes ((16 - (n + 1)) * CLUSTER_DATA_SIZE) CLUSTER_DATA_SIZE)
            (if 16 - (n + 1) = 15 then hmac else List.replicate 20 0)).2 := by
      conv_lhs => unfold writeBlockClusters
      simp only [hcl]
      have := WriteCluster_fst K keys nand (0x7f00 + 16 * j + (16 - (n + 1)))
        (sb.bytes ((16 - (n + 1)) * CLUSTER_DATA_SIZE) CLUSTER_DATA_SIZE)
        (if 16 - (n + 1) = 15 then hmac else List.replicate 20 0) hc
      simp only [CLUSTERS_PER_SUPERBLOCK, this, ne_eq, not_true_eq_false, if_false]
    rw [hstep]
    obtain ⟨ih1, ih2⟩ := ih (by omega) (WriteCluster K keys nand (0x7f00 + 16 * j + (16 - (n + 1)))
      (sb.bytes ((16 - (n + 1)) * CLUSTER_DATA_SIZE) CLUSTER_DATA_SIZE)
      (if 16 - (n + 1) = 15 then hmac else List.replicate 20 0)).2
    constructor
    · intro a ha
      rw [ih1 a (by omega)]
      exact WriteCluster_frame K keys nand _ _ _ a (by omega)
    · intro t h1 h2
      by_cases ht : t = 16 - (n + 1)
      · subst ht
        rw [ReadCluster_congr K keys _ (WriteCluster K keys nand (0x7f00 + 16 * j + (16 - (n + 1)))
          (sb.bytes ((16 - (n + 1)) * CLUSTER_DATA_SIZE) CLUSTER_DATA_SIZE)
          (if 16 - (n + 1) = 15 then hmac else List.replicate 20 0)).2 _
          (fun a ha1 ha2 => ih1 a (by omega))]
        have hlen : (if 16 - (n + 1) = 15 then hmac else List.replicate 20 0).length = 20 := by
          split_ifs
          · exact hh
          · simp
        exact ReadCluster_WriteCluster_plain K keys nand _ _ _ hc (by omega)
          (Superblock.bytes_length _ _ _) hlen
      · exact ih2 t (by omega) h2

end wiifs

namespace wiifs

/-- `ReadSuperblock` reads only the bytes of the replica. -/
theorem ReadSuperblock_congr (K : Mbedtls) (keys : FileSystemKeys) (n1 n2 : Nat → Nat) (i : Nat)
    (hi : i < 16)
    (h : ∀ a, (0x7f00 + 16 * i) * 16896 ≤ a → a < (0x7f00 + 16 * i + 16) * 16896 →
      n1 a = n2 a) :
    ReadSuperblock K keys n1 i = ReadSuperblock K keys n2 i := by
  have hloop : ∀ m, m ≤ 16 →
      ReadSuperblockLoop K keys n1 i m = ReadSuperblockLoop K keys n2 i m := by
    intro m
    induction m with
    | zero => intro _; rfl
    | succ m ih =>
      intro hm
      unfold ReadSuperblockLoop
      rw [ih (by omega)]
      have hcl : (SuperblockCluster i + m) % 65536 = 0x7f00 + 16 * i + m := by
        rw [SuperblockCluster_eq i hi]
        omega
      rw [hcl, ReadCluster_congr K keys n1 n2 _ (fun a ha1 ha2 => h a (by omega) (by omega))]
  unfold ReadSuperblock
  rw [hloop 16 (Nat.le_refl _)]

/-- `ReadSuperblock` of a replica whose 16 clusters hold the bytes of `sb`
returns the superblock stored in these bytes. -/
theorem ReadSuperblock_of_clusters (K : Mbedtls) (keys : FileSystemKeys) (nd : Nat → Nat)
    (sb : Superblock) (j : Nat) (hj : j < 16)
    (h : ∀ t, t < 16 → ∃ r, ReadCluster K keys nd (0x7f00 + 16 * j + t) = .ok r ∧
      r.data = sb.bytes (t * 0x4000) 0x4000) :
    ReadSuperblock K keys nd j
      = .ok (Superblock.ofBytes (fun o => (sb.bytes 0 SUPERBLOCK_SIZE).getD o 0)) := by
  have hloop : ∀ m, m ≤ 16 →
      ReadSuperblockLoop K keys nd j m = .ok (sb.bytes 0 (m * 0x4000)) := by
    intro m
    induction m with
    | zero => intro _; rfl
    | succ m ih =>
      intro hm
      unfold ReadSuperblockLoop
      rw [ih (by omega)]
      have hcl : (SuperblockCluster j + m) % 65536 = 0x7f00 + 16 * j + m := by
        rw [SuperblockCluster_eq j hj]
        omega
      obtain ⟨r, hr, hd⟩ := h m (by omega)
      rw [hcl, hr]
      simp only
      rw [hd]
      have := Superblock.bytes_append sb 0 (m * 0x4000) 0x4000
      rw [Nat.zero_add] at this
      rw [this, Nat.succ_mul]
  unfold ReadSuperblock
  rw [hloop 16 (Nat.le_refl _)]

/-! ## The byte image of a superblock determines it -/

theorem beByte2_join (v : Nat) (h : v < 65536) : beByte 2 v 0 * 256 + beByte 2 v 1 = v := by
  simp only [beByte]
  norm_num
  omega

theorem beByte4_join (v : Nat) (h : v < 2 ^ 32) :
    ((beByte 4 v 0 * 256 + beByte 4 v 1) * 256 + beByte 4 v 2) * 256 + beByte 4 v 3 = v := by
  simp only [beByte]
  norm_num
  omega

/-- An FST entry whose fields fit their types is the entry stored in its bytes. -/
theorem FstEntry.ofBytes_byteAt (e : FstEntry) (h : e.WF) : FstEntry.ofBytes e.byteAt = e := by
  obtain ⟨h1, h2, h3, h4, h5, h6, h7⟩ := h
  have hname : (List.range 12).map e.byteAt = e.name := by
    apply list_eq_of_getD
    · simp [h1]
    · intro i hi
      simp only [List.length_map, List.length_range] at hi
      simp [List.getD_eq_getElem?_getD, hi, FstEntry.byteAt]
  unfold FstEntry.ofBytes
  rw [hname]
  have e14 : e.byteAt 14 = beByte 2 e.sub 0 := by simp [FstEntry.byteAt]
  have e15 : e.byteAt 15 = beByte 2 e.sub 1 := by simp [FstEntry.byteAt]
  have e16 : e.byteAt 16 = beByte 2 e.sib 0 := by simp [FstEntry.byteAt]
  have e17 : e.byteAt 17 = beByte 2 e.sib 1 := by simp [FstEntry.byteAt]
  have e18 : e.byteAt 18 = beByte 4 e.size 0 := by simp [FstEntry.byteAt]
  have e19 : e.byteAt 19 = beByte 4 e.size 1 := by simp [FstEntry.byteAt]
  have e20 : e.byteAt 20 = beByte 4 e.size 2 := by simp [FstEntry.byteAt]
  have e21 : e.byteAt 21 = beByte 4 e.size 3 := by simp [FstEntry.byteAt]
  have e22 : e.byteAt 22 = beByte 4 e.uid 0 := by simp [FstEntry.byteAt]
  have e23 : e.byteAt 23 = beByte 4 e.uid 1 := by simp [FstEntry.byteAt]
  have e24 : e.byteAt 24 = beByte 4 e.uid 2 := by simp [FstEntry.byteAt]
  have e25 : e.byteAt 25 = beByte 4 e.uid 3 := by simp [FstEntry.byteAt]
  have e26 : e.byteAt 26 = beByte 2 e.gid 0 := by simp [FstEntry.byteAt]
  have e27 : e.byteAt 27 = beByte 2 e.gid 1 := by simp [FstEntry.byteAt]
  have e28 : e.byteAt 28 = beByte 4 e.x3 0 := by simp [FstEntry.byteAt]
  have e29 : e.byteAt 29 = beByte 4 e.x3 1 := by simp [FstEntry.byteAt]
  have e30 : e.byteAt 30 = beByte 4 e.x3 2 := by simp [FstEntry.byteAt]
  have e31 : e.byteAt 31 = beByte 4 e.x3 3 := by simp [FstEntry.byteAt]
  have e12 : e.byteAt 12 = e.mode := by simp [FstEntry.byteAt]
  have e13 : e.byteAt 13 = e.attr := by simp [FstEntry.byteAt]
  rw [e12, e13, e14, e15, e16, e17, e18, e19, e20, e21, e22, e23, e24, e25, e26, e27, e28, e29,
    e30, e31, beByte2_join _ h2, beByte2_join _ h3, beByte4_join _ h4, beByte4_join _ h5,
    beByte2_join _ h6, beByte4_join _ h7]

/-- A superblock whose fields fit their types is, within the array bounds, the
superblock stored in its bytes. -/
theorem Superblock.ofBytes_bytes (sb : Superblock) (h : sb.WF) (hv : sb.version < 2 ^ 32) :
    (Superblock.ofBytes (fun o => (sb.bytes 0 SUPERBLOCK_SIZE).getD o 0)).Same sb := by
  obtain ⟨h1, h2, h3, h4, h5⟩ := h
  have hb : ∀ o, o < SUPERBLOCK_SIZE → (sb.bytes 0 SUPERBLOCK_SIZE).getD o 0 = sb.byteAt o := by
    intro o ho
    rw [Superblock.bytes_getD sb 0 _ o ho, Nat.zero_add]
  unfold Superblock.ofBytes
  refine ⟨?_, ?_, ?_, ?_, ?_, ?_⟩
  · show (List.range 4).map (fun o => (sb.bytes 0 SUPERBLOCK_SIZE).getD o 0) = sb.magic
    apply list_eq_of_getD
    · simp [h1]
    · intro i hi
      simp only [List.length_map, List.length_range] at hi
      have := hb i (by simp only [SUPERBLOCK_SIZE]; omega)
      simp only [List.getD_eq_getElem?_getD] at this ⊢
      simp [hi, this, Superblock.byteAt]
  · show (((sb.bytes 0 SUPERBLOCK_SIZE).getD 4 0 * 256 + (sb.bytes 0 SUPERBLOCK_SIZE).getD 5 0)
      * 256 + (sb.bytes 0 SUPERBLOCK_SIZE).getD 6 0) * 256 + (sb.bytes 0 SUPERBLOCK_SIZE).getD 7 0
      = sb.version
    rw [hb 4 (by decide), hb 5 (by decide), hb 6 (by decide), hb 7 (by decide)]
    have e4 : sb.byteAt 4 = beByte 4 sb.version 0 := by simp [Superblock.byteAt]
    have e5 : sb.byteAt 5 = beByte 4 sb.version 1 := by simp [Superblock.byteAt]
    have e6 : sb.byteAt 6 = beByte 4 sb.version 2 := by simp [Superblock.byteAt]
    have e7 : sb.byteAt 7 = beByte 4 sb.version 3 := by simp [Superblock.byteAt]
    rw [e4, e5, e6, e7, beByte4_join _ hv]
  · show (((sb.bytes 0 SUPERBLOCK_SIZE).getD 8 0 * 256 + (sb.bytes 0 SUPERBLOCK_SIZE).getD 9 0)
      * 256 + (sb.bytes 0 SUPERBLOCK_SIZE).getD 10 0) * 256
      + (sb.bytes 0 SUPERBLOCK_SIZE).getD 11 0 = sb.unknown
    rw [hb 8 (by decide), hb 9 (by decide), hb 10 (by decide), hb 11 (by decide)]
    have e4 : sb.byteAt 8 = beByte 4 sb.unknown 0 := by simp [Superblock.byteAt]
    have e5 : sb.byteAt 9 = beByte 4 sb.unknown 1 := by simp [Superblock.byteAt]
    have e6 : sb.byteAt 10 = beByte 4 sb.unknown 2 := by simp [Superblock.byteAt]
    have e7 : sb.byteAt 11 = beByte 4 sb.unknown 3 := by simp [Superblock.byteAt]
    rw [e4, e5, e6, e7, beByte4_join _ h2]
  · intro i hi
    show (sb.bytes 0 SUPERBLOCK_SIZE).getD (FAT_OFFSET + 2 * i) 0 * 256
      + (sb.bytes 0 SUPERBLOCK_SIZE).getD (FAT_OFFSET + 2 * i + 1) 0 = sb.fat i
    have hF : FAT_SIZE = 0x8000 := rfl
    rw [hb _ (by simp only [SUPERBLOCK_SIZE, FAT_OFFSET]; omega),
      hb _ (by simp only [SUPERBLOCK_SIZE, FAT_OFFSET]; omega)]
    have e0 : sb.byteAt (FAT_OFFSET + 2 * i) = beByte 2 (sb.fat i) 0 := by
      unfold Superblock.byteAt
      have c1 : ¬ FAT_OFFSET + 2 * i < 4 := by simp only [FAT_OFFSET]; omega
      have c2 : ¬ FAT_OFFSET + 2 * i < 8 := by simp only [FAT_OFFSET]; omega
      have c3 : ¬ FAT_OFFSET + 2 * i < 12 := by simp only [FAT_OFFSET]; omega
      have c4 : FAT_OFFSET + 2 * i < FST_OFFSET := by simp only [FAT_OFFSET, FST_OFFSET]; omega
      have c5 : (FAT_OFFSET + 2 * i - FAT_OFFSET) / 2 = i := by omega
      have c6 : (FAT_OFFSET + 2 * i - FAT_OFFSET) % 2 = 0 := by omega
      rw [if_neg c1, if_neg c2, if_neg c3, if_pos c4, c5, c6]
    have e1 : sb.byteAt (FAT_OFFSET + 2 * i + 1) = beByte 2 (sb.fat i) 1 := by
      unfold Superblock.byteAt
      have c1 : ¬ FAT_OFFSET + 2 * i + 1 < 4 := by simp only [FAT_OFFSET]; omega
      have c2 : ¬ FAT_OFFSET + 2 * i + 1 < 8 := by simp only [FAT_OFFSET]; omega
      have c3 : ¬ FAT_OFFSET + 2 * i + 1 < 12 := by simp only [FAT_OFFSET]; omega
      have c4 : FAT_OFFSET + 2 * i + 1 < FST_OFFSET := by
        simp only [FAT_OFFSET, FST_OFFSET]; omega
      have c5 : (FAT_OFFSET + 2 * i + 1 - FAT_OFFSET) / 2 = i := by omega
      have c6 : (FAT_OFFSET + 2 * i + 1 - FAT_OFFSET) % 2 = 1 := by omega
      rw [if_neg c1, if_neg c2, if_neg c3, if_pos c4, c5, c6]
    rw [e0, e1, beByte2_join _ (h3 i hi)]
  · intro i hi
    show FstEntry.ofBytes (fun o => (sb.bytes 0 SUPERBLOCK_SIZE).getD (FST_OFFSET + 32 * i + o) 0)
      = sb.fst i
    have hF : FST_SIZE = 0x17ff := rfl
    have hent : ∀ o, o < 32 →
        (sb.bytes 0 SUPERBLOCK_SIZE).getD (FST_OFFSET + 32 * i + o) 0 = (sb.fst i).byteAt o := by
      intro o ho
      rw [hb _ (by simp only [SUPERBLOCK_SIZE, FST_OFFSET, FAT_SIZE]; omega)]
      unfold Superblock.byteAt
      have c1 : ¬ FST_OFFSET + 32 * i + o < 4 := by simp only [FST_OFFSET, FAT_SIZE]; omega
      have c2 : ¬ FST_OFFSET + 32 * i + o < 8 := by simp only [FST_OFFSET, FAT_SIZE]; omega
      have c3 : ¬ FST_OFFSET + 32 * i + o < 12 := by simp only [FST_OFFSET, FAT_SIZE]; omega
      have c4 : ¬ FST_OFFSET + 32 * i + o < FST_OFFSET := by omega
      have c5 : FST_OFFSET + 32 * i + o < PADDING_OFFSET := by
        simp only [FST_OFFSET, PADDING_OFFSET, FAT_SIZE]; omega
      have c6 : (FST_OFFSET + 32 * i + o - FST_OFFSET) / 32 = i := by omega
      have c7 : (FST_OFFSET + 32 * i + o - FST_OFFSET) % 32 = o := by omega
      rw [if_neg c1, if_neg c2, if_neg c3, if_neg c4, if_pos c5, c6, c7]
    have heq : FstEntry.ofBytes
        (fun o => (sb.bytes 0 SUPERBLOCK_SIZE).getD (FST_OFFSET + 32 * i + o) 0)
        = FstEntry.ofBytes (sb.fst i).byteAt := by
      unfold FstEntry.ofBytes
      have hn : (List.range 12).map
          (fun o => (sb.bytes 0 SUPERBLOCK_SIZE).getD (FST_OFFSET + 32 * i + o) 0)
          = (List.range 12).map (sb.fst i).byteAt := by
        apply List.map_congr_left
        intro o ho
        exact hent o (by rw [List.mem_range] at ho; omega)
      rw [hn]
      simp only [hent 12 (by decide), hent 13 (by decide), hent 14 (by decide),
        hent 15 (by decide), hent 16 (by decide), hent 17 (by decide), hent 18 (by decide),
        hent 19 (by decide), hent 20 (by decide), hent 21 (by decide), hent 22 (by decide),
        hent 23 (by decide), hent 24 (by decide), hent 25 (by decide), hent 26 (by decide),
        hent 27 (by decide), hent 28 (by decide), hent 29 (by decide), hent 30 (by decide),
        hent 31 (by decide)]
    rw [heq, FstEntry.ofBytes_byteAt _ (h4 i hi)]
  · show (List.range 20).map (fun k => (sb.bytes 0 SUPERBLOCK_SIZE).getD (PADDING_OFFSET + k) 0)
      = sb.padding
    apply list_eq_of_getD
    · simp [h5]
    · intro i hi
      simp only [List.length_map, List.length_range] at hi
      have := hb (PADDING_OFFSET + i)
        (by simp only [SUPERBLOCK_SIZE, PADDING_OFFSET, FAT_SIZE, FST_SIZE]; omega)
      have c : sb.byteAt (PADDING_OFFSET + i) = sb.padding.getD i 0 := by
        unfold Superblock.byteAt
        have c1 : ¬ PADDING_OFFSET + i < 4 := by
          simp only [PADDING_OFFSET, FAT_SIZE, FST_SIZE]; omega
        have c2 : ¬ PADDING_OFFSET + i < 8 := by
          simp only [PADDING_OFFSET, FAT_SIZE, FST_SIZE]; omega
        have c3 : ¬ PADDING_OFFSET + i < 12 := by
          simp only [PADDING_OFFSET, FAT_SIZE, FST_SIZE]; omega
        have c4 : ¬ PADDING_OFFSET + i < FST_OFFSET := by
          simp only [PADDING_OFFSET, FST_OFFSET, FAT_SIZE, FST_SIZE]; omega
        have c5 : ¬ PADDING_OFFSET + i < PADDING_OFFSET := by omega
        have c6 : PADDING_OFFSET + i - PADDING_OFFSET = i := by omega
        rw [if_neg c1, if_neg c2, if_neg c3, if_neg c4, if_neg c5, c6]
      rw [c] at this
      simp only [List.getD_eq_getElem?_getD] at this ⊢
      simp [hi, this]

end wiifs

namespace wiifs

/-- Two superblocks that are the same as C++ objects have the same bytes. -/
theorem Superblock.byteAt_of_Same (a b : Superblock) (h : a.Same b) (o : Nat) :
    a.byteAt o = b.byteAt o := by
  obtain ⟨h1, h2, h3, h4, h5, h6⟩ := h
  unfold Superblock.byteAt
  rw [h1, h2, h3, h6]
  by_cases c1 : o < 4
  · rw [if_pos c1, if_pos c1]
  rw [if_neg c1, if_neg c1]
  by_cases c2 : o < 8
  · rw [if_pos c2, if_pos c2]
  rw [if_neg c2, if_neg c2]
  by_cases c3 : o < 12
  · rw [if_pos c3, if_pos c3]
  rw [if_neg c3, if_neg c3]
  by_cases c4 : o < FST_OFFSET
  · rw [if_pos c4, if_pos c4, h4 _ (by simp only [FST_OFFSET, FAT_OFFSET, FAT_SIZE] at *; omega)]
  rw [if_neg c4, if_neg c4]
  by_cases c5 : o < PADDING_OFFSET
  · rw [if_pos c5, if_pos c5,
      h5 _ (by simp only [FST_OFFSET, PADDING_OFFSET, FAT_SIZE, FST_SIZE] at *; omega)]
  rw [if_neg c5, if_neg c5]

/-- Two superblocks that are the same as C++ objects have the same HMAC. -/
theorem GenerateHmacForSuperblock_of_Same (K : Mbedtls) (keys : FileSystemKeys)
    (a b : Superblock) (h : a.Same b) (index : Nat) :
    GenerateHmacForSuperblock K keys a index = GenerateHmacForSuperblock K keys b index := by
  unfold GenerateHmacForSuperblock
  have : a.bytes 0 SUPERBLOCK_SIZE = b.bytes 0 SUPERBLOCK_SIZE := by
    unfold Superblock.bytes
    apply List.map_congr_left
    intro i hi
    exact Superblock.byteAt_of_Same a b h _
  rw [this]

/-! ## The discovery scan -/

/-- The discovery loop over replicas none of which is newer than version `v`
keeps the highest version at most `v`. -/
theorem discover_le (K : Mbedtls) (keys : FileSystemKeys) (nand : Nat → Nat) (v : Nat) :
    ∀ (l : List Nat) (d : Discovery),
      (∀ i ∈ l, ∀ sbi, ReadSuperblock K keys nand i = .ok sbi →
        sbi.magic = SUPERBLOCK_MAGIC → sbi.version ≤ v) →
      d.highest_version ≤ v →
      (l.foldl (discoverStep K keys nand) d).highest_version ≤ v := by
  intro l
  induction l with
  | nil => intro d _ hd; exact hd
  | cons i l ih =>
    intro d h hd
    rw [List.foldl_cons]
    apply ih _ (fun k hk => h k (List.mem_cons_of_mem _ hk))
    unfold discoverStep
    cases hr : ReadSuperblock K keys nand i with
    | error e => exact hd
    | ok sbi =>
      simp only
      split_ifs with c1 c2
      · exact hd
      · exact hd
      · exact h i (List.mem_cons_self _ _) sbi hr (by simpa using c1)

/-- The discovery loop over replicas all older than the one selected keeps the
selection. -/
theorem discover_keep (K : Mbedtls) (keys : FileSystemKeys) (nand : Nat → Nat) (d : Discovery) :
    ∀ (l : List Nat),
      (∀ i ∈ l, ∀ sbi, ReadSuperblock K keys nand i = .ok sbi →
        sbi.magic = SUPERBLOCK_MAGIC → sbi.version < d.highest_version) →
      l.foldl (discoverStep K keys nand) d = d := by
  intro l
  induction l with
  | nil => intro _; rfl
  | cons i l ih =>
    intro h
    rw [List.foldl_cons]
    have hstep : discoverStep K keys nand d i = d := by
      unfold discoverStep
      cases hr : ReadSuperblock K keys nand i with
      | error e => rfl
      | ok sbi =>
        simp only
        split_ifs with c1 c2
        · rfl
        · rfl
        · exact absurd (h i (List.mem_cons_self _ _) sbi hr (by simpa using c1)) c2
    rw [hstep]
    exact ih (fun k hk => h k (List.mem_cons_of_mem _ hk))

/-- One iteration of the discovery loop at a replica that carries the magic and
is not older than the highest version seen selects it. -/
theorem discoverStep_pick (K : Mbedtls) (keys : FileSystemKeys) (nand : Nat → Nat) (j : Nat)
    (sbR : Superblock) (d : Discovery)
    (hr : ReadSuperblock K keys nand j = .ok sbR) (hm : sbR.magic = SUPERBLOCK_MAGIC)
    (hv : ¬ sbR.version < d.highest_version) :
    discoverStep K keys nand d j
      = { highest_version := sbR.version, m_superblock_index := j,
          m_superblock := some sbR } := by
  unfold discoverStep
  rw [hr]
  simp only
  have c1 : ¬ sbR.magic ≠ SUPERBLOCK_MAGIC := by simp [hm]
  rw [if_neg c1, if_neg hv]

/-- The discovery loop selects the replica that is newer than all others. -/
theorem discover_pick (K : Mbedtls) (keys : FileSystemKeys) (nand : Nat → Nat) (j : Nat)
    (sbR : Superblock) (d0 : Discovery) (hj : j < NUMBER_OF_SUPERBLOCKS)
    (hd0 : d0.highest_version = 0)
    (hr : ReadSuperblock K keys nand j = .ok sbR) (hm : sbR.magic = SUPERBLOCK_MAGIC)
    (hold : ∀ i, i < NUMBER_OF_SUPERBLOCKS → i ≠ j → ∀ sbi,
      ReadSuperblock K keys nand i = .ok sbi → sbi.magic = SUPERBLOCK_MAGIC →
      sbi.version < sbR.version) :
    (List.range NUMBER_OF_SUPERBLOCKS).foldl (discoverStep K keys nand) d0
      = { highest_version := sbR.version, m_superblock_index := j, m_superblock := some sbR } := by
  have hmem : j ∈ List.range NUMBER_OF_SUPERBLOCKS := List.mem_range.2 hj
  obtain ⟨l1, l2, hl⟩ := List.append_of_mem hmem
  have hnd : (l1 ++ j :: l2).Nodup := hl ▸ List.nodup_range _
  have hin : ∀ i, i ∈ l1 ∨ i ∈ l2 → i < NUMBER_OF_SUPERBLOCKS ∧ i ≠ j := by
    intro i hi
    constructor
    · apply List.mem_range.1
      rw [hl]
      rcases hi with hi | hi
      · exact List.mem_append_left _ hi
      · exact List.mem_append_right _ (List.mem_cons_of_mem _ hi)
    · intro hx
      subst hx
      rw [List.nodup_append] at hnd
      rcases hi with hi | hi
      · exact hnd.2.2 hi (List.mem_cons_self _ _) 
      · exact (List.nodup_cons.1 hnd.2.1).1 hi
  rw [hl, List.foldl_append, List.foldl_cons]
  have h1 : (l1.foldl (discoverStep K keys nand) d0).highest_version ≤ sbR.version := by
    apply discover_le K keys nand sbR.version l1 d0
    · intro i hi sbi hri hmi
      exact Nat.le_of_lt (hold i (hin i (Or.inl hi)).1 (hin i (Or.inl hi)).2 sbi hri hmi)
    · rw [hd0]; exact Nat.zero_le _
  have h2 : discoverStep K keys nand (l1.foldl (discoverStep K keys nand) d0) j
      = { highest_version := sbR.version, m_superblock_index := j,
          m_superblock := some sbR } :=
    discoverStep_pick K keys nand j sbR _ hr hm (by omega)
  rw [h2]
  apply discover_keep
  intro i hi sbi hri hmi
  exact hold i (hin i (Or.inr hi)).1 (hin i (Or.inr hi)).2 sbi hri hmi

end wiifs

namespace wiifs

/-! ## A flush followed by a fresh discovery scan -/

/-- The discovery scan of a driver that holds no superblock returns the replica
that its loop selects when the HMAC stored with that replica is the HMAC of the
superblock read. -/
theorem GetSuperblock_of_pick (K : Mbedtls) (s0 : FileSystemImpl)
    (j : Nat) (sbR : Superblock) (r : ReadResult)
    (h0 : s0.m_superblock = none)
    (hpick : (List.range NUMBER_OF_SUPERBLOCKS).foldl (discoverStep K s0.m_keys s0.m_nand)
      { highest_version := 0, m_superblock_index := s0.m_superblock_index, m_superblock := none }
      = { highest_version := sbR.version, m_superblock_index := j, m_superblock := some sbR })
    (hrc : ReadCluster K s0.m_keys s0.m_nand ((SuperblockCluster j + 15) % 65536) = .ok r)
    (hh : GenerateHmacForSuperblock K s0.m_keys sbR j = r.hmac1) :
    GetSuperblock K s0
      = (some sbR, { s0 with m_superblock_index := j, m_superblock := some sbR }) := by
  unfold GetSuperblock
  rw [h0]
  dsimp only
  rw [hpick]
  dsimp only
  rw [hrc]
  dsimp only
  have hc : ¬ (GenerateHmacForSuperblock K s0.m_keys sbR j ≠ r.hmac1 ∧
      GenerateHmacForSuperblock K s0.m_keys sbR j ≠ r.hmac2) := fun hx => hx.1 hh
  rw [if_neg hc]

/-- One flush that does not wrap the version, followed by the discovery scan of
a driver constructed over the resulting NAND image. -/
theorem flushStep_then_discovery (K : Mbedtls) (s : FileSystemImpl) (sb : Superblock)
    (hsb : s.m_superblock = some sb) (hmagic : sb.magic = SUPERBLOCK_MAGIC) (hwf : sb.WF)
    (hv : sb.version < 0xffffffff) (hold : NoNewerReplica K s sb) :
    ∃ sbR, (flushStep K s).m_superblock = some sb.bump ∧
      (flushStep K s).m_superblock_index = (s.m_superblock_index + 1) % NUMBER_OF_SUPERBLOCKS ∧
      GetSuperblock K (FileSystemImpl.init (flushStep K s).m_nand (flushStep K s).m_keys)
        = (some sbR, (flushStep K s).reopened (flushStep K s).m_superblock_index sbR) ∧
      sbR.Same sb.bump ∧ sbR.version = sb.version + 1 ∧
      sb.bump.magic = SUPERBLOCK_MAGIC ∧ sb.bump.WF ∧ NoNewerReplica K (flushStep K s) sb.bump := by
  have hj : (s.m_superblock_index + 1) % NUMBER_OF_SUPERBLOCKS < 16 := Nat.mod_lt _ (by decide)
  generalize hjdef : (s.m_superblock_index + 1) % NUMBER_OF_SUPERBLOCKS = j at hj
  have hbv : sb.bump.version = sb.version + 1 := by
    simp only [Superblock.bump]
    omega
  have hbwf : sb.bump.WF := hwf
  have hbm : sb.bump.magic = SUPERBLOCK_MAGIC := hmagic
  have e1 : (flushStep K s).m_superblock = some sb.bump := by
    simp [flushStep, hsb, writtenState]
  have e2 : (flushStep K s).m_superblock_index = j := by
    simp [flushStep, hsb, writtenState, hjdef]
  have e3 : (flushStep K s).m_keys = s.m_keys := by
    simp [flushStep, hsb, writtenState]
  have e4 : (flushStep K s).m_nand = (writeBlockClusters K s.m_keys sb.bump j
      (GenerateHmacForSuperblock K s.m_keys sb.bump j) CLUSTERS_PER_SUPERBLOCK s.m_nand).2 := by
    simp [flushStep, hsb, writtenState, hjdef]
  obtain ⟨hframe, hread⟩ := writeBlockClusters_spec K s.m_keys sb.bump j
    (GenerateHmacForSuperblock K s.m_keys sb.bump j) hj
    (GenerateHmacForSuperblock_length K s.m_keys sb.bump j) 16 (Nat.le_refl _) s.m_nand
  have hR : ReadSuperblock K s.m_keys (flushStep K s).m_nand j
      = .ok (Superblock.ofBytes (fun o => (sb.bump.bytes 0 SUPERBLOCK_SIZE).getD o 0)) := by
    rw [e4]
    apply ReadSuperblock_of_clusters K s.m_keys _ sb.bump j hj
    intro t ht
    exact ⟨_, hread t (by omega) ht, by with_reducible rfl⟩
  have h232 : (2 : Nat) ^ 32 = 4294967296 := by norm_num
  have hbv32 : sb.bump.version < 2 ^ 32 := by rw [hbv, h232]; omega
  have hsame := Superblock.ofBytes_bytes sb.bump hbwf hbv32
  have hother : ∀ i, i < 16 → i ≠ j →
      ReadSuperblock K s.m_keys (flushStep K s).m_nand i
        = ReadSuperblock K s.m_keys s.m_nand i := by
    intro i hi hij
    rw [e4]
    apply ReadSuperblock_congr K s.m_keys _ _ i hi
    intro a ha1 ha2
    apply hframe
    rcases Nat.lt_or_gt_of_ne hij with h | h
    · left; omega
    · right; omega
  refine ⟨_, e1, e2, ?_, hsame, by rw [hsame.2.1, hbv], hbm, hbwf, ?_⟩
  · have hpick := discover_pick K s.m_keys (flushStep K s).m_nand j _
      { highest_version := 0, m_superblock_index := 0, m_superblock := none } hj rfl hR
      (by rw [hsame.1]; exact hbm)
      (by
        intro i hi hij sbi hri hmi
        rw [hother i hi hij] at hri
        have := hold i hi (by rw [hjdef]; exact hij) sbi hri hmi
        rw [hsame.2.1, hbv]
        omega)
    have hcl : (SuperblockCluster j + 15) % 65536 = 0x7f00 + 16 * j + 15 := by
      rw [SuperblockCluster_eq j hj]
      omega
    have hrc := hread 15 (by omega) (by omega)
    rw [← e4] at hrc
    rw [← hcl] at hrc
    have hh := GenerateHmacForSuperblock_of_Same K s.m_keys _ _ hsame j
    have hif : (if (15 : Nat) = 15 then GenerateHmacForSuperblock K s.m_keys sb.bump j
        else List.replicate 20 0) = GenerateHmacForSuperblock K s.m_keys sb.bump j := if_pos rfl
    rw [hif] at hrc
    have := GetSuperblock_of_pick K (FileSystemImpl.init (flushStep K s).m_nand s.m_keys) j _ _
      rfl hpick hrc hh
    rw [e3, this, e2]
    unfold FileSystemImpl.reopened
    rw [e3]
  · intro i hi hne sbi hri hmi
    rw [e3] at hri
    by_cases hij : i = j
    · subst hij
      rw [hR] at hri
      simp only [Except.ok.injEq] at hri
      subst hri
      rw [hsame.2.1]
    · rw [hother i hi hij] at hri
      have := hold i hi (by rw [hjdef]; exact hij) sbi hri hmi
      rw [hbv]
      omega

end wiifs

namespace wiifs

/-- A formatted superblock fits its C++ type when the superblock formatted
does. -/
theorem formatSuperblock_WF (sb : Superblock) (h : sb.WF) : (formatSuperblock sb).WF := by
  obtain ⟨_, h2, _, _, h5⟩ := h
  refine ⟨rfl, h2, ?_, ?_, h5⟩
  · intro i hi
    rw [formatSuperblock_fat sb i hi]
    split_ifs <;> decide
  · intro i hi
    rcases Nat.eq_zero_or_pos i with h0 | h0
    · subst h0
      rw [formatSuperblock_root]
      refine ⟨?_, by decide, by decide, by decide, by decide, by decide, by decide⟩
      decide
    · rw [formatSuperblock_fst sb i h0 hi]
      refine ⟨by decide, by decide, by decide, by decide, by decide, by decide, by decide⟩

/-- The all-zero superblock fits its C++ type. -/
theorem Superblock.zero_WF : Superblock.zero.WF := by
  refine ⟨by decide, by decide, ?_, ?_, by decide⟩
  · intro i _
    show (0 : Nat) < 65536
    decide
  · intro i _
    show FstEntry.zero.WF
    exact ⟨by decide, by decide, by decide, by decide, by decide, by decide, by decide⟩

/-- No replica of an all-zero NAND image carries the magic. -/
theorem ReadSuperblock_zero_magic (K : Mbedtls) (keys : FileSystemKeys) (i : Nat)
    (hi : i < 16) (sbi : Superblock) (h : ReadSuperblock K keys (fun _ => 0) i = .ok sbi) :
    sbi.magic ≠ SUPERBLOCK_MAGIC := by
  have hcl : ∀ c r, ReadCluster K keys (fun _ => 0) c = .ok r → c ≥ 0x7f00 →
      ∀ x ∈ r.data, x = 0 := by
    intro c r hr hc x hx
    unfold ReadCluster at hr
    split_ifs at hr with c1 c2
    · exact absurd c2 (by simp only [SUPERBLOCK_START_CLUSTER]; omega)
    · simp only [Except.ok.injEq] at hr
      subst hr
      simp only at hx
      have hall : ∀ (n : Nat) (acc : List Nat), (∀ y ∈ acc, y = 0) →
          ∀ y ∈ (List.range n).foldl (fun acc page => acc ++
            readBytes (fun _ => 0) (Offset c page) DATA_BYTES_PER_PAGE) acc, y = 0 := by
        intro n
        induction n with
        | zero => intro acc ha y hy; exact ha y hy
        | succ n ih =>
          intro acc ha y hy
          rw [List.range_succ, List.foldl_append] at hy
          simp only [List.foldl_cons, List.foldl_nil, List.mem_append] at hy
          rcases hy with hy | hy
          · exact ih acc ha y hy
          · simp only [readBytes, List.mem_map] at hy
            obtain ⟨_, _, rfl⟩ := hy
            rfl
      exact hall _ [] (fun y hy => absurd hy (List.not_mem_nil y)) x hx
  have hloop : ∀ m block, ReadSuperblockLoop K keys (fun _ => 0) i m = .ok block →
      (SuperblockCluster i) % 65536 + m ≤ 65536 → SuperblockCluster i ≥ 0x7f00 →
      ∀ x ∈ block, x = 0 := by
    intro m
    induction m with
    | zero =>
      intro block hb _ _ x hx
      simp only [ReadSuperblockLoop, Except.ok.injEq] at hb
      subst hb
      exact absurd hx (List.not_mem_nil x)
    | succ m ih =>
      intro block hb hle hge x hx
      unfold ReadSuperblockLoop at hb
      cases h1 : ReadSuperblockLoop K keys (fun _ => 0) i m with
      | error e => rw [h1] at hb; simp at hb
      | ok b1 =>
        rw [h1] at hb
        simp only at hb
        cases h2 : ReadCluster K keys (fun _ => 0) ((SuperblockCluster i + m) % 65536) with
        | error e => rw [h2] at hb; simp at hb
        | ok r =>
          rw [h2] at hb
          simp only [Except.ok.injEq] at hb
          subst hb
          rcases List.mem_append.1 hx with hx | hx
          · exact ih b1 h1 (by omega) hge x hx
          · have hlt : SuperblockCluster i < 65536 := by
              unfold SuperblockCluster
              exact Nat.mod_lt _ (by decide)
            exact hcl _ r h2 (by omega) x hx
  unfold ReadSuperblock at h
  cases hb : ReadSuperblockLoop K keys (fun _ => 0) i CLUSTERS_PER_SUPERBLOCK with
  | error e => rw [hb] at h; simp at h
  | ok block =>
    rw [hb] at h
    simp only [Except.ok.injEq] at h
    subst h
    intro hm
    have hsc := SuperblockCluster_eq i hi
    have hz := hloop _ block hb (by rw [hsc]; simp only [CLUSTERS_PER_SUPERBLOCK]; omega)
      (by rw [hsc]; omega)
    have h0 : block[0]?.getD 0 = 0 := by
      cases hg : block[0]? with
      | none => rfl
      | some v => exact hz v (List.mem_iff_getElem?.2 ⟨0, hg⟩)
    have : (Superblock.ofBytes (fun o => block.getD o 0)).magic.getD 0 0 = 0 := by
      simp [Superblock.ofBytes, h0]
    rw [hm] at this
    exact absurd this (by decide)

/-- C5, amended: let the driver hold a superblock `sb` that carries the magic,
whose fields fit their types, whose version is below 0xffffffff, and than which
no replica in the NAND image is newer (the replica that the flush overwrites
apart).  Then `FlushSuperblock` returns `Success`, and the discovery scan of a
driver constructed over the resulting NAND image and the same keys verifies and
returns a superblock that equals the one held in memory after the flush, at the
replica index just written; its version is the version held before plus 1.
The conditions on the superblock hold again after the flush. -/
theorem FlushSuperblock_then_discovery (K : Mbedtls) (s : FileSystemImpl) (sb : Superblock)
    (hsb : s.m_superblock = some sb) (hmagic : sb.magic = SUPERBLOCK_MAGIC) (hwf : sb.WF)
    (hv : sb.version < 0xffffffff) (hold : NoNewerReplica K s sb) :
    ∃ s' sb' sbR, FlushSuperblock K s = some (.Success, s') ∧
      s'.m_superblock = some sb' ∧
      s'.m_superblock_index = (s.m_superblock_index + 1) % NUMBER_OF_SUPERBLOCKS ∧
      GetSuperblock K (FileSystemImpl.init s'.m_nand s'.m_keys)
        = (some sbR, s'.reopened s'.m_superblock_index sbR) ∧
      sbR.Same sb' ∧ sbR.version = sb.version + 1 ∧ sb.version < sbR.version ∧
      sb'.magic = SUPERBLOCK_MAGIC ∧ sb'.WF ∧ NoNewerReplica K s' sb' := by
  have hnw : (sb.version + 1) % 2 ^ 32 ≠ 0 := by omega
  obtain ⟨sbR, r1, r2, r3, r4, r5, r6, r7, r8⟩ :=
    flushStep_then_discovery K s sb hsb hmagic hwf hv hold
  exact ⟨flushStep K s, sb.bump, sbR, FlushSuperblockAux_noWrap K 2 s sb hsb hnw, r1, r2, r3, r4,
    r5, by omega, r6, r7, r8⟩

/-- A flush of the formatted superblock of version 0 held over an all-zero NAND
image, followed by a fresh discovery scan. -/
theorem FlushSuperblock_then_discovery_witness :
    ∃ s' sb' sbR, FlushSuperblock Mbedtls.plain FileSystemImpl.formatted = some (.Success, s') ∧
      s'.m_superblock = some sb' ∧
      s'.m_superblock_index
        = (FileSystemImpl.formatted.m_superblock_index + 1) % NUMBER_OF_SUPERBLOCKS ∧
      GetSuperblock Mbedtls.plain (FileSystemImpl.init s'.m_nand s'.m_keys)
        = (some sbR, s'.reopened s'.m_superblock_index sbR) ∧
      sbR.Same sb' ∧ sbR.version = (formatSuperblock Superblock.zero).version + 1 ∧
      (formatSuperblock Superblock.zero).version < sbR.version ∧
      sb'.magic = SUPERBLOCK_MAGIC ∧ sb'.WF ∧ NoNewerReplica Mbedtls.plain s' sb' :=
  FlushSuperblock_then_discovery Mbedtls.plain FileSystemImpl.formatted
    (formatSuperblock Superblock.zero) rfl rfl (formatSuperblock_WF _ Superblock.zero_WF)
    (by decide)
    (fun i hi _ sbi hr hm =>
      absurd hm (ReadSuperblock_zero_magic Mbedtls.plain FileSystemKeys.sample i hi sbi hr))

/-- C5 as stated fails when the version wraps: a flush of a superblock of
version 0xffffffff returns `Success` and leaves version 15 in memory (the
version wraps to 0 and 15 more versions are written), which is not greater
than the version held before. -/
theorem FlushSuperblock_version_wrap_counterexample :
    FileSystemImpl.lastVersion.m_superblock.map (fun sb => (sb.magic, sb.version))
      = some (SUPERBLOCK_MAGIC, 0xffffffff) ∧
    (FlushSuperblock Mbedtls.plain FileSystemImpl.lastVersion).map
        (fun r => (r.1, r.2.m_superblock.map (fun sb => sb.version), r.2.m_superblock_index))
      = some (.Success, some 15, 0) ∧
    ¬ (0xffffffff < 15) := by
  decide!

end wiifs

namespace wiifs

/-! ## Handles -/

/-- `GetSuperblock` does not touch the handles. -/
theorem GetSuperblock_handles (K : Mbedtls) (s : FileSystemImpl) :
    (GetSuperblock K s).2.m_handles = s.m_handles ∧
    (GetSuperblock K s).2.m_internal_handle = s.m_internal_handle := by
  unfold GetSuperblock
  cases h : s.m_superblock with
  | some sb => exact ⟨rfl, rfl⟩
  | none =>
    dsimp only
    split
    · exact ⟨rfl, rfl⟩
    · split
      · exact ⟨rfl, rfl⟩
      · split <;> exact ⟨rfl, rfl⟩

/-- `AssignFreeHandle` takes the first slot that is not opened, resets it and
marks it opened with the uid and gid given; it finds none exactly when all 16
slots are opened. -/
theorem AssignFreeHandle_spec (s : FileSystemImpl) (uid gid : Nat) :
    (∀ it s', AssignFreeHandle s uid gid = (some it, s') →
      it < 16 ∧ (s.m_handles it).opened = false ∧
      (∀ j, j < it → (s.m_handles j).opened = true) ∧
      s'.m_handles it = { Handle.default with opened := true, uid := uid, gid := gid } ∧
      (∀ j, j ≠ it → s'.m_handles j = s.m_handles j) ∧
      s' = { s with m_handles := s'.m_handles }) ∧
    (∀ s', AssignFreeHandle s uid gid = (none, s') →
      s' = s ∧ ∀ j, j < 16 → (s.m_handles j).opened = true) ∧
    ((∀ j, j < 16 → (s.m_handles j).opened = true) → AssignFreeHandle s uid gid = (none, s)) := by
  refine ⟨?_, ?_, ?_⟩
  · intro it s' h
    unfold AssignFreeHandle at h
    cases hf : findFirst (fun i => !(s.m_handles i).opened) 16 with
    | none => rw [hf] at h; simp at h
    | some i =>
      rw [hf] at h
      simp only [Prod.mk.injEq, Option.some.injEq] at h
      obtain ⟨rfl, rfl⟩ := h
      obtain ⟨h1, h2, h3⟩ := findFirst_spec _ _ _ hf
      refine ⟨h1, by simpa using h2, fun j hj => by simpa using h3 j hj, by simp, ?_, rfl⟩
      intro j hj
      simp [hj]
  · intro s' h
    unfold AssignFreeHandle at h
    cases hf : findFirst (fun i => !(s.m_handles i).opened) 16 with
    | some i => rw [hf] at h; simp at h
    | none =>
      rw [hf] at h
      simp only [Prod.mk.injEq, true_and] at h
      refine ⟨h.symm, fun j hj => ?_⟩
      simpa using findFirst_none _ _ hf j hj
  · intro hall
    unfold AssignFreeHandle
    cases hf : findFirst (fun i => !(s.m_handles i).opened) 16 with
    | none => rfl
    | some i =>
      obtain ⟨h1, h2, _⟩ := findFirst_spec _ _ _ hf
      have := hall i h1
      simp [this] at h2

/-- The handle assigned by `OpenFile` when it returns a descriptor. -/
theorem OpenFile_ok (K : Mbedtls) (s : FileSystemImpl) (uid gid : Nat) (path : List Nat)
    (mode fd : Nat) (s' : FileSystemImpl)
    (h : OpenFile K s uid gid path mode = some (.ok fd, s')) :
    ∃ sb index s2, GetSuperblock K s = (some sb, (GetSuperblock K s).2) ∧
      GetFstIndex sb path = some (.ok index) ∧
      AssignFreeHandle (GetSuperblock K s).2 uid gid = (some fd, s2) ∧
      s' = s2.setHandle fd
        { s2.handle fd with fst_index := index, mode := mode, file_offset := 0,
                            file_size := (sb.fst index).size } := by
  unfold OpenFile at h
  split at h
  · simp at h
  · cases hg : GetSuperblock K s with
    | mk o s1 =>
      rw [hg] at h
      cases o with
      | none => simp at h
      | some sb =>
        simp only at h
        cases hi : GetFstIndex sb path with
        | none => rw [hi] at h; simp at h
        | some r =>
          rw [hi] at h
          cases r with
          | error e => simp at h
          | ok index =>
            simp only at h
            split at h
            · simp at h
            · split at h
              · simp at h
              · cases ha : AssignFreeHandle s1 uid gid with
                | mk oh s2 =>
                  rw [ha] at h
                  cases oh with
                  | none => simp at h
                  | some it =>
                    simp only [Option.some.injEq, Prod.mk.injEq, Except.ok.injEq,
                      ConvertHandleToFd] at h
                    obtain ⟨rfl, rfl⟩ := h
                    exact ⟨sb, index, s2, rfl, hi, rfl, rfl⟩

/-- C23: when `OpenFs` or `OpenFile` returns a descriptor, it is the smallest
`i` in 0..15 whose slot is not opened (so never the internal descriptor
0xffffff00), that slot is reset and marked opened with the caller's uid and gid
(for `OpenFile`, bound to the file with offset 0), and the other slots are
untouched.  `OpenFs` returns `NoFreeHandle` exactly when all 16 slots are
opened; `OpenFile` returns `NoFreeHandle` only then, and when all 16 slots are
opened it returns no descriptor, and returns `NoFreeHandle` once its path and
permission checks have passed. -/
theorem Open_assigns_smallest_free_descriptor (K : Mbedtls) (s : FileSystemImpl)
    (uid gid : Nat) :
    (∀ fd s', OpenFs s uid gid = (.ok fd, s') →
      fd < 16 ∧ fd ≠ INTERNAL_FD ∧ (s.m_handles fd).opened = false ∧
      (∀ j, j < fd → (s.m_handles j).opened = true) ∧
      s'.m_handles fd = { Handle.default with opened := true, uid := uid, gid := gid } ∧
      (∀ j, j ≠ fd → s'.m_handles j = s.m_handles j)) ∧
    ((OpenFs s uid gid).1 = .error .NoFreeHandle ↔
      ∀ j, j < 16 → (s.m_handles j).opened = true) ∧
    (∀ path mode fd s', OpenFile K s uid gid path mode = some (.ok fd, s') →
      fd < 16 ∧ fd ≠ INTERNAL_FD ∧ (s.m_handles fd).opened = false ∧
      (∀ j, j < fd → (s.m_handles j).opened = true) ∧
      (∃ index size, s'.m_handles fd =
        { opened := true, fst_index := index, gid := gid, uid := uid, mode := mode,
          file_offset := 0, file_size := size, superblock_flush_needed := false }) ∧
      (∀ j, j ≠ fd → s'.m_handles j = s.m_handles j)) ∧
    (∀ path mode s', OpenFile K s uid gid path mode = some (.error .NoFreeHandle, s') →
      ∀ j, j < 16 → (s.m_handles j).opened = true) ∧
    ((∀ j, j < 16 → (s.m_handles j).opened = true) →
      (∀ path mode fd s', OpenFile K s uid gid path mode ≠ some (.ok fd, s')) ∧
      (∀ sb path mode index, s.m_superblock = some sb → IsValidNonRootPath path = true →
        GetFstIndex sb path = some (.ok index) → (sb.fst index).IsFile = true →
        HasPermission (sb.fst index) uid gid mode = true →
        OpenFile K s uid gid path mode = some (.error .NoFreeHandle, s))) := by
  obtain ⟨a1, a2, a3⟩ := AssignFreeHandle_spec s uid gid
  obtain ⟨g1, g2⟩ := GetSuperblock_handles K s
  obtain ⟨b1, b2, b3⟩ := AssignFreeHandle_spec (GetSuperblock K s).2 uid gid
  have hint : ∀ fd, fd < 16 → fd ≠ INTERNAL_FD := by
    intro fd hfd hx
    rw [hx] at hfd
    exact absurd hfd (by decide)
  refine ⟨?_, ?_, ?_, ?_, ?_⟩
  · intro fd s' h
    unfold OpenFs at h
    cases ha : AssignFreeHandle s uid gid with
    | mk o s2 =>
      rw [ha] at h
      cases o with
      | none => simp at h
      | some it =>
        simp only [Prod.mk.injEq, Except.ok.injEq, ConvertHandleToFd] at h
        obtain ⟨rfl, rfl⟩ := h
        obtain ⟨h1, h2, h3, h4, h5, _⟩ := a1 it s2 ha
        exact ⟨h1, hint it h1, h2, h3, h4, h5⟩
  · unfold OpenFs
    cases ha : AssignFreeHandle s uid gid with
    | mk o s2 =>
      cases o with
      | none =>
        simp only [true_iff]
        exact (a2 s2 ha).2
      | some it =>
        simp only [reduceCtorEq, false_iff]
        intro hall
        rw [a3 hall] at ha
        simp at ha
  · intro path mode fd s' h
    obtain ⟨sb, index, s2, _, _, ha, hs'⟩ := OpenFile_ok K s uid gid path mode fd s' h
    obtain ⟨h1, h2, h3, h4, h5, _⟩ := b1 fd s2 ha
    rw [g1] at h2 h3 h5
    have hne := hint fd h1
    refine ⟨h1, hne, h2, h3, ⟨index, (sb.fst index).size, ?_⟩, ?_⟩
    · rw [hs']
      simp only [FileSystemImpl.setHandle, FileSystemImpl.handle, if_neg hne, if_true, h4]
      rfl
    · intro j hj
      rw [hs']
      simp only [FileSystemImpl.setHandle, if_neg hne, if_neg hj]
      exact h5 j hj
  · intro path mode s' h
    unfold OpenFile at h
    split at h
    · simp at h
    · cases hg : GetSuperblock K s with
      | mk o s1 =>
        rw [hg] at h b2
        cases o with
        | none => simp at h
        | some sb =>
          simp only at h
          cases hi : GetFstIndex sb path with
          | none => rw [hi] at h; simp at h
          | some r =>
            rw [hi] at h
            cases r with
            | error e => simp at h
            | ok index =>
              simp only at h
              split at h
              · simp at h
              · split at h
                · simp at h
                · cases ha : AssignFreeHandle s1 uid gid with
                  | mk oh s2 =>
                    rw [ha] at h
                    cases oh with
                    | some it => simp at h
                    | none =>
                      have := (b2 s2 ha).2
                      rw [hg] at g1
                      simp only at g1
                      rw [g1] at this
                      exact this
  · intro hall
    constructor
    · intro path mode fd s' h
      obtain ⟨sb, index, s2, _, _, ha, _⟩ := OpenFile_ok K s uid gid path mode fd s' h
      have hall' : ∀ j, j < 16 → ((GetSuperblock K s).2.m_handles j).opened = true := by
        rw [g1]; exact hall
      rw [b3 hall'] at ha
      simp at ha
    · intro sb path mode index hsb hvalid hidx hfile hperm
      unfold OpenFile
      simp only [hvalid, GetSuperblock_of_some K s sb hsb, hidx, hfile, hperm, a3 hall,
        Bool.not_true, Bool.false_eq_true, if_false]

end wiifs

namespace wiifs

/-! ## OpenFile with mode None -/

/-- The permission check passes for every caller when nothing is requested. -/
theorem HasPermission_None (e : FstEntry) (uid gid : Nat) : HasPermission e uid gid 0 = true := by
  unfold HasPermission
  by_cases hu : uid = 0
  · simp [hu]
  · simp [hu]

/-- C24, amended: `OpenFile` does not test that the mode is not `None`, and the
permission check passes for `None` whoever the caller is: when the path
resolves to a file and one of the 16 slots is not opened, `OpenFile` with mode
`None` returns a descriptor; on that descriptor `ReadFile` and `WriteFile`
return `AccessDenied`. -/
theorem OpenFile_mode_None (K : Mbedtls) (s : FileSystemImpl) (sb : Superblock) (uid gid : Nat)
    (path : List Nat) (index : Nat)
    (hsb : s.m_superblock = some sb) (hvalid : IsValidNonRootPath path = true)
    (hidx : GetFstIndex sb path = some (.ok index)) (hfile : (sb.fst index).IsFile = true)
    (hfree : ∃ j, j < 16 ∧ (s.m_handles j).opened = false) :
    ∃ fd s', OpenFile K s uid gid path 0 = some (.ok fd, s') ∧ fd < 16 ∧
      (s'.m_handles fd).opened = true ∧ (s'.m_handles fd).mode = 0 ∧
      (∀ count, ReadFile K s' fd count = some (.error .AccessDenied, [], s')) ∧
      (∀ ptr count, WriteFile K s' fd ptr count = some (.error .AccessDenied, s')) := by
  obtain ⟨a1, a2, _⟩ := AssignFreeHandle_spec s uid gid
  cases ha : AssignFreeHandle s uid gid with
  | mk o s2 =>
    cases o with
    | none =>
      obtain ⟨j, hj1, hj2⟩ := hfree
      have := (a2 s2 ha).2 j hj1
      rw [hj2] at this
      exact absurd this (by decide)
    | some it =>
      obtain ⟨h1, _, _, h4, _, _⟩ := a1 it s2 ha
      have hne : it ≠ INTERNAL_FD := by
        intro hx
        rw [hx] at h1
        exact absurd h1 (by decide)
      have hil := GetFstIndex_lt sb path index hidx
      obtain ⟨v, hv⟩ : ∃ v : Handle, v =
          { s2.handle it with fst_index := index, mode := 0, file_offset := 0,
                              file_size := (sb.fst index).size } := ⟨_, rfl⟩
      have hrun : OpenFile K s uid gid path 0 = some (.ok it, s2.setHandle it v) := by
        unfold OpenFile
        simp only [hvalid, GetSuperblock_of_some K s sb hsb, hidx, hfile, HasPermission_None, ha,
          Bool.not_true, Bool.false_eq_true, if_false, ConvertHandleToFd]
        rw [hv]
      have hh : (s2.setHandle it v).m_handles it = v := by
        simp only [FileSystemImpl.setHandle, if_neg hne, if_true]
      have hop : v.opened = true := by
        rw [hv]
        simp only [FileSystemImpl.handle, if_neg hne, h4]
      have hvm : v.mode = 0 := by rw [hv]
      have hvi : v.fst_index = index := by rw [hv]
      have hfd : GetHandleFromFd (s2.setHandle it v) it = some it := by
        unfold GetHandleFromFd
        rw [if_neg hne, hh]
        have : ¬ (it ≥ 16 ∨ v.opened = false) := by
          rw [hop]
          simp
          omega
        simp only [this, if_false]
      have hhd : (s2.setHandle it v).handle it = v := handle_setHandle _ _ _
      have hnot : ¬ index ≥ FST_SIZE := by omega
      refine ⟨it, _, hrun, h1, ?_, ?_, ?_, ?_⟩
      · rw [hh]; exact hop
      · rw [hh]; exact hvm
      · intro count
        unfold ReadFile
        rw [hfd]
        simp only [hhd, hvi, hvm, hnot, if_false]
        rfl
      · intro ptr count
        unfold WriteFile
        rw [hfd]
        simp only [hhd, hvi, hvm, hnot, if_false]
        rfl

/-- `OpenFile` with mode `None` on the file "/a" by a caller that is neither its
owner nor in its group. -/
theorem OpenFile_mode_None_witness :
    ∃ fd s', OpenFile Mbedtls.plain FileSystemImpl.sampleFiles 5 5 (bytesOf "/a") 0
        = some (.ok fd, s') ∧ fd < 16 ∧
      (s'.m_handles fd).opened = true ∧ (s'.m_handles fd).mode = 0 ∧
      (∀ count, ReadFile Mbedtls.plain s' fd count = some (.error .AccessDenied, [], s')) ∧
      (∀ ptr count, WriteFile Mbedtls.plain s' fd ptr count = some (.error .AccessDenied, s')) :=
  OpenFile_mode_None Mbedtls.plain FileSystemImpl.sampleFiles Superblock.sampleFiles 5 5
    (bytesOf "/a") 1 rfl (by decide) (by decide!) (by decide) ⟨0, by decide, by decide⟩

/-- C24 as stated fails: `OpenFile` with mode `None` (0) on the file "/a", by a
caller (uid 5, gid 5) to whom the file grants nothing, returns the
descriptor 0. -/
theorem OpenFile_mode_None_counterexample :
    (OpenFile Mbedtls.plain FileSystemImpl.sampleFiles 5 5 (bytesOf "/a") 0).map (·.1)
      = some (.ok 0) := by
  decide!

end wiifs

namespace wiifs

/-! ## SetMetadata -/

/-- C21: for a path that resolves to the entry `index` and a valid handle,
`SetMetadata` returns `AccessDenied` exactly when the caller's uid is not 0 and
it differs from the entry's uid or the requested uid differs from the entry's
uid; otherwise it returns `FileNotEmpty` exactly when the entry is a file of
size other than 0; otherwise it returns `Success` and the entry has the uid,
gid, attribute and access modes given (modes in 0..3), with its kind bits,
name, `sub`, `sib` and size unchanged, and no other FST or FAT entry has
changed. -/
theorem SetMetadata_spec (K : Mbedtls) (s : FileSystemImpl) (sb : Superblock) (fd h : Nat)
    (path : List Nat) (index uid gid attr owner_mode group_mode other_mode : Nat)
    (hfd : GetHandleFromFd s fd = some h)
    (hpath : path ≠ [] ∧ path.length ≤ 64 ∧ path.head? = some 47)
    (hsb : s.m_superblock = some sb)
    (hidx : GetFstIndex sb path = some (.ok index))
    (ho : owner_mode ≤ 3) (hg : group_mode ≤ 3) (ht : other_mode ≤ 3) :
    ((SetMetadata K s fd path uid gid attr owner_mode group_mode other_mode).map Prod.fst
        = some .AccessDenied ↔
      ((s.handle h).uid ≠ 0 ∧ ((s.handle h).uid ≠ (sb.fst index).uid ∨
        uid ≠ (sb.fst index).uid))) ∧
    (¬ ((s.handle h).uid ≠ 0 ∧ ((s.handle h).uid ≠ (sb.fst index).uid ∨
        uid ≠ (sb.fst index).uid)) →
      ((SetMetadata K s fd path uid gid attr owner_mode group_mode other_mode).map Prod.fst
          = some .FileNotEmpty ↔
        ((sb.fst index).IsFile = true ∧ (sb.fst index).size ≠ 0)) ∧
      (¬ ((sb.fst index).IsFile = true ∧ (sb.fst index).size ≠ 0) →
        ∃ s' sb', SetMetadata K s fd path uid gid attr owner_mode group_mode other_mode
            = some (.Success, s') ∧ s'.m_superblock = some sb' ∧
          (sb'.fst index).uid = uid ∧ (sb'.fst index).gid = gid ∧
          (sb'.fst index).attr = attr ∧ (sb'.fst index).GetOwnerMode = owner_mode ∧
          (sb'.fst index).GetGroupMode = group_mode ∧
          (sb'.fst index).GetOtherMode = other_mode ∧
          (sb'.fst index).mode &&& 3 = (sb.fst index).mode &&& 3 ∧
          (sb'.fst index).name = (sb.fst index).name ∧
          (sb'.fst index).sub = (sb.fst index).sub ∧
          (sb'.fst index).sib = (sb.fst index).sib ∧
          (sb'.fst index).size = (sb.fst index).size ∧
          (∀ i, i ≠ index → sb'.fst i = sb.fst i) ∧ sb'.fat = sb.fat)) := by
  have hc : ¬ (path = [] ∨ path.length > 64 ∨ path.head? ≠ some 47) := by
    obtain ⟨h1, h2, h3⟩ := hpath
    intro hx
    rcases hx with hx | hx | hx
    · exact h1 hx
    · omega
    · exact hx h3
  have hunf : SetMetadata K s fd path uid gid attr owner_mode group_mode other_mode
      = if (s.handle h).uid ≠ 0 ∧ (s.handle h).uid ≠ (sb.fst index).uid then
          some (.AccessDenied, s)
        else if (s.handle h).uid ≠ 0 ∧ (sb.fst index).uid ≠ uid then some (.AccessDenied, s)
        else if (sb.fst index).IsFile && decide ((sb.fst index).size ≠ 0) then
          some (.FileNotEmpty, s)
        else FlushSuperblock K { s with m_superblock := some (sb.setFst index
          (FstEntry.SetAccessMode { sb.fst index with gid := gid, uid := uid, attr := attr }
            owner_mode group_mode other_mode)) } := by
    unfold SetMetadata
    rw [hfd]
    simp only [if_neg hc, GetSuperblock_of_some K s sb hsb, hidx]
  obtain ⟨s', hs', hf⟩ := FlushSuperblock_total K { s with m_superblock := some (sb.setFst index
    (FstEntry.SetAccessMode { sb.fst index with gid := gid, uid := uid, attr := attr }
      owner_mode group_mode other_mode)) } _ rfl
  rw [hunf]
  refine ⟨?_, ?_⟩
  · constructor
    · intro hres
      by_contra hcon
      have c1 : ¬ ((s.handle h).uid ≠ 0 ∧ (s.handle h).uid ≠ (sb.fst index).uid) :=
        fun hx => hcon ⟨hx.1, Or.inl hx.2⟩
      have c2 : ¬ ((s.handle h).uid ≠ 0 ∧ (sb.fst index).uid ≠ uid) :=
        fun hx => hcon ⟨hx.1, Or.inr (Ne.symm hx.2)⟩
      rw [if_neg c1, if_neg c2] at hres
      split_ifs at hres
      · simp at hres
      · rw [hs'] at hres
        simp at hres
    · rintro ⟨hu, hor⟩
      by_cases c1 : (s.handle h).uid ≠ 0 ∧ (s.handle h).uid ≠ (sb.fst index).uid
      · rw [if_pos c1]; rfl
      · rw [if_neg c1]
        have c2 : (s.handle h).uid ≠ 0 ∧ (sb.fst index).uid ≠ uid := by
          refine ⟨hu, ?_⟩
          rcases hor with hx | hx
          · exact absurd ⟨hu, hx⟩ c1
          · exact Ne.symm hx
        rw [if_pos c2]; rfl
  · intro hcon
    have c1 : ¬ ((s.handle h).uid ≠ 0 ∧ (s.handle h).uid ≠ (sb.fst index).uid) :=
      fun hx => hcon ⟨hx.1, Or.inl hx.2⟩
    have c2 : ¬ ((s.handle h).uid ≠ 0 ∧ (sb.fst index).uid ≠ uid) :=
      fun hx => hcon ⟨hx.1, Or.inr (Ne.symm hx.2)⟩
    rw [if_neg c1, if_neg c2]
    refine ⟨?_, ?_⟩
    · constructor
      · intro hres
        by_contra hne
        have c3 : ¬ ((sb.fst index).IsFile && decide ((sb.fst index).size ≠ 0)) = true := by
          simpa using hne
        rw [if_neg c3, hs'] at hres
        simp at hres
      · intro hne
        have c3 : ((sb.fst index).IsFile && decide ((sb.fst index).size ≠ 0)) = true := by
          simpa using hne
        rw [if_pos c3]; rfl
    · intro hne
      have c3 : ¬ ((sb.fst index).IsFile && decide ((sb.fst index).size ≠ 0)) = true := by
        simpa using hne
      rw [if_neg c3]
      obtain ⟨_, _, _, _, _, _, _, sb1, v, hsb1, hsb'⟩ := hf
      simp only [Option.some.injEq] at hsb1
      subst hsb1
      have hk : (sb.fst index).mode &&& 3 ≤ 3 := Nat.and_le_right
      obtain ⟨m1, m2, m3, m4⟩ := SetAccessMode_spec ((sb.fst index).mode &&& 3) owner_mode
        group_mode other_mode hk ho hg ht
      have h33 : (sb.fst index).mode &&& 3 &&& 3 = (sb.fst index).mode &&& 3 := by
        rw [Nat.and_assoc]
        rfl
      rw [h33] at m1 m2 m3 m4
      refine ⟨s', _, hs', hsb', ?_, ?_, ?_, ?_, ?_, ?_, ?_, ?_, ?_, ?_, ?_, ?_, ?_⟩
      · simp [FstEntry.SetAccessMode]
      · simp [FstEntry.SetAccessMode]
      · simp [FstEntry.SetAccessMode]
      · simp only [setFst_fst, if_true, FstEntry.GetOwnerMode, FstEntry.SetAccessMode]
        exact m2
      · simp only [setFst_fst, if_true, FstEntry.GetGroupMode, FstEntry.SetAccessMode]
        exact m3
      · simp only [setFst_fst, if_true, FstEntry.GetOtherMode, FstEntry.SetAccessMode]
        exact m4
      · simp only [setFst_fst, if_true, FstEntry.SetAccessMode]
        exact m1
      · simp [FstEntry.SetAccessMode]
      · simp [FstEntry.SetAccessMode]
      · simp [FstEntry.SetAccessMode]
      · simp [FstEntry.SetAccessMode]
      · intro i hi
        simp [hi]
      · rfl

/-- `SetMetadata` on the empty file "/a" through the internal handle. -/
theorem SetMetadata_spec_witness :
    ∃ s' sb', SetMetadata Mbedtls.plain FileSystemImpl.sampleFiles INTERNAL_FD (bytesOf "/a")
        7 8 9 1 2 3 = some (.Success, s') ∧ s'.m_superblock = some sb' ∧
      (sb'.fst 1).uid = 7 ∧ (sb'.fst 1).gid = 8 ∧
      (sb'.fst 1).attr = 9 ∧ (sb'.fst 1).GetOwnerMode = 1 ∧
      (sb'.fst 1).GetGroupMode = 2 ∧
      (sb'.fst 1).GetOtherMode = 3 ∧
      (sb'.fst 1).mode &&& 3 = (Superblock.sampleFiles.fst 1).mode &&& 3 ∧
      (sb'.fst 1).name = (Superblock.sampleFiles.fst 1).name ∧
      (sb'.fst 1).sub = (Superblock.sampleFiles.fst 1).sub ∧
      (sb'.fst 1).sib = (Superblock.sampleFiles.fst 1).sib ∧
      (sb'.fst 1).size = (Superblock.sampleFiles.fst 1).size ∧
      (∀ i, i ≠ 1 → sb'.fst i = Superblock.sampleFiles.fst i) ∧
      sb'.fat = Superblock.sampleFiles.fat :=
  ((SetMetadata_spec Mbedtls.plain FileSystemImpl.sampleFiles Superblock.sampleFiles
    INTERNAL_FD INTERNAL_FD (bytesOf "/a") 1 7 8 9 1 2 3 (by decide) (by decide) rfl (by decide!)
    (by decide) (by decide) (by decide)).2 (by decide)).2 (by decide)

end wiifs

namespace wiifs

/-! ## GetDirectoryStats and file sizes near 2^32 -/

/-- C22 at a failing input: for a root directory that holds one file whose size
field is 0xffffffff, `GetDirectoryStats("/")` returns 0 used clusters, whereas
`ceil(0xffffffff / 0x4000)` is 0x40000: the sum `size + 0x3fff` is computed in
32 bits and wraps.  For sizes up to 0xffffc000 the term is the rounded-up
quotient. -/
theorem GetDirectoryStats_size_wraps :
    (Superblock.sampleHuge.fst 1).IsFile = true ∧ (Superblock.sampleHuge.fst 1).size = 0xffffffff ∧
    GetFstIndex Superblock.sampleHuge (bytesOf "/h") = some (.ok 1) ∧
    (GetDirectoryStats Mbedtls.plain FileSystemImpl.sampleHuge INTERNAL_FD (bytesOf "/")).map
      (·.1) = some (.ok { used_clusters := 0, used_inodes := 2 }) ∧
    (0xffffffff + 0x3fff) / 0x4000 = 0x40000 ∧
    (∀ size, size ≤ 0xffffc000 → (size + 0x3fff) % 2 ^ 32 / 0x4000 = (size + 0x3fff) / 0x4000) := by
  refine ⟨by decide, by decide, by decide!, by decide!, by decide, ?_⟩
  intro size hs
  rw [Nat.mod_eq_of_lt (by omega)]

/-! ## The cluster that WriteFileData allocates -/

/-- The first index at which a predicate holds. -/
theorem findFirst_eq (p : Nat → Bool) (bound c : Nat) (hc : c < bound) (hp : p c = true)
    (hlow : ∀ j, j < c → p j = false) : findFirst p bound = some c := by
  cases h : findFirst p bound with
  | none =>
    have := findFirst_none p bound h c hc
    rw [hp] at this
    exact absurd this (by decide)
  | some i =>
    obtain ⟨h1, h2, h3⟩ := findFirst_spec p bound i h
    rcases Nat.lt_trichotomy i c with hlt | heq | hgt
    · have := hlow i hlt
      rw [h2] at this
      exact absurd this (by decide)
    · rw [heq]
    · have := h3 c hgt
      rw [hp] at this
      exact absurd this (by decide)

/-- C30: when the file and size checks of `WriteFileData` pass, it returns
`NoFreeSpace` exactly when no FAT entry equals `CLUSTER_UNUSED`; otherwise the
data are written, with `WriteCluster`, to the lowest-indexed cluster `c` whose
FAT entry equals `CLUSTER_UNUSED` (so never to a reserved, bad or chained
cluster), no byte outside that cluster changes, and on success with chain index
0 the file's `sub` is `c`.  On a formatted image that cluster is 64. -/
theorem WriteFileData_allocation (K : Mbedtls) (s : FileSystemImpl) (sb : Superblock)
    (fst_index : Nat) (source : List Nat) (chain_index new_size : Nat)
    (hsb : s.m_superblock = some sb) (hidx : fst_index < FST_SIZE)
    (hfile : (sb.fst fst_index).IsFile = true) (hsize : (sb.fst fst_index).size < new_size) :
    ((WriteFileData K s fst_index source chain_index new_size).1 = .NoFreeSpace ↔
      ∀ i, i < FAT_SIZE → sb.fat i ≠ CLUSTER_UNUSED) ∧
    (∀ c, c < FAT_SIZE → sb.fat c = CLUSTER_UNUSED → (∀ j, j < c → sb.fat j ≠ CLUSTER_UNUSED) →
      (WriteFileData K s fst_index source chain_index new_size).2.m_nand
        = (WriteCluster K s.m_keys s.m_nand c source
            (GenerateHmacForData K s.m_keys sb source fst_index chain_index)).2 ∧
      (∀ a, (a < c * 16896 ∨ c * 16896 + 16896 ≤ a) →
        (WriteFileData K s fst_index source chain_index new_size).2.m_nand a = s.m_nand a) ∧
      ((WriteFileData K s fst_index source chain_index new_size).1 = .Success →
        chain_index = 0 →
        ∃ sb', (WriteFileData K s fst_index source chain_index new_size).2.m_superblock
          = some sb' ∧ (sb'.fst fst_index).sub = c)) ∧
    (∀ sb0 : Superblock,
      findFirst (fun i => (formatSuperblock sb0).fat i == CLUSTER_UNUSED) FAT_SIZE = some 64) := by
  have hc0 : ¬ ((sb.fst fst_index).IsFile = false ∨ new_size ≤ (sb.fst fst_index).size) := by
    rw [hfile]
    simp
    omega
  have heq := WriteFileData_eq K s s sb fst_index source chain_index new_size
    (GetSuperblock_of_some K s sb hsb) hidx
  rw [if_neg hc0] at heq
  refine ⟨?_, ?_, ?_⟩
  · rw [heq]
    cases hf : findFirst (fun i => sb.fat i == CLUSTER_UNUSED) FAT_SIZE with
    | none =>
      simp only [true_iff]
      intro i hi
      have := findFirst_none _ _ hf i hi
      simpa using this
    | some c =>
      obtain ⟨h1, h2, _⟩ := findFirst_spec _ _ _ hf
      simp only
      constructor
      · intro hr
        split at hr <;> simp at hr
      · intro hall
        have := hall c h1
        simp at h2
        exact absurd h2 this
  · intro c hc hu hlow
    have hf : findFirst (fun i => sb.fat i == CLUSTER_UNUSED) FAT_SIZE = some c := by
      apply findFirst_eq _ _ _ hc
      · simp [hu]
      · intro j hj
        simpa using hlow j hj
    rw [heq, hf]
    dsimp only
    cases hsp : spliceCluster sb fst_index chain_index new_size c with
    | none =>
      refine ⟨rfl, ?_, ?_⟩
      · intro a ha
        exact WriteCluster_frame K s.m_keys s.m_nand c _ _ a ha
      · intro hres
        cases hres
    | some sb4 =>
      refine ⟨rfl, ?_, ?_⟩
      · intro a ha
        exact WriteCluster_frame K s.m_keys s.m_nand c _ _ a ha
      · intro _ h0
        subst h0
        refine ⟨sb4, rfl, ?_⟩
        unfold spliceCluster at hsp
        simp only [if_true] at hsp
        injection hsp with hsp
        rw [← hsp]
        cases GetClusterForFile sb (sb.fst fst_index).sub 0 <;> simp
  · intro sb0
    apply findFirst_eq _ _ _ (by decide)
    · rw [formatSuperblock_fat sb0 64 (by decide)]
      decide
    · intro j hj
      rw [formatSuperblock_fat sb0 j (by simp only [FAT_SIZE]; omega)]
      have : j < 64 ∨ j ≥ 0x7f00 := Or.inl hj
      rw [if_pos this]
      decide

/-- The allocation at the file "/a" of a tree whose clusters 64 and 65 are in
use: the lowest unused cluster is 66. -/
theorem WriteFileData_allocation_witness :
    (WriteFileData Mbedtls.plain FileSystemImpl.sampleFiles 1 [1] 0 1).2.m_nand
      = (WriteCluster Mbedtls.plain FileSystemImpl.sampleFiles.m_keys
          FileSystemImpl.sampleFiles.m_nand 66 [1]
          (GenerateHmacForData Mbedtls.plain FileSystemImpl.sampleFiles.m_keys
            Superblock.sampleFiles [1] 1 0)).2 :=
  ((WriteFileData_allocation Mbedtls.plain FileSystemImpl.sampleFiles Superblock.sampleFiles 1
    [1] 0 1 rfl (by decide) (by decide) (by decide)).2.1 66 (by decide) (by decide)
    (by
      intro j hj
      have h1 : j < FAT_SIZE := by simp only [FAT_SIZE]; omega
      interval_cases j <;> decide)).1

end wiifs

namespace wiifs

/-! ## The spare area written by WriteCluster -/

theorem CalculateBlock_length (data : List Nat) : (ecc.CalculateBlock data).length = 4 := rfl

theorem Calculate_length (data : List Nat) : (ecc.Calculate data).length = 16 := by
  have h : ecc.Calculate data
      = [] ++ ecc.CalculateBlock (copy_n data (512 * 0) 512)
        ++ ecc.CalculateBlock (copy_n data (512 * 1) 512)
        ++ ecc.CalculateBlock (copy_n data (512 * 2) 512)
        ++ ecc.CalculateBlock (copy_n data (512 * 3) 512) := rfl
  rw [h]
  simp only [List.length_append, CalculateBlock_length, List.length_nil]

/-- Every byte of the spare built for one page. -/
theorem pageSpare_getD (p : Nat) (stored h : List Nat) (j : Nat) (hj : j < 64) :
    (pageSpare p stored h).getD j 0 =
      if p = 6 ∧ 1 ≤ j ∧ j < 21 then h.getD (j - 1) 0
      else if p = 6 ∧ 21 ≤ j ∧ j < 33 then h.getD (j - 21) 0
      else if p = 7 ∧ 1 ≤ j ∧ j < 9 then h.getD (12 + (j - 1)) 0
      else if 0x30 ≤ j then (ecc.Calculate stored).getD (j - 0x30) 0
      else if j = 0 then 0xff else 0 := by
  have hbase : (copyInto ((List.replicate 0x40 0).set 0 0xff) 0x30 (ecc.Calculate stored)).getD j 0
      = if 0x30 ≤ j then (ecc.Calculate stored).getD (j - 0x30) 0
        else if j = 0 then 0xff else 0 := by
    rw [copyInto_getD _ _ _ _ (by simp; omega), Calculate_length]
    by_cases h1 : 0x30 ≤ j
    · rw [if_pos ⟨h1, by omega⟩, if_pos h1]
    · rw [if_neg (fun hh => h1 hh.1), if_neg h1]
      by_cases h0 : j = 0
      · subst h0; rfl
      · rw [if_neg h0]
        rw [List.getD_eq_getElem?_getD, List.getElem?_set_ne (by omega)]
        simp only [List.getElem?_replicate, hj, if_true, Option.getD_some]
  unfold pageSpare
  simp only [HMAC_PAGE1, HMAC_PAGE2, HMAC1_OFFSET_IN_PAGE1, HMAC2_OFFSET_IN_PAGE1,
    HMAC1_SIZE_IN_PAGE1, HMAC2_SIZE_IN_PAGE1, HMAC2_OFFSET_IN_PAGE2, HMAC2_SIZE_IN_PAGE2]
  by_cases h6 : p = 6
  · rw [if_pos h6]
    rw [copyInto_getD _ _ _ _ (by simp [copyInto_length]; omega), copy_n_length]
    by_cases ha : 21 ≤ j ∧ j < 33
    · rw [if_pos (show 1 + 20 ≤ j ∧ j < 1 + 20 + 12 by omega), if_neg (by omega),
        if_pos ⟨h6, ha⟩, copy_n_getD _ _ _ _ (by omega)]
      congr 1
      omega
    · rw [if_neg (show ¬ (1 + 20 ≤ j ∧ j < 1 + 20 + 12) by omega),
        copyInto_getD _ _ _ _ (by simp [copyInto_length]; omega), copy_n_length]
      by_cases hb : 1 ≤ j ∧ j < 21
      · rw [if_pos (show 1 ≤ j ∧ j < 1 + 20 by omega), if_pos ⟨h6, hb⟩,
          copy_n_getD _ _ _ _ (by omega)]
        congr 1
        omega
      · rw [if_neg (show ¬ (1 ≤ j ∧ j < 1 + 20) by omega), if_neg (by omega), if_neg (by omega),
          if_neg (by omega), hbase]
  · rw [if_neg h6, if_neg (show ¬ (p = 6 ∧ 1 ≤ j ∧ j < 21) by omega),
      if_neg (show ¬ (p = 6 ∧ 21 ≤ j ∧ j < 33) by omega)]
    by_cases h7 : p = 7
    · rw [if_pos h7, copyInto_getD _ _ _ _ (by simp [copyInto_length]; omega), copy_n_length]
      by_cases hb : 1 ≤ j ∧ j < 9
      · rw [if_pos (show 1 ≤ j ∧ j < 1 + (20 - 12) by omega), if_pos ⟨h7, hb⟩,
          copy_n_getD _ _ _ _ (by omega)]
      · rw [if_neg (show ¬ (1 ≤ j ∧ j < 1 + (20 - 12)) by omega), if_neg (by omega), hbase]
    · rw [if_neg h7, if_neg (show ¬ (p = 7 ∧ 1 ≤ j ∧ j < 9) by omega), hbase]

/-- C25: for a cluster `c < 0x8000`, after `WriteCluster(c, d, h)` the 64-byte
spare of each of the 8 pages has byte 0 equal to 0xff and bytes 0x30..0x3f equal
to `ecc::Calculate` of the 2048 bytes stored in that page; on page 6 bytes 1..20
are `h` and bytes 21..32 are the first 12 bytes of `h`; on page 7 bytes 1..8 are
bytes 12..19 of `h`; every other spare byte is zero; and no byte outside the 8
pages of cluster `c` is modified. -/
theorem WriteCluster_spare (K : Mbedtls) (keys : FileSystemKeys) (nand : Nat → Nat) (c : Nat)
    (d h : List Nat) (hc : c < 0x8000) :
    (∀ p, p < 8 →
      (WriteCluster K keys nand c d h).2 (Offset c p + 2048 + 0) = 0xff ∧
      (∀ j, j < 16 → (WriteCluster K keys nand c d h).2 (Offset c p + 2048 + (0x30 + j))
        = (ecc.Calculate (readBytes (WriteCluster K keys nand c d h).2 (Offset c p) 2048)).getD
            j 0) ∧
      (p = 6 →
        (∀ i, i < 20 →
          (WriteCluster K keys nand c d h).2 (Offset c p + 2048 + (1 + i)) = h.getD i 0) ∧
        (∀ i, i < 12 →
          (WriteCluster K keys nand c d h).2 (Offset c p + 2048 + (21 + i)) = h.getD i 0) ∧
        (∀ j, 33 ≤ j → j < 0x30 → (WriteCluster K keys nand c d h).2 (Offset c p + 2048 + j) = 0)) ∧
      (p = 7 →
        (∀ i, i < 8 →
          (WriteCluster K keys nand c d h).2 (Offset c p + 2048 + (1 + i)) = h.getD (12 + i) 0) ∧
        (∀ j, 9 ≤ j → j < 0x30 → (WriteCluster K keys nand c d h).2 (Offset c p + 2048 + j) = 0)) ∧
      (p ≠ 6 → p ≠ 7 →
        ∀ j, 1 ≤ j → j < 0x30 → (WriteCluster K keys nand c d h).2 (Offset c p + 2048 + j) = 0)) ∧
    (∀ a, (a < Offset c 0 ∨ Offset c 0 + 8 * 2112 ≤ a) →
      (WriteCluster K keys nand c d h).2 a = nand a) := by
  constructor
  · intro p hp
    have hsp : ∀ j, j < 64 → (WriteCluster K keys nand c d h).2 (Offset c p + 2048 + j)
        = (pageSpare p (readBytes (WriteCluster K keys nand c d h).2 (Offset c p) 2048) h).getD
            j 0 := by
      intro j hj
      rw [WriteCluster_spare_at K keys nand c d h hc p j hp hj, WriteCluster_data K keys nand c d h
        hc p hp]
    refine ⟨?_, ?_, ?_, ?_, ?_⟩
    · rw [hsp 0 (by omega), pageSpare_getD _ _ _ _ (by omega)]
      rw [if_neg (by omega), if_neg (by omega), if_neg (by omega), if_neg (by omega), if_pos rfl]
    · intro j hj
      rw [hsp _ (by omega), pageSpare_getD _ _ _ _ (by omega)]
      rw [if_neg (by omega), if_neg (by omega), if_neg (by omega), if_pos (by omega)]
      congr 1
      omega
    · intro h6
      refine ⟨?_, ?_, ?_⟩
      · intro i hi
        rw [hsp _ (by omega), pageSpare_getD _ _ _ _ (by omega), if_pos ⟨h6, by omega, by omega⟩]
        congr 1
        omega
      · intro i hi
        rw [hsp _ (by omega), pageSpare_getD _ _ _ _ (by omega), if_neg (by omega),
          if_pos ⟨h6, by omega, by omega⟩]
        congr 1
        omega
      · intro j h1 h2
        rw [hsp _ (by omega), pageSpare_getD _ _ _ _ (by omega), if_neg (by omega),
          if_neg (by omega), if_neg (by omega), if_neg (by omega), if_neg (by omega)]
    · intro h7
      refine ⟨?_, ?_⟩
      · intro i hi
        rw [hsp _ (by omega), pageSpare_getD _ _ _ _ (by omega), if_neg (by omega),
          if_neg (by omega), if_pos ⟨h7, by omega, by omega⟩]
        congr 1
        omega
      · intro j h1 h2
        rw [hsp _ (by omega), pageSpare_getD _ _ _ _ (by omega), if_neg (by omega),
          if_neg (by omega), if_neg (by omega), if_neg (by omega), if_neg (by omega)]
    · intro h6 h7 j h1 h2
      rw [hsp _ (by omega), pageSpare_getD _ _ _ _ (by omega), if_neg (by omega),
        if_neg (by omega), if_neg (by omega), if_neg (by omega),
        if_neg (by omega)]
  · intro a ha
    rw [Offset_eq c 0 hc (by omega)] at ha
    exact WriteCluster_frame K keys nand c d h a (by omega)

/-- The spare of page 6 after writing cluster 0x7f00 of an empty NAND image with
a 20-byte tag: its byte 1 is the first byte of the tag. -/
theorem WriteCluster_spare_witness :
    (WriteCluster Mbedtls.plain FileSystemKeys.other (fun _ => 0) 0x7f00 [] (List.replicate 20 7)).2
      (Offset 0x7f00 6 + 2048 + (1 + 0)) = 7 :=
  (((WriteCluster_spare Mbedtls.plain FileSystemKeys.other (fun _ => 0) 0x7f00 []
    (List.replicate 20 7) (by decide)).1 6 (by decide)).2.2.1 rfl).1 0 (by decide)

end wiifs

namespace wiifs

/-! ## Replicas written by flushes -/

/-- The version stored in the byte image of a superblock. -/
theorem Superblock.ofBytes_bytes_version (sb : Superblock) (hv : sb.version < 2 ^ 32) :
    (Superblock.ofBytes (fun o => (sb.bytes 0 SUPERBLOCK_SIZE).getD o 0)).version
      = sb.version := by
  have hb : ∀ o, o < SUPERBLOCK_SIZE → (sb.bytes 0 SUPERBLOCK_SIZE).getD o 0 = sb.byteAt o := by
    intro o ho
    rw [Superblock.bytes_getD sb 0 _ o ho, Nat.zero_add]
  show (((sb.bytes 0 SUPERBLOCK_SIZE).getD 4 0 * 256 + (sb.bytes 0 SUPERBLOCK_SIZE).getD 5 0)
    * 256 + (sb.bytes 0 SUPERBLOCK_SIZE).getD 6 0) * 256 + (sb.bytes 0 SUPERBLOCK_SIZE).getD 7 0
    = sb.version
  rw [hb 4 (by decide), hb 5 (by decide), hb 6 (by decide), hb 7 (by decide)]
  have e4 : sb.byteAt 4 = beByte 4 sb.version 0 := by simp [Superblock.byteAt]
  have e5 : sb.byteAt 5 = beByte 4 sb.version 1 := by simp [Superblock.byteAt]
  have e6 : sb.byteAt 6 = beByte 4 sb.version 2 := by simp [Superblock.byteAt]
  have e7 : sb.byteAt 7 = beByte 4 sb.version 3 := by simp [Superblock.byteAt]
  rw [e4, e5, e6, e7, beByte4_join _ hv]

/-- The magic stored in the byte image of a superblock. -/
theorem Superblock.ofBytes_bytes_magic (sb : Superblock) (h1 : sb.magic.length = 4) :
    (Superblock.ofBytes (fun o => (sb.bytes 0 SUPERBLOCK_SIZE).getD o 0)).magic = sb.magic := by
  have hb : ∀ o, o < SUPERBLOCK_SIZE → (sb.bytes 0 SUPERBLOCK_SIZE).getD o 0 = sb.byteAt o := by
    intro o ho
    rw [Superblock.bytes_getD sb 0 _ o ho, Nat.zero_add]
  show (List.range 4).map (fun o => (sb.bytes 0 SUPERBLOCK_SIZE).getD o 0) = sb.magic
  apply list_eq_of_getD
  · simp [h1]
  · intro i hi
    simp only [List.length_map, List.length_range] at hi
    have := hb i (by simp only [SUPERBLOCK_SIZE]; omega)
    simp only [List.getD_eq_getElem?_getD] at this ⊢
    simp [hi, this, Superblock.byteAt]

/-- The key bundle does not enter `ReadCluster` of a superblock cluster. -/
theorem ReadCluster_keys (K : Mbedtls) (k1 k2 : FileSystemKeys) (nand : Nat → Nat) (c : Nat)
    (hc : 0x7f00 ≤ c) : ReadCluster K k1 nand c = ReadCluster K k2 nand c := by
  unfold ReadCluster
  have : ¬ c < SUPERBLOCK_START_CLUSTER := by
    simp only [SUPERBLOCK_START_CLUSTER]
    omega
  simp only [if_neg this]

/-- The key bundle does not enter `ReadSuperblock`. -/
theorem ReadSuperblock_keys (K : Mbedtls) (k1 k2 : FileSystemKeys) (nand : Nat → Nat) (i : Nat)
    (hi : i < 16) : ReadSuperblock K k1 nand i = ReadSuperblock K k2 nand i := by
  have hloop : ∀ m, m ≤ 16 →
      ReadSuperblockLoop K k1 nand i m = ReadSuperblockLoop K k2 nand i m := by
    intro m
    induction m with
    | zero => intro _; rfl
    | succ m ih =>
      intro hm
      unfold ReadSuperblockLoop
      rw [ih (by omega)]
      have hcl : (SuperblockCluster i + m) % 65536 = 0x7f00 + 16 * i + m := by
        rw [SuperblockCluster_eq i hi]
        omega
      rw [hcl, ReadCluster_keys K k1 k2 nand _ (by omega)]
  unfold ReadSuperblock
  rw [hloop 16 (Nat.le_refl _)]

/-- One flush step: the in-memory superblock, the replica index, the replica
written and the replicas left alone. -/
theorem flushStep_replica (K : Mbedtls) (s : FileSystemImpl) (sb : Superblock)
    (hsb : s.m_superblock = some sb) :
    (flushStep K s).m_superblock = some sb.bump ∧
    (flushStep K s).m_superblock_index = (s.m_superblock_index + 1) % 16 ∧
    (flushStep K s).m_keys = s.m_keys ∧
    ReadSuperblock K s.m_keys (flushStep K s).m_nand ((s.m_superblock_index + 1) % 16)
      = .ok (Superblock.ofBytes (fun o => (sb.bump.bytes 0 SUPERBLOCK_SIZE).getD o 0)) ∧
    (∀ i, i < 16 → i ≠ (s.m_superblock_index + 1) % 16 →
      ReadSuperblock K s.m_keys (flushStep K s).m_nand i = ReadSuperblock K s.m_keys s.m_nand i) ∧
    (∀ a, (a < (0x7f00 + 16 * ((s.m_superblock_index + 1) % 16)) * 16896 ∨
        (0x7f00 + 16 * ((s.m_superblock_index + 1) % 16) + 16) * 16896 ≤ a) →
      (flushStep K s).m_nand a = s.m_nand a) ∧
    ReadCluster K s.m_keys (flushStep K s).m_nand
        ((SuperblockCluster ((s.m_superblock_index + 1) % 16) + 15) % 65536)
      = .ok { data := sb.bump.bytes (15 * 0x4000) 0x4000,
              hmac1 := GenerateHmacForSuperblock K s.m_keys sb.bump
                ((s.m_superblock_index + 1) % 16),
              hmac2 := GenerateHmacForSuperblock K s.m_keys sb.bump
                ((s.m_superblock_index + 1) % 16) } := by
  have hj : (s.m_superblock_index + 1) % 16 < 16 := Nat.mod_lt _ (by decide)
  generalize hjdef : (s.m_superblock_index + 1) % 16 = j at hj
  have hjdef' : (s.m_superblock_index + 1) % NUMBER_OF_SUPERBLOCKS = j := hjdef
  have e1 : (flushStep K s).m_superblock = some sb.bump := by
    simp [flushStep, hsb, writtenState]
  have e2 : (flushStep K s).m_superblock_index = j := by
    simp [flushStep, hsb, writtenState, hjdef']
  have e3 : (flushStep K s).m_keys = s.m_keys := by
    simp [flushStep, hsb, writtenState]
  have e4 : (flushStep K s).m_nand = (writeBlockClusters K s.m_keys sb.bump j
      (GenerateHmacForSuperblock K s.m_keys sb.bump j) CLUSTERS_PER_SUPERBLOCK s.m_nand).2 := by
    simp [flushStep, hsb, writtenState, hjdef']
  obtain ⟨hframe, hread⟩ := writeBlockClusters_spec K s.m_keys sb.bump j
    (GenerateHmacForSuperblock K s.m_keys sb.bump j) hj
    (GenerateHmacForSuperblock_length K s.m_keys sb.bump j) 16 (Nat.le_refl _) s.m_nand
  refine ⟨e1, e2, e3, ?_, ?_, ?_, ?_⟩
  · rw [e4]
    apply ReadSuperblock_of_clusters K s.m_keys _ sb.bump j hj
    intro t ht
    exact ⟨_, hread t (by omega) ht, by with_reducible rfl⟩
  · intro i hi hij
    rw [e4]
    apply ReadSuperblock_congr K s.m_keys _ _ i hi
    intro a ha1 ha2
    apply hframe
    rcases Nat.lt_or_gt_of_ne hij with h | h
    · left; omega
    · right; omega
  · intro a ha
    rw [e4]
    apply hframe
    omega
  · have hcl : (SuperblockCluster j + 15) % 65536 = 0x7f00 + 16 * j + 15 := by
      rw [SuperblockCluster_eq j hj]
      omega
    have hrc := hread 15 (by omega) (by omega)
    rw [← e4, ← hcl] at hrc
    have hif : (if (15 : Nat) = 15 then GenerateHmacForSuperblock K s.m_keys sb.bump j
        else List.replicate 20 0) = GenerateHmacForSuperblock K s.m_keys sb.bump j := if_pos rfl
    rw [hif] at hrc
    exact hrc

/-- The states that `n ≤ 16` consecutive flush steps without a version wrap go
through: the version grows by `n`, the index moves `n` slots, the slot written
by step `k` holds version `version + k`, and the other replicas are as
before. -/
theorem flushStep_iterate (K : Mbedtls) (s : FileSystemImpl) (sb : Superblock)
    (hsb : s.m_superblock = some sb) :
    ∀ n, n ≤ 16 → sb.version + n < 2 ^ 32 →
      ((flushStep K)^[n] s).m_superblock = some { sb with version := sb.version + n } ∧
      ((flushStep K)^[n] s).m_superblock_index % 16 = (s.m_superblock_index + n) % 16 ∧
      (0 < n → ((flushStep K)^[n] s).m_superblock_index = (s.m_superblock_index + n) % 16) ∧
      ((flushStep K)^[n] s).m_keys = s.m_keys ∧
      (∀ k, 1 ≤ k → k ≤ n →
        ReadSuperblock K s.m_keys ((flushStep K)^[n] s).m_nand ((s.m_superblock_index + k) % 16)
          = .ok (Superblock.ofBytes (fun o =>
              (({ sb with version := sb.version + k } : Superblock).bytes 0
                SUPERBLOCK_SIZE).getD o 0))) ∧
      (∀ i, i < 16 → (∀ k, 1 ≤ k → k ≤ n → i ≠ (s.m_superblock_index + k) % 16) →
        ReadSuperblock K s.m_keys ((flushStep K)^[n] s).m_nand i
          = ReadSuperblock K s.m_keys s.m_nand i) := by
  intro n
  induction n with
  | zero =>
    intro _ _
    refine ⟨hsb, rfl, ?_, rfl, ?_, ?_⟩
    · intro h
      omega
    · intro k h1 h2
      omega
    · intro i _ _
      rfl
  | succ n ih =>
    intro hn hv
    obtain ⟨a, b, _, c, d, e⟩ := ih (by omega) (by omega)
    rw [Function.iterate_succ_apply']
    obtain ⟨e1, e2, e3, e4, e5, _, _⟩ := flushStep_replica K ((flushStep K)^[n] s) _ a
    have hidx : (((flushStep K)^[n] s).m_superblock_index + 1) % 16
        = (s.m_superblock_index + (n + 1)) % 16 := by
      omega
    have hbump : ({ sb with version := sb.version + n } : Superblock).bump
        = { sb with version := sb.version + (n + 1) } := by
      show ({ sb with version := (sb.version + n + 1) % 2 ^ 32 } : Superblock) = _
      rw [Nat.mod_eq_of_lt (by omega), Nat.add_assoc]
    rw [hidx, c] at e4
    rw [hidx, c] at e5
    rw [hbump] at e1 e4
    refine ⟨e1, by rw [e2, hidx]; omega, fun _ => by rw [e2, hidx], by rw [e3, c], ?_, ?_⟩
    · intro k h1 h2
      by_cases hk : k = n + 1
      · subst hk
        exact e4
      · rw [e5 _ (Nat.mod_lt _ (by decide)) (by omega)]
        exact d k h1 (by omega)
    · intro i hi hne
      rw [e5 i hi (hne (n + 1) (by omega) (Nat.le_refl _))]
      exact e i hi (fun k h1 h2 => hne k h1 (by omega))

end wiifs

namespace wiifs

/-! ## The replica ring -/

/-- `Format(0)` on a state that holds a superblock whose version does not wrap
is one flush step of the formatted superblock. -/
theorem Format_flushStep (K : Mbedtls) (s : FileSystemImpl) (sb : Superblock)
    (hsb : s.m_superblock = some sb) (hv : sb.version < 0xffffffff) :
    ∃ s', Format K s 0 = some (.Success, flushStep K s') ∧
      s'.m_superblock = some (formatSuperblock sb) ∧
      s'.m_superblock_index = s.m_superblock_index ∧ s'.m_keys = s.m_keys ∧
      s'.m_nand = s.m_nand := by
  have hne : ¬ ((0 : Nat) ≠ 0) := by simp
  have hfv : (formatSuperblock sb).version = sb.version := rfl
  have hnw : ((formatSuperblock sb).version + 1) % 2 ^ 32 ≠ 0 := by
    rw [hfv, Nat.mod_eq_of_lt (by omega)]
    omega
  unfold Format
  rw [if_neg hne, GetSuperblock_of_some K s sb hsb]
  exact ⟨_, FlushSuperblockAux_noWrap K 2 _ (formatSuperblock sb) rfl hnw, rfl, rfl, rfl, rfl⟩

/-- The state after `n` calls of `Format(0)` that do not wrap the version. -/
theorem formatTimes_spec (K : Mbedtls) :
    ∀ (n : Nat) (s : FileSystemImpl) (sb : Superblock), s.m_superblock = some sb →
      sb.version + n ≤ 0xffffffff →
      ∃ sn sbn, formatTimes K n s = some sn ∧ sn.m_superblock = some sbn ∧
        sbn.version = sb.version + n ∧ sn.m_keys = s.m_keys ∧
        (0 < n → sn.m_superblock_index = (s.m_superblock_index + n) % 16 ∧
          ∃ sbR, ReadSuperblock K s.m_keys sn.m_nand ((s.m_superblock_index + n) % 16)
            = .ok sbR ∧ sbR.version = sb.version + n) := by
  intro n
  induction n with
  | zero =>
    intro s sb hsb _
    exact ⟨s, sb, rfl, hsb, rfl, rfl, fun h => absurd h (by decide)⟩
  | succ n ih =>
    intro s sb hsb hv
    obtain ⟨s', hF, h1, h2, h3, h4⟩ := Format_flushStep K s sb hsb (by omega)
    obtain ⟨e1, e2, e3, e4, _, _, _⟩ := flushStep_replica K s' _ h1
    have hbv : (formatSuperblock sb).bump.version = sb.version + 1 := by
      show (sb.version + 1) % 2 ^ 32 = sb.version + 1
      rw [Nat.mod_eq_of_lt (by omega)]
    have hft : formatTimes K (n + 1) s = formatTimes K n (flushStep K s') := by
      rw [formatTimes, hF]
    rw [hft]
    obtain ⟨sn, sbn, g1, g2, g3, g4, g5⟩ := ih (flushStep K s') _ e1 (by rw [hbv]; omega)
    refine ⟨sn, sbn, g1, g2, by rw [g3, hbv]; omega, by rw [g4, e3, h3], fun _ => ?_⟩
    rcases Nat.eq_zero_or_pos n with h0 | hpos
    · subst h0
      simp only [formatTimes, Option.some.injEq] at g1
      subst g1
      rw [h2] at e2 e4
      rw [h3] at e4
      refine ⟨e2, _, e4, ?_⟩
      rw [Superblock.ofBytes_bytes_version _ (by rw [hbv]; omega), hbv]
    · obtain ⟨g6, sbR, g7, g8⟩ := g5 hpos
      rw [e2, h2] at g6 g7
      rw [e3, h3] at g7
      have hidx : ((s.m_superblock_index + 1) % 16 + n) % 16
          = (s.m_superblock_index + (n + 1)) % 16 := by omega
      rw [hidx] at g6 g7
      exact ⟨g6, sbR, g7, by rw [g8, hbv]; omega⟩

/-- C28: on a state that holds a superblock whose version is below 0xffffffff,
`FlushSuperblock` returns Success, increases the version by exactly 1, moves the
replica index from `i` to `(i + 1) mod 16` and writes that replica (which then
reads back with the new version) and no byte outside it.  Consequently `n`
consecutive `Format(0)` calls that stay below the version limit raise the
version by `n`, the last of them writing replica `(i + n) mod 16` with that
version; the slots `(i + k) mod 16` for `1 ≤ k ≤ n` are all 16 slots when
`n ≥ 16`. -/
theorem FlushSuperblock_advances (K : Mbedtls) (s : FileSystemImpl) (sb : Superblock)
    (hsb : s.m_superblock = some sb) (hv : sb.version < 0xffffffff) :
    (∃ s', FlushSuperblock K s = some (.Success, s') ∧
      s'.m_superblock = some { sb with version := sb.version + 1 } ∧
      s'.m_superblock_index = (s.m_superblock_index + 1) % 16 ∧
      (∃ sbR, ReadSuperblock K s.m_keys s'.m_nand ((s.m_superblock_index + 1) % 16) = .ok sbR ∧
        sbR.version = sb.version + 1) ∧
      (∀ a, (a < (0x7f00 + 16 * ((s.m_superblock_index + 1) % 16)) * 16896 ∨
          (0x7f00 + 16 * ((s.m_superblock_index + 1) % 16) + 16) * 16896 ≤ a) →
        s'.m_nand a = s.m_nand a)) ∧
    (∀ n, sb.version + n ≤ 0xffffffff →
      ∃ sn sbn, formatTimes K n s = some sn ∧ sn.m_superblock = some sbn ∧
        sbn.version = sb.version + n ∧
        (0 < n → sn.m_superblock_index = (s.m_superblock_index + n) % 16 ∧
          ∃ sbR, ReadSuperblock K s.m_keys sn.m_nand ((s.m_superblock_index + n) % 16)
            = .ok sbR ∧ sbR.version = sb.version + n)) ∧
    (∀ n, 16 ≤ n → ∀ j, j < 16 →
      ∃ k, 1 ≤ k ∧ k ≤ n ∧ (s.m_superblock_index + k) % 16 = j) := by
  refine ⟨?_, ?_, ?_⟩
  · have hnw : (sb.version + 1) % 2 ^ 32 ≠ 0 := by
      rw [Nat.mod_eq_of_lt (by omega)]
      omega
    have hbump : sb.bump = { sb with version := sb.version + 1 } := by
      show ({ sb with version := (sb.version + 1) % 2 ^ 32 } : Superblock) = _
      rw [Nat.mod_eq_of_lt (by omega)]
    obtain ⟨e1, e2, _, e4, _, e6, _⟩ := flushStep_replica K s sb hsb
    refine ⟨flushStep K s, FlushSuperblockAux_noWrap K 2 s sb hsb hnw, by rw [e1, hbump], e2,
      ⟨_, e4, ?_⟩, e6⟩
    rw [Superblock.ofBytes_bytes_version _ (by rw [hbump]; show sb.version + 1 < 2 ^ 32; omega),
      hbump]
  · intro n hn
    obtain ⟨sn, sbn, g1, g2, g3, _, g5⟩ := formatTimes_spec K n s sb hsb hn
    exact ⟨sn, sbn, g1, g2, g3, g5⟩
  · intro n hn j hj
    refine ⟨(j + 16 - (s.m_superblock_index + 1) % 16) % 16 + 1, by omega, by omega, ?_⟩
    omega

/-- Seventeen `Format(0)` calls on a formatted state of version 0 and replica
index 0: the version is 17 and the replica index is 1. -/
theorem FlushSuperblock_advances_witness :
    ∃ sn sbn, formatTimes Mbedtls.plain 17 FileSystemImpl.formatted = some sn ∧
      sn.m_superblock = some sbn ∧
      sbn.version = (formatSuperblock Superblock.zero).version + 17 ∧
      (0 < 17 → sn.m_superblock_index = (FileSystemImpl.formatted.m_superblock_index + 17) % 16 ∧
        ∃ sbR, ReadSuperblock Mbedtls.plain FileSystemImpl.formatted.m_keys sn.m_nand
            ((FileSystemImpl.formatted.m_superblock_index + 17) % 16) = .ok sbR ∧
          sbR.version = (formatSuperblock Superblock.zero).version + 17) :=
  (FlushSuperblock_advances Mbedtls.plain FileSystemImpl.formatted
    (formatSuperblock Superblock.zero) rfl (by decide)).2.1 17 (by decide)

end wiifs

namespace wiifs

/-! ## The version wrap -/

/-- C29: when `FlushSuperblock` is called with in-memory version 0xffffffff,
the call returns Success after 16 flush steps; the in-memory version ends at
15; the replica at ring index `(i + 1 + k) mod 16` holds version `k` for every
`k < 16`, so all 16 replicas are overwritten; and, the superblock carrying the
magic, a subsequent discovery scan selects the replica that holds version 15,
which `GetSuperblock` of a newly constructed driver returns when the fields of
the superblock fit their types. -/
theorem FlushSuperblock_version_wrap (K : Mbedtls) (s : FileSystemImpl) (sb : Superblock)
    (hsb : s.m_superblock = some sb) (hv : sb.version = 0xffffffff) :
    ∃ s', FlushSuperblock K s = some (.Success, s') ∧
      s'.m_superblock = some { sb with version := 15 } ∧
      s'.m_superblock_index = (s.m_superblock_index + 16) % 16 ∧
      s'.m_keys = s.m_keys ∧
      (∀ k, k < 16 → ∃ sbR,
        ReadSuperblock K s.m_keys s'.m_nand ((s.m_superblock_index + 1 + k) % 16) = .ok sbR ∧
        sbR.version = k ∧ (sb.magic = SUPERBLOCK_MAGIC → sbR.magic = SUPERBLOCK_MAGIC)) ∧
      (sb.magic = SUPERBLOCK_MAGIC →
        ∃ sbR, discover K s.m_keys s'.m_nand 0
            = { highest_version := 15, m_superblock_index := (s.m_superblock_index + 16) % 16,
                m_superblock := some sbR } ∧
          sbR.version = 15 ∧
          ReadSuperblock K s.m_keys s'.m_nand ((s.m_superblock_index + 16) % 16) = .ok sbR ∧
          (sb.WF →
            (GetSuperblock K (FileSystemImpl.init s'.m_nand s'.m_keys)).1 = some sbR ∧
            sbR.Same { sb with version := 15 })) := by
  have hwrap : (sb.version + 1) % 2 ^ 32 = 0 := by rw [hv]; rfl
  have hb0 : sb.bump = { sb with version := 0 } := by
    show ({ sb with version := (sb.version + 1) % 2 ^ 32 } : Superblock) = _
    rw [hwrap]
  obtain ⟨e1, e2, e3, e4, e5, _, _⟩ := flushStep_replica K s sb hsb
  rw [hb0] at e1 e4
  obtain ⟨a, b, b', c, d, e⟩ := flushStep_iterate K (flushStep K s) _ e1 15 (by decide)
    (by show 0 + 15 < 2 ^ 32; decide)
  have b15 := b' (by decide)
  rw [e2] at b15 d e
  rw [e3] at c d e
  have hidx : ((s.m_superblock_index + 1) % 16 + 15) % 16 = (s.m_superblock_index + 16) % 16 := by
    omega
  rw [hidx] at b15
  -- the replica at ring position `k`
  have hrep : ∀ k, k < 16 →
      ReadSuperblock K s.m_keys ((flushStep K)^[15] (flushStep K s)).m_nand
          ((s.m_superblock_index + 1 + k) % 16)
        = .ok (Superblock.ofBytes (fun o =>
            (({ sb with version := k } : Superblock).bytes 0 SUPERBLOCK_SIZE).getD o 0)) := by
    intro k hk
    rcases Nat.eq_zero_or_pos k with h0 | hpos
    · subst h0
      rw [e ((s.m_superblock_index + 1 + 0) % 16) (Nat.mod_lt _ (by decide))
        (fun k h1 h2 => by omega)]
      exact e4
    · have := d k hpos (by omega)
      have hi : ((s.m_superblock_index + 1) % 16 + k) % 16 = (s.m_superblock_index + 1 + k) % 16 := by
        omega
      rw [hi] at this
      rw [this]
      show Except.ok (Superblock.ofBytes (fun o =>
        (({ sb with version := 0 + k } : Superblock).bytes 0 SUPERBLOCK_SIZE).getD o 0)) = _
      rw [Nat.zero_add]
  have hver : ∀ k, k < 16 → (Superblock.ofBytes (fun o =>
      (({ sb with version := k } : Superblock).bytes 0 SUPERBLOCK_SIZE).getD o 0)).version = k := by
    intro k hk
    rw [Superblock.ofBytes_bytes_version _ (by show k < 2 ^ 32; omega)]
  have hmag : sb.magic = SUPERBLOCK_MAGIC → ∀ k, (Superblock.ofBytes (fun o =>
      (({ sb with version := k } : Superblock).bytes 0 SUPERBLOCK_SIZE).getD o 0)).magic
        = SUPERBLOCK_MAGIC := by
    intro hm k
    rw [Superblock.ofBytes_bytes_magic _ (by show sb.magic.length = 4; rw [hm]; rfl)]
    exact hm
  have ha : ((flushStep K)^[15] (flushStep K s)).m_superblock = some { sb with version := 15 } := by
    rw [a]
  refine ⟨_, FlushSuperblockAux_wrap K 1 s sb hsb hwrap, ha, b15, c, ?_, ?_⟩
  · intro k hk
    exact ⟨_, hrep k hk, hver k hk, fun hm => hmag hm k⟩
  · intro hm
    have h15 := hrep 15 (by decide)
    have hi15 : (s.m_superblock_index + 1 + 15) % 16 = (s.m_superblock_index + 16) % 16 := by
      omega
    rw [hi15] at h15
    have hpick := discover_pick K s.m_keys ((flushStep K)^[15] (flushStep K s)).m_nand
      ((s.m_superblock_index + 16) % 16) _
      { highest_version := 0, m_superblock_index := 0, m_superblock := none }
      (Nat.mod_lt _ (by decide)) rfl h15 (hmag hm 15)
      (by
        intro i hi hij sbi hri _
        have hi16 : i < 16 := hi
        have hk : (i + 16 - (s.m_superblock_index + 1) % 16) % 16 < 16 :=
          Nat.mod_lt _ (by decide)
        have hik : (s.m_superblock_index + 1 + (i + 16 - (s.m_superblock_index + 1) % 16) % 16) % 16
            = i := by omega
        have := hrep _ hk
        rw [hik, hri] at this
        simp only [Except.ok.injEq] at this
        rw [this, hver _ hk, hver 15 (by decide)]
        omega)
    rw [hver 15 (by decide)] at hpick
    refine ⟨_, hpick, hver 15 (by decide), h15, ?_⟩
    intro hwf
    have hsame := Superblock.ofBytes_bytes ({ sb with version := 15 } : Superblock) hwf
      (by show (15 : Nat) < 2 ^ 32; decide)
    refine ⟨?_, hsame⟩
    -- the last of the 16 flush steps wrote the tag of the replica selected
    obtain ⟨a14, b14, _, c14, _, _⟩ := flushStep_iterate K (flushStep K s) _ e1 14 (by decide)
      (by show 0 + 14 < 2 ^ 32; decide)
    obtain ⟨_, _, _, _, _, _, f7⟩ := flushStep_replica K ((flushStep K)^[14] (flushStep K s)) _ a14
    rw [← Function.iterate_succ_apply' (flushStep K) 14 (flushStep K s)] at f7
    have hj14 : (((flushStep K)^[14] (flushStep K s)).m_superblock_index + 1) % 16
        = (s.m_superblock_index + 16) % 16 := by
      rw [e2] at b14
      omega
    rw [hj14, c14, e3] at f7
    have hb15 : ({ sb with version := 0 + 14 } : Superblock).bump = { sb with version := 15 } := rfl
    rw [hb15] at f7
    have hh := GenerateHmacForSuperblock_of_Same K s.m_keys _ _ hsame
      ((s.m_superblock_index + 16) % 16)
    have hpick2 := discover_pick K s.m_keys ((flushStep K)^[15] (flushStep K s)).m_nand
      ((s.m_superblock_index + 16) % 16) _
      { highest_version := 0,
        m_superblock_index := (FileSystemImpl.init ((flushStep K)^[15] (flushStep K s)).m_nand
          s.m_keys).m_superblock_index,
        m_superblock := none }
      (Nat.mod_lt _ (by decide)) rfl h15 (hmag hm 15)
      (by
        intro i hi hij sbi hri _
        have hi16 : i < 16 := hi
        have hk : (i + 16 - (s.m_superblock_index + 1) % 16) % 16 < 16 :=
          Nat.mod_lt _ (by decide)
        have hik : (s.m_superblock_index + 1 + (i + 16 - (s.m_superblock_index + 1) % 16) % 16) % 16
            = i := by omega
        have := hrep _ hk
        rw [hik, hri] at this
        simp only [Except.ok.injEq] at this
        rw [this, hver _ hk, hver 15 (by decide)]
        omega)
    have := GetSuperblock_of_pick K
      (FileSystemImpl.init ((flushStep K)^[15] (flushStep K s)).m_nand s.m_keys)
      ((s.m_superblock_index + 16) % 16) _ _ rfl hpick2 f7 hh
    rw [c, this]

/-- The version wrap on a formatted state of version 0xffffffff: the call
returns Success with in-memory version 15. -/
theorem FlushSuperblock_version_wrap_witness :
    ∃ s', FlushSuperblock Mbedtls.plain FileSystemImpl.lastVersion = some (.Success, s') ∧
      s'.m_superblock
        = some { ({ formatSuperblock Superblock.zero with version := 0xffffffff } : Superblock)
            with version := 15 } := by
  obtain ⟨s', h1, h2, _⟩ := FlushSuperblock_version_wrap Mbedtls.plain FileSystemImpl.lastVersion
    { formatSuperblock Superblock.zero with version := 0xffffffff } rfl rfl
  exact ⟨s', h1, h2⟩

end wiifs

namespace wiifs

/-! ## The discovery loop -/

/-- The discovery loop after the first `n` replicas: either none of them
carries the magic and nothing is selected, or the replica selected carries the
magic, no replica seen with the magic has a higher version, and those of the
same version have a lower or the same index. -/
theorem discover_upto (K : Mbedtls) (keys : FileSystemKeys) (nand : Nat → Nat) (index : Nat) :
    ∀ n,
      ((∀ i, i < n → ∀ sbi, ReadSuperblock K keys nand i = .ok sbi →
          sbi.magic ≠ SUPERBLOCK_MAGIC) ∧
        (List.range n).foldl (discoverStep K keys nand)
            { highest_version := 0, m_superblock_index := index, m_superblock := none }
          = { highest_version := 0, m_superblock_index := index, m_superblock := none }) ∨
      (∃ j sbj, j < n ∧ ReadSuperblock K keys nand j = .ok sbj ∧
        sbj.magic = SUPERBLOCK_MAGIC ∧
        (List.range n).foldl (discoverStep K keys nand)
            { highest_version := 0, m_superblock_index := index, m_superblock := none }
          = { highest_version := sbj.version, m_superblock_index := j,
              m_superblock := some sbj } ∧
        ∀ i, i < n → ∀ sbi, ReadSuperblock K keys nand i = .ok sbi →
          sbi.magic = SUPERBLOCK_MAGIC →
          sbi.version ≤ sbj.version ∧ (sbi.version = sbj.version → i ≤ j)) := by
  intro n
  induction n with
  | zero =>
    left
    exact ⟨fun i hi => absurd hi (by omega), rfl⟩
  | succ n ih =>
    rw [List.range_succ, List.foldl_append]
    simp only [List.foldl_cons, List.foldl_nil]
    cases hr : ReadSuperblock K keys nand n with
    | error e =>
      have hstep : ∀ d, discoverStep K keys nand d n = d := by
        intro d
        unfold discoverStep
        rw [hr]
      rw [hstep]
      rcases ih with ⟨h1, h2⟩ | ⟨j, sbj, h1, h2, h3, h4, h5⟩
      · left
        refine ⟨?_, h2⟩
        intro i hi sbi hri
        rcases Nat.lt_or_ge i n with hlt | hge
        · exact h1 i hlt sbi hri
        · have : i = n := by omega
          subst this
          rw [hr] at hri
          cases hri
      · right
        refine ⟨j, sbj, by omega, h2, h3, h4, ?_⟩
        intro i hi sbi hri hmi
        rcases Nat.lt_or_ge i n with hlt | hge
        · exact h5 i hlt sbi hri hmi
        · have : i = n := by omega
          subst this
          rw [hr] at hri
          cases hri
    | ok sbn =>
      by_cases hm : sbn.magic = SUPERBLOCK_MAGIC
      · rcases ih with ⟨h1, h2⟩ | ⟨j, sbj, h1, h2, h3, h4, h5⟩
        · right
          rw [h2, discoverStep_pick K keys nand n sbn _ hr hm (by show ¬ sbn.version < 0; omega)]
          refine ⟨n, sbn, by omega, hr, hm, rfl, ?_⟩
          intro i hi sbi hri hmi
          rcases Nat.lt_or_ge i n with hlt | hge
          · exact absurd hmi (h1 i hlt sbi hri)
          · have : i = n := by omega
            subst this
            rw [hr] at hri
            cases hri
            exact ⟨Nat.le_refl _, fun _ => Nat.le_refl _⟩
        · right
          rw [h4]
          by_cases hv : sbn.version < sbj.version
          · have hstep : discoverStep K keys nand
                { highest_version := sbj.version, m_superblock_index := j,
                  m_superblock := some sbj } n
                = { highest_version := sbj.version, m_superblock_index := j,
                    m_superblock := some sbj } := by
              unfold discoverStep
              rw [hr]
              simp only
              rw [if_neg (by simpa using hm), if_pos hv]
            rw [hstep]
            refine ⟨j, sbj, by omega, h2, h3, rfl, ?_⟩
            intro i hi sbi hri hmi
            rcases Nat.lt_or_ge i n with hlt | hge
            · exact h5 i hlt sbi hri hmi
            · have : i = n := by omega
              subst this
              rw [hr] at hri
              cases hri
              exact ⟨by omega, fun h => by omega⟩
          · rw [discoverStep_pick K keys nand n sbn _ hr hm hv]
            refine ⟨n, sbn, by omega, hr, hm, rfl, ?_⟩
            intro i hi sbi hri hmi
            rcases Nat.lt_or_ge i n with hlt | hge
            · have := h5 i hlt sbi hri hmi
              exact ⟨by omega, fun _ => by omega⟩
            · have : i = n := by omega
              subst this
              rw [hr] at hri
              cases hri
              exact ⟨Nat.le_refl _, fun _ => Nat.le_refl _⟩
      · have hstep : ∀ d, discoverStep K keys nand d n = d := by
          intro d
          unfold discoverStep
          rw [hr]
          simp only
          rw [if_pos (by simpa using hm)]
        rw [hstep]
        rcases ih with ⟨h1, h2⟩ | ⟨j, sbj, h1, h2, h3, h4, h5⟩
        · left
          refine ⟨?_, h2⟩
          intro i hi sbi hri
          rcases Nat.lt_or_ge i n with hlt | hge
          · exact h1 i hlt sbi hri
          · have : i = n := by omega
            subst this
            rw [hr] at hri
            cases hri
            exact hm
        · right
          refine ⟨j, sbj, by omega, h2, h3, h4, ?_⟩
          intro i hi sbi hri hmi
          rcases Nat.lt_or_ge i n with hlt | hge
          · exact h5 i hlt sbi hri hmi
          · have : i = n := by omega
            subst this
            rw [hr] at hri
            cases hri
            exact absurd hmi hm

/-- What `GetSuperblock` leaves and returns on a state that holds no
superblock: the member is the superblock that the discovery loop selected, and
the value returned is that superblock or none. -/
theorem GetSuperblock_of_discover (K : Mbedtls) (s : FileSystemImpl)
    (h0 : s.m_superblock = none) :
    (GetSuperblock K s).2.m_superblock
      = (discover K s.m_keys s.m_nand s.m_superblock_index).m_superblock ∧
    (GetSuperblock K s).2.m_superblock_index
      = (discover K s.m_keys s.m_nand s.m_superblock_index).m_superblock_index ∧
    (GetSuperblock K s).2.m_nand = s.m_nand ∧ (GetSuperblock K s).2.m_keys = s.m_keys ∧
    ((GetSuperblock K s).1 = none ∨
      (GetSuperblock K s).1
        = (discover K s.m_keys s.m_nand s.m_superblock_index).m_superblock) := by
  unfold GetSuperblock discover
  rw [h0]
  dsimp only
  generalize (List.range NUMBER_OF_SUPERBLOCKS).foldl (discoverStep K s.m_keys s.m_nand)
    { highest_version := 0, m_superblock_index := s.m_superblock_index, m_superblock := none } = d
  cases hd : d.m_superblock with
  | none => exact ⟨rfl, rfl, rfl, rfl, Or.inl rfl⟩
  | some sb =>
    dsimp only
    cases ReadCluster K s.m_keys s.m_nand ((SuperblockCluster d.m_superblock_index + 15) % 65536) with
    | error e => exact ⟨rfl, rfl, rfl, rfl, Or.inl rfl⟩
    | ok r =>
      dsimp only
      split
      · exact ⟨rfl, rfl, rfl, rfl, Or.inl rfl⟩
      · exact ⟨rfl, rfl, rfl, rfl, Or.inr rfl⟩

/-- C26: the discovery loop over the 16 replicas either finds the magic in no
replica, and then selects nothing and `GetSuperblock` returns no superblock; or
it selects a replica `j` that carries the magic, whose version is greater than
or equal to the version of every replica with the magic, and whose index is the
highest among those of that version; `GetSuperblock` then returns no other
superblock than this one. -/
theorem discover_selects (K : Mbedtls) (s : FileSystemImpl) :
    ((∀ i, i < 16 → ∀ sbi, ReadSuperblock K s.m_keys s.m_nand i = .ok sbi →
        sbi.magic ≠ SUPERBLOCK_MAGIC) ∧
      (discover K s.m_keys s.m_nand s.m_superblock_index).m_superblock = none ∧
      (s.m_superblock = none → (GetSuperblock K s).1 = none)) ∨
    (∃ j sbj, j < 16 ∧ ReadSuperblock K s.m_keys s.m_nand j = .ok sbj ∧
      sbj.magic = SUPERBLOCK_MAGIC ∧
      discover K s.m_keys s.m_nand s.m_superblock_index
        = { highest_version := sbj.version, m_superblock_index := j,
            m_superblock := some sbj } ∧
      (∀ i, i < 16 → ∀ sbi, ReadSuperblock K s.m_keys s.m_nand i = .ok sbi →
        sbi.magic = SUPERBLOCK_MAGIC →
        sbi.version ≤ sbj.version ∧ (sbi.version = sbj.version → i ≤ j)) ∧
      (s.m_superblock = none → ∀ sb, (GetSuperblock K s).1 = some sb → sb = sbj)) := by
  rcases discover_upto K s.m_keys s.m_nand s.m_superblock_index 16 with
    ⟨h1, h2⟩ | ⟨j, sbj, h1, h2, h3, h4, h5⟩
  · left
    have hd : discover K s.m_keys s.m_nand s.m_superblock_index
        = { highest_version := 0, m_superblock_index := s.m_superblock_index,
            m_superblock := none } := h2
    refine ⟨h1, by rw [hd], ?_⟩
    intro h0
    rcases (GetSuperblock_of_discover K s h0).2.2.2.2 with h | h
    · exact h
    · rw [h, hd]
  · right
    have hd : discover K s.m_keys s.m_nand s.m_superblock_index
        = { highest_version := sbj.version, m_superblock_index := j,
            m_superblock := some sbj } := h4
    refine ⟨j, sbj, h1, h2, h3, hd, h5, ?_⟩
    intro h0 sb hsb
    rcases (GetSuperblock_of_discover K s h0).2.2.2.2 with h | h
    · rw [h] at hsb
      cases hsb
    · rw [h, hd] at hsb
      cases hsb
      rfl

end wiifs

namespace wiifs

/-! ## GetSuperblock after a failed verification -/

theorem xorpad_length (key : List Nat) (pad : Nat) : (crypto.xorpad key pad).length = 64 := by
  simp [crypto.xorpad, copyInto_length]

/-- The MAC under the SHA-1 stand-in that returns the first 20 bytes of its
input: the first 20 bytes of the outer pad. -/
theorem BlockMac_keyed (key input : List Nat) :
    crypto.BlockMac Mbedtls.keyed key input = copy_n (crypto.xorpad key 0x5c) 0 20 := by
  unfold crypto.BlockMac
  show copy_n (copy_n (crypto.xorpad key 0x5c ++ _) 0 20) 0 20 = _
  apply list_eq_of_getD
  · rw [copy_n_length, copy_n_length]
  · intro i hi
    rw [copy_n_length] at hi
    rw [copy_n_getD _ _ _ _ hi, copy_n_getD _ _ _ _ hi, copy_n_getD _ _ _ _ (by omega)]
    rw [List.getD_append _ _ _ _ (by rw [xorpad_length]; omega), Nat.zero_add]

/-- `GetSuperblock` on a state that holds no superblock, when neither stored
HMAC copy of the replica selected equals the HMAC computed: no superblock is
returned, and the member holds the replica selected. -/
theorem GetSuperblock_of_pick_mismatch (K : Mbedtls) (s0 : FileSystemImpl)
    (j : Nat) (sbR : Superblock) (r : ReadResult)
    (h0 : s0.m_superblock = none)
    (hpick : (List.range NUMBER_OF_SUPERBLOCKS).foldl (discoverStep K s0.m_keys s0.m_nand)
      { highest_version := 0, m_superblock_index := s0.m_superblock_index, m_superblock := none }
      = { highest_version := sbR.version, m_superblock_index := j, m_superblock := some sbR })
    (hrc : ReadCluster K s0.m_keys s0.m_nand ((SuperblockCluster j + 15) % 65536) = .ok r)
    (hh : GenerateHmacForSuperblock K s0.m_keys sbR j ≠ r.hmac1 ∧
      GenerateHmacForSuperblock K s0.m_keys sbR j ≠ r.hmac2) :
    GetSuperblock K s0
      = (none, { s0 with m_superblock_index := j, m_superblock := some sbR }) := by
  unfold GetSuperblock
  rw [h0]
  dsimp only
  rw [hpick]
  dsimp only
  rw [hrc]
  dsimp only
  rw [if_pos hh]

/-- C27 at a failing input: over a NAND image whose only replica with the
magic is replica 1, of version 1, and whose two stored HMAC copies both differ
from the HMAC that the driver computes over that replica with the salt of
`SuperblockCluster(1)`, the first call of `GetSuperblock` returns no
superblock, and the second call returns the superblock that failed the
verification. -/
theorem GetSuperblock_second_call_unverified :
    ∃ sbR r,
      discover Mbedtls.keyed FileSystemImpl.foreignKey.m_keys FileSystemImpl.foreignKey.m_nand
          FileSystemImpl.foreignKey.m_superblock_index
        = { highest_version := 1, m_superblock_index := 1, m_superblock := some sbR } ∧
      sbR.magic = SUPERBLOCK_MAGIC ∧ sbR.version = 1 ∧
      FileSystemImpl.foreignKey.m_superblock = none ∧
      ReadCluster Mbedtls.keyed FileSystemImpl.foreignKey.m_keys FileSystemImpl.foreignKey.m_nand
          ((SuperblockCluster 1 + 15) % 65536) = .ok r ∧
      GenerateHmacForSuperblock Mbedtls.keyed FileSystemImpl.foreignKey.m_keys sbR 1 ≠ r.hmac1 ∧
      GenerateHmacForSuperblock Mbedtls.keyed FileSystemImpl.foreignKey.m_keys sbR 1 ≠ r.hmac2 ∧
      (GetSuperblock Mbedtls.keyed FileSystemImpl.foreignKey).1 = none ∧
      (GetSuperblock Mbedtls.keyed
        (GetSuperblock Mbedtls.keyed FileSystemImpl.foreignKey).2).1 = some sbR := by
  obtain ⟨e1, e2, e3, e4, e5, e6, e7⟩ := flushStep_replica Mbedtls.keyed FileSystemImpl.formatted
    (formatSuperblock Superblock.zero) rfl
  have hi : (FileSystemImpl.formatted.m_superblock_index + 1) % 16 = 1 := rfl
  have hk : FileSystemImpl.formatted.m_keys = FileSystemKeys.sample := rfl
  have hn : FileSystemImpl.formatted.m_nand = fun _ => 0 := rfl
  have hfk : FileSystemImpl.foreignKey.m_keys = FileSystemKeys.other := rfl
  have hfn : FileSystemImpl.foreignKey.m_nand
      = (flushStep Mbedtls.keyed FileSystemImpl.formatted).m_nand := rfl
  have hfi : FileSystemImpl.foreignKey.m_superblock_index = 0 := rfl
  rw [hi, hk] at e4 e5 e7
  rw [hn] at e5
  have hbv : (formatSuperblock Superblock.zero).bump.version = 1 := rfl
  have hbm : (formatSuperblock Superblock.zero).bump.magic = SUPERBLOCK_MAGIC := rfl
  have hver := Superblock.ofBytes_bytes_version (formatSuperblock Superblock.zero).bump
    (by rw [hbv]; decide)
  have hmag := Superblock.ofBytes_bytes_magic (formatSuperblock Superblock.zero).bump
    (by rw [hbm]; rfl)
  rw [hbv] at hver
  rw [hbm] at hmag
  rw [ReadSuperblock_keys Mbedtls.keyed FileSystemKeys.sample FileSystemKeys.other _ 1
    (by decide)] at e4
  rw [ReadCluster_keys Mbedtls.keyed FileSystemKeys.sample FileSystemKeys.other _ _
    (by decide)] at e7
  have hpick := discover_pick Mbedtls.keyed FileSystemKeys.other
    (flushStep Mbedtls.keyed FileSystemImpl.formatted).m_nand 1 _
    { highest_version := 0, m_superblock_index := 0, m_superblock := none }
    (by decide) rfl e4 hmag
    (by
      intro i hi16 hij sbi hri hmi
      rw [ReadSuperblock_keys Mbedtls.keyed FileSystemKeys.other FileSystemKeys.sample _ i hi16,
        e5 i hi16 hij] at hri
      exact absurd hmi (ReadSuperblock_zero_magic Mbedtls.keyed FileSystemKeys.sample i hi16 sbi
        hri))
  rw [hver] at hpick
  have hh1 : GenerateHmacForSuperblock Mbedtls.keyed FileSystemKeys.other
      (Superblock.ofBytes (fun o =>
        ((formatSuperblock Superblock.zero).bump.bytes 0 SUPERBLOCK_SIZE).getD o 0)) 1
      ≠ GenerateHmacForSuperblock Mbedtls.keyed FileSystemKeys.sample
        (formatSuperblock Superblock.zero).bump 1 := by
    unfold GenerateHmacForSuperblock
    rw [BlockMac_keyed, BlockMac_keyed]
    decide
  have hmis := GetSuperblock_of_pick_mismatch Mbedtls.keyed FileSystemImpl.foreignKey 1 _ _ rfl
    (by rw [hver]; exact hpick) e7 ⟨hh1, hh1⟩
  refine ⟨_, _, hpick, hmag, hver, rfl, e7, hh1, hh1, by rw [hmis], ?_⟩
  rw [hmis]
  exact congrArg Prod.fst (GetSuperblock_of_some Mbedtls.keyed _ _ rfl)

end wiifs

namespace wiifs

/-! ## The file cache -/

/-- C32 at a failing input: the file "/u" holds one byte.  After
`OpenFile(Read|Write)`, `ReadFile` of that byte and a `WriteFile` of 2 bytes,
which returns 2 and extends the handle's `file_size` to 3 within the cluster
just read, the cache is still not marked for write-back; `Close` returns
Success without writing it; the size in the FST entry is still 1, and reading
the file again returns the one old byte. -/
theorem WriteFile_after_ReadFile_is_lost :
    (Superblock.sampleWritten.fst 1).size = 1 ∧
    (OpenFile Mbedtls.plain FileSystemImpl.sampleWritten 0 0 (bytesOf "/u") 3).map (·.1)
      = some (.ok 0) ∧
    (ReadFile Mbedtls.plain extendRun.s1 0 1).map (fun r => (r.1, r.2.1)) = some (.ok 1, [0]) ∧
    (WriteFile Mbedtls.plain extendRun.s2 0 [9, 9] 2).map
        (fun r => (r.1, (r.2.handle 0).file_size, r.2.m_cache_for_write))
      = some (.ok 2, 3, false) ∧
    (Close Mbedtls.plain extendRun.s3 0).map
        (fun r => (r.1, (r.2.m_handles 0).opened, r.2.m_superblock.map (fun sb => (sb.fst 1).size)))
      = some (.Success, false, some 1) ∧
    (OpenFile Mbedtls.plain extendRun.s4 0 0 (bytesOf "/u") 1).map (·.1) = some (.ok 0) ∧
    (ReadFile Mbedtls.plain extendRun.s5 0 3).map (fun r => (r.1, r.2.1)) = some (.ok 1, [0]) := by
  decide!

/-- C33 at a failing input: the file "/u" holds one byte.  After
`OpenFile(Write)` and a `WriteFile` of 1 byte at offset 0, which returns 1
and leaves the handle's `file_size` at 1, `Close` returns Invalid
(`WriteFileData` rejects a new size that is not greater than the size in the
FST entry), and the handle is still open. -/
theorem WriteFile_in_place_Close_fails :
    (Superblock.sampleWritten.fst 1).size = 1 ∧
    (OpenFile Mbedtls.plain FileSystemImpl.sampleWritten 0 0 (bytesOf "/u") 2).map (·.1)
      = some (.ok 0) ∧
    (WriteFile Mbedtls.plain overwriteRun.s1 0 [9] 1).map
        (fun r => (r.1, (r.2.handle 0).file_size, r.2.m_cache_for_write))
      = some (.ok 1, 1, true) ∧
    (Close Mbedtls.plain overwriteRun.s2 0).map
        (fun r => (r.1, (r.2.m_handles 0).opened, r.2.m_superblock.map (fun sb => (sb.fst 1).size)))
      = some (.Invalid, true, some 1) := by
  decide!

/-- C34 at a failing input: descriptor 0 is open on "/a" (cluster 64, first
byte 7) and descriptor 1 on "/b" (cluster 65, all zero, stored HMAC copies
corrupted).  `ReadFile(0)` returns the bytes of "/a"; `ReadFile(1)` returns
CheckFailed and leaves the cache bound to descriptor 1 with the data of "/a";
the repeated `ReadFile(1)` returns 0x20 bytes, the first of which is the 7 of
"/a". -/
theorem ReadFile_after_failed_load_returns_stale_cache :
    (ReadCluster Mbedtls.plain FileSystemImpl.sampleCorrupt.m_keys
        FileSystemImpl.sampleCorrupt.m_nand 65).map (fun r => r.data.take 0x20)
      = .ok (List.replicate 0x20 0) ∧
    (ReadFile Mbedtls.plain FileSystemImpl.sampleCorrupt 0 0x20).map (fun r => (r.1, r.2.1))
      = some (.ok 0x20, 7 :: List.replicate 0x1f 0) ∧
    (ReadFile Mbedtls.plain staleRun.s1 1 0x20).map
        (fun r => (r.1, r.2.1, r.2.2.m_cache_handle, r.2.2.m_cache_chain_index))
      = some (.error .CheckFailed, [], some 1, 0) ∧
    (PopulateFileCache Mbedtls.plain staleRun.s2 1 0 false).map (·.1) = some .Success ∧
    (ReadFile Mbedtls.plain staleRun.s2 1 0x20).map (fun r => (r.1, r.2.1))
      = some (.ok 0x20, 7 :: List.replicate 0x1f 0) := by
  decide!

/-! ## Deleting a directory with a subdirectory -/

/-- C35 at a failing input: in the tree "/d", "/d/e", "/d/e/f",
`GetDirectoryStats("/d")` reports 3 used inodes; `Delete("/d")` returns Success
and clears the kind bits of "/d" (entry 1) and of the file (entry 3), but the
entry of the subdirectory "/d/e" (entry 2) keeps kind 2. -/
theorem Delete_directory_keeps_subdirectory_entry :
    GetFstIndex Superblock.sampleNested (bytesOf "/d") = some (.ok 1) ∧
    GetFstIndex Superblock.sampleNested (bytesOf "/d/e") = some (.ok 2) ∧
    GetFstIndex Superblock.sampleNested (bytesOf "/d/e/f") = some (.ok 3) ∧
    (GetDirectoryStats Mbedtls.plain FileSystemImpl.sampleNested INTERNAL_FD (bytesOf "/d")).map
      (·.1) = some (.ok { used_clusters := 0, used_inodes := 3 }) ∧
    (Delete Mbedtls.plain FileSystemImpl.sampleNested INTERNAL_FD (bytesOf "/d")).map
        (fun r => (r.1, r.2.m_superblock.map
          (fun sb => [(sb.fst 1).mode &&& 3, (sb.fst 2).mode &&& 3, (sb.fst 3).mode &&& 3])))
      = some (.Success, some [0, 2, 0]) := by
  decide!

/-! ## Path resolution through a file -/

/-- C36 at a failing input: "/f" is a file whose first cluster is 64, and FST
entry 64 is the file "/x".  `GetFstIndex("/f/x")` takes the `sub` of the file
"/f" for an FST index and returns 64. -/
theorem GetFstIndex_descends_through_file :
    GetFstIndex Superblock.sampleShadow (bytesOf "/f") = some (.ok 1) ∧
    (Superblock.sampleShadow.fst 1).IsFile = true ∧
    (Superblock.sampleShadow.fst 1).IsDirectory = false ∧
    (Superblock.sampleShadow.fst 1).sub = 64 ∧
    Superblock.sampleShadow.fat 64 = CLUSTER_LAST_IN_CHAIN ∧
    GetFstIndex Superblock.sampleShadow (bytesOf "/x") = some (.ok 64) ∧
    GetFstIndex Superblock.sampleShadow (bytesOf "/f/x") = some (.ok 64) := by
  decide!

/-! ## The FST tree after a rename into the own subtree -/

/-- C37 at a failing input: in the tree with the directories "/d" (FST index 1)
and "/e" (index 2) and the file "/d/f" (index 3), where entries 1 and 3 are
reachable from the root, `Rename("/d", "/d/b")` returns Success; afterwards
entry 1 is its own first child (`sub = 1`, a cycle), and neither entry 1 nor
its descendant 3 is reachable from the root. -/
theorem Rename_into_own_subtree_breaks_tree :
    Reachable Superblock.sampleTree 1 ∧ Reachable Superblock.sampleTree 3 ∧
    ∃ s' sb', Rename Mbedtls.plain FileSystemImpl.sampleTree INTERNAL_FD (bytesOf "/d")
        (bytesOf "/d/b") = some (.Success, s') ∧ s'.m_superblock = some sb' ∧
      (sb'.fst 1).IsDirectory = true ∧ (sb'.fst 1).sub = 1 ∧
      ¬ Reachable sb' 1 ∧ ¬ Reachable sb' 3 := by
  have h0 : (Superblock.sampleTree.fst 0).sub = 2 := by decide
  have h2 : (Superblock.sampleTree.fst 2).sib = 1 := by decide
  have h1 : (Superblock.sampleTree.fst 1).sub = 3 := by decide
  have r2 : Reachable Superblock.sampleTree 2 :=
    h0 ▸ Reachable.sub 0 Reachable.root (by decide) (by decide) (by decide)
  have r1 : Reachable Superblock.sampleTree 1 :=
    h2 ▸ Reachable.sib 2 r2 (by decide) (by decide)
  have r3 : Reachable Superblock.sampleTree 3 :=
    h1 ▸ Reachable.sub 1 r1 (by decide) (by decide) (by decide)
  refine ⟨r1, r3, ?_⟩
  have hrun : (Rename Mbedtls.plain FileSystemImpl.sampleTree INTERNAL_FD (bytesOf "/d")
      (bytesOf "/d/b")).map (fun r => (r.1, r.2.m_superblock.map (fun sb =>
        [(sb.fst 0).sub, (sb.fst 0).sib, (sb.fst 2).sub, (sb.fst 2).sib, (sb.fst 1).sub,
          (sb.fst 1).mode &&& 3])))
      = some (.Success, some [2, 0xffff, 0xffff, 0xffff, 1, 2]) := by
    decide!
  cases hr : Rename Mbedtls.plain FileSystemImpl.sampleTree INTERNAL_FD (bytesOf "/d")
      (bytesOf "/d/b") with
  | none =>
    rw [hr] at hrun
    cases hrun
  | some r =>
    obtain ⟨rc, s'⟩ := r
    rw [hr] at hrun
    cases hs : s'.m_superblock with
    | none =>
      simp only [Option.map_some', hs, Option.map_none', Option.some.injEq, Prod.mk.injEq] at hrun
      exact absurd hrun.2 (by simp)
    | some sb' =>
      simp only [Option.map_some', hs, Option.some.injEq, Prod.mk.injEq, List.cons.injEq,
        and_true] at hrun
      obtain ⟨hrc, g0, g0s, g2, g2s, g1, g1m⟩ := hrun
      subst hrc
      have hreach : ∀ i, Reachable sb' i → i = 0 ∨ i = 2 := by
        intro i hi
        induction hi with
        | root => exact Or.inl rfl
        | sub j _ hj hd hlt ih =>
          rcases ih with rfl | rfl
          · rw [g0]; exact Or.inr rfl
          · rw [g2] at hlt
            exact absurd hlt (by decide)
        | sib j _ hj hlt ih =>
          rcases ih with rfl | rfl
          · rw [g0s] at hlt
            exact absurd hlt (by decide)
          · rw [g2s] at hlt
            exact absurd hlt (by decide)
      refine ⟨s', sb', rfl, hs, ?_, g1, ?_, ?_⟩
      · unfold FstEntry.IsDirectory
        simp [g1m]
      · intro h
        rcases hreach 1 h with h | h <;> exact absurd h (by decide)
      · intro h
        rcases hreach 3 h with h | h <;> exact absurd h (by decide)

end wiifs

namespace wiifs

/-! ## Offsets into the NAND image -/

/-- C40: for a cluster `c < 0x8000` and a page `p < 8`, `c*8*2112 + p*2112`
does not exceed 32 bits, `Offset(c, p)` is this value, the page ends within the
NAND image (`Offset(c, p) + 2112 ≤ NAND_SIZE`), the pages of distinct pairs do
not overlap, `WriteCluster` changes no byte outside the 8 pages of `c`, hence
none outside the image, and `ReadCluster` depends on no byte outside these
pages. -/
theorem Offset_within_nand (c p : Nat) (hc : c < 0x8000) (hp : p < 8) :
    c * 8 * 2112 + p * 2112 < 2 ^ 32 ∧
    Offset c p = c * 8 * 2112 + p * 2112 ∧
    Offset c p + 2112 ≤ NAND_SIZE ∧
    (∀ c' p', c' < 0x8000 → p' < 8 → (c', p') ≠ (c, p) →
      Offset c' p' + 2112 ≤ Offset c p ∨ Offset c p + 2112 ≤ Offset c' p') ∧
    (∀ (K : Mbedtls) (keys : FileSystemKeys) (nand : Nat → Nat) (d h : List Nat) (a : Nat),
      (a < Offset c 0 ∨ Offset c 7 + 2112 ≤ a) → (WriteCluster K keys nand c d h).2 a = nand a) ∧
    (∀ (K : Mbedtls) (keys : FileSystemKeys) (nand : Nat → Nat) (d h : List Nat) (a : Nat),
      NAND_SIZE ≤ a → (WriteCluster K keys nand c d h).2 a = nand a) ∧
    (∀ (K : Mbedtls) (keys : FileSystemKeys) (n1 n2 : Nat → Nat),
      (∀ a, Offset c 0 ≤ a → a < Offset c 7 + 2112 → n1 a = n2 a) →
      ReadCluster K keys n1 c = ReadCluster K keys n2 c) ∧
    (∀ (K : Mbedtls) (keys : FileSystemKeys) (n1 n2 : Nat → Nat),
      (∀ a, a < NAND_SIZE → n1 a = n2 a) →
      ReadCluster K keys n1 c = ReadCluster K keys n2 c) := by
  have h0 := Offset_eq c 0 hc (by decide)
  have h7 := Offset_eq c 7 hc (by decide)
  have hN : NAND_SIZE = 0x21000000 := rfl
  refine ⟨by omega, by rw [Offset_eq c p hc hp]; omega, by rw [Offset_eq c p hc hp, hN]; omega,
    ?_, ?_, ?_, ?_, ?_⟩
  · intro c' p' hc' hp' hne
    rw [Offset_eq c p hc hp, Offset_eq c' p' hc' hp']
    have : c' ≠ c ∨ p' ≠ p := by
      by_contra hcon
      push_neg at hcon
      exact hne (by rw [hcon.1, hcon.2])
    omega
  · intro K keys nand d h a ha
    rw [h0, h7] at ha
    exact WriteCluster_frame K keys nand c d h a (by omega)
  · intro K keys nand d h a ha
    rw [hN] at ha
    exact WriteCluster_frame K keys nand c d h a (by omega)
  · intro K keys n1 n2 h
    rw [h0, h7] at h
    exact ReadCluster_congr K keys n1 n2 c (fun a ha1 ha2 => h a (by omega) (by omega))
  · intro K keys n1 n2 h
    exact ReadCluster_congr K keys n1 n2 c (fun a ha1 ha2 => h a (by rw [hN]; omega))

/-- The last page of the last cluster ends at the end of the NAND image. -/
theorem Offset_within_nand_witness : Offset 0x7fff 7 + 2112 ≤ NAND_SIZE :=
  (Offset_within_nand 0x7fff 7 (by decide) (by decide)).2.2.1

/-! ## WriteFileData leaves the superblock alone when it fails -/

/-- C38: on a state that holds a superblock, `WriteFileData` returns Invalid
for an FST index out of range, for an entry that is not a file and for a new
size not greater than the size of the entry, NoFreeSpace when no FAT entry is
`CLUSTER_UNUSED`, Invalid when the predecessor cluster of a chain index other
than 0 is missing, and Success otherwise; whenever the code returned is not
Success, the in-memory superblock, FAT and FST included, is the one before the
call. -/
theorem WriteFileData_atomic (K : Mbedtls) (s : FileSystemImpl) (sb : Superblock)
    (fst_index : Nat) (source : List Nat) (chain_index new_size : Nat)
    (hsb : s.m_superblock = some sb) :
    ((WriteFileData K s fst_index source chain_index new_size).1 ≠ .Success →
      (WriteFileData K s fst_index source chain_index new_size).2.m_superblock = some sb) ∧
    ((fst_index ≥ FST_SIZE ∨ (sb.fst fst_index).IsFile = false ∨
        new_size ≤ (sb.fst fst_index).size) →
      WriteFileData K s fst_index source chain_index new_size = (.Invalid, s)) ∧
    (¬ (fst_index ≥ FST_SIZE ∨ (sb.fst fst_index).IsFile = false ∨
        new_size ≤ (sb.fst fst_index).size) →
      ((∀ i, i < FAT_SIZE → sb.fat i ≠ CLUSTER_UNUSED) →
        WriteFileData K s fst_index source chain_index new_size = (.NoFreeSpace, s)) ∧
      ((∃ i, i < FAT_SIZE ∧ sb.fat i = CLUSTER_UNUSED) →
        ((WriteFileData K s fst_index source chain_index new_size).1 = .Invalid ↔
          (chain_index ≠ 0 ∧
            GetClusterForFile sb (sb.fst fst_index).sub (chain_index - 1) = none)) ∧
        ((WriteFileData K s fst_index source chain_index new_size).1 = .Success ↔
          ¬ (chain_index ≠ 0 ∧
            GetClusterForFile sb (sb.fst fst_index).sub (chain_index - 1) = none)))) := by
  have hg := GetSuperblock_of_some K s sb hsb
  by_cases hidx : fst_index ≥ FST_SIZE
  · have hw := WriteFileData_of_ge K s fst_index source chain_index new_size hidx
    refine ⟨fun _ => by rw [hw]; exact hsb, fun _ => hw, fun h => absurd (Or.inl hidx) h⟩
  have hlt : fst_index < FST_SIZE := by omega
  have heq := WriteFileData_eq K s s sb fst_index source chain_index new_size hg hlt
  by_cases hc : (sb.fst fst_index).IsFile = false ∨ new_size ≤ (sb.fst fst_index).size
  · rw [if_pos hc] at heq
    refine ⟨fun _ => by rw [heq]; exact hsb, fun _ => heq, fun h => absurd (Or.inr hc) h⟩
  rw [if_neg hc] at heq
  have hnone : ∀ cluster, spliceCluster sb fst_index chain_index new_size cluster = none ↔
      (chain_index ≠ 0 ∧
        GetClusterForFile sb (sb.fst fst_index).sub (chain_index - 1) = none) := by
    intro cluster
    unfold spliceCluster
    by_cases h0 : chain_index = 0
    · simp [h0]
    · simp only [if_neg h0]
      cases GetClusterForFile sb (sb.fst fst_index).sub (chain_index - 1) <;> simp [h0]
  cases hf : findFirst (fun i => sb.fat i == CLUSTER_UNUSED) FAT_SIZE with
  | none =>
    rw [hf] at heq
    have hall : ∀ i, i < FAT_SIZE → sb.fat i ≠ CLUSTER_UNUSED := by
      intro i hi
      have := findFirst_none _ _ hf i hi
      simpa using this
    refine ⟨fun _ => by rw [heq]; exact hsb, fun h => ?_, fun _ => ⟨fun _ => heq, fun h => ?_⟩⟩
    · rcases h with h | h
      · exact absurd h hidx
      · exact absurd h hc
    · obtain ⟨i, hi, hu⟩ := h
      exact absurd hu (hall i hi)
  | some cluster =>
    rw [hf] at heq
    dsimp only at heq
    obtain ⟨hcl, hcu, _⟩ := findFirst_spec _ _ _ hf
    have hnoall : ¬ ∀ i, i < FAT_SIZE → sb.fat i ≠ CLUSTER_UNUSED := by
      intro hall
      have := hall cluster hcl
      simp at hcu
      exact this hcu
    cases hsp : spliceCluster sb fst_index chain_index new_size cluster with
    | none =>
      rw [hsp] at heq
      have hcond := (hnone cluster).1 hsp
      refine ⟨fun _ => by rw [heq]; exact hsb, fun h => ?_,
        fun _ => ⟨fun hall => absurd hall hnoall, fun _ => ⟨?_, ?_⟩⟩⟩
      · rcases h with h | h
        · exact absurd h hidx
        · exact absurd h hc
      · rw [heq]
        exact ⟨fun _ => hcond, fun _ => rfl⟩
      · rw [heq]
        exact ⟨(fun h => nomatch h), fun h => absurd hcond h⟩
    | some sb4 =>
      rw [hsp] at heq
      have hcond : ¬ (chain_index ≠ 0 ∧
          GetClusterForFile sb (sb.fst fst_index).sub (chain_index - 1) = none) := by
        intro h
        have := (hnone cluster).2 h
        rw [hsp] at this
        cases this
      refine ⟨fun h => ?_, fun h => ?_,
        fun _ => ⟨fun hall => absurd hall hnoall, fun _ => ⟨?_, ?_⟩⟩⟩
      · rw [heq] at h
        exact absurd rfl h
      · rcases h with h | h
        · exact absurd h hidx
        · exact absurd h hc
      · rw [heq]
        exact ⟨(fun h => nomatch h), fun h => absurd h hcond⟩
      · rw [heq]
        exact ⟨fun _ => hcond, fun _ => rfl⟩

/-- `WriteFileData` for a size that does not grow the file "/u" (one byte):
Invalid, with the state as before. -/
theorem WriteFileData_atomic_witness :
    WriteFileData Mbedtls.plain FileSystemImpl.sampleWritten 1 [9] 0 1
      = (.Invalid, FileSystemImpl.sampleWritten) :=
  (WriteFileData_atomic Mbedtls.plain FileSystemImpl.sampleWritten Superblock.sampleWritten 1
    [9] 0 1 rfl).2.1 (Or.inr (Or.inr (by decide)))

end wiifs

namespace wiifs

/-! ## Delete leaves the superblock alone when it fails -/

/-- The cluster loop of `DeleteFile` does not touch the FST. -/
theorem DeleteFileLoop_fst : ∀ (fuel : Nat) (sb : Superblock) (i : Nat) (sb' : Superblock),
    DeleteFileLoop fuel sb i = some sb' → sb'.fst = sb.fst := by
  intro fuel
  induction fuel with
  | zero =>
    intro sb i sb' h
    cases h
  | succ fuel ih =>
    intro sb i sb' h
    unfold DeleteFileLoop at h
    by_cases hi : i < FAT_SIZE
    · rw [if_pos hi] at h
      have := ih (sb.setFat i CLUSTER_UNUSED) (sb.fat i) sb' h
      exact this
    · rw [if_neg hi] at h
      cases h
      rfl

/-- `DeleteFile` changes no `sub` and no `sib` link of the FST. -/
theorem DeleteFile_links (sb : Superblock) (file : Nat) (sb' : Superblock)
    (h : DeleteFile sb file = some sb') :
    ∀ i, (sb'.fst i).sib = (sb.fst i).sib ∧ (sb'.fst i).sub = (sb.fst i).sub := by
  unfold DeleteFile at h
  cases hl : DeleteFileLoop (FAT_SIZE + 2) sb (sb.fst file).sub with
  | none =>
    rw [hl] at h
    cases h
  | some sb1 =>
    rw [hl] at h
    have hf := DeleteFileLoop_fst _ _ _ _ hl
    simp only [Option.some.injEq] at h
    subst h
    intro i
    rcases eq_or_ne i file with rfl | hne
    · simp [hf]
    · simp [hne, hf]

/-- The loop of `DeleteDirectoryContents` changes no `sub` and no `sib` link of
the FST. -/
theorem DeleteDirectoryContentsLoop_links :
    ∀ (fuel : Nat) (sb : Superblock) (child : Nat) (sb' : Superblock),
      DeleteDirectoryContentsLoop fuel sb child = some sb' →
      ∀ i, (sb'.fst i).sib = (sb.fst i).sib ∧ (sb'.fst i).sub = (sb.fst i).sub := by
  intro fuel
  induction fuel with
  | zero =>
    intro sb child sb' h
    cases h
  | succ fuel ih =>
    intro sb child sb' h
    unfold DeleteDirectoryContentsLoop at h
    by_cases hc : child ≥ FST_SIZE
    · rw [if_pos hc] at h
      cases h
      exact fun i => ⟨rfl, rfl⟩
    · rw [if_neg hc] at h
      dsimp only at h
      by_cases hd : (sb.fst child).IsDirectory = true
      · rw [if_pos hd] at h
        cases h1 : DeleteDirectoryContentsLoop fuel sb (sb.fst child).sub with
        | none =>
          rw [h1] at h
          cases h
        | some sb1 =>
          rw [h1] at h
          have a := ih _ _ _ h1
          have b := ih _ _ _ h
          exact fun i => ⟨(b i).1.trans (a i).1, (b i).2.trans (a i).2⟩
      · rw [if_neg hd] at h
        cases h1 : DeleteFile sb child with
        | none =>
          rw [h1] at h
          cases h
        | some sb1 =>
          rw [h1] at h
          have a := DeleteFile_links _ _ _ h1
          have b := ih _ _ _ h
          exact fun i => ⟨(b i).1.trans (a i).1, (b i).2.trans (a i).2⟩

/-- The deletion of the contents of an entry changes no `sub` and no `sib` link
of the FST. -/
theorem deleteEntryContents_links (s : FileSystemImpl) (sb : Superblock) (index : Nat)
    (sbd : Superblock) (h : deleteEntryContents s sb index = some (.ok sbd)) :
    ∀ i, (sbd.fst i).sib = (sb.fst i).sib ∧ (sbd.fst i).sub = (sb.fst i).sub := by
  unfold deleteEntryContents at h
  by_cases hd : (sb.fst index).IsDirectory = true
  · rw [if_pos hd] at h
    cases hu : IsDirectoryInUse s sb index with
    | none =>
      rw [hu] at h
      cases h
    | some b =>
      rw [hu] at h
      cases b with
      | true => cases h
      | false =>
        dsimp only at h
        cases h1 : DeleteDirectoryContents sb index with
        | none =>
          rw [h1] at h
          cases h
        | some sb1 =>
          rw [h1] at h
          simp only [Option.some.injEq, Except.ok.injEq] at h
          subst h
          exact DeleteDirectoryContentsLoop_links _ _ _ _ h1
  · rw [if_neg hd] at h
    by_cases hf : ((sb.fst index).IsFile && !IsFileOpened s index) = true
    · rw [if_pos hf] at h
      cases h1 : DeleteFile sb index with
      | none =>
        rw [h1] at h
        cases h
      | some sb1 =>
        rw [h1] at h
        simp only [Option.some.injEq, Except.ok.injEq] at h
        subst h
        exact DeleteFile_links _ _ _ h1
    · rw [if_neg hf] at h
      cases h

/-- The loop of `RemoveFstEntryFromChain` finds an entry that the loop of
`GetFstIndex(parent, name)` has found on the same sibling links. -/
theorem RemoveFstEntryLoop_of_found (sb sb2 : Superblock) (name : List Nat) (index : Nat)
    (hl : ∀ i, (sb2.fst i).sib = (sb.fst i).sib) :
    ∀ (fuel start : Nat), GetFstIndexLoop sb name fuel start = some (.ok index) →
      start ≠ index → ∀ fuel2, fuel ≤ fuel2 →
      ∃ sb', RemoveFstEntryLoop index fuel2 sb2 start (sb2.fst start).sib
        = some (.Success, sb') := by
  intro fuel
  induction fuel with
  | zero =>
    intro start h
    cases h
  | succ fuel ih =>
    intro start h hne fuel2 hle
    unfold GetFstIndexLoop at h
    by_cases hn : (sb.fst start).GetName = name
    · rw [if_pos hn] at h
      simp only [Option.some.injEq, Except.ok.injEq] at h
      exact absurd h hne
    · rw [if_neg hn] at h
      dsimp only at h
      by_cases hlt : (sb.fst start).sib < FST_SIZE
      · rw [if_pos hlt] at h
        obtain ⟨f2, rfl⟩ : ∃ f2, fuel2 = f2 + 1 := ⟨fuel2 - 1, by omega⟩
        unfold RemoveFstEntryLoop
        rw [hl start, if_pos hlt]
        by_cases he : (sb.fst start).sib = index
        · rw [if_pos he]
          exact ⟨_, rfl⟩
        · rw [if_neg he]
          exact ih _ h he f2 (by omega)
      · rw [if_neg hlt] at h
        cases h

/-- `RemoveFstEntryFromChain(parent, index)` returns Success for an entry that
`GetFstIndex(parent, name)` has found, also after the contents of the entry
have been deleted. -/
theorem RemoveFstEntryFromChain_of_found (sb sbd : Superblock) (parent index : Nat)
    (name : List Nat)
    (hlinks : ∀ i, (sbd.fst i).sib = (sb.fst i).sib ∧ (sbd.fst i).sub = (sb.fst i).sub)
    (hfound : GetFstIndexIn sb parent name = some (.ok index)) :
    ∃ sb', RemoveFstEntryFromChain sbd parent index = some (.Success, sb') := by
  unfold GetFstIndexIn at hfound
  by_cases hp : parent ≥ FST_SIZE ∨ name.length > 12
  · rw [if_pos hp] at hfound
    cases hfound
  · rw [if_neg hp] at hfound
    dsimp only at hfound
    by_cases hs : (sb.fst parent).sub ≥ FST_SIZE
    · rw [if_pos hs] at hfound
      cases hfound
    · rw [if_neg hs] at hfound
      unfold RemoveFstEntryFromChain
      rw [(hlinks parent).2]
      by_cases he : (sb.fst parent).sub = index
      · rw [if_pos he]
        exact ⟨_, rfl⟩
      · rw [if_neg he]
        dsimp only
        rw [if_neg hs]
        have := RemoveFstEntryLoop_of_found sb sbd name index (fun i => (hlinks i).1) FST_SIZE
          (sb.fst parent).sub hfound he (FST_SIZE + 1) (by omega)
        exact this

/-- C39: on a state that holds a superblock, whenever `Delete` returns a code
other than Success the whole state, FAT and FST included, is the one before the
call; and once `GetFstIndex(parent, name)` has found the target index and its
contents have been deleted, `RemoveFstEntryFromChain(parent, index)` returns
Success. -/
theorem Delete_atomic (K : Mbedtls) (s : FileSystemImpl) (sb : Superblock) (fd : Nat)
    (path : List Nat) (hsb : s.m_superblock = some sb) :
    (∀ r s', Delete K s fd path = some (r, s') → r ≠ .Success → s' = s) ∧
    (∀ parent name index sbd, GetFstIndexIn sb parent name = some (.ok index) →
      deleteEntryContents s sb index = some (.ok sbd) →
      ∃ sb', RemoveFstEntryFromChain sbd parent index = some (.Success, sb')) := by
  have hrem : ∀ parent name index sbd, GetFstIndexIn sb parent name = some (.ok index) →
      deleteEntryContents s sb index = some (.ok sbd) →
      ∃ sb', RemoveFstEntryFromChain sbd parent index = some (.Success, sb') := by
    intro parent name index sbd hfound hdel
    exact RemoveFstEntryFromChain_of_found sb sbd parent index name
      (deleteEntryContents_links s sb index sbd hdel) hfound
  refine ⟨?_, hrem⟩
  intro r s' h hr
  unfold Delete at h
  cases hfd : GetHandleFromFd s fd with
  | none =>
    rw [hfd] at h
    simp only [Option.some.injEq, Prod.mk.injEq] at h
    exact h.2.symm
  | some hd =>
    rw [hfd] at h
    dsimp only at h
    by_cases hv : (!IsValidNonRootPath path) = true
    · rw [if_pos hv] at h
      simp only [Option.some.injEq, Prod.mk.injEq] at h
      exact h.2.symm
    · rw [if_neg hv, GetSuperblock_of_some K s sb hsb] at h
      dsimp only at h
      cases hp : GetFstIndex sb (SplitPath path).1 with
      | none =>
        rw [hp] at h
        cases h
      | some rp =>
        rw [hp] at h
        cases rp with
        | error e =>
          simp only [Option.some.injEq, Prod.mk.injEq] at h
          exact h.2.symm
        | ok parent =>
          dsimp only at h
          by_cases hperm : (!HasPermission (sb.fst parent) (s.handle hd).uid (s.handle hd).gid 2)
              = true
          · rw [if_pos hperm] at h
            simp only [Option.some.injEq, Prod.mk.injEq] at h
            exact h.2.symm
          · rw [if_neg hperm] at h
            cases hi : GetFstIndexIn sb parent (SplitPath path).2 with
            | none =>
              rw [hi] at h
              cases h
            | some ri =>
              rw [hi] at h
              cases ri with
              | error e =>
                simp only [Option.some.injEq, Prod.mk.injEq] at h
                exact h.2.symm
              | ok index =>
                dsimp only at h
                cases hdel : deleteEntryContents s sb index with
                | none =>
                  rw [hdel] at h
                  cases h
                | some rd =>
                  rw [hdel] at h
                  cases rd with
                  | error e =>
                    simp only [Option.some.injEq, Prod.mk.injEq] at h
                    exact h.2.symm
                  | ok sbd =>
                    dsimp only at h
                    obtain ⟨sb', hsb'⟩ := hrem parent _ index sbd hi hdel
                    rw [hsb'] at h
                    dsimp only at h
                    rw [if_neg (by simp)] at h
                    obtain ⟨s2, hs2, _⟩ := FlushSuperblock_total K
                      { s with m_superblock := some sb' } sb' rfl
                    rw [hs2] at h
                    simp only [Option.some.injEq, Prod.mk.injEq] at h
                    exact absurd h.1.symm hr

/-- `Delete("/d/f")` on a state in which a descriptor is open on that file. -/
theorem Delete_atomic_witness :
    (∀ r s', Delete Mbedtls.plain FileSystemImpl.sampleTreeOpen INTERNAL_FD (bytesOf "/d/f")
        = some (r, s') → r ≠ .Success → s' = FileSystemImpl.sampleTreeOpen) ∧
    (∀ parent name index sbd,
      GetFstIndexIn Superblock.sampleTree parent name = some (.ok index) →
      deleteEntryContents FileSystemImpl.sampleTreeOpen Superblock.sampleTree index
        = some (.ok sbd) →
      ∃ sb', RemoveFstEntryFromChain sbd parent index = some (.Success, sb')) :=
  Delete_atomic Mbedtls.plain FileSystemImpl.sampleTreeOpen Superblock.sampleTree INTERNAL_FD
    (bytesOf "/d/f") rfl

end wiifs

namespace ecc

/-! ## Single-bit errors and the ECC -/

theorem CalculateBlock_eq (data : List Nat) :
    CalculateBlock data
      = [ofBits (fun j => getA (parities data) j 0) 12 % 256,
         (ofBits (fun j => getA (parities data) j 0) 12 >>> 8) % 256,
         ofBits (fun j => getA (parities data) j 1) 12 % 256,
         (ofBits (fun j => getA (parities data) j 1) 12 >>> 8) % 256] := rfl

theorem Parity_le_one : ∀ x, Parity x ≤ 1 := by
  have h : ∀ x, x < 256 → Parity x ≤ 1 := by decide!
  intro x
  have hx : Parity x = Parity (x % 256) := by
    unfold Parity
    rw [Nat.mod_mod]
  rw [hx]
  exact h _ (Nat.mod_lt _ (by decide))

theorem Parity_xor_bit : ∀ b, b < 8 → ∀ x, x < 256 → Parity (x ^^^ (1 <<< b)) = Parity x ^^^ 1 := by
  decide!

theorem rowMask_bit : ∀ b, b < 8 → ∀ r, r < 3 → ∀ c, c < 2 →
    (1 <<< b) &&& rowMask r c = if (b >>> r) &&& 1 = c then 1 <<< b else 0 := by
  decide

theorem setA_length (a : List Nat) (r c v : Nat) : (setA a r c v).length = a.length := by
  simp [setA]

theorem getA_setA (a : List Nat) (r c v r' c' : Nat) (hc : c < 2) (hc' : c' < 2)
    (hlen : 2 * r + c < a.length) :
    getA (setA a r c v) r' c' = if r' = r ∧ c' = c then v else getA a r' c' := by
  unfold getA setA
  rw [List.getD_eq_getElem?_getD, List.getElem?_set, List.getD_eq_getElem?_getD]
  by_cases h : r' = r ∧ c' = c
  · obtain ⟨rfl, rfl⟩ := h
    simp [hlen]
  · have hne : ¬ (2 * r + c = 2 * r' + c') := by
      intro he
      apply h
      constructor <;> omega
    rw [if_neg hne, if_neg h]

theorem bit_lt_two (i j : Nat) : (i >>> j) &&& 1 < 2 := by
  have := @Nat.and_le_right (i >>> j) 1
  omega

/-- The inner loop of the accumulation, over the first `m` address bits. -/
theorem accumulate_inner (x i : Nat) : ∀ m, m ≤ 9 → ∀ a : List Nat, a.length = 24 →
    ((List.range m).foldl (fun a j => setA a (3 + j) ((i >>> j) &&& 1)
      ((getA a (3 + j) ((i >>> j) &&& 1)) ^^^ x)) a).length = 24 ∧
    ∀ r c, c < 2 →
      getA ((List.range m).foldl (fun a j => setA a (3 + j) ((i >>> j) &&& 1)
        ((getA a (3 + j) ((i >>> j) &&& 1)) ^^^ x)) a) r c
      = if 3 ≤ r ∧ r < 3 + m ∧ (i >>> (r - 3)) &&& 1 = c then getA a r c ^^^ x
        else getA a r c := by
  intro m
  induction m with
  | zero =>
    intro _ a ha
    refine ⟨ha, ?_⟩
    intro r c _
    rw [if_neg (by omega)]
    rfl
  | succ m ih =>
    intro hm a ha
    obtain ⟨hl, hg⟩ := ih (by omega) a ha
    rw [List.range_succ, List.foldl_append]
    simp only [List.foldl_cons, List.foldl_nil]
    have hb := bit_lt_two i m
    refine ⟨by rw [setA_length, hl], ?_⟩
    intro r c hc
    rw [getA_setA _ _ _ _ _ _ hb hc (by rw [hl]; omega)]
    by_cases h : r = 3 + m ∧ c = (i >>> m) &&& 1
    · obtain ⟨rfl, rfl⟩ := h
      rw [if_pos ⟨rfl, rfl⟩, hg _ _ hb, if_neg (by omega)]
      have : 3 + m - 3 = m := by omega
      rw [if_pos ⟨by omega, by omega, by rw [this]⟩]
    · rw [if_neg h, hg r c hc]
      by_cases h2 : 3 ≤ r ∧ r < 3 + m ∧ (i >>> (r - 3)) &&& 1 = c
      · rw [if_pos h2, if_pos ⟨h2.1, by omega, h2.2.2⟩]
      · rw [if_neg h2]
        have h3 : ¬ (3 ≤ r ∧ r < 3 + (m + 1) ∧ (i >>> (r - 3)) &&& 1 = c) := by
          intro ⟨a1, a2, a3⟩
          by_cases hr : r = 3 + m
          · apply h
            refine ⟨hr, ?_⟩
            rw [← a3, hr]
            have : 3 + m - 3 = m := by omega
            rw [this]
          · exact h2 ⟨a1, by omega, a3⟩
        rw [if_neg h3]

theorem foldl_range_succ {α : Type} (f : α → Nat → α) (b : α) (n : Nat) :
    (List.range (n + 1)).foldl f b = f ((List.range n).foldl f b) n := by
  rw [List.range_succ, List.foldl_append]
  rfl

theorem rowXor_succ (data : List Nat) (j c n : Nat) :
    rowXor data j c (n + 1)
      = if (n >>> j) &&& 1 = c then rowXor data j c n ^^^ (data.getD n 0 % 256)
        else rowXor data j c n := by
  unfold rowXor
  rw [List.range_succ, List.foldl_append]
  rfl

/-- The accumulation loop leaves in `a[3 + j][c]` the XOR of the bytes whose
index has bit `j` equal to `c`. -/
theorem accumulate_upto (data : List Nat) : ∀ n,
    ((List.range n).foldl
      (fun a i =>
        (List.range 9).foldl
          (fun a j => setA a (3 + j) ((i >>> j) &&& 1)
            ((getA a (3 + j) ((i >>> j) &&& 1)) ^^^ (data.getD i 0 % 256)))
          a)
      (List.replicate 24 0)).length = 24 ∧
    ∀ j c, j < 9 → c < 2 →
      getA ((List.range n).foldl
        (fun a i =>
          (List.range 9).foldl
            (fun a j => setA a (3 + j) ((i >>> j) &&& 1)
              ((getA a (3 + j) ((i >>> j) &&& 1)) ^^^ (data.getD i 0 % 256)))
            a)
        (List.replicate 24 0)) (3 + j) c = rowXor data j c n := by
  intro n
  induction n with
  | zero =>
    refine ⟨rfl, ?_⟩
    intro j c hj hc
    have h : ∀ k, k < 24 → (List.replicate 24 0).getD k 0 = 0 := by decide
    exact h _ (by omega)
  | succ n ih =>
    obtain ⟨hl, hg⟩ := ih
    rw [foldl_range_succ _ _ n]
    obtain ⟨hl', hg'⟩ := accumulate_inner (data.getD n 0 % 256) n 9 (Nat.le_refl _) _ hl
    refine ⟨hl', ?_⟩
    intro j c hj hc
    rw [hg' _ _ hc, rowXor_succ, hg j c hj hc]
    have : 3 + j - 3 = j := by omega
    rw [this]
    by_cases hb : (n >>> j) &&& 1 = c
    · rw [if_pos ⟨by omega, by omega, hb⟩, if_pos hb]
    · rw [if_neg (fun h => hb h.2.2), if_neg hb]

theorem accumulate_length (data : List Nat) : (accumulate data).length = 24 :=
  (accumulate_upto data 512).1

theorem accumulate_getA (data : List Nat) (j c : Nat) (hj : j < 9) (hc : c < 2) :
    getA (accumulate data) (3 + j) c = rowXor data j c 512 :=
  (accumulate_upto data 512).2 j c hj hc

theorem rowXor_lt (data : List Nat) (j c : Nat) : ∀ n, rowXor data j c n < 256 := by
  intro n
  induction n with
  | zero => exact Nat.zero_lt_succ _
  | succ n ih =>
    rw [rowXor_succ]
    split
    · exact Nat.xor_lt_two_pow (n := 8) ih (Nat.mod_lt _ (by decide))
    · exact ih

/-- The XOR of a row when one byte of the data changes by `e`. -/
theorem rowXor_flip (data data' : List Nat) (i0 e j c : Nat)
    (hsame : ∀ i, i ≠ i0 → data'.getD i 0 = data.getD i 0)
    (hflip : data'.getD i0 0 % 256 = (data.getD i0 0 % 256) ^^^ e) :
    ∀ n, rowXor data' j c n
      = rowXor data j c n ^^^ (if i0 < n ∧ (i0 >>> j) &&& 1 = c then e else 0) := by
  intro n
  induction n with
  | zero =>
    have h0 : ¬ (i0 < 0 ∧ (i0 >>> j) &&& 1 = c) := by omega
    rw [if_neg h0, Nat.xor_zero]
    rfl
  | succ n ih =>
    rw [rowXor_succ, rowXor_succ, ih]
    by_cases hn : n = i0
    · subst hn
      have h1 : ¬ (n < n ∧ (n >>> j) &&& 1 = c) := by omega
      rw [if_neg h1, Nat.xor_zero, hflip]
      by_cases hb : (n >>> j) &&& 1 = c
      · have h2 : n < n + 1 ∧ (n >>> j) &&& 1 = c := ⟨by omega, hb⟩
        rw [if_pos hb, if_pos hb, if_pos h2, Nat.xor_assoc]
      · have h2 : ¬ (n < n + 1 ∧ (n >>> j) &&& 1 = c) := fun h => hb h.2
        rw [if_neg hb, if_neg hb, if_neg h2, Nat.xor_zero]
    · rw [hsame n hn]
      have hiff : (i0 < n + 1 ∧ (i0 >>> j) &&& 1 = c) ↔ (i0 < n ∧ (i0 >>> j) &&& 1 = c) := by
        constructor
        · intro ⟨a, b⟩
          exact ⟨by omega, b⟩
        · intro ⟨a, b⟩
          exact ⟨by omega, b⟩
      rw [if_congr hiff rfl rfl]
      by_cases hb : (n >>> j) &&& 1 = c
      · rw [if_pos hb, if_pos hb, Nat.xor_assoc, Nat.xor_assoc]
        congr 1
        exact Nat.xor_comm _ _
      · rw [if_neg hb, if_neg hb]

theorem getA_map_Parity (a : List Nat) (r c : Nat) :
    getA (a.map Parity) r c = Parity (getA a r c) := by
  unfold getA
  rw [List.getD_eq_getElem?_getD, List.getD_eq_getElem?_getD, List.getElem?_map]
  cases a[2 * r + c]? with
  | none => rfl
  | some v => rfl

/-- The entries of the array `a` after the parity loop. -/
theorem parities_getA (data : List Nat) (r c : Nat) (hr : r < 12) (hc : c < 2) :
    getA (parities data) r c
      = Parity (if r < 3 then
          ((getA (accumulate data) 3 0) ^^^ (getA (accumulate data) 3 1)) &&& rowMask r c
        else getA (accumulate data) r c) := by
  have hl := accumulate_length data
  unfold parities
  simp only []
  rw [getA_map_Parity]
  apply congrArg Parity
  rw [getA_setA _ _ _ _ _ _ (by decide) hc (by simp only [setA_length, hl]; decide),
    getA_setA _ _ _ _ _ _ (by decide) hc (by simp only [setA_length, hl]; decide),
    getA_setA _ _ _ _ _ _ (by decide) hc (by simp only [setA_length, hl]; decide),
    getA_setA _ _ _ _ _ _ (by decide) hc (by simp only [setA_length, hl]; decide),
    getA_setA _ _ _ _ _ _ (by decide) hc (by simp only [setA_length, hl]; decide),
    getA_setA _ _ _ _ _ _ (by decide) hc (by simp only [hl]; decide)]
  unfold rowMask
  by_cases h3 : r < 3
  · rw [if_pos h3]
    interval_cases r <;> interval_cases c <;> simp
  · rw [if_neg h3, if_neg (by omega), if_neg (by omega), if_neg (by omega), if_neg (by omega),
      if_neg (by omega), if_neg (by omega)]

theorem xor_swap (a b e : Nat) : (a ^^^ e) ^^^ b = (a ^^^ b) ^^^ e := by
  rw [Nat.xor_assoc, Nat.xor_comm e b, ← Nat.xor_assoc]

theorem flipped_index (i b : Nat) (hb : b < 8) : (i <<< 3) ||| b = i * 8 + b := by
  rw [Nat.shiftLeft_eq, Nat.mul_comm i (2 ^ 3),
    ← Nat.mul_add_lt_is_or (show b < 2 ^ 3 by omega) i]

theorem flipped_index_high (i b j : Nat) (hb : b < 8) :
    (((i <<< 3) ||| b) >>> (3 + j)) &&& 1 = (i >>> j) &&& 1 := by
  rw [flipped_index i b hb, Nat.shiftRight_add]
  have : (i * 8 + b) >>> 3 = i := by
    rw [Nat.shiftRight_eq_div_pow]
    show (i * 8 + b) / 8 = i
    omega
  rw [this]

theorem flipped_index_low (i b r : Nat) (hb : b < 8) (hr : r < 3) :
    (((i <<< 3) ||| b) >>> r) &&& 1 = (b >>> r) &&& 1 := by
  rw [flipped_index i b hb, Nat.and_one_is_mod, Nat.and_one_is_mod, Nat.shiftRight_eq_div_pow,
    Nat.shiftRight_eq_div_pow]
  interval_cases r
  · show (i * 8 + b) / 1 % 2 = b / 1 % 2
    omega
  · show (i * 8 + b) / 2 % 2 = b / 2 % 2
    omega
  · show (i * 8 + b) / 4 % 2 = b / 4 % 2
    omega

/-- The parities of a subblock in which bit `b` of byte `i` is flipped: the
entry `a[r][c]` changes exactly when bit `r` of `(i << 3) | b` is `c`. -/
theorem parities_flip (data data' : List Nat) (i b : Nat) (hi : i < 512) (hb : b < 8)
    (hsame : ∀ k, k ≠ i → data'.getD k 0 = data.getD k 0)
    (hflip : data'.getD i 0 % 256 = (data.getD i 0 % 256) ^^^ (1 <<< b))
    (r c : Nat) (hr : r < 12) (hc : c < 2) :
    getA (parities data') r c
      = getA (parities data) r c ^^^ (if (((i <<< 3) ||| b) >>> r) &&& 1 = c then 1 else 0) := by
  have hrow : ∀ j c, j < 9 → c < 2 → getA (accumulate data') (3 + j) c
      = getA (accumulate data) (3 + j) c ^^^ (if (i >>> j) &&& 1 = c then 1 <<< b else 0) := by
    intro j c hj hc
    rw [accumulate_getA data' j c hj hc, accumulate_getA data j c hj hc,
      rowXor_flip data data' i (1 <<< b) j c hsame hflip 512]
    by_cases hbit : (i >>> j) &&& 1 = c
    · rw [if_pos ⟨hi, hbit⟩, if_pos hbit]
    · rw [if_neg (fun h => hbit h.2), if_neg hbit]
  have hpar : ∀ y, y < 256 → ∀ (p : Prop) [Decidable p],
      Parity (y ^^^ (if p then 1 <<< b else 0)) = Parity y ^^^ (if p then 1 else 0) := by
    intro y hy p _
    by_cases hp : p
    · rw [if_pos hp, if_pos hp]
      exact Parity_xor_bit b hb y hy
    · rw [if_neg hp, if_neg hp, Nat.xor_zero, Nat.xor_zero]
  rw [parities_getA data' r c hr hc, parities_getA data r c hr hc]
  by_cases h3 : r < 3
  · rw [if_pos h3, if_pos h3, flipped_index_low i b r hb h3]
    have h0 := hrow 0 0 (by decide) (by decide)
    have h1 := hrow 0 1 (by decide) (by decide)
    have hx : (getA (accumulate data') 3 0) ^^^ (getA (accumulate data') 3 1)
        = ((getA (accumulate data) 3 0) ^^^ (getA (accumulate data) 3 1)) ^^^ (1 <<< b) := by
      rw [show getA (accumulate data') 3 0 = getA (accumulate data') (3 + 0) 0 from rfl,
        show getA (accumulate data') 3 1 = getA (accumulate data') (3 + 0) 1 from rfl, h0, h1]
      have hbit := bit_lt_two i 0
      by_cases hz : (i >>> 0) &&& 1 = 0
      · rw [if_pos hz, if_neg (by omega), Nat.xor_zero]
        exact xor_swap _ _ _
      · rw [if_neg hz, if_pos (by omega), Nat.xor_zero, Nat.xor_assoc]
    rw [hx, Nat.and_xor_distrib_right, rowMask_bit b hb r h3 c hc]
    apply hpar
    have hlt : (getA (accumulate data) 3 0) ^^^ (getA (accumulate data) 3 1) < 256 := by
      rw [show getA (accumulate data) 3 0 = getA (accumulate data) (3 + 0) 0 from rfl,
        show getA (accumulate data) 3 1 = getA (accumulate data) (3 + 0) 1 from rfl,
        accumulate_getA data 0 0 (by decide) (by decide),
        accumulate_getA data 0 1 (by decide) (by decide)]
      exact Nat.xor_lt_two_pow (n := 8) (rowXor_lt _ _ _ _) (rowXor_lt _ _ _ _)
    exact Nat.lt_of_le_of_lt Nat.and_le_left hlt
  · rw [if_neg h3, if_neg h3]
    obtain ⟨j, rfl⟩ : ∃ j, r = 3 + j := ⟨r - 3, by omega⟩
    rw [hrow j c (by omega) hc, flipped_index_high i b j hb]
    apply hpar
    rw [accumulate_getA data j c (by omega) hc]
    exact rowXor_lt _ _ _ _

theorem ofBits_succ (f : Nat → Nat) (n : Nat) :
    ofBits f (n + 1) = ofBits f n ||| (f n <<< n) :=
  foldl_range_succ _ _ n

/-- The bits of the value that the assembly loop builds from entries that are 0
or 1. -/
theorem testBit_ofBits (f : Nat → Nat) (hf : ∀ j, f j ≤ 1) :
    ∀ n t, (ofBits f n).testBit t = (decide (t < n) && decide (f t = 1)) := by
  intro n
  induction n with
  | zero =>
    intro t
    show (0 : Nat).testBit t = _
    simp
  | succ n ih =>
    intro t
    rw [ofBits_succ, Nat.testBit_or, ih]
    have h01 : f n = 0 ∨ f n = 1 := by
      have := hf n
      omega
    rcases h01 with h0 | h1
    · rw [h0, Nat.zero_shiftLeft, Nat.zero_testBit, Bool.or_false]
      by_cases htn : t = n
      · subst htn
        simp [h0]
      · by_cases hlt : t < n
        · have : t < n + 1 := by omega
          simp [hlt, this]
        · have : ¬ t < n + 1 := by omega
          simp [hlt, this]
    · rw [h1, Nat.one_shiftLeft, Nat.testBit_two_pow]
      by_cases htn : t = n
      · subst htn
        simp [h1]
      · have hnt : ¬ n = t := fun h => htn h.symm
        by_cases hlt : t < n
        · have : t < n + 1 := by omega
          simp [hlt, this, hnt]
        · have : ¬ t < n + 1 := by omega
          simp [hlt, this, hnt]

theorem ofBits_lt (f : Nat → Nat) (hf : ∀ j, f j ≤ 1) (n : Nat) : ofBits f n < 2 ^ n := by
  apply Nat.lt_pow_two_of_testBit
  intro i hi
  rw [testBit_ofBits f hf]
  have : ¬ i < n := by omega
  simp [this]

/-- The XOR of two assembled values. -/
theorem ofBits_xor (f g d : Nat → Nat) (hf : ∀ j, f j ≤ 1) (hg : ∀ j, g j ≤ 1)
    (hd : ∀ j, d j ≤ 1) (n : Nat) (h : ∀ j, j < n → g j = f j ^^^ d j) :
    ofBits g n ^^^ ofBits f n = ofBits d n := by
  apply Nat.eq_of_testBit_eq
  intro t
  rw [Nat.testBit_xor, testBit_ofBits f hf, testBit_ofBits g hg, testBit_ofBits d hd]
  by_cases hlt : t < n
  · rw [h t hlt]
    have h1 := hf t
    have h2 := hd t
    have hf01 : f t = 0 ∨ f t = 1 := by omega
    have hd01 : d t = 0 ∨ d t = 1 := by omega
    rcases hf01 with a | a <;> rcases hd01 with b | b <;> rw [a, b] <;> simp [hlt]
  · simp [hlt]

theorem bit_eq_one_iff (n t : Nat) : ((n >>> t) &&& 1 = 1) ↔ n.testBit t = true := by
  rw [Nat.and_one_is_mod, Nat.shiftRight_eq_div_pow, Nat.testBit_to_div_mod]
  simp

/-- The value assembled from the bits of a number below `2 ^ n`. -/
theorem ofBits_bits (v n : Nat) (hv : v < 2 ^ n) :
    ofBits (fun t => if (v >>> t) &&& 1 = 1 then 1 else 0) n = v := by
  apply Nat.eq_of_testBit_eq
  intro t
  rw [testBit_ofBits _ (fun j => by
    show (if (v >>> j) &&& 1 = 1 then 1 else 0) ≤ 1
    split <;> omega)]
  by_cases hlt : t < n
  · by_cases hb : (v >>> t) &&& 1 = 1
    · simp [hlt, hb, (bit_eq_one_iff v t).1 hb]
    · have : v.testBit t = false := by
        cases h : v.testBit t
        · rfl
        · exact absurd ((bit_eq_one_iff v t).2 h) hb
      simp [hlt, hb, this]
  · have : v.testBit t = false := by
      apply Nat.testBit_lt_two_pow
      exact Nat.lt_of_lt_of_le hv (Nat.pow_le_pow_right (by decide) (by omega))
    simp [hlt, this]

/-- The value assembled from the complemented bits of a number below
`2 ^ n`. -/
theorem ofBits_bits_not (v n : Nat) (hv : v < 2 ^ n) :
    ofBits (fun t => if (v >>> t) &&& 1 = 0 then 1 else 0) n = (2 ^ n - 1) ^^^ v := by
  apply Nat.eq_of_testBit_eq
  intro t
  rw [testBit_ofBits _ (fun j => by
    show (if (v >>> j) &&& 1 = 0 then 1 else 0) ≤ 1
    split <;> omega), Nat.testBit_xor, Nat.testBit_two_pow_sub_one]
  have hbit := bit_lt_two v t
  by_cases hlt : t < n
  · by_cases hb : (v >>> t) &&& 1 = 1
    · simp [hlt, hb, (bit_eq_one_iff v t).1 hb]
    · have h0 : (v >>> t) &&& 1 = 0 := by omega
      have : v.testBit t = false := by
        cases h : v.testBit t
        · rfl
        · exact absurd ((bit_eq_one_iff v t).2 h) hb
      simp [hlt, h0, this]
  · have : v.testBit t = false := by
      apply Nat.testBit_lt_two_pow
      exact Nat.lt_of_lt_of_le hv (Nat.pow_le_pow_right (by decide) (by omega))
    simp [hlt, this]

theorem parities_le_one (data : List Nat) (c : Nat) (j : Nat) : getA (parities data) j c ≤ 1 := by
  have : parities data = List.map Parity
      (setA (setA (setA (setA (setA (setA (accumulate data) 0 0
        (((getA (accumulate data) 3 0) ^^^ (getA (accumulate data) 3 1)) &&& 0x55)) 0 1
        (((getA (accumulate data) 3 0) ^^^ (getA (accumulate data) 3 1)) &&& 0xaa)) 1 0
        (((getA (accumulate data) 3 0) ^^^ (getA (accumulate data) 3 1)) &&& 0x33)) 1 1
        (((getA (accumulate data) 3 0) ^^^ (getA (accumulate data) 3 1)) &&& 0xcc)) 2 0
        (((getA (accumulate data) 3 0) ^^^ (getA (accumulate data) 3 1)) &&& 0x0f)) 2 1
        (((getA (accumulate data) 3 0) ^^^ (getA (accumulate data) 3 1)) &&& 0xf0)) := rfl
  rw [this, getA_map_Parity]
  exact Parity_le_one _

theorem join_bytes (a : Nat) (ha : a < 2 ^ 12) : a % 256 + 256 * ((a >>> 8) % 256) = a := by
  rw [Nat.shiftRight_eq_div_pow]
  have h : (2 : Nat) ^ 12 = 4096 := by decide
  have h8 : (2 : Nat) ^ 8 = 256 := by decide
  rw [h] at ha
  rw [h8]
  omega

theorem getD_four (a b c d : Nat) :
    [a, b, c, d].getD 0 0 = a ∧ [a, b, c, d].getD 1 0 = b ∧ [a, b, c, d].getD 2 0 = c ∧
    [a, b, c, d].getD 3 0 = d := ⟨rfl, rfl, rfl, rfl⟩

/-- The four bytes of the ECC of a subblock. -/
theorem CalculateBlock_getD (data : List Nat) :
    (CalculateBlock data).getD 0 0 = ofBits (fun j => getA (parities data) j 0) 12 % 256 ∧
    (CalculateBlock data).getD 1 0
      = (ofBits (fun j => getA (parities data) j 0) 12 >>> 8) % 256 ∧
    (CalculateBlock data).getD 2 0 = ofBits (fun j => getA (parities data) j 1) 12 % 256 ∧
    (CalculateBlock data).getD 3 0
      = (ofBits (fun j => getA (parities data) j 1) 12 >>> 8) % 256 := by
  rw [CalculateBlock_eq data]
  exact getD_four _ _ _ _

/-- The ECC of a subblock in which bit `b` of byte `i` is flipped. -/
theorem CalculateBlock_flip (data data' : List Nat) (i b : Nat) (hi : i < 512) (hb : b < 8)
    (hsame : ∀ k, k ≠ i → data'.getD k 0 = data.getD k 0)
    (hflip : data'.getD i 0 % 256 = (data.getD i 0 % 256) ^^^ (1 <<< b)) :
    ((CalculateBlock data').getD 2 0 + 256 * (CalculateBlock data').getD 3 0) ^^^
      ((CalculateBlock data).getD 2 0 + 256 * (CalculateBlock data).getD 3 0)
      = (i <<< 3) ||| b ∧
    ((CalculateBlock data').getD 0 0 + 256 * (CalculateBlock data').getD 1 0) ^^^
      ((CalculateBlock data).getD 0 0 + 256 * (CalculateBlock data).getD 1 0)
      = 0xfff ^^^ ((i <<< 3) ||| b) := by
  have hn : (i <<< 3) ||| b < 2 ^ 12 := by
    rw [flipped_index i b hb]
    show i * 8 + b < 4096
    omega
  have hd : ∀ (c : Nat) (j : Nat), (if (((i <<< 3) ||| b) >>> j) &&& 1 = c then 1 else 0) ≤ 1 := by
    intro c j
    split <;> omega
  have h1 := ofBits_xor (fun j => getA (parities data) j 1) (fun j => getA (parities data') j 1)
    (fun j => if (((i <<< 3) ||| b) >>> j) &&& 1 = 1 then 1 else 0)
    (parities_le_one data 1) (parities_le_one data' 1) (hd 1) 12
    (fun j hj => parities_flip data data' i b hi hb hsame hflip j 1 hj (by decide))
  have h0 := ofBits_xor (fun j => getA (parities data) j 0) (fun j => getA (parities data') j 0)
    (fun j => if (((i <<< 3) ||| b) >>> j) &&& 1 = 0 then 1 else 0)
    (parities_le_one data 0) (parities_le_one data' 0) (hd 0) 12
    (fun j hj => parities_flip data data' i b hi hb hsame hflip j 0 hj (by decide))
  rw [ofBits_bits _ 12 hn] at h1
  rw [ofBits_bits_not _ 12 hn] at h0
  obtain ⟨a0, a1, a2, a3⟩ := CalculateBlock_getD data
  obtain ⟨b0, b1, b2, b3⟩ := CalculateBlock_getD data'
  rw [a0, a1, a2, a3, b0, b1, b2, b3]
  rw [join_bytes _ (ofBits_lt _ (parities_le_one data' 1) 12),
    join_bytes _ (ofBits_lt _ (parities_le_one data 1) 12),
    join_bytes _ (ofBits_lt _ (parities_le_one data' 0) 12),
    join_bytes _ (ofBits_lt _ (parities_le_one data 0) 12)]
  exact ⟨h1, h0⟩

/-- The top 4 bits of bytes 1 and 3 of the ECC of a subblock are zero. -/
theorem CalculateBlock_high (data : List Nat) :
    (CalculateBlock data).getD 1 0 < 16 ∧ (CalculateBlock data).getD 3 0 < 16 := by
  obtain ⟨_, a1, _, a3⟩ := CalculateBlock_getD data
  rw [a1, a3]
  have h0 := ofBits_lt _ (parities_le_one data 0) 12
  have h1 := ofBits_lt _ (parities_le_one data 1) 12
  have h : (2 : Nat) ^ 12 = 4096 := by decide
  have h8 : (2 : Nat) ^ 8 = 256 := by decide
  rw [h] at h0 h1
  rw [Nat.shiftRight_eq_div_pow, Nat.shiftRight_eq_div_pow, h8]
  constructor <;> omega

theorem getD_blocks (l0 l1 l2 l3 : List Nat) (h0 : l0.length = 4) (h1 : l1.length = 4)
    (h2 : l2.length = 4) (j : Nat) (hj : j < 4) :
    ([] ++ l0 ++ l1 ++ l2 ++ l3).getD (4 * 0 + j) 0 = l0.getD j 0 ∧
    ([] ++ l0 ++ l1 ++ l2 ++ l3).getD (4 * 1 + j) 0 = l1.getD j 0 ∧
    ([] ++ l0 ++ l1 ++ l2 ++ l3).getD (4 * 2 + j) 0 = l2.getD j 0 ∧
    ([] ++ l0 ++ l1 ++ l2 ++ l3).getD (4 * 3 + j) 0 = l3.getD j 0 := by
  rw [List.nil_append]
  have e1 : (l0 ++ l1).length = 8 := by rw [List.length_append, h0, h1]
  have e2 : (l0 ++ l1 ++ l2).length = 12 := by rw [List.length_append, e1, h2]
  refine ⟨?_, ?_, ?_, ?_⟩
  · rw [List.getD_append _ _ _ _ (by rw [e2]; omega),
      List.getD_append _ _ _ _ (by rw [e1]; omega),
      List.getD_append _ _ _ _ (by rw [h0]; omega), Nat.mul_zero, Nat.zero_add]
  · rw [List.getD_append _ _ _ _ (by rw [e2]; omega),
      List.getD_append _ _ _ _ (by rw [e1]; omega),
      List.getD_append_right _ _ _ _ (by rw [h0]; omega), h0]
    congr 1
    omega
  · rw [List.getD_append _ _ _ _ (by rw [e2]; omega),
      List.getD_append_right _ _ _ _ (by rw [e1]; omega), e1]
    congr 1
    omega
  · rw [List.getD_append_right _ _ _ _ (by rw [e2]; omega), e2]
    congr 1
    omega

/-- The bytes of group `k` of the ECC of a page are the ECC of subblock `k`. -/
theorem Calculate_getD (data : List Nat) (k j : Nat) (hk : k < 4) (hj : j < 4) :
    (Calculate data).getD (4 * k + j) 0
      = (CalculateBlock (copy_n data (512 * k) 512)).getD j 0 := by
  have h : Calculate data
      = [] ++ CalculateBlock (copy_n data (512 * 0) 512)
        ++ CalculateBlock (copy_n data (512 * 1) 512)
        ++ CalculateBlock (copy_n data (512 * 2) 512)
        ++ CalculateBlock (copy_n data (512 * 3) 512) := rfl
  rw [h]
  obtain ⟨g0, g1, g2, g3⟩ := getD_blocks
    (CalculateBlock (copy_n data (512 * 0) 512))
    (CalculateBlock (copy_n data (512 * 1) 512))
    (CalculateBlock (copy_n data (512 * 2) 512))
    (CalculateBlock (copy_n data (512 * 3) 512)) rfl rfl rfl j hj
  interval_cases k
  · exact g0
  · exact g1
  · exact g2
  · exact g3

theorem xor_bit_mod (v b : Nat) (hb : b < 8) :
    (v ^^^ (1 <<< b)) % 256 = (v % 256) ^^^ (1 <<< b) := by
  apply Nat.eq_of_testBit_eq
  intro t
  rw [show (256 : Nat) = 2 ^ 8 from rfl, Nat.testBit_mod_two_pow, Nat.testBit_xor,
    Nat.testBit_xor, Nat.testBit_mod_two_pow, Nat.one_shiftLeft, Nat.testBit_two_pow]
  by_cases ht : t < 8
  · simp [ht]
  · have : ¬ b = t := by omega
    simp [ht, this]

theorem getD_set (l : List Nat) (i v j : Nat) :
    (l.set i v).getD j 0 = if i = j ∧ i < l.length then v else l.getD j 0 := by
  rw [List.getD_eq_getElem?_getD, List.getElem?_set, List.getD_eq_getElem?_getD]
  by_cases h : i = j
  · subst h
    by_cases hl : i < l.length
    · simp [hl]
    · rw [List.getElem?_eq_none (by omega)]
      simp [hl]
  · simp [h]

end ecc

namespace wiifs

/-! ## C31 -/

/-- C31: in a 2048-byte page, flipping bit `b` of byte `i` of the 512-byte
subblock `k` leaves the ECC bytes of the other subblocks as they are; in group
`k` the XOR difference of the 12-bit field `a1` (bytes 2 and 3, little endian)
is `(i << 3) | b` and that of the field `a0` (bytes 0 and 1) is its 12-bit
complement, so that the position of the flipped bit can be read from the two
ECCs; and the top 4 bits of bytes 1 and 3 of every group are zero. -/
theorem Calculate_single_bit_flip (page : List Nat) (k i b : Nat) (hlen : page.length = 2048)
    (hk : k < 4) (hi : i < 512) (hb : b < 8) :
    (∀ k' j, k' < 4 → k' ≠ k → j < 4 →
      (ecc.Calculate (flipBit page (512 * k + i) b)).getD (4 * k' + j) 0
        = (ecc.Calculate page).getD (4 * k' + j) 0) ∧
    eccField1 (ecc.Calculate (flipBit page (512 * k + i) b)) k
      ^^^ eccField1 (ecc.Calculate page) k = (i <<< 3) ||| b ∧
    eccField0 (ecc.Calculate (flipBit page (512 * k + i) b)) k
      ^^^ eccField0 (ecc.Calculate page) k = 0xfff ^^^ ((i <<< 3) ||| b) ∧
    (∀ (p : List Nat) k', k' < 4 →
      (ecc.Calculate p).getD (4 * k' + 1) 0 < 16 ∧ (ecc.Calculate p).getD (4 * k' + 3) 0 < 16) := by
  have hget : ∀ t, (flipBit page (512 * k + i) b).getD t 0
      = if 512 * k + i = t then page.getD (512 * k + i) 0 ^^^ (1 <<< b) else page.getD t 0 := by
    intro t
    unfold flipBit
    rw [ecc.getD_set]
    by_cases h : 512 * k + i = t
    · rw [if_pos ⟨h, by rw [hlen]; omega⟩, if_pos h]
    · rw [if_neg (fun hh => h hh.1), if_neg h]
  refine ⟨?_, ?_, ?_, ?_⟩
  · intro k' j hk' hne hj
    rw [ecc.Calculate_getD _ k' j hk' hj, ecc.Calculate_getD _ k' j hk' hj]
    have : copy_n (flipBit page (512 * k + i) b) (512 * k') 512 = copy_n page (512 * k') 512 := by
      unfold copy_n
      apply List.map_congr_left
      intro t ht
      rw [List.mem_range] at ht
      rw [hget, if_neg (by omega)]
    rw [this]
  · have hflip := ecc.CalculateBlock_flip (copy_n page (512 * k) 512)
      (copy_n (flipBit page (512 * k + i) b) (512 * k) 512) i b hi hb
      (by
        intro t ht
        by_cases hlt : t < 512
        · rw [copy_n_getD _ _ _ _ hlt, copy_n_getD _ _ _ _ hlt, hget, if_neg (by omega)]
        · rw [List.getD_eq_default _ _ (by rw [copy_n_length]; omega),
            List.getD_eq_default _ _ (by rw [copy_n_length]; omega)])
      (by
        rw [copy_n_getD _ _ _ _ hi, copy_n_getD _ _ _ _ hi, hget, if_pos rfl]
        exact ecc.xor_bit_mod _ b hb)
    unfold eccField1
    rw [ecc.Calculate_getD _ k 2 hk (by decide), ecc.Calculate_getD _ k 3 hk (by decide),
      ecc.Calculate_getD _ k 2 hk (by decide), ecc.Calculate_getD _ k 3 hk (by decide)]
    exact hflip.1
  · have hflip := ecc.CalculateBlock_flip (copy_n page (512 * k) 512)
      (copy_n (flipBit page (512 * k + i) b) (512 * k) 512) i b hi hb
      (by
        intro t ht
        by_cases hlt : t < 512
        · rw [copy_n_getD _ _ _ _ hlt, copy_n_getD _ _ _ _ hlt, hget, if_neg (by omega)]
        · rw [List.getD_eq_default _ _ (by rw [copy_n_length]; omega),
            List.getD_eq_default _ _ (by rw [copy_n_length]; omega)])
      (by
        rw [copy_n_getD _ _ _ _ hi, copy_n_getD _ _ _ _ hi, hget, if_pos rfl]
        exact ecc.xor_bit_mod _ b hb)
    unfold eccField0
    rw [show 4 * k = 4 * k + 0 from rfl,
      ecc.Calculate_getD _ k 0 hk (by decide), ecc.Calculate_getD _ k 1 hk (by decide),
      ecc.Calculate_getD _ k 0 hk (by decide), ecc.Calculate_getD _ k 1 hk (by decide)]
    exact hflip.2
  · intro p k' hk'
    rw [ecc.Calculate_getD _ k' 1 hk' (by decide), ecc.Calculate_getD _ k' 3 hk' (by decide)]
    exact ecc.CalculateBlock_high _

/-- Bit 5 of byte 300 of subblock 2 of an all-zero page. -/
theorem Calculate_single_bit_flip_witness :
    eccField1 (ecc.Calculate (flipBit (List.replicate 2048 0) (512 * 2 + 300) 5)) 2
      ^^^ eccField1 (ecc.Calculate (List.replicate 2048 0)) 2 = (300 <<< 3) ||| 5 :=
  (Calculate_single_bit_flip (List.replicate 2048 0) 2 300 5 (List.length_replicate _ _)
    (by decide) (by decide) (by decide)).2.1

end wiifs

namespace wiifs

/-! ## Names that contain a NUL byte -/

/-- C11 at a failing input: on a formatted file system, `CreateFile` of the
path "/a\0b" (a valid path whose basename has 3 bytes, access modes Read|Write,
None, None) through the internal handle returns Success and links entry 1 as
the root's `sub`, with the 3 bytes stored in its name field; `GetName` of the
entry is "a", so `GetMetadata` of the same path through the same handle (uid 0)
returns NotFound instead of the metadata of the new entry. -/
theorem CreateFile_NUL_basename_GetMetadata_NotFound :
    IsValidNonRootPath nulRun.p1 = true ∧ SplitPath nulRun.p1 = ([47], [97, 0, 98]) ∧
    (FileSystemImpl.formatted.handle INTERNAL_FD).uid = 0 ∧
    (CreateFile Mbedtls.plain FileSystemImpl.formatted INTERNAL_FD nulRun.p1 0 3 0 0).map
        (fun r => (r.1, r.2.m_superblock.map (fun sb =>
          ([(sb.fst 0).sub, (sb.fst 1).sib, (sb.fst 1).sub, (sb.fst 1).size, (sb.fst 1).mode &&& 3],
            (sb.fst 1).name.take 4, (sb.fst 1).GetName))))
      = some (.Success, some ([1, 0xffff, CLUSTER_LAST_IN_CHAIN, 0, 1], [97, 0, 98, 0], [97])) ∧
    (GetMetadata Mbedtls.plain nulRun.s1 INTERNAL_FD nulRun.p1).map (·.1)
      = some (.error .NotFound) := by
  decide!

/-- C12 at a failing input: in the empty root directory of a formatted file
system the files "a\0b" and "a\0c" (distinct names of 3 bytes) are created in
turn, each creation returning Success; `ReadDirectory("/")` then returns
["a", "a"] and not the two names newest first. -/
theorem ReadDirectory_NUL_names_truncated :
    (ReadDirectory Mbedtls.plain FileSystemImpl.formatted INTERNAL_FD [47]).map (·.1)
      = some (.ok []) ∧
    (CreateFile Mbedtls.plain FileSystemImpl.formatted INTERNAL_FD nulRun.p1 0 3 0 0).map (·.1)
      = some .Success ∧
    (CreateFile Mbedtls.plain nulRun.s1 INTERNAL_FD nulRun.p2 0 3 0 0).map (·.1)
      = some .Success ∧
    (SplitPath nulRun.p1).2 = [97, 0, 98] ∧ (SplitPath nulRun.p2).2 = [97, 0, 99] ∧
    (ReadDirectory Mbedtls.plain nulRun.s2 INTERNAL_FD [47]).map (·.1)
      = some (.ok [[97], [97]]) := by
  decide!

end wiifs
